import Mathlib

/-!
# Regular-expression cache of rspamd (`src/libserver/re_cache.c`)

A shallow embedding of the registry (`rspamd_re_cache_add`,
`rspamd_re_cache_replace`, `rspamd_re_cache_init`), of the per-message runtime,
of the scanner (`rspamd_re_cache_process` and the functions below it) and of
the class files of the prefilter (`rspamd_re_cache_compile_hyperscan`,
`rspamd_re_cache_is_valid_hyperscan_file`, `rspamd_re_cache_load_hyperscan`),
followed by theorems about them.

Conventions of the embedding.

* Regular expression objects (`rspamd_regexp_t`) live in a heap, a total
  function from addresses to objects; an address is a natural number.
* A class object is named by its 64-bit class id: `rspamd_re_cache_add`
  allocates a class only when `re_classes` has no entry under that id and no
  class is ever removed, so class pointers and class ids correspond one to one.
* A `GHashTable` is an association list in insertion order; inserting under a
  key that is present replaces the value and keeps the key where it is.
* The cryptographic digest of a class is represented by the sequence of
  fixed-width words fed to it.
* Failed `g_assert`s and accesses outside a `GPtrArray` are results of type
  `Fault`.
* The accurate matcher, the prefilter library and the UTF-8 check are
  parameters (`Primitives`), the message model is `rspamd_task`.
* The statistics counters and the length of `cache->re` are natural numbers:
  `struct rspamd_re_cache_stat` is declared in a header that is not among the
  sources, and `g_ptr_array_add` aborts before the length overflows. The
  stored results are bytes and the hit counter of the accurate matcher is a
  32-bit word, with explicit reductions.
* The runtime carries one history variable, `reported`, that the C structure
  does not have.
* A file is the list of its bytes and the cache directory a function from
  paths to files; words in a file are little-endian. The prefilter library,
  the checksum, the platform tag and the constants of headers that are not
  among the sources are the fields of `HsEnv`. Calls of the operating system
  fail only for a reason the directory shows (a missing file, a temporary
  file that exists).
* The child of the compile probe is the sequence of the answers of `waitpid`,
  and the time allowed to the probe is a rational number.
-/

namespace ReCache

/-! ## Data model -/

/-- Region kinds, `enum rspamd_re_type`. -/
inductive rspamd_re_type where
  | RSPAMD_RE_HEADER
  | RSPAMD_RE_RAWHEADER
  | RSPAMD_RE_ALLHEADER
  | RSPAMD_RE_MIMEHEADER
  | RSPAMD_RE_MIME
  | RSPAMD_RE_RAWMIME
  | RSPAMD_RE_URL
  | RSPAMD_RE_BODY
  | RSPAMD_RE_SABODY
  | RSPAMD_RE_SARAWBODY
  | RSPAMD_RE_MAX
  deriving DecidableEq, Repr

/-- Numeric value of a region kind, the word hashed by
`rspamd_re_cache_class_id`. -/
def rspamd_re_type.code : rspamd_re_type → Nat
  | .RSPAMD_RE_HEADER => 0
  | .RSPAMD_RE_RAWHEADER => 1
  | .RSPAMD_RE_ALLHEADER => 2
  | .RSPAMD_RE_MIMEHEADER => 3
  | .RSPAMD_RE_MIME => 4
  | .RSPAMD_RE_RAWMIME => 5
  | .RSPAMD_RE_URL => 6
  | .RSPAMD_RE_BODY => 7
  | .RSPAMD_RE_SABODY => 8
  | .RSPAMD_RE_SARAWBODY => 9
  | .RSPAMD_RE_MAX => 10

/-- How an element of `cache->re` is matched,
`enum rspamd_re_cache_elt_match_type`. -/
inductive rspamd_re_cache_elt_match_type where
  | RSPAMD_RE_CACHE_PCRE
  | RSPAMD_RE_CACHE_HYPERSCAN
  | RSPAMD_RE_CACHE_HYPERSCAN_PRE
  deriving DecidableEq, Repr

/-- The invalid cache id, `(guint64)-1`. -/
def RSPAMD_INVALID_ID : Nat := 18446744073709551615

/-- Outcomes that abort the C program. -/
inductive Fault where
  | assertion
  | out_of_bounds
  | null_deref
  deriving DecidableEq, Repr

/-- The fields of `rspamd_regexp_t` that `re_cache.c` reads and writes through
the `rspamd_regexp_get_*` and `rspamd_regexp_set_*` accessors: the content id
(compared by `rspamd_regexp_cmp`, a byte-wise comparison of equal-length ids,
hence a natural number), the accurate-engine flags, the regexp flags, the hit
limit, and the two slots owned by the cache. -/
structure rspamd_regexp_t where
  id : Nat
  pcre_flags : Nat
  flags : Nat
  maxhits : Nat
  cache_id : Nat
  re_class : Option Nat
  deriving DecidableEq, Repr

/-- The type `struct rspamd_re_class`. Field `re` is the table from content id
to expression address; `hash` is `none` while the zero-filled buffer has never
been written and otherwise the words whose digest it holds; `st` is the digest
state, the words fed so far; `hs_ids` holds the `nhs` ids of the bound
database. -/
structure rspamd_re_class where
  id : Nat
  type : rspamd_re_type
  type_data : List Nat
  type_len : Nat
  re : List (Nat × Nat)
  hash : Option (List Nat)
  st : Option (List Nat)
  hs_db : Option Nat
  hs_scratch : Option Nat
  hs_ids : List Nat
  deriving DecidableEq, Repr

/-- The type `struct rspamd_re_cache_elt`. -/
structure rspamd_re_cache_elt where
  re : Nat
  match_type : rspamd_re_cache_elt_match_type
  deriving DecidableEq, Repr

/-- The type `struct rspamd_re_cache`. -/
structure rspamd_re_cache where
  re_classes : List rspamd_re_class
  re : List rspamd_re_cache_elt
  nre : Nat
  max_re_data : Nat
  hash : Option (List Nat)
  hyperscan_loaded : Bool
  disable_hyperscan : Bool
  vectorized_hyperscan : Bool
  deriving DecidableEq, Repr

/-- The memory the registry works on: the expression objects and the cache. -/
structure State where
  heap : Nat → rspamd_regexp_t
  cache : rspamd_re_cache

/-- The two settings `rspamd_re_cache_init` copies from `struct rspamd_config`. -/
structure rspamd_config where
  disable_hyperscan : Bool
  vectorized_hyperscan : Bool
  deriving DecidableEq, Repr

/-! ## Hash tables -/

/-- Lookup in `cache->re_classes` by class id (`g_hash_table_lookup`). -/
def class_lookup : List rspamd_re_class → Nat → Option rspamd_re_class
  | [], _ => none
  | c :: cs, k => if c.id = k then some c else class_lookup cs k

/-- In-place update of the class object stored under a class id. -/
def class_modify (f : rspamd_re_class → rspamd_re_class) :
    List rspamd_re_class → Nat → List rspamd_re_class
  | [], _ => []
  | c :: cs, k => if c.id = k then f c :: cs else c :: class_modify f cs k

/-- Lookup in a class table `re_class->re` by content id. -/
def re_lookup : List (Nat × Nat) → Nat → Option Nat
  | [], _ => none
  | (k0, v) :: m, k => if k0 = k then some v else re_lookup m k

/-- The call `g_hash_table_insert (re_class->re, key, value)`: the value of a
present key is replaced, a new key is added. -/
def re_insert : List (Nat × Nat) → Nat → Nat → List (Nat × Nat)
  | [], k, v => [(k, v)]
  | (k0, v0) :: m, k, v => if k0 = k then (k0, v) :: m else (k0, v0) :: re_insert m k v

/-- The class object after `g_hash_table_insert (re_class->re, key, value)`. -/
def class_set_re (k v : Nat) (c : rspamd_re_class) : rspamd_re_class :=
  { c with re := re_insert c.re k v }

/-! ## Registry -/

/-- The function `rspamd_re_cache_class_id`: the fast hash `fh` (an external
primitive) of the region kind followed, when `datalen > 0`, by the first
`datalen` parameter bytes. -/
def rspamd_re_cache_class_id (fh : List Nat → Nat) (type : rspamd_re_type)
    (type_data : List Nat) (datalen : Nat) : Nat :=
  fh (type.code :: (if datalen > 0 then type_data.take datalen else []))

/-- The function `rspamd_re_cache_new`. -/
def rspamd_re_cache_new : rspamd_re_cache :=
  { re_classes := [], re := [], nre := 0, max_re_data := 0, hash := none,
    hyperscan_loaded := false, disable_hyperscan := false,
    vectorized_hyperscan := false }

/-- The class object `rspamd_re_cache_add` allocates (zero-filled but for the
id, the kind and the parameter) and inserts when the class id is new. -/
def new_class (class_id : Nat) (type : rspamd_re_type) (type_data : List Nat)
    (datalen : Nat) : rspamd_re_class :=
  { id := class_id, type := type,
    type_data := if datalen > 0 then type_data.take datalen else [],
    type_len := datalen, re := [], hash := none, st := none, hs_db := none,
    hs_scratch := none, hs_ids := [] }

/-- The function `rspamd_re_cache_add`; returns the canonical expression and
the new memory. -/
def rspamd_re_cache_add (fh : List Nat → Nat) (s : State) (re : Nat)
    (type : rspamd_re_type) (type_data : List Nat) (datalen : Nat) : Nat × State :=
  let class_id := rspamd_re_cache_class_id fh type type_data datalen
  let classes :=
    match class_lookup s.cache.re_classes class_id with
    | some _ => s.cache.re_classes
    | none => s.cache.re_classes ++ [new_class class_id type type_data datalen]
  let re_class :=
    match class_lookup s.cache.re_classes class_id with
    | some c => c
    | none => new_class class_id type type_data datalen
  match re_lookup re_class.re (s.heap re).id with
  | some nre => (nre, { s with cache := { s.cache with re_classes := classes } })
  | none =>
    (re,
      { heap := Function.update s.heap re
          { s.heap re with cache_id := s.cache.nre, re_class := some class_id },
        cache := { s.cache with
          re_classes :=
            class_modify (class_set_re (s.heap re).id re) classes class_id,
          re := s.cache.re ++ [{ re := re, match_type := .RSPAMD_RE_CACHE_PCRE }],
          nre := s.cache.nre + 1 } })

/-- The function `rspamd_re_cache_replace`. The three `g_assert`s are the
`Fault` results; nothing happens when `what` has no class. -/
def rspamd_re_cache_replace (s : State) (what with_re : Nat) : Except Fault State :=
  match (s.heap what).re_class with
  | none => .ok s
  | some class_id =>
    let re_id := (s.heap what).cache_id
    if re_id = RSPAMD_INVALID_ID then .error .assertion
    else
      match class_lookup s.cache.re_classes class_id with
      | none => .error .null_deref
      | some re_class =>
        match s.cache.re[re_id]? with
        | none => .error .out_of_bounds
        | some elt =>
          match re_lookup re_class.re (s.heap what).id with
          | none => .error .assertion
          | some _ =>
            let h1 := Function.update s.heap what
              { s.heap what with cache_id := RSPAMD_INVALID_ID, re_class := none }
            let h2 := Function.update h1 with_re
              { h1 with_re with cache_id := re_id, re_class := some class_id }
            .ok
              { heap := h2,
                cache := { s.cache with
                  re_classes :=
                    class_modify (class_set_re (s.heap what).id with_re)
                      s.cache.re_classes class_id,
                  re := s.cache.re.set re_id { elt with re := with_re } } }

/-- The comparison `rspamd_re_cache_sort_func`, as the order it sorts by:
`rspamd_regexp_cmp` on the content ids of the two elements. -/
def sort_le (heap : Nat → rspamd_regexp_t) (a b : rspamd_re_cache_elt) : Prop :=
  (heap a.re).id ≤ (heap b.re).id

instance sort_le_decidable (heap : Nat → rspamd_regexp_t) : DecidableRel (sort_le heap) :=
  fun a b => inferInstanceAs (Decidable ((heap a.re).id ≤ (heap b.re).id))

/-- The call `g_ptr_array_sort (cache->re, rspamd_re_cache_sort_func)`, a
stable sort. -/
def sort_re (heap : Nat → rspamd_regexp_t) (l : List rspamd_re_cache_elt) :
    List rspamd_re_cache_elt :=
  l.insertionSort (sort_le heap)

/-- What the first loop of `rspamd_re_cache_init` carries from one element to
the next: the expression objects, the classes and the global digest state. -/
structure InitAcc where
  heap : Nat → rspamd_regexp_t
  classes : List rspamd_re_class
  st_global : List Nat

/-- The words one element feeds to its class digest and to the global digest:
class id, content id, accurate flags, regexp flags, hit limit. -/
def hash_words (class_id : Nat) (r : rspamd_regexp_t) : List Nat :=
  [class_id, r.id, r.pcre_flags, r.flags, r.maxhits]

/-- The class object after the `rspamd_cryptobox_hash_update` calls on its
digest state for one expression; the state is created on first use. -/
def class_feed (r : rspamd_regexp_t) (c : rspamd_re_class) : rspamd_re_class :=
  { c with st := some (c.st.getD [] ++ hash_words c.id r) }

/-- One iteration of the first loop of `rspamd_re_cache_init` at index `i`. -/
def init_step (acc : InitAcc) (i : Nat) (elt : rspamd_re_cache_elt) : Except Fault InitAcc :=
  match (acc.heap elt.re).re_class with
  | none => .error .assertion
  | some class_id =>
    match class_lookup acc.classes class_id with
    | none => .error .null_deref
    | some c =>
      let r := acc.heap elt.re
      .ok
        { heap := Function.update acc.heap elt.re { r with cache_id := i },
          classes := class_modify (class_feed r) acc.classes class_id,
          st_global := acc.st_global ++ hash_words c.id r }

/-- The first loop of `rspamd_re_cache_init` over the sorted array, from
index `i` on. -/
def init_loop : List rspamd_re_cache_elt → Nat → InitAcc → Except Fault InitAcc
  | [], _, acc => .ok acc
  | elt :: rest, i, acc =>
    match init_step acc i elt with
    | .error f => .error f
    | .ok acc1 => init_loop rest (i + 1) acc1

/-- The body of the second loop of `rspamd_re_cache_init`: a class whose
digest state exists is fed the number of expressions `len` and gets its hash. -/
def finalize_class (len : Nat) (c : rspamd_re_class) : rspamd_re_class :=
  match c.st with
  | some w => { c with hash := some (w ++ [len]), st := none }
  | none => c

/-- The function `rspamd_re_cache_init` (finalize). -/
def rspamd_re_cache_init (s : State) (cfg : rspamd_config) : Except Fault State :=
  let sorted := sort_re s.heap s.cache.re
  match init_loop sorted 0
      { heap := s.heap, classes := s.cache.re_classes, st_global := [] } with
  | .error f => .error f
  | .ok acc =>
    .ok
      { heap := acc.heap,
        cache := { s.cache with
          re := sorted,
          re_classes := acc.classes.map (finalize_class sorted.length),
          hash := some acc.st_global,
          disable_hyperscan := cfg.disable_hyperscan,
          vectorized_hyperscan := cfg.vectorized_hyperscan } }

/-- The function `rspamd_re_cache_set_limit`; returns the old limit. -/
def rspamd_re_cache_set_limit (s : State) (limit : Nat) : Nat × State :=
  (s.cache.max_re_data, { s with cache := { s.cache with max_re_data := limit } })

/-- A call of the registry interface. -/
inductive Op where
  | add (re : Nat) (type : rspamd_re_type) (type_data : List Nat) (datalen : Nat)
  | replace (what with_re : Nat)
  | init (cfg : rspamd_config)

/-- The effect of one registry call on the memory. -/
def Op.run (fh : List Nat → Nat) (s : State) : Op → Except Fault State
  | .add re type type_data datalen => .ok (rspamd_re_cache_add fh s re type type_data datalen).2
  | .replace what with_re => rspamd_re_cache_replace s what with_re
  | .init cfg => rspamd_re_cache_init s cfg

/-- The memory after a sequence of registry calls, when none of them aborts. -/
def run_ops (fh : List Nat → Nat) : State → List Op → Except Fault State
  | s, [] => .ok s
  | s, op :: ops =>
    match op.run fh s with
    | .error f => .error f
    | .ok s1 => run_ops fh s1 ops

/-- A memory with an empty cache: every expression object is as
`rspamd_regexp_new` leaves it, with no cache id and no class. -/
def Fresh (s : State) : Prop :=
  s.cache = rspamd_re_cache_new ∧
    ∀ p, (s.heap p).cache_id = RSPAMD_INVALID_ID ∧ (s.heap p).re_class = none

/-- The memories reached from an empty cache by registry calls. -/
def Reachable (fh : List Nat → Nat) (s : State) : Prop :=
  ∃ s0 ops, Fresh s0 ∧ run_ops fh s0 ops = .ok s

/-- Whether a call aborted. -/
def failed {α : Type} : Except Fault α → Bool
  | .error _ => true
  | .ok _ => false

/-! ## Runtime and scanner -/

/-- The counters of `struct rspamd_re_cache_stat`. -/
structure rspamd_re_cache_stat where
  bytes_scanned : Nat
  bytes_scanned_pcre : Nat
  regexp_checked : Nat
  regexp_matched : Nat
  regexp_total : Nat
  regexp_fast_cached : Nat
  deriving DecidableEq, Repr

/-- The type `struct rspamd_re_runtime`, without the pointer to the cache,
which the functions below take as an argument. The bitmap `checked` is read
bit by bit and `results` byte by byte; both are memory indexed by cache id.
The field `reported` is not in the C structure: it is a history variable, the
ids the prefilter callback has been called with, used only in statements. -/
structure rspamd_re_runtime where
  checked : Nat → Bool
  results : Nat → Nat
  stat : rspamd_re_cache_stat
  has_hs : Bool
  reported : List Nat

/-- The function `rspamd_re_cache_runtime_new`: zero-filled bitmap and results,
`regexp_total` and `has_hs` taken from the cache. -/
def rspamd_re_cache_runtime_new (cache : rspamd_re_cache) : rspamd_re_runtime :=
  { checked := fun _ => false, results := fun _ => 0,
    stat := { bytes_scanned := 0, bytes_scanned_pcre := 0, regexp_checked := 0,
              regexp_matched := 0, regexp_total := cache.nre, regexp_fast_cached := 0 },
    has_hs := cache.hyperscan_loaded,
    reported := [] }

/-- One entry of the vectors `scvec` and `lenvec`: the bytes at the pointer
(`none` for a null pointer) and the length recorded for them. -/
structure Slice where
  data : Option (List Nat)
  len : Nat
  deriving DecidableEq, Repr

/-- The empty slice `("", 0)`. -/
def Slice.empty : Slice := { data := some [], len := 0 }

/-- The C function `strlen` on the bytes at a pointer. -/
def strlen (l : List Nat) : Nat := (l.takeWhile (fun b => b != 0)).length

/-- One call of the prefilter callback: matched id, start and end offset,
flags. -/
structure HsEvent where
  id : Nat
  from_off : Nat
  to_off : Nat
  flags : Nat
  deriving DecidableEq, Repr

/-- The primitives the scanner consumes. `regexp_search re input raw` is the
number of times `rspamd_regexp_search` succeeds in a row on the input before
it returns false; `hs_scan` and `hs_scan_vector` give the callbacks the
prefilter library delivers for a database and whether the call returned
`HS_SUCCESS`; `g_utf8_validate` is the validity check of a decoded header. -/
structure Primitives where
  regexp_search : Nat → List Nat → Bool → Nat
  hs_scan : Nat → Slice → List HsEvent × Bool
  hs_scan_vector : Nat → List Slice → List HsEvent × Bool
  g_utf8_validate : List Nat → Bool

/-- The `while (rspamd_regexp_search (...))` loop of
`rspamd_re_cache_process_pcre`: `k` successful searches remain, `r` is the
32-bit counter. -/
def search_loop (max_hits : Nat) : Nat → Nat → Nat
  | 0, r => r
  | k + 1, r =>
    if max_hits > 0 ∧ (r + 1) % 4294967296 ≥ max_hits then (r + 1) % 4294967296
    else search_loop max_hits k ((r + 1) % 4294967296)

/-- The value of `len` in `rspamd_re_cache_process_pcre` when
`rspamd_regexp_search` is called, for the bytes `input` at the pointer of the
slice: the recorded length, or `strlen` of the bytes when that is zero, cut
down to `max_re_data` when the limit is set and smaller. -/
def pcre_scan_len (max_re_data : Nat) (sl : Slice) (input : List Nat) : Nat :=
  let len0 := if sl.len = 0 then strlen input else sl.len
  if max_re_data > 0 ∧ len0 > max_re_data then max_re_data else len0

/-- The function `rspamd_re_cache_process_pcre` (accurate matching of one
slice); the sampled timing of slow expressions only logs and is left out. -/
def rspamd_re_cache_process_pcre (px : Primitives) (c : State) (rt : rspamd_re_runtime)
    (re : Nat) (sl : Slice) (is_raw : Bool) : Nat × rspamd_re_runtime :=
  let max_hits := (c.heap re).maxhits
  let id := (c.heap re).cache_id
  match sl.data with
  | none => (rt.results id, rt)
  | some input =>
    let len := pcre_scan_len c.cache.max_re_data sl input
    let r := rt.results id
    if max_hits = 0 ∨ r < max_hits then
      let r1 := search_loop max_hits (px.regexp_search re (input.take len) is_raw) r
      (r1,
        { rt with stat := { rt.stat with
            regexp_checked := rt.stat.regexp_checked + 1,
            bytes_scanned_pcre := rt.stat.bytes_scanned_pcre + len,
            bytes_scanned := rt.stat.bytes_scanned + len,
            regexp_matched :=
              if r1 > 0 then rt.stat.regexp_matched + r1 else rt.stat.regexp_matched } })
    else (r, rt)

/-- The type `struct rspamd_re_hyperscan_cbdata`: the slices from the element
`ins` points at, and `count`. -/
structure rspamd_re_hyperscan_cbdata where
  ins : List Slice
  count : Nat

/-- The `for` loop in the approximate branch of `rspamd_re_cache_hyperscan_cb`:
`n` iterations remain, `i` is the index, `processed` the 32-bit sum of the
lengths consumed. -/
def cb_loop (px : Primitives) (c : State) (re id to_off : Nat) (ins : List Slice) :
    Nat → Nat → Nat → rspamd_re_runtime → Except Fault rspamd_re_runtime
  | 0, _, _, rt => .ok rt
  | n + 1, i, processed, rt =>
    match ins[i]? with
    | none => .error .out_of_bounds
    | some sl =>
      let out := rspamd_re_cache_process_pcre px c rt re sl false
      let rt2 : rspamd_re_runtime :=
        { out.2 with
          results := Function.update out.2.results id (out.1 % 256),
          checked := Function.update out.2.checked id true }
      if (processed + sl.len) % 4294967296 ≥ to_off then .ok rt2
      else cb_loop px c re id to_off ins n (i + 1) ((processed + sl.len) % 4294967296) rt2

/-- The function `rspamd_re_cache_hyperscan_cb` (prefilter callback); the
first line records the call in the history variable. -/
def rspamd_re_cache_hyperscan_cb (px : Primitives) (c : State)
    (cbdata : rspamd_re_hyperscan_cbdata) (rt0 : rspamd_re_runtime) (ev : HsEvent) :
    Except Fault rspamd_re_runtime :=
  let rt : rspamd_re_runtime := { rt0 with reported := rt0.reported ++ [ev.id] }
  match c.cache.re[ev.id]? with
  | none => .error .out_of_bounds
  | some pcre_elt =>
    let maxhits := (c.heap pcre_elt.re).maxhits
    if pcre_elt.match_type = .RSPAMD_RE_CACHE_HYPERSCAN then
      let rt1 : rspamd_re_runtime :=
        { rt with checked := Function.update rt.checked ev.id true }
      if maxhits = 0 ∨ rt1.results ev.id < maxhits then
        .ok { rt1 with
          results := Function.update rt1.results ev.id ((rt1.results ev.id + 1) % 256),
          stat := { rt1.stat with regexp_matched := rt1.stat.regexp_matched + 1 } }
      else .ok rt1
    else if rt.checked ev.id then .ok rt
    else cb_loop px c pcre_elt.re ev.id ev.to_off cbdata.ins cbdata.count 0 0 rt

/-- The callbacks of one prefilter scan, delivered in order. -/
def run_callbacks (px : Primitives) (c : State) (cbdata : rspamd_re_hyperscan_cbdata) :
    List HsEvent → rspamd_re_runtime → Except Fault rspamd_re_runtime
  | [], rt => .ok rt
  | ev :: evs, rt =>
    match rspamd_re_cache_hyperscan_cb px c cbdata rt ev with
    | .error f => .error f
    | .ok rt1 => run_callbacks px c cbdata evs rt1

/-- The accurate loop of `rspamd_re_cache_process_regexp_data`: every slice
goes to `rspamd_re_cache_process_pcre` and the count is stored as a byte. -/
def pcre_loop (px : Primitives) (c : State) (re re_id : Nat) (is_raw : Bool) :
    List Slice → Nat → rspamd_re_runtime → Nat × rspamd_re_runtime
  | [], ret, rt => (ret, rt)
  | sl :: rest, _, rt =>
    let out := rspamd_re_cache_process_pcre px c rt re sl is_raw
    pcre_loop px c re re_id is_raw rest out.1
      { out.2 with results := Function.update out.2.results re_id (out.1 % 256) }

/-- The clipping loop of the prefilter branch: every length above
`max_re_data` is cut in the vector, and `bytes_scanned` grows by the lengths. -/
def clip_slices (max_re_data : Nat) (ins : List Slice) : List Slice :=
  ins.map (fun sl =>
    if max_re_data > 0 ∧ sl.len > max_re_data then { sl with len := max_re_data } else sl)

/-- The block-mode loop: one `hs_scan` per slice, `cbdata.ins` pointing at the
slice and `cbdata.count` being 1. -/
def hs_block_loop (px : Primitives) (c : State) (db re_id : Nat) :
    List Slice → Nat → rspamd_re_runtime → Except Fault (Nat × rspamd_re_runtime)
  | [], ret, rt => .ok (ret, rt)
  | sl :: rest, _, rt =>
    match run_callbacks px c { ins := sl :: rest, count := 1 } (px.hs_scan db sl).1 rt with
    | .error f => .error f
    | .ok rt1 =>
      hs_block_loop px c db re_id rest
        (if (px.hs_scan db sl).2 then rt1.results re_id else 0) rt1

/-- The function `rspamd_re_cache_process_regexp_data` as built with the
prefilter library; `ins` is the slice vector and `count` its length. -/
def rspamd_re_cache_process_regexp_data (px : Primitives) (c : State)
    (rt : rspamd_re_runtime) (re : Nat) (ins : List Slice) (is_raw : Bool) :
    Except Fault (Nat × rspamd_re_runtime) :=
  let re_id := (c.heap re).cache_id
  if ins.length = 0 then
    .ok (0, { rt with checked := Function.update rt.checked re_id true,
                      results := Function.update rt.results re_id 0 })
  else
    match c.cache.re[re_id]? with
    | none => .error .out_of_bounds
    | some elt =>
      if c.cache.disable_hyperscan ∨ elt.match_type = .RSPAMD_RE_CACHE_PCRE ∨ ¬ rt.has_hs then
        let out := pcre_loop px c re re_id is_raw ins 0 rt
        .ok (out.1, { out.2 with checked := Function.update out.2.checked re_id true })
      else
        let ins1 := clip_slices c.cache.max_re_data ins
        let rt1 : rspamd_re_runtime :=
          { rt with stat := { rt.stat with
              bytes_scanned := rt.stat.bytes_scanned + (ins1.map Slice.len).sum } }
        match (c.heap re).re_class with
        | none => .error .null_deref
        | some class_id =>
          match class_lookup c.cache.re_classes class_id with
          | none => .error .null_deref
          | some re_class =>
            match re_class.hs_scratch, re_class.hs_db with
            | some _, some db =>
              if ¬ c.cache.vectorized_hyperscan then
                hs_block_loop px c db re_id ins1 0 rt1
              else
                match run_callbacks px c { ins := ins1, count := 1 }
                    (px.hs_scan_vector db ins1).1 rt1 with
                | .error f => .error f
                | .ok rt2 =>
                  .ok (if (px.hs_scan_vector db ins1).2 then rt2.results re_id else 0, rt2)
            | _, _ => .error .assertion

/-- The function `rspamd_re_cache_finish_class`: the sweep over the ids of the
class database, from the given position on. -/
def rspamd_re_cache_finish_class :
    List Nat → rspamd_re_runtime → Except Fault rspamd_re_runtime
  | [], rt => .ok rt
  | re_id :: rest, rt =>
    if ¬ rt.checked re_id then
      if rt.results re_id = 0 then
        rspamd_re_cache_finish_class rest
          { rt with results := Function.update rt.results re_id 0,
                    checked := Function.update rt.checked re_id true }
      else .error .assertion
    else rspamd_re_cache_finish_class rest rt

/-- The type `struct raw_header`: the raw value and the decoded value, which
may be a null pointer. -/
structure raw_header where
  value : List Nat
  decoded : Option (List Nat)
  deriving DecidableEq, Repr

/-- The type `struct rspamd_mime_text_part` as the scanner reads it: the flags
behind `IS_PART_EMPTY` and `IS_PART_UTF` and the three byte arrays, each of
which may be a null pointer. -/
structure rspamd_mime_text_part where
  is_empty : Bool
  is_utf : Bool
  orig : Option (List Nat)
  content : Option (List Nat)
  stripped_content : Option (List Nat)
  deriving DecidableEq, Repr

/-- The message model the scanner consumes from `struct rspamd_task`: header
lookups by name (with the `strong` flag), the raw header block, the text
parts, the url and email tables in iteration order, and the whole message. -/
structure rspamd_task where
  get_header_array : List Nat → Bool → List raw_header
  get_mime_header_array : List Nat → Bool → List raw_header
  get_header : List Nat → Bool → List raw_header
  raw_headers_content : Slice
  text_parts : List rspamd_mime_text_part
  urls : List Slice
  emails : List Slice
  msg : Slice

/-- The bytes of the header name `"Subject"`. -/
def subject_name : List Nat := [83, 117, 98, 106, 101, 99, 116]

/-- The slice one header contributes in the header branches of
`rspamd_re_cache_exec_re`, and whether it switches to raw mode: the raw value
when the class kind is `RSPAMD_RE_RAWHEADER`, otherwise the decoded value, or
the empty slice when that is null or not valid UTF-8. -/
def header_slice (px : Primitives) (type : rspamd_re_type) (rh : raw_header) : Slice × Bool :=
  if type = .RSPAMD_RE_RAWHEADER then
    ({ data := some rh.value, len := strlen rh.value }, true)
  else
    match rh.decoded with
    | none => (Slice.empty, false)
    | some d =>
      if px.g_utf8_validate d then ({ data := some d, len := strlen d }, false)
      else (Slice.empty, false)

/-- The slice one text part contributes in the `RSPAMD_RE_MIME` and
`RSPAMD_RE_RAWMIME` branch, and whether it switches to raw mode. -/
def mime_slice (type : rspamd_re_type) (part : rspamd_mime_text_part) :
    Except Fault (Slice × Bool) :=
  if part.is_empty then .ok (Slice.empty, false)
  else if type = .RSPAMD_RE_RAWMIME then
    match part.orig with
    | none => .error .null_deref
    | some d => .ok ({ data := some d, len := d.length }, true)
  else
    match part.content with
    | none => .error .null_deref
    | some d => .ok ({ data := some d, len := d.length }, ! part.is_utf)

/-- The loop over the text parts in the `RSPAMD_RE_MIME` and
`RSPAMD_RE_RAWMIME` branch: the slice vector and the raw flag. -/
def mime_slices (type : rspamd_re_type) :
    List rspamd_mime_text_part → Except Fault (List Slice × Bool)
  | [] => .ok ([], false)
  | part :: rest =>
    match mime_slice type part with
    | .error f => .error f
    | .ok (sl, raw1) =>
      match mime_slices type rest with
      | .error f => .error f
      | .ok (sls, raw2) => .ok (sl :: sls, raw1 || raw2)

/-- The slice of a byte array that may be null: its bytes, or `("", 0)`. -/
def array_slice : Option (List Nat) → Slice
  | some d => { data := some d, len := d.length }
  | none => Slice.empty

/-- The first slice of the `RSPAMD_RE_SABODY` vector: the decoded Subject of
the first Subject header, or the empty slice without one. -/
def subject_slice (task : rspamd_task) : Except Fault Slice :=
  match task.get_header subject_name false with
  | [] => .ok Slice.empty
  | rh :: _ =>
    match rh.decoded with
    | none => .error .null_deref
    | some d => .ok { data := some d, len := strlen d }

/-- The slice vector and the raw flag that the `switch` of
`rspamd_re_cache_exec_re` assembles for the kind of the class; `none` when the
branch finds no data and does not call `rspamd_re_cache_process_regexp_data`. -/
def region_slices (px : Primitives) (task : rspamd_task) (re_class : rspamd_re_class)
    (is_strong : Bool) : Except Fault (Option (List Slice × Bool)) :=
  match re_class.type with
  | .RSPAMD_RE_HEADER | .RSPAMD_RE_RAWHEADER =>
    let hl := task.get_header_array re_class.type_data is_strong
    if hl.length > 0 then
      .ok (some (hl.map (fun rh => (header_slice px re_class.type rh).1),
        hl.any (fun rh => (header_slice px re_class.type rh).2)))
    else .ok none
  | .RSPAMD_RE_ALLHEADER => .ok (some ([task.raw_headers_content], true))
  | .RSPAMD_RE_MIMEHEADER =>
    let hl := task.get_mime_header_array re_class.type_data is_strong
    if hl.length > 0 then
      .ok (some (hl.map (fun rh => (header_slice px re_class.type rh).1),
        hl.any (fun rh => (header_slice px re_class.type rh).2)))
    else .ok none
  | .RSPAMD_RE_MIME | .RSPAMD_RE_RAWMIME =>
    if task.text_parts.length > 0 then
      match mime_slices re_class.type task.text_parts with
      | .error f => .error f
      | .ok v => .ok (some v)
    else .ok none
  | .RSPAMD_RE_URL =>
    if task.urls.length + task.emails.length > 0 then
      .ok (some (task.urls ++ task.emails, false))
    else .ok none
  | .RSPAMD_RE_BODY => .ok (some ([task.msg], true))
  | .RSPAMD_RE_SABODY =>
    match subject_slice task with
    | .error f => .error f
    | .ok sl0 =>
      .ok (some (sl0 :: task.text_parts.map (fun part => array_slice part.stripped_content),
        true))
  | .RSPAMD_RE_SARAWBODY =>
    if task.text_parts.length > 0 then
      .ok (some (task.text_parts.map (fun part => array_slice part.orig), true))
    else .ok none
  | .RSPAMD_RE_MAX => .ok none

/-- The `switch` of `rspamd_re_cache_exec_re`: the slice vector of the class
kind is handed to `rspamd_re_cache_process_regexp_data`; a branch without data
leaves the runtime as it is. -/
def exec_switch (px : Primitives) (c : State) (task : rspamd_task) (rt : rspamd_re_runtime)
    (re : Nat) (re_class : rspamd_re_class) (is_strong : Bool) :
    Except Fault (Nat × rspamd_re_runtime) :=
  match region_slices px task re_class is_strong with
  | .error f => .error f
  | .ok none => .ok (0, rt)
  | .ok (some v) => rspamd_re_cache_process_regexp_data px c rt re v.1 v.2

/-- The function `rspamd_re_cache_exec_re` (slow path): the `switch`, then the
sweep of the class when the prefilter is enabled and loaded, then the bit of
the expression itself; the value returned is the stored result. -/
def rspamd_re_cache_exec_re (px : Primitives) (c : State) (task : rspamd_task)
    (rt : rspamd_re_runtime) (re : Nat) (re_class : rspamd_re_class) (is_strong : Bool) :
    Except Fault (Nat × rspamd_re_runtime) :=
  let re_id := (c.heap re).cache_id
  match exec_switch px c task rt re re_class is_strong with
  | .error f => .error f
  | .ok (_, rt1) =>
    match (if ¬ c.cache.disable_hyperscan ∧ rt1.has_hs
        then rspamd_re_cache_finish_class re_class.hs_ids rt1 else .ok rt1) with
    | .error f => .error f
    | .ok rt2 =>
      let rt3 : rspamd_re_runtime :=
        { rt2 with checked := Function.update rt2.checked re_id true }
      .ok (rt3.results re_id, rt3)

/-- The function `rspamd_re_cache_process`; its `type`, `type_data` and
`datalen` arguments are not used by the C function and are left out. -/
def rspamd_re_cache_process (px : Primitives) (c : State) (task : rspamd_task)
    (rt : rspamd_re_runtime) (re : Nat) (is_strong : Bool) :
    Except Fault (Nat × rspamd_re_runtime) :=
  let re_id := (c.heap re).cache_id
  if re_id = RSPAMD_INVALID_ID ∨ re_id > c.cache.nre then .ok (0, rt)
  else if rt.checked re_id then
    .ok (rt.results re_id,
      { rt with stat := { rt.stat with
          regexp_fast_cached := rt.stat.regexp_fast_cached + 1 } })
  else
    match (c.heap re).re_class with
    | none => .ok (0, rt)
    | some class_id =>
      match class_lookup c.cache.re_classes class_id with
      | none => .error .null_deref
      | some re_class => rspamd_re_cache_exec_re px c task rt re re_class is_strong

/-! ## Concrete values for examples -/

/-- A fast hash for examples: the sum of the words hashed. -/
def fh0 (l : List Nat) : Nat := l.sum

/-- An example heap of fresh expression objects: the object at address `p` has
content id `p % 10`, hit limit `p % 3` and no flags. -/
def heap0 (p : Nat) : rspamd_regexp_t :=
  { id := p % 10, pcre_flags := 0, flags := 0, maxhits := p % 3,
    cache_id := RSPAMD_INVALID_ID, re_class := none }

/-- The example memory with an empty cache. -/
def s0 : State := { heap := heap0, cache := rspamd_re_cache_new }

/-- An example configuration: prefilter enabled, block mode. -/
def cfg0 : rspamd_config := { disable_hyperscan := false, vectorized_hyperscan := false }

/-- The fault a call aborted with, if it did. -/
def fault_of {α : Type} : Except Fault α → Option Fault
  | .error f => some f
  | .ok _ => none

/-- The cache ids of the elements of `cache->re`, by position. -/
def cache_ids (s : State) : List Nat :=
  s.cache.re.map (fun elt => (s.heap elt.re).cache_id)

/-- Example primitives: the accurate matcher finds one match per byte `110`
of its input, the prefilter reports nothing and succeeds, every decoded header
is valid. -/
def px0 : Primitives :=
  { regexp_search := fun _ input _ => input.count 110,
    hs_scan := fun _ _ => ([], true),
    hs_scan_vector := fun _ _ => ([], true),
    g_utf8_validate := fun _ => true }

/-- An example message: one header named `[83]` with value `[110, 111, 110]`,
no text parts, urls or emails, and the body `[110]`. -/
def task0 : rspamd_task :=
  { get_header_array := fun name _ =>
      if name = [83] then [{ value := [110, 111, 110], decoded := some [110, 111, 110] }] else [],
    get_mime_header_array := fun _ _ => [],
    get_header := fun _ _ => [],
    raw_headers_content := { data := some [83, 58, 110, 111, 110], len := 5 },
    text_parts := [],
    urls := [],
    emails := [],
    msg := { data := some [110], len := 1 } }

/-- The example memory after registering the object at address 1 for the
header `[83]` and the object at address 2 for the whole message. -/
def s12 : State :=
  (rspamd_re_cache_add fh0 (rspamd_re_cache_add fh0 s0 1 .RSPAMD_RE_HEADER [83] 1).2 2
    .RSPAMD_RE_BODY [] 0).2

/-! ## Notions used in the statements -/

/-- Two expression objects that differ at most in their cache id. -/
def same_attrs (a b : rspamd_regexp_t) : Prop :=
  a.id = b.id ∧ a.pcre_flags = b.pcre_flags ∧ a.flags = b.flags ∧ a.maxhits = b.maxhits ∧
    a.re_class = b.re_class

/-- The digest state of class `k` after the first loop of
`rspamd_re_cache_init` has run over the elements `l`, from the state `st`. -/
def st_after (heap : Nat → rspamd_regexp_t) (k : Nat) :
    Option (List Nat) → List rspamd_re_cache_elt → Option (List Nat)
  | st, [] => st
  | st, e :: l =>
    if (heap e.re).re_class = some k then
      st_after heap k (some (st.getD [] ++ hash_words k (heap e.re))) l
    else st_after heap k st l

/-- The words the elements of `l` that belong to class `k` feed to its digest,
in the order of `l`. -/
def class_stream (heap : Nat → rspamd_regexp_t) (k : Nat) : List rspamd_re_cache_elt → List Nat
  | [] => []
  | e :: l =>
    if (heap e.re).re_class = some k then hash_words k (heap e.re) ++ class_stream heap k l
    else class_stream heap k l

/-- Some element of `l` belongs to class `k`. -/
def has_member (heap : Nat → rspamd_regexp_t) (k : Nat) (l : List rspamd_re_cache_elt) : Prop :=
  ∃ e ∈ l, (heap e.re).re_class = some k

/-- Every element of `cache->re` holds an expression whose class is set and is
in the class table. -/
def all_classed (s : State) : Prop :=
  ∀ e ∈ s.cache.re,
    ((s.heap e.re).re_class.bind (class_lookup s.cache.re_classes)).isSome = true

instance all_classed_decidable (s : State) : Decidable (all_classed s) :=
  inferInstanceAs (Decidable (∀ e ∈ s.cache.re,
    ((s.heap e.re).re_class.bind (class_lookup s.cache.re_classes)).isSome = true))

/-- Invariant of the registry: no class digest state is in use between calls,
`nre` is the length of `cache->re`, an expression with a cache id other than
the invalid one is held by the element at that index, and the class of an
expression is in the class table. -/
structure CacheInv (s : State) : Prop where
  st_none : ∀ c ∈ s.cache.re_classes, c.st = none
  nre_len : s.cache.nre = s.cache.re.length
  ids : ∀ p, (s.heap p).cache_id = RSPAMD_INVALID_ID ∨
    ∃ elt, s.cache.re[(s.heap p).cache_id]? = some elt ∧ elt.re = p
  classes : ∀ p k, (s.heap p).re_class = some k →
    (class_lookup s.cache.re_classes k).isSome = true

/-- The example memory `s12` with a third expression, registered for the whole
message as well. -/
def s123 : State := (rspamd_re_cache_add fh0 s12 3 .RSPAMD_RE_BODY [] 0).2

/-- One registration: the arguments of a call of `rspamd_re_cache_add`. -/
structure Registration where
  re : Nat
  type : rspamd_re_type
  type_data : List Nat
  datalen : Nat
  deriving DecidableEq, Repr

/-- The class id a registration goes to. -/
def Registration.class_id (fh : List Nat → Nat) (t : Registration) : Nat :=
  rspamd_re_cache_class_id fh t.type t.type_data t.datalen

/-- The memory after the registrations of a list, in order. -/
def register_all (fh : List Nat → Nat) : State → List Registration → State
  | s, [] => s
  | s, t :: ts => register_all fh (rspamd_re_cache_add fh s t.re t.type t.type_data t.datalen).2 ts

/-- What finalize hashes of an expression: content id, accurate flags, regexp
flags, hit limit. -/
def attrs_of (r : rspamd_regexp_t) : Nat × Nat × Nat × Nat :=
  (r.id, r.pcre_flags, r.flags, r.maxhits)

/-- The attributes of the members of class `k` among the elements `l`, in the
order of `l`. -/
def class_attrs (heap : Nat → rspamd_regexp_t) (k : Nat) (l : List rspamd_re_cache_elt) :
    List (Nat × Nat × Nat × Nat) :=
  (l.filter (fun e => decide ((heap e.re).re_class = some k))).map (fun e => attrs_of (heap e.re))

/-- The words fed to the digest of class `k` for a list of member attributes. -/
def words_of (k : Nat) : List (Nat × Nat × Nat × Nat) → List Nat
  | [] => []
  | a :: l => [k, a.1, a.2.1, a.2.2.1, a.2.2.2] ++ words_of k l

/-- The class and the content id of the expression an element holds. -/
def elt_key (heap : Nat → rspamd_regexp_t) (e : rspamd_re_cache_elt) : Option Nat × Nat :=
  ((heap e.re).re_class, (heap e.re).id)

/-- No expression object is registered under two class ids. -/
def one_class_per_object (fh : List Nat → Nat) (l : List Registration) : Prop :=
  ∀ t1 ∈ l, ∀ t2 ∈ l, t1.re = t2.re → t1.class_id fh = t2.class_id fh

instance one_class_per_object_decidable (fh : List Nat → Nat) (l : List Registration) :
    Decidable (one_class_per_object fh l) :=
  inferInstanceAs (Decidable (∀ t1 ∈ l, ∀ t2 ∈ l, t1.re = t2.re → t1.class_id fh = t2.class_id fh))

/-- Expressions registered under the same class id with the same content id
have the same flags and hit limit. -/
def same_flags_per_content_id (fh : List Nat → Nat) (heap : Nat → rspamd_regexp_t)
    (l : List Registration) : Prop :=
  ∀ t1 ∈ l, ∀ t2 ∈ l, t1.class_id fh = t2.class_id fh → (heap t1.re).id = (heap t2.re).id →
    attrs_of (heap t1.re) = attrs_of (heap t2.re)

instance same_flags_per_content_id_decidable (fh : List Nat → Nat)
    (heap : Nat → rspamd_regexp_t) (l : List Registration) :
    Decidable (same_flags_per_content_id fh heap l) :=
  inferInstanceAs (Decidable (∀ t1 ∈ l, ∀ t2 ∈ l, t1.class_id fh = t2.class_id fh →
    (heap t1.re).id = (heap t2.re).id → attrs_of (heap t1.re) = attrs_of (heap t2.re)))

/-- What holds of a memory reached from the heap `h0` and an empty cache by the
registrations `l`, when no object is registered under two class ids. -/
structure AddInv (fh : List Nat → Nat) (h0 : Nat → rspamd_regexp_t) (l : List Registration)
    (s : State) : Prop where
  attrs : ∀ p, attrs_of (s.heap p) = attrs_of (h0 p)
  src : ∀ e ∈ s.cache.re, ∃ t ∈ l, t.re = e.re ∧ (s.heap e.re).re_class = some (t.class_id fh)
  cover : ∀ t ∈ l, ∃ e ∈ s.cache.re, elt_key s.heap e = (some (t.class_id fh), (h0 t.re).id)
  nodup : (s.cache.re.map (elt_key s.heap)).Nodup
  table : ∀ k c, class_lookup s.cache.re_classes k = some c →
    ∀ i, (re_lookup c.re i).isSome = true ↔ ∃ e ∈ s.cache.re, elt_key s.heap e = (some k, i)
  classes : ∀ k, (class_lookup s.cache.re_classes k).isSome = true ↔ ∃ t ∈ l, t.class_id fh = k
  st_none : ∀ c ∈ s.cache.re_classes, c.st = none

/-- Three example registrations: the object at address 1 for the header
`[83]`, the objects at addresses 2 and 3 for the whole message. -/
def regs0 : List Registration :=
  [{ re := 1, type := .RSPAMD_RE_HEADER, type_data := [83], datalen := 1 },
   { re := 2, type := .RSPAMD_RE_BODY, type_data := [], datalen := 0 },
   { re := 3, type := .RSPAMD_RE_BODY, type_data := [], datalen := 0 }]

/-- Every expression object either has the invalid cache id or is the
expression held by the element of `cache->re` at its cache id (the third
clause of `CacheInv`). -/
def ids_registered (c : State) : Prop :=
  ∀ p, (c.heap p).cache_id = RSPAMD_INVALID_ID ∨
    ∃ elt, c.cache.re[(c.heap p).cache_id]? = some elt ∧ elt.re = p

/-- The stored result of every expression with a cache id and a hit limit is
at most the limit. -/
def results_bounded (c : State) (rt : rspamd_re_runtime) : Prop :=
  ∀ p, (c.heap p).cache_id ≠ RSPAMD_INVALID_ID → (c.heap p).maxhits > 0 →
    rt.results (c.heap p).cache_id ≤ (c.heap p).maxhits

/-- The runtime states reached from a fresh runtime over the cache `c`, for
one message, by `process` calls, prefilter callbacks and sweeps of a class. -/
inductive RtReachable (px : Primitives) (c : State) (task : rspamd_task) :
    rspamd_re_runtime → Prop where
  | fresh : RtReachable px c task (rspamd_re_cache_runtime_new c.cache)
  | process (rt : rspamd_re_runtime) (re : Nat) (is_strong : Bool)
      (out : Nat × rspamd_re_runtime) :
      RtReachable px c task rt →
      rspamd_re_cache_process px c task rt re is_strong = .ok out →
      RtReachable px c task out.2
  | callback (rt rt1 : rspamd_re_runtime) (cbdata : rspamd_re_hyperscan_cbdata)
      (ev : HsEvent) :
      RtReachable px c task rt →
      rspamd_re_cache_hyperscan_cb px c cbdata rt ev = .ok rt1 →
      RtReachable px c task rt1
  | finish (rt rt1 : rspamd_re_runtime) (re_class : rspamd_re_class) :
      RtReachable px c task rt →
      rspamd_re_cache_finish_class re_class.hs_ids rt = .ok rt1 →
      RtReachable px c task rt1

/-- How a scan may change a runtime: `has_hs` stays, bits are only set, the
history only grows, a bit newly set is that of `re_id` or of one of `ids`,
and a result that changed belongs to an id the callback was called with, or
is zero, or is that of `re_id` when `A` holds. -/
structure ScanFrame (ids : List Nat) (re_id : Nat) (A : Prop)
    (rt rt1 : rspamd_re_runtime) : Prop where
  has_hs : rt1.has_hs = rt.has_hs
  mono : ∀ j, rt.checked j = true → rt1.checked j = true
  rep_mono : ∀ j, j ∈ rt.reported → j ∈ rt1.reported
  new_checked : ∀ j, rt1.checked j = true → rt.checked j = true ∨ j = re_id ∨ j ∈ ids
  res : ∀ j, rt1.results j = rt.results j ∨ j ∈ rt1.reported ∨ rt1.results j = 0 ∨
    (j = re_id ∧ A)

/-- Conditions on a cache with the prefilter loaded and enabled and on the
prefilter library, under which the statements about the sweep of a class are
proved: expressions with a cache id are held at that id; the ids listed for a
class are cache ids of expressions of that class only; the database of a class
reports only ids listed for the class; a listed id is not matched by the
accurate engine alone. All but the condition on the library are derived from
the code in `prefilterWF_of_compile_load`: they hold of the memory after
registrations from an empty cache that put no expression object under two
class ids, finalize, compile on the empty directory and load, when compile and
load succeed for every class (`RoundTrip`). They fail when an object is
registered under two class ids (`s_alias`) or when a class file was written
for another configuration. -/
structure PrefilterWF (px : Primitives) (c : State) : Prop where
  ids : ids_registered c
  members : ∀ k cl i p, class_lookup c.cache.re_classes k = some cl → i ∈ cl.hs_ids →
    (c.heap p).cache_id = i → (c.heap p).cache_id ≠ RSPAMD_INVALID_ID →
    (c.heap p).re_class = some k
  reports : ∀ k cl db, class_lookup c.cache.re_classes k = some cl → cl.hs_db = some db →
    (∀ sl, ∀ ev ∈ (px.hs_scan db sl).1, ev.id ∈ cl.hs_ids) ∧
    (∀ ins, ∀ ev ∈ (px.hs_scan_vector db ins).1, ev.id ∈ cl.hs_ids)
  types : ∀ k cl i elt, class_lookup c.cache.re_classes k = some cl → i ∈ cl.hs_ids →
    c.cache.re[i]? = some elt → elt.match_type ≠ .RSPAMD_RE_CACHE_PCRE
  enabled : c.cache.disable_hyperscan = false
  loaded : c.cache.hyperscan_loaded = true

/-- The runtime states reached from a fresh runtime over the cache `c`, for
one message, by `process` calls. -/
inductive RtProcessed (px : Primitives) (c : State) (task : rspamd_task) :
    rspamd_re_runtime → Prop where
  | fresh : RtProcessed px c task (rspamd_re_cache_runtime_new c.cache)
  | process (rt : rspamd_re_runtime) (re : Nat) (is_strong : Bool)
      (out : Nat × rspamd_re_runtime) :
      RtProcessed px c task rt →
      rspamd_re_cache_process px c task rt re is_strong = .ok out →
      RtProcessed px c task out.2

/-- Once an expression of a class is checked, all ids listed for the class
are checked. -/
def class_swept (c : State) (rt : rspamd_re_runtime) : Prop :=
  ∀ p k cl, (c.heap p).cache_id ≠ RSPAMD_INVALID_ID → (c.heap p).re_class = some k →
    class_lookup c.cache.re_classes k = some cl → rt.checked (c.heap p).cache_id = true →
    ∀ i ∈ cl.hs_ids, rt.checked i = true

/-- A listed id the callback was never called with has result zero. -/
def unreported_zero (c : State) (rt : rspamd_re_runtime) : Prop :=
  ∀ k cl i, class_lookup c.cache.re_classes k = some cl → i ∈ cl.hs_ids →
    i ∉ rt.reported → rt.results i = 0

/-- The example memory `s123` with the prefilter loaded: the class of the
whole message has a database that lists the cache ids 1 and 2, and the two
elements with those ids are matched through the prefilter. -/
def s_hs : State :=
  { heap := s123.heap,
    cache := { s123.cache with
      re_classes := s123.cache.re_classes.map (fun cl =>
        if cl.id = 7 then { cl with hs_db := some 0, hs_scratch := some 0, hs_ids := [1, 2] }
        else cl),
      re := s123.cache.re.map (fun e =>
        if e.re = 1 then e else { e with match_type := .RSPAMD_RE_CACHE_HYPERSCAN }),
      hyperscan_loaded := true } }

/-- Example primitives with a prefilter that reports the id 1 once for every
scan. -/
def px1 : Primitives :=
  { regexp_search := fun _ input _ => input.count 110,
    hs_scan := fun _ _ => ([{ id := 1, from_off := 0, to_off := 1, flags := 0 }], true),
    hs_scan_vector := fun _ _ => ([{ id := 1, from_off := 0, to_off := 1, flags := 0 }], true),
    g_utf8_validate := fun _ => true }

/-- The primitives `px` with another accurate matcher in place of its own. -/
def with_search (px : Primitives) (g : Nat → List Nat → Bool → Nat) : Primitives :=
  { px with regexp_search := g }

/-- The example memory `s12` with the limit of scanned bytes set to 2. -/
def s12_lim : State := (rspamd_re_cache_set_limit s12 2).2

/-- An id whose bit in `checked` is not set has the stored result zero. -/
def unchecked_zero (rt : rspamd_re_runtime) : Prop :=
  ∀ j, rt.checked j = false → rt.results j = 0

/-- The number of matches the accurate matcher finds in one slice: none for a
null pointer, otherwise what `rspamd_regexp_search` finds in the bytes it is
handed. -/
def slice_hits (px : Primitives) (c : State) (re : Nat) (is_raw : Bool) (sl : Slice) : Nat :=
  match sl.data with
  | none => 0
  | some input =>
    px.regexp_search re (input.take (pcre_scan_len c.cache.max_re_data sl input)) is_raw

/-- A count under the hit limit: the count itself without a limit, otherwise
the smaller of the count and the limit. -/
def clamp_hits (maxhits total : Nat) : Nat :=
  if maxhits = 0 then total else min total maxhits

/-- An example message whose body is 256 bytes `110`, without headers, text
parts, urls or emails. -/
def task256 : rspamd_task :=
  { get_header_array := fun _ _ => [],
    get_mime_header_array := fun _ _ => [],
    get_header := fun _ _ => [],
    raw_headers_content := { data := some [], len := 0 },
    text_parts := [],
    urls := [],
    emails := [],
    msg := { data := some (List.replicate 256 110), len := 256 } }

/-- The runtime after `process` on the expression at address `re`, or the
runtime as it was when the call aborted. -/
def after_process (px : Primitives) (c : State) (task : rspamd_task) (rt : rspamd_re_runtime)
    (re : Nat) : rspamd_re_runtime :=
  match rspamd_re_cache_process px c task rt re false with
  | .ok out => out.2
  | .error _ => rt

/-- Example primitives with a prefilter whose scan calls deliver one callback,
for the id 1, and then return a failure status. -/
def px_fail : Primitives :=
  { regexp_search := fun _ input _ => input.count 110,
    hs_scan := fun _ _ => ([{ id := 1, from_off := 0, to_off := 1, flags := 0 }], false),
    hs_scan_vector := fun _ _ => ([{ id := 1, from_off := 0, to_off := 1, flags := 0 }], false),
    g_utf8_validate := fun _ => true }

/-- The content-id tables of the classes are in order: within a table no key
occurs twice, and every entry holds an expression whose content id is the key
of the entry. -/
def KeysInv (s : State) : Prop :=
  ∀ cl ∈ s.cache.re_classes,
    (cl.re.map Prod.fst).Nodup ∧ ∀ kv ∈ cl.re, (s.heap kv.2).id = kv.1

/-- A registry call that puts no expression under a foreign content id, for
expression objects with the content ids of the heap `h0`: any `add` or
finalize call, and a `replace` call whose two expressions have the same
content id. -/
def Op.keeps_ids (h0 : Nat → rspamd_regexp_t) : Op → Prop
  | .add _ _ _ _ => True
  | .replace what with_re => (h0 with_re).id = (h0 what).id
  | .init _ => True

/-! ## Class files of the prefilter -/

/-- The value of a little-endian byte string. -/
def le_val : List Nat → Nat
  | [] => 0
  | b :: bs => b % 256 + 256 * le_val bs

/-- The `k` little-endian bytes of a value. -/
def le_bytes : Nat → Nat → List Nat
  | 0, _ => []
  | k + 1, v => v % 256 :: le_bytes k (v / 256)

/-- A 32-bit word read as a `gint`. -/
def to_gint (v : Nat) : Int :=
  if v % 4294967296 < 2147483648 then (v % 4294967296 : Nat) else (v % 4294967296 : Nat) - 4294967296

/-- The 32-bit word at an offset of a mapped file; bytes past the end of the
file, in the rest of its last page, read as zero. -/
def word_at (f : List Nat) (off : Nat) : Nat := le_val ((f.drop off).take 4)

/-- What `waitpid (cld, &status, WNOHANG)` reports of the child of the compile
probe: still running (0), exited with success status, terminated otherwise,
or an error (-1). -/
inductive WaitStatus where
  | running
  | exited_success
  | terminated
  | error
  deriving DecidableEq, Repr

/-- What `re_cache.c` takes from the prefilter library, from the operating
system and from headers that are not among the sources: the bytes of the
platform tag that `hs_populate_platform` stores in `cache->plt`; the constant
`rspamd_cryptobox_HASHBYTES`; the characters `%*xs` prints for the digest of
the words fed to a class digest; `rspamd_cryptobox_fast_hash` seeded with
`0xdeadbabe` over the chunks fed to it; the library calls, with a database
handle as a number and a pattern named by the address of its expression; the
successive results of `waitpid` for the child of the compile probe; and the
flag constants of `hs_compile.h`, `pcre.h` and `regexp.h`. -/
structure HsEnv where
  plt : List Nat
  HASHBYTES : Nat
  hash_hex : List Nat → List Nat
  fast_hash : List (List Nat) → Nat
  hs_deserialize_database : List Nat → Option Nat
  hs_alloc_scratch : Nat → Option Nat
  hs_compile : Nat → Nat → Bool → Bool
  hs_compile_multi : List (Nat × Nat × Nat) → Bool → Option Nat
  hs_serialize_database : Nat → Option (List Nat)
  child_wait : Nat → Nat → Nat → WaitStatus
  HS_FLAG_CASELESS : Nat
  HS_FLAG_DOTALL : Nat
  HS_FLAG_MULTILINE : Nat
  HS_FLAG_SINGLEMATCH : Nat
  HS_FLAG_UTF8 : Nat
  HS_FLAG_PREFILTER : Nat
  PCRE_UTF8 : Nat
  PCRE_CASELESS : Nat
  PCRE_MULTILINE : Nat
  PCRE_DOTALL : Nat
  RSPAMD_REGEXP_FLAG_PCRE_ONLY : Nat

/-- The files of the cache directory: the bytes of the file at a path, if
there is one. -/
abbrev Files := List Nat → Option (List Nat)

/-- The magic of a class file in block mode, `rshsre11`. -/
def rspamd_hs_magic : List Nat := [114, 115, 104, 115, 114, 101, 49, 49]

/-- The magic of a class file in vectored mode, `rshsrv11`. -/
def rspamd_hs_magic_vector : List Nat := [114, 115, 104, 115, 114, 118, 49, 49]

/-- The constant `RSPAMD_HS_MAGIC_LEN`, `sizeof (rspamd_hs_magic)`. -/
def RSPAMD_HS_MAGIC_LEN : Nat := 8

/-- The first `rspamd_cryptobox_HASHBYTES` bytes of the buffer
`re_class->hash`: zero-filled until finalize prints the digest into it. -/
def hash_buf (env : HsEnv) (cl : rspamd_re_class) : List Nat :=
  match cl.hash with
  | none => List.replicate env.HASHBYTES 0
  | some w => (env.hash_hex w).take env.HASHBYTES

/-- The path `"%s%c%s.hs"` of the file of a class in the cache directory; the
paths are taken to fit the buffer of `PATH_MAX` bytes. -/
def class_path (env : HsEnv) (dir : List Nat) (cl : rspamd_re_class) : List Nat :=
  dir ++ [47] ++ (hash_buf env cl).takeWhile (fun b => b != 0) ++ [46, 104, 115]

/-- The path `"%s%c%s.hs.new"` of the temporary file of a class. -/
def class_tmp_path (env : HsEnv) (dir : List Nat) (cl : rspamd_re_class) : List Nat :=
  class_path env dir cl ++ [46, 110, 101, 119]

/-- The offset of the id array in a class file: magic, platform tag and the
count. -/
def ids_off (env : HsEnv) : Nat := RSPAMD_HS_MAGIC_LEN + env.plt.length + 4

/-- The count `n` read from a mapped class file, `*(gint *)p` behind the magic
and the platform tag. -/
def file_n (env : HsEnv) (f : List Nat) : Int :=
  to_gint (word_at f (RSPAMD_HS_MAGIC_LEN + env.plt.length))

/-- The check of the count in `rspamd_re_cache_is_valid_hyperscan_file` and
`rspamd_re_cache_load_hyperscan`: the file is refused when this holds. -/
def bad_count (env : HsEnv) (f : List Nat) : Prop :=
  file_n env f ≤ 0 ∨
    2 * (file_n env f).toNat * 4 + 8 + RSPAMD_HS_MAGIC_LEN + env.plt.length > f.length

instance bad_count_decidable (env : HsEnv) (f : List Nat) : Decidable (bad_count env f) :=
  inferInstanceAs (Decidable (file_n env f ≤ 0 ∨
    2 * (file_n env f).toNat * 4 + 8 + RSPAMD_HS_MAGIC_LEN + env.plt.length > f.length))

/-- The bytes of the id array of a mapped class file. -/
def file_ids_bytes (env : HsEnv) (f : List Nat) : List Nat :=
  (f.drop (ids_off env)).take (4 * (file_n env f).toNat)

/-- The bytes of the flag array of a mapped class file. -/
def file_flags_bytes (env : HsEnv) (f : List Nat) : List Nat :=
  (f.drop (ids_off env + 4 * (file_n env f).toNat)).take (4 * (file_n env f).toNat)

/-- The checksum stored in a mapped class file, behind the two arrays. -/
def file_crc (env : HsEnv) (f : List Nat) : Nat :=
  le_val ((f.drop (ids_off env + 8 * (file_n env f).toNat)).take 8)

/-- The serialized database of a mapped class file, from behind the checksum
to the end. -/
def file_blob (env : HsEnv) (f : List Nat) : List Nat :=
  f.drop (ids_off env + 8 * (file_n env f).toNat + 8)

/-- The part of `rspamd_re_cache_is_valid_hyperscan_file` under `try_load`,
on the mapped file: the check of the count, the checksum over the id bytes,
the flag bytes and the database, and the trial `hs_deserialize_database`.
When the check of the count passes but the file ends before the end of the
checksum, `end - p` wraps and the checksum runs off the mapping. -/
def valid_contents (env : HsEnv) (f : List Nat) : Except Fault Bool :=
  if bad_count env f then .ok false
  else if ids_off env + 8 * (file_n env f).toNat + 8 > f.length then .error .out_of_bounds
  else if file_crc env f ≠
      env.fast_hash [file_ids_bytes env f, file_flags_bytes env f, file_blob env f] %
        18446744073709551616 then
    .ok false
  else
    match env.hs_deserialize_database (file_blob env f) with
    | none => .ok false
    | some _ => .ok true

/-- The body of the loop of `rspamd_re_cache_is_valid_hyperscan_file` for the
class whose hash the file name carries: the file is opened, the magic of the
mode and the platform tag are read and compared, and with `try_load` the
contents are checked. -/
def valid_file (env : HsEnv) (fs : Files) (c : rspamd_re_cache) (path : List Nat)
    (try_load : Bool) : Except Fault Bool :=
  match fs path with
  | none => .ok false
  | some f =>
    if (f.take RSPAMD_HS_MAGIC_LEN).length ≠ RSPAMD_HS_MAGIC_LEN then .ok false
    else if f.take RSPAMD_HS_MAGIC_LEN ≠
        (if c.vectorized_hyperscan then rspamd_hs_magic_vector else rspamd_hs_magic) then
      .ok false
    else if ((f.drop RSPAMD_HS_MAGIC_LEN).take env.plt.length).length ≠ env.plt.length then
      .ok false
    else if (f.drop RSPAMD_HS_MAGIC_LEN).take env.plt.length ≠ env.plt then .ok false
    else if try_load then valid_contents env f
    else .ok true

/-- The loop of `rspamd_re_cache_is_valid_hyperscan_file` over the classes:
the first class whose hash equals the `rspamd_cryptobox_HASHBYTES` bytes in
front of `.hs` decides. The comparison reads in front of the path when the
path is shorter than that. -/
def valid_loop (env : HsEnv) (fs : Files) (c : rspamd_re_cache) (path : List Nat)
    (try_load : Bool) : List rspamd_re_class → Except Fault Bool
  | [] => .ok false
  | cl :: rest =>
    if path.length < 3 + env.HASHBYTES then .error .out_of_bounds
    else if (path.drop (path.length - 3 - env.HASHBYTES)).take env.HASHBYTES = hash_buf env cl then
      valid_file env fs c path try_load
    else valid_loop env fs c path try_load rest

/-- The function `rspamd_re_cache_is_valid_hyperscan_file`; `silent` only
chooses what is logged and is left out. The first test compares the length of
the path with the size of an `int`. -/
def rspamd_re_cache_is_valid_hyperscan_file (env : HsEnv) (fs : Files) (c : rspamd_re_cache)
    (path : List Nat) (try_load : Bool) : Except Fault Bool :=
  if path.length < 4 then .ok false
  else if path.drop (path.length - 3) ≠ [46, 104, 115] then .ok false
  else valid_loop env fs c path try_load c.re_classes

/-- The ids of a mapped class file, the array `hs_ids` after the `memcpy`. -/
def file_ids (env : HsEnv) (f : List Nat) : List Int :=
  (List.range (file_n env f).toNat).map (fun i => to_gint (word_at f (ids_off env + 4 * i)))

/-- The flags of a mapped class file, the array `hs_flags` after the
`memcpy`. -/
def file_flags (env : HsEnv) (f : List Nat) : List Nat :=
  (List.range (file_n env f).toNat).map
    (fun i => word_at f (ids_off env + 4 * (file_n env f).toNat + 4 * i))

/-- The match type `rspamd_re_cache_load_hyperscan` gives an element for the
flags stored with its id. -/
def match_type_of (env : HsEnv) (fl : Nat) : rspamd_re_cache_elt_match_type :=
  if fl &&& env.HS_FLAG_PREFILTER ≠ 0 then .RSPAMD_RE_CACHE_HYPERSCAN_PRE
  else .RSPAMD_RE_CACHE_HYPERSCAN

/-- The last loop of `rspamd_re_cache_load_hyperscan` for one class: every id
of the file must index `cache->re`, and the element there gets the match type
for the flags at the same position. -/
def mark_ids (env : HsEnv) :
    List rspamd_re_cache_elt → List (Int × Nat) → Except Fault (List rspamd_re_cache_elt)
  | re, [] => .ok re
  | re, (id, fl) :: rest =>
    if (re.length : Int) > id ∧ id ≥ 0 then
      match re[id.toNat]? with
      | none => .error .out_of_bounds
      | some elt =>
        mark_ids env (re.set id.toNat { elt with match_type := match_type_of env fl }) rest
    else .error .assertion

/-- The body of the loop of `rspamd_re_cache_load_hyperscan` for one class:
whether the class was loaded, the class object and `cache->re` afterwards. A
class that was loaded before is taken to have no ids left (`nhs` is not reset
with `hs_ids`). When the check of the count passes but the file ends before
the end of the checksum, `end - p` wraps. -/
def load_class (env : HsEnv) (fs : Files) (dir : List Nat) (c : rspamd_re_cache)
    (cl : rspamd_re_class) : Except Fault (Bool × rspamd_re_class × List rspamd_re_cache_elt) :=
  match rspamd_re_cache_is_valid_hyperscan_file env fs c (class_path env dir cl) false with
  | .error f => .error f
  | .ok false => .ok (false, cl, c.re)
  | .ok true =>
    match fs (class_path env dir cl) with
    | none => .error .assertion
    | some f =>
      if bad_count env f then .ok (false, cl, c.re)
      else if ids_off env + 8 * (file_n env f).toNat + 8 > f.length then .error .out_of_bounds
      else
        match env.hs_deserialize_database (file_blob env f) with
        | none =>
          .ok (false, { cl with hs_ids := [], hs_scratch := none, hs_db := none }, c.re)
        | some db =>
          match env.hs_alloc_scratch db with
          | none => .error .assertion
          | some scratch =>
            match mark_ids env c.re ((file_ids env f).zip (file_flags env f)) with
            | .error e => .error e
            | .ok re1 =>
              .ok (true,
                { cl with hs_ids := (file_ids env f).map Int.toNat, hs_scratch := some scratch,
                          hs_db := some db },
                re1)

/-- The loop of `rspamd_re_cache_load_hyperscan` over the classes: `pre` are
the classes already loaded; the first class that cannot be loaded ends the
call, and after the last class `hyperscan_loaded` is set. -/
def load_loop (env : HsEnv) (fs : Files) (dir : List Nat) :
    rspamd_re_cache → List rspamd_re_class → List rspamd_re_class →
      Except Fault (Bool × rspamd_re_cache)
  | c, _, [] => .ok (true, { c with hyperscan_loaded := true })
  | c, pre, cl :: rest =>
    match load_class env fs dir c cl with
    | .error f => .error f
    | .ok (loaded, cl1, re1) =>
      if loaded then
        load_loop env fs dir { c with re_classes := pre ++ cl1 :: rest, re := re1 }
          (pre ++ [cl1]) rest
      else .ok (false, { c with re_classes := pre ++ cl1 :: rest, re := re1 })

/-- The function `rspamd_re_cache_load_hyperscan`. -/
def rspamd_re_cache_load_hyperscan (env : HsEnv) (fs : Files) (c : rspamd_re_cache)
    (dir : List Nat) : Except Fault (Bool × rspamd_re_cache) :=
  load_loop env fs dir c [] c.re_classes

/-- The polling loop of `rspamd_re_cache_is_finite`,
`while ((rc = waitpid (...)) == 0 && tries ++ < max_tries) nanosleep (...)`:
`k` is what is left of `max_tries` and `tries` the number of sleeps so far;
the result is the last answer of `waitpid` and the number of sleeps. -/
def wait_loop (poll : Nat → WaitStatus) : Nat → Nat → WaitStatus × Nat
  | 0, tries => (poll tries, tries)
  | k + 1, tries =>
    match poll tries with
    | .running => wait_loop poll k (tries + 1)
    | st => (st, tries)

/-- The function `rspamd_re_cache_is_finite` (bounded compile probe) for the
pattern of the expression at `re` and the flags `flags`: the child is polled
at most `max_tries = 10` times with a sleep in between, and the probe succeeds
when a poll finds that the child exited with success status. The `fork` and
the reaping of a killed child are taken to succeed. -/
def rspamd_re_cache_is_finite (env : HsEnv) (re flags : Nat) : Bool :=
  match (wait_loop (env.child_wait re flags) 10 0).1 with
  | .exited_success => true
  | _ => false

/-- The prefilter flags `rspamd_re_cache_compile_hyperscan` derives from the
accurate flags and the hit limit of an expression. -/
def hs_flags_of (env : HsEnv) (r : rspamd_regexp_t) : Nat :=
  (if r.pcre_flags &&& env.PCRE_UTF8 ≠ 0 then env.HS_FLAG_UTF8 else 0) |||
  (if r.pcre_flags &&& env.PCRE_CASELESS ≠ 0 then env.HS_FLAG_CASELESS else 0) |||
  (if r.pcre_flags &&& env.PCRE_MULTILINE ≠ 0 then env.HS_FLAG_MULTILINE else 0) |||
  (if r.pcre_flags &&& env.PCRE_DOTALL ≠ 0 then env.HS_FLAG_DOTALL else 0) |||
  (if r.maxhits = 1 then env.HS_FLAG_SINGLEMATCH else 0)

/-- The inner loop of `rspamd_re_cache_compile_hyperscan` over the table of a
class: the expressions admitted to the database of the class, each with its
cache id as stored in the 32-bit array `hs_ids`, its prefilter flags and its
address (for the pattern). An expression flagged for the accurate engine only
is skipped; one that compiles alone is admitted; one that does not is
admitted with the approximation flag when the compile probe succeeds. -/
def collect_patterns (env : HsEnv) (s : State) : List (Nat × Nat) → List (Nat × Nat × Nat)
  | [] => []
  | (_, re) :: rest =>
    if (s.heap re).flags &&& env.RSPAMD_REGEXP_FLAG_PCRE_ONLY ≠ 0 then
      collect_patterns env s rest
    else if env.hs_compile re (hs_flags_of env (s.heap re)) s.cache.vectorized_hyperscan then
      ((s.heap re).cache_id % 4294967296, hs_flags_of env (s.heap re), re) ::
        collect_patterns env s rest
    else if rspamd_re_cache_is_finite env re (hs_flags_of env (s.heap re)) then
      ((s.heap re).cache_id % 4294967296,
        hs_flags_of env (s.heap re) ||| env.HS_FLAG_PREFILTER, re) ::
        collect_patterns env s rest
    else collect_patterns env s rest

/-- The seven parts `writev` writes, in order: magic, platform tag, the count
as a 32-bit word, the id bytes, the flag bytes, the checksum as a 64-bit word
and the serialized database. -/
def file_layout (magic plt : List Nat) (n : Nat) (ids flags : List Nat) (crc : Nat)
    (blob : List Nat) : List Nat :=
  magic ++ plt ++ le_bytes 4 n ++ ids ++ flags ++ le_bytes 8 crc ++ blob

/-- The bytes of the array `hs_ids` of the compiler: the cache ids of the
admitted expressions as 32-bit words. -/
def ids_bytes (pats : List (Nat × Nat × Nat)) : List Nat :=
  (pats.map (fun t => le_bytes 4 t.1)).flatten

/-- The bytes of the array `hs_flags` of the compiler. -/
def flags_bytes (pats : List (Nat × Nat × Nat)) : List Nat :=
  (pats.map (fun t => le_bytes 4 t.2.1)).flatten

/-- The bytes `writev` writes for a class: magic of the mode, platform tag,
the count, the ids and the flags, the checksum over the id bytes, the flag
bytes and the serialized database, and the database. -/
def class_file_bytes (env : HsEnv) (vectorized : Bool) (pats : List (Nat × Nat × Nat))
    (blob : List Nat) : List Nat :=
  file_layout (if vectorized then rspamd_hs_magic_vector else rspamd_hs_magic) env.plt
    pats.length (ids_bytes pats) (flags_bytes pats)
    (env.fast_hash [ids_bytes pats, flags_bytes pats, blob]) blob

/-- The body of the loop of `rspamd_re_cache_compile_hyperscan` for one class:
`none` when the call returns -1, otherwise the number of expressions compiled
for the class; and the files afterwards. A class with a valid file is
skipped. The temporary file is created with `O_EXCL`, unlinked when the
database cannot be built or serialized, and renamed to the file of the class
otherwise, also when no expression was admitted and it is empty. The calls
`writev` and `rename` are taken to succeed. -/
def compile_class (env : HsEnv) (s : State) (dir : List Nat) (fs : Files)
    (cl : rspamd_re_class) : Except Fault (Option Nat × Files) :=
  match rspamd_re_cache_is_valid_hyperscan_file env fs s.cache (class_path env dir cl) true with
  | .error f => .error f
  | .ok true => .ok (some 0, fs)
  | .ok false =>
    if (fs (class_tmp_path env dir cl)).isSome then .ok (none, fs)
    else
      let fs1 := Function.update fs (class_tmp_path env dir cl) (some [])
      let pats := collect_patterns env s cl.re
      if pats.length > 0 then
        match env.hs_compile_multi pats s.cache.vectorized_hyperscan with
        | none => .ok (none, Function.update fs1 (class_tmp_path env dir cl) none)
        | some db =>
          match env.hs_serialize_database db with
          | none => .ok (none, Function.update fs1 (class_tmp_path env dir cl) none)
          | some blob =>
            .ok (some pats.length,
              Function.update (Function.update fs1 (class_tmp_path env dir cl) none)
                (class_path env dir cl)
                (some (class_file_bytes env s.cache.vectorized_hyperscan pats blob)))
      else
        .ok (some 0,
          Function.update (Function.update fs1 (class_tmp_path env dir cl) none)
            (class_path env dir cl) (some []))

/-- The loop of `rspamd_re_cache_compile_hyperscan` over the classes, with
the running `total`: -1 as soon as a class fails, the total after the last
class. -/
def compile_loop (env : HsEnv) (s : State) (dir : List Nat) :
    Files → Nat → List rspamd_re_class → Except Fault (Int × Files)
  | fs, total, [] => .ok ((total : Int), fs)
  | fs, total, cl :: rest =>
    match compile_class env s dir fs cl with
    | .error f => .error f
    | .ok (none, fs1) => .ok (-1, fs1)
    | .ok (some n, fs1) => compile_loop env s dir fs1 (total + n) rest

/-- The function `rspamd_re_cache_compile_hyperscan`; `max_time` is the time
allowed to the compile probe, whose outcome is a primitive, and `silent` only
chooses what is logged. -/
def rspamd_re_cache_compile_hyperscan (env : HsEnv) (s : State) (fs : Files)
    (dir : List Nat) : Except Fault (Int × Files) :=
  compile_loop env s dir fs 0 s.cache.re_classes

/-- An example environment. The platform tag has two bytes and a class hash
two characters, a letter for the sum of the words and one for their number;
the checksum is the sum of the bytes; a serialized database is the byte 7
followed by the handle. A pattern compiles alone unless its address is 5 or
15; the probe for the pattern at address 5 succeeds at the third poll, any
other child never exits; a database cannot be built from a set with the
pattern at address 6. The flag constants have their values in the headers. -/
def env0 : HsEnv :=
  { plt := [1, 2],
    HASHBYTES := 2,
    hash_hex := fun w => [97 + w.sum % 26, 97 + w.length % 26],
    fast_hash := fun chunks => (chunks.map List.sum).sum,
    hs_deserialize_database := fun blob =>
      match blob with
      | [7, db] => some db
      | _ => none,
    hs_alloc_scratch := fun db => some db,
    hs_compile := fun re _ _ => re ≠ 5 ∧ re ≠ 15,
    hs_compile_multi := fun pats _ =>
      if pats.any (fun t => t.2.2 == 6) then none else some pats.length,
    hs_serialize_database := fun db => some [7, db],
    child_wait := fun re _ i => if re = 5 ∧ i ≥ 2 then .exited_success else .running,
    HS_FLAG_CASELESS := 1,
    HS_FLAG_DOTALL := 2,
    HS_FLAG_MULTILINE := 4,
    HS_FLAG_SINGLEMATCH := 8,
    HS_FLAG_UTF8 := 32,
    HS_FLAG_PREFILTER := 128,
    PCRE_UTF8 := 2048,
    PCRE_CASELESS := 1,
    PCRE_MULTILINE := 2,
    PCRE_DOTALL := 4,
    RSPAMD_REGEXP_FLAG_PCRE_ONLY := 16 }

/-- An empty cache directory. -/
def fs0 : Files := fun _ => none

/-- The example cache directory `d`. -/
def dir0 : List Nat := [100]

/-- The example memory `s123` after finalize. -/
def s123_init : State :=
  match rspamd_re_cache_init s123 cfg0 with
  | .ok s => s
  | .error _ => s123

/-- The files after compile, or the files as they were when the call
aborted. -/
def files_after_compile (env : HsEnv) (s : State) (fs : Files) (dir : List Nat) : Files :=
  match rspamd_re_cache_compile_hyperscan env s fs dir with
  | .ok out => out.2
  | .error _ => fs

/-- The file of a class passes what `rspamd_re_cache_load_hyperscan` checks:
the validation without `try_load` (file name, magic, platform tag), the check
of the count, and `hs_deserialize_database`. -/
def class_loads (env : HsEnv) (fs : Files) (dir : List Nat) (c : rspamd_re_cache)
    (cl : rspamd_re_class) : Prop :=
  rspamd_re_cache_is_valid_hyperscan_file env fs c (class_path env dir cl) false = .ok true ∧
  ∃ f, fs (class_path env dir cl) = some f ∧ ¬ bad_count env f ∧
    (env.hs_deserialize_database (file_blob env f)).isSome = true

/-- Nothing makes `rspamd_re_cache_load_hyperscan` abort at a class: the path
of its file is long enough to hold a class hash, and a file there that passes
the check of the count holds the whole checksum, has ids that index
`cache->re`, and a database for which scratch space can be allocated. -/
def class_safe (env : HsEnv) (fs : Files) (dir : List Nat) (c : rspamd_re_cache)
    (cl : rspamd_re_class) : Prop :=
  3 + env.HASHBYTES ≤ (class_path env dir cl).length ∧
  ∀ f, fs (class_path env dir cl) = some f → ¬ bad_count env f →
    ids_off env + 8 * (file_n env f).toNat + 8 ≤ f.length ∧
    (∀ db, env.hs_deserialize_database (file_blob env f) = some db →
      (env.hs_alloc_scratch db).isSome = true) ∧
    ∀ id ∈ file_ids env f, 0 ≤ id ∧ id < (c.re.length : Int)

/-- The cache directory after the compiler has run for `s123_init` on the
empty directory. -/
def fs_compiled : Files := files_after_compile env0 s123_init fs0 dir0

/-- The ids of the file of a class in the cache directory, each with the flags
at the same position; nothing without a file. -/
def class_entries (env : HsEnv) (fs : Files) (dir : List Nat) (cl : rspamd_re_class) :
    List (Int × Nat) :=
  match fs (class_path env dir cl) with
  | some f => (file_ids env f).zip (file_flags env f)
  | none => []

/-- The ids of the files of all classes of a cache, with their flags, in the
order of the classes. -/
def dir_entries (env : HsEnv) (fs : Files) (dir : List Nat) (c : rspamd_re_cache) :
    List (Int × Nat) :=
  c.re_classes.flatMap (class_entries env fs dir)

/-- A class file that lists the id 0 twice, first with the approximation flag
and then without; its checksum is right. -/
def file_twice : List Nat :=
  [114, 115, 104, 115, 114, 101, 49, 49, 1, 2, 2, 0, 0, 0, 0, 0, 0, 0, 0, 0, 0, 0,
   128, 0, 0, 0, 0, 0, 0, 0, 136, 0, 0, 0, 0, 0, 0, 0, 7, 1]

/-- The cache directory after the compiler has run for `s123_init`, with the
file of the header class replaced by `file_twice`. -/
def fs_twice : Files :=
  Function.update fs_compiled [100, 47, 107, 103, 46, 104, 115] (some file_twice)

/-- An example heap like `heap0` in which the expression at address 4 is
flagged for the accurate engine only. -/
def heap1 (p : Nat) : rspamd_regexp_t :=
  { heap0 p with flags := if p = 4 then 16 else 0 }

/-- The memory after a sequence of registry calls, or the memory as it was
when a call aborted. -/
def after_ops (fh : List Nat → Nat) (s : State) (ops : List Op) : State :=
  match run_ops fh s ops with
  | .ok s1 => s1
  | .error _ => s

/-- The example cache with one class, for the whole message, whose only
expression is the one at address 4, finalized. -/
def s4 : State :=
  after_ops fh0 { heap := heap1, cache := rspamd_re_cache_new }
    [.add 4 .RSPAMD_RE_BODY [] 0, .init cfg0]

/-- The example cache with the class of the header `[84]`, which holds the
expression at address 6, and the class of the whole message, which holds the
expression at address 2, finalized. -/
def s62 : State :=
  after_ops fh0 s0 [.add 6 .RSPAMD_RE_HEADER [84] 1, .add 2 .RSPAMD_RE_BODY [] 0, .init cfg0]

/-- The example cache with the expression at address 1 registered for the
header `[83]` and the expressions at addresses 2 and 4 for the whole message,
finalized; the expression at address 4 is flagged for the accurate engine
only. -/
def s124 : State :=
  after_ops fh0 { heap := heap1, cache := rspamd_re_cache_new }
    [.add 1 .RSPAMD_RE_HEADER [83] 1, .add 2 .RSPAMD_RE_BODY [] 0, .add 4 .RSPAMD_RE_BODY [] 0,
     .init cfg0]

/-- The cache after a load, or the cache as it was when the call aborted. -/
def cache_after_load (env : HsEnv) (fs : Files) (c : rspamd_re_cache) (dir : List Nat) :
    rspamd_re_cache :=
  match rspamd_re_cache_load_hyperscan env fs c dir with
  | .ok out => out.2
  | .error _ => c

/-- The example memory `s124` after the compiler has run on the empty
directory and the files it wrote have been loaded. -/
def s124_loaded : State :=
  { heap := s124.heap,
    cache := cache_after_load env0 (files_after_compile env0 s124 fs0 dir0) s124.cache dir0 }

/-- Example primitives with a prefilter that reports the id 1 once when it
scans the body of the example message and nothing otherwise. -/
def px_body : Primitives :=
  { regexp_search := fun _ input _ => input.count 110,
    hs_scan := fun _ sl =>
      if sl = task0.msg then ([{ id := 1, from_off := 0, to_off := 1, flags := 0 }], true)
      else ([], true),
    hs_scan_vector := fun _ ins =>
      if ins = [task0.msg] then ([{ id := 1, from_off := 0, to_off := 1, flags := 0 }], true)
      else ([], true),
    g_utf8_validate := fun _ => true }

/-- The file the compiler writes for a class when the database of the class
can be built and serialized. -/
def compiled_file (env : HsEnv) (s : State) (cl : rspamd_re_class) : Option (List Nat) :=
  match env.hs_compile_multi (collect_patterns env s cl.re) s.cache.vectorized_hyperscan with
  | none => none
  | some db =>
    (env.hs_serialize_database db).map
      (class_file_bytes env s.cache.vectorized_hyperscan (collect_patterns env s cl.re))

/-- A cache for which compile and load work in a row: the classes have
pairwise different file paths and printed hashes of full length; every class
has an expression admitted to its database, with cache ids that index
`cache->re`; and for every class the library builds the database, serializes
it, reads it back and allocates scratch space. -/
structure RoundTrip (env : HsEnv) (s : State) (dir : List Nat) : Prop where
  paths : (s.cache.re_classes.map (class_path env dir)).Nodup
  hash_len : ∀ cl ∈ s.cache.re_classes, (hash_buf env cl).length = env.HASHBYTES
  hash_nz : ∀ cl ∈ s.cache.re_classes, ∀ b ∈ hash_buf env cl, b ≠ 0
  admitted : ∀ cl ∈ s.cache.re_classes, 0 < (collect_patterns env s cl.re).length ∧
    (collect_patterns env s cl.re).length < 2147483648
  ids : ∀ cl ∈ s.cache.re_classes, ∀ t ∈ collect_patterns env s cl.re,
    t.1 < s.cache.re.length ∧ t.1 < 2147483648
  built : ∀ cl ∈ s.cache.re_classes, ∃ db blob db1,
    env.hs_compile_multi (collect_patterns env s cl.re) s.cache.vectorized_hyperscan = some db ∧
    env.hs_serialize_database db = some blob ∧
    env.hs_deserialize_database blob = some db1 ∧
    (env.hs_alloc_scratch db1).isSome = true

/-! ## The compile probe, step by step -/

/-- What the parent does in `rspamd_re_cache_is_finite` once the child runs:
the value returned, the number of calls of `nanosleep`, and whether the child
was killed with `SIGKILL` and reaped by the blocking `waitpid`. -/
structure ProbeRun where
  result : Bool
  sleeps : Nat
  killed : Bool
  deriving DecidableEq, Repr

/-- The parent branch of `rspamd_re_cache_is_finite` for the successive
answers `poll` of `waitpid`: the polling loop with `max_tries = 10`, then the
test of the status under `rc > 0`, or the branch that takes any other answer
for a timeout, kills the child and reaps it. -/
def probe_run (poll : Nat → WaitStatus) : ProbeRun :=
  match wait_loop poll 10 0 with
  | (.exited_success, n) => { result := true, sleeps := n, killed := false }
  | (.terminated, n) => { result := false, sleeps := n, killed := false }
  | (.running, n) => { result := false, sleeps := n, killed := true }
  | (.error, n) => { result := false, sleeps := n, killed := true }

/-- The value `wait_time = max_time / max_tries`, the length of one sleep; the
`gdouble` is taken for the rational number it stands for. -/
def wait_time (max_time : ℚ) : ℚ := max_time / 10

/-- The time a run of the probe spends in `nanosleep`, every sleep lasting
`wait_time`. -/
def probe_waited (max_time : ℚ) (r : ProbeRun) : ℚ := r.sleeps * wait_time max_time

/-- The example memory `s12`, whose cache holds two expressions, after a
second cache has been filled over the same heap with the expressions at
addresses 4 and 5 for the whole message, the one at address 3 for the whole
message and the one at address 6 for the header `[83]`: the cache is that of
`s12`, and the expressions at addresses 3 and 6 carry the cache ids 2 and 3 of
the second cache. -/
def s12_foreign : State :=
  { heap := (register_all fh0 { heap := s12.heap, cache := rspamd_re_cache_new }
      [{ re := 4, type := .RSPAMD_RE_BODY, type_data := [], datalen := 0 },
       { re := 5, type := .RSPAMD_RE_BODY, type_data := [], datalen := 0 },
       { re := 3, type := .RSPAMD_RE_BODY, type_data := [], datalen := 0 },
       { re := 6, type := .RSPAMD_RE_HEADER, type_data := [83], datalen := 1 }]).heap,
    cache := s12.cache }

/-- The example memory `s12` after a second cache has been filled over the
same heap with the expression at address 4 for the whole message, the one at
address 5 for the header `[83]` and the one at address 3 for the whole
message, which so carries the cache id 2 of the second cache. -/
def s12_header_foreign : State :=
  { heap := (register_all fh0 { heap := s12.heap, cache := rspamd_re_cache_new }
      [{ re := 4, type := .RSPAMD_RE_BODY, type_data := [], datalen := 0 },
       { re := 3, type := .RSPAMD_RE_BODY, type_data := [], datalen := 0 },
       { re := 5, type := .RSPAMD_RE_HEADER, type_data := [83], datalen := 1 }]).heap,
    cache := s12.cache }

/-- A class file of 26 bytes for the example environment: magic, platform
tag, the count 1, one id, one flag word, and only the first four bytes of the
checksum. -/
def file_short : List Nat :=
  [114, 115, 104, 115, 114, 101, 49, 49, 1, 2, 1, 0, 0, 0, 0, 0, 0, 0,
   0, 0, 0, 0, 0, 0, 0, 0]

/-- The cache directory after the compiler has run for `s123_init`, with the
file of the header class replaced by `file_short`. -/
def fs_short : Files :=
  Function.update fs_compiled [100, 47, 107, 103, 46, 104, 115] (some file_short)

/-! ## Slice vectors of the text parts -/

/-- The slice the claim about the `RSPAMD_RE_MIME` and `RSPAMD_RE_RAWMIME`
kinds names for one text part, as amended: the empty slice for an empty part,
otherwise the original bytes of the part for `RSPAMD_RE_RAWMIME` and its
decoded content for `RSPAMD_RE_MIME`. -/
def part_slice (type : rspamd_re_type) (part : rspamd_mime_text_part) : Slice :=
  if part.is_empty then Slice.empty
  else array_slice (if type = .RSPAMD_RE_RAWMIME then part.orig else part.content)

/-- Whether a text part switches the scan to raw mode: a part that is not
empty does, for `RSPAMD_RE_RAWMIME` always and otherwise when it is not
UTF-8. -/
def part_raw (type : rspamd_re_type) (part : rspamd_mime_text_part) : Bool :=
  ! part.is_empty && (decide (type = .RSPAMD_RE_RAWMIME) || ! part.is_utf)

/-- The number of bytes the accurate matcher scans of one slice: none for a
null pointer, otherwise the clipped length. -/
def slice_scan_len (c : State) (sl : Slice) : Nat :=
  match sl.data with
  | none => 0
  | some input => pcre_scan_len c.cache.max_re_data sl input

/-- A matcher for examples: the number of places of the input at which the
bytes `pat` stand. -/
def count_occ (pat : List Nat) : List Nat → Nat
  | [] => 0
  | b :: l => (if (b :: l).take pat.length = pat then 1 else 0) + count_occ pat l

/-- A text part that is not empty, is valid UTF-8 and has the same bytes as
original, decoded and stripped content. -/
def text_part (bytes : List Nat) : rspamd_mime_text_part :=
  { is_empty := false, is_utf := true, orig := some bytes, content := some bytes,
    stripped_content := some bytes }

/-- An empty text part: the flag behind `IS_PART_EMPTY` is set and the part
has no content. -/
def empty_part : rspamd_mime_text_part :=
  { is_empty := true, is_utf := true, orig := none, content := none, stripped_content := none }

/-- A message with the given Subject headers and text parts and nothing
else. -/
def task_of_parts (subject : List raw_header) (parts : List rspamd_mime_text_part) :
    rspamd_task :=
  { get_header_array := fun name _ => if name = subject_name then subject else [],
    get_mime_header_array := fun _ _ => [],
    get_header := fun name _ => if name = subject_name then subject else [],
    raw_headers_content := { data := some [], len := 0 },
    text_parts := parts,
    urls := [],
    emails := [],
    msg := { data := some [], len := 0 } }

/-- The bytes of `needle`. -/
def needle : List Nat := [110, 101, 101, 100, 108, 101]

/-- The bytes of `xx needle yy`. -/
def xx_needle_yy : List Nat := [120, 120, 32, 110, 101, 101, 100, 108, 101, 32, 121, 121]

/-- The message of scenario E2: two text parts with the original bytes
`xx needle yy` and `zz`. -/
def task_e2 : rspamd_task := task_of_parts [] [text_part xx_needle_yy, text_part [122, 122]]

/-- A configuration with the prefilter disabled. -/
def cfg_off : rspamd_config := { disable_hyperscan := true, vectorized_hyperscan := false }

/-- The cache of scenario E2: the expression at address 3, which has no hit
limit, registered for `RSPAMD_RE_RAWMIME`, finalized with the prefilter
disabled. -/
def s_e2 : State := after_ops fh0 s0 [.add 3 .RSPAMD_RE_RAWMIME [] 0, .init cfg_off]

/-- Example primitives whose accurate matcher counts the occurrences of
`needle`. -/
def px_needle : Primitives :=
  { regexp_search := fun _ input _ => count_occ needle input,
    hs_scan := fun _ _ => ([], true),
    hs_scan_vector := fun _ _ => ([], true),
    g_utf8_validate := fun _ => true }

/-- Example primitives whose accurate matcher finds one match in every input,
the empty one included. -/
def px_any : Primitives :=
  { regexp_search := fun _ _ _ => 1,
    hs_scan := fun _ _ => ([], true),
    hs_scan_vector := fun _ _ => ([], true),
    g_utf8_validate := fun _ => true }

/-- A message with an empty text part followed by a text part with the one
byte `a`. -/
def task_gap : rspamd_task := task_of_parts [] [empty_part, text_part [97]]

/-- A message whose only text part is empty. -/
def task_all_empty : rspamd_task := task_of_parts [] [empty_part]

/-- The bytes of `Great offer`. -/
def great_offer : List Nat := [71, 114, 101, 97, 116, 32, 111, 102, 102, 101, 114]

/-- The message of scenario E3: the Subject `Great offer` and one text part
without bytes. -/
def task_e3 : rspamd_task :=
  task_of_parts [{ value := great_offer, decoded := some great_offer }] [text_part []]

/-- The cache of scenario E3: the expression at address 3 registered for
`RSPAMD_RE_SABODY`, finalized. -/
def s_e3 : State := after_ops fh0 s0 [.add 3 .RSPAMD_RE_SABODY [] 0, .init cfg0]

/-- Example primitives whose accurate matcher counts the occurrences of
`Great offer`. -/
def px_offer : Primitives :=
  { regexp_search := fun _ input _ => count_occ great_offer input,
    hs_scan := fun _ _ => ([], true),
    hs_scan_vector := fun _ _ => ([], true),
    g_utf8_validate := fun _ => true }

/-- The class of the cache of scenario E2 after finalize. -/
def cl_e2 : rspamd_re_class :=
  { id := 5, type := .RSPAMD_RE_RAWMIME, type_data := [], type_len := 0, re := [(3, 3)],
    hash := some [5, 3, 0, 0, 0, 1], st := none, hs_db := none, hs_scratch := none,
    hs_ids := [] }

/-! ## Two configurations and one cache directory -/

/-- The first example configuration: the expressions at addresses 2 and 7
registered for the whole message, the one at address 4 for the header `[83]`,
finalized. -/
def s_conf_a : State :=
  after_ops fh0 s0 [.add 2 .RSPAMD_RE_BODY [] 0, .add 7 .RSPAMD_RE_BODY [] 0,
    .add 4 .RSPAMD_RE_HEADER [83] 1, .init cfg0]

/-- The second example configuration: as the first, with the expression at
address 8 in place of the one at address 4 for the header `[83]`. -/
def s_conf_b : State :=
  after_ops fh0 s0 [.add 2 .RSPAMD_RE_BODY [] 0, .add 7 .RSPAMD_RE_BODY [] 0,
    .add 8 .RSPAMD_RE_HEADER [83] 1, .init cfg0]

/-- The cache directory after the compiler has run for the first
configuration on the empty directory and then for the second one. -/
def fs_conf_ab : Files :=
  files_after_compile env0 s_conf_b (files_after_compile env0 s_conf_a fs0 dir0) dir0

/-- The second configuration after the files of `fs_conf_ab` have been
loaded. -/
def s_conf_b_loaded : State :=
  { heap := s_conf_b.heap, cache := cache_after_load env0 fs_conf_ab s_conf_b.cache dir0 }

/-- Example primitives for the databases of `fs_conf_ab`: the database with
the handle 2, built for the whole-message class of the first configuration,
reports its second pattern, to which that configuration gave the id 2, once
for every scan; the other databases report nothing. -/
def px_conf : Primitives :=
  { regexp_search := fun _ input _ => input.count 110,
    hs_scan := fun db _ =>
      if db = 2 then ([{ id := 2, from_off := 0, to_off := 1, flags := 0 }], true) else ([], true),
    hs_scan_vector := fun db _ =>
      if db = 2 then ([{ id := 2, from_off := 0, to_off := 1, flags := 0 }], true) else ([], true),
    g_utf8_validate := fun _ => true }

/-! ## The re-check of an approximate expression -/

/-- The slices the claim about the prefilter callback names for the end offset
`to_off`: the slices of the vector up to and including the first one with
which the sum of the lengths (a 32-bit counter, `processed` so far) covers
`to_off`, or all slices when none does. -/
def recheck_span (to_off : Nat) : List Slice → Nat → List Slice
  | [], _ => []
  | sl :: rest, processed =>
    if (processed + sl.len) % 4294967296 ≥ to_off then [sl]
    else sl :: recheck_span to_off rest ((processed + sl.len) % 4294967296)

/-- The accurate re-check of the expression at `re`, with the cache id `id`,
over a list of slices: every slice goes to `rspamd_re_cache_process_pcre` in
non-raw mode, the count is stored as the result of `id` and the bit of `id`
is set. -/
def recheck_slices (px : Primitives) (c : State) (re id : Nat) :
    List Slice → rspamd_re_runtime → rspamd_re_runtime
  | [], rt => rt
  | sl :: rest, rt =>
    recheck_slices px c re id rest
      { (rspamd_re_cache_process_pcre px c rt re sl false).2 with
        results := Function.update (rspamd_re_cache_process_pcre px c rt re sl false).2.results id
          ((rspamd_re_cache_process_pcre px c rt re sl false).1 % 256),
        checked := Function.update (rspamd_re_cache_process_pcre px c rt re sl false).2.checked
          id true }

/-- A configuration with the prefilter in vectored mode. -/
def cfg_vec : rspamd_config := { disable_hyperscan := false, vectorized_hyperscan := true }

/-- The memory after registering the expression at address 5 for
`RSPAMD_RE_RAWMIME`, finalizing with the configuration `cfg`, compiling on the
empty directory and loading the files. In the example environment the
pattern at address 5 does not compile alone and its compile probe succeeds,
so it is admitted as an approximation. -/
def s_approx (cfg : rspamd_config) : State :=
  { heap := (after_ops fh0 s0 [.add 5 .RSPAMD_RE_RAWMIME [] 0, .init cfg]).heap,
    cache := cache_after_load env0
      (files_after_compile env0 (after_ops fh0 s0 [.add 5 .RSPAMD_RE_RAWMIME [] 0, .init cfg])
        fs0 dir0)
      (after_ops fh0 s0 [.add 5 .RSPAMD_RE_RAWMIME [] 0, .init cfg]).cache dir0 }

/-- A message with two text parts, `zz` and `xx needle yy`. -/
def task_needle_second : rspamd_task :=
  task_of_parts [] [text_part [122, 122], text_part xx_needle_yy]

/-- Example primitives for `task_needle_second`: the accurate matcher counts
the occurrences of `needle`; a block-mode scan reports the id 0 with the end
offset 9 for the slice `xx needle yy` and nothing for other slices; a
vectored scan of the two slices reports the id 0 with the end offset 11, in
the second slice. -/
def px_vec : Primitives :=
  { regexp_search := fun _ input _ => count_occ needle input,
    hs_scan := fun _ sl =>
      if sl.data = some xx_needle_yy then ([{ id := 0, from_off := 3, to_off := 9, flags := 0 }], true)
      else ([], true),
    hs_scan_vector := fun _ _ => ([{ id := 0, from_off := 5, to_off := 11, flags := 0 }], true),
    g_utf8_validate := fun _ => true }

/-! ## Expressions `replace` accepts -/

/-- The table of the class `k` has an entry under the content id `i`. -/
def has_key (cs : List rspamd_re_class) (k i : Nat) : Prop :=
  ∃ cl, class_lookup cs k = some cl ∧ (re_lookup cl.re i).isSome = true

/-- Every expression with a class has a cache id that indexes `cache->re`,
and the table of its class has an entry under its content id. -/
def ReplInv (s : State) : Prop :=
  ∀ p k, (s.heap p).re_class = some k →
    (s.heap p).cache_id < s.cache.re.length ∧ has_key s.cache.re_classes k (s.heap p).id

/-- An `add` call, or a `replace` call whose two expressions have the same
content id, for expression objects with the content ids of the heap `h0`. -/
def Op.same_ids (h0 : Nat → rspamd_regexp_t) : Op → Prop
  | .add _ _ _ _ => True
  | .replace what with_re => (h0 with_re).id = (h0 what).id
  | .init _ => False

/-! ## Caches made by finalize, compile and load -/

/-- The memory `s` with the cache as a load of the files that the compiler
writes for it on the empty directory leaves it. -/
def compiled_loaded (env : HsEnv) (s : State) (dir : List Nat) : State :=
  { heap := s.heap,
    cache := cache_after_load env (files_after_compile env s fs0 dir) s.cache dir }

/-- The example memory `s123_init` after compile and load. -/
def s123_loaded : State := compiled_loaded env0 s123_init dir0

/-- An example in which the expression object at address 1 is registered for
the header `[83]` and for the whole message: the objects at addresses 1 and 3
for the header, those at addresses 1 and 2 for the whole message, finalized,
compiled and loaded. -/
def s_alias : State :=
  compiled_loaded env0
    (after_ops fh0 s0 [.add 1 .RSPAMD_RE_HEADER [83] 1, .add 3 .RSPAMD_RE_HEADER [83] 1,
      .add 1 .RSPAMD_RE_BODY [] 0, .add 2 .RSPAMD_RE_BODY [] 0, .init cfg0]) dir0

/-- Example primitives for the databases of `s123_loaded`: the database with
the handle 2, that of the whole-message class, reports the id 1 once for every
scan; the other databases report nothing. -/
def px_loaded : Primitives :=
  { regexp_search := fun _ input _ => input.count 110,
    hs_scan := fun db _ =>
      if db = 2 then ([{ id := 1, from_off := 0, to_off := 1, flags := 0 }], true) else ([], true),
    hs_scan_vector := fun db _ =>
      if db = 2 then ([{ id := 1, from_off := 0, to_off := 1, flags := 0 }], true) else ([], true),
    g_utf8_validate := fun _ => true }

/-- A message with one text part `a` whose Subject header has no decoded
value. -/
def task_null_subject : rspamd_task :=
  task_of_parts [{ value := [], decoded := none }] [text_part [97]]

/-- Every entry of the content-id table of a class holds an expression whose
class is that class and whose cache id indexes `cache->re`. -/
def TableInv (s : State) : Prop :=
  ∀ cl ∈ s.cache.re_classes, ∀ kv ∈ cl.re,
    (s.heap kv.2).re_class = some cl.id ∧ (s.heap kv.2).cache_id < s.cache.re.length

/-- What holds of the tables of a memory reached from an empty cache by the
registrations `l`: `nre` is the length of `cache->re`, and every entry holds
an expression whose class is the class of the table, whose cache id indexes
`cache->re`, and that a registration of `l` put under that class id. -/
def RegInv (fh : List Nat → Nat) (l : List Registration) (s : State) : Prop :=
  s.cache.nre = s.cache.re.length ∧
  ∀ cl ∈ s.cache.re_classes, ∀ kv ∈ cl.re,
    (s.heap kv.2).re_class = some cl.id ∧ (s.heap kv.2).cache_id < s.cache.re.length ∧
    ∃ t ∈ l, t.re = kv.2 ∧ t.class_id fh = cl.id

/-- The registrations of the example memory `s123`. -/
def regs123 : List Registration :=
  [{ re := 1, type := .RSPAMD_RE_HEADER, type_data := [83], datalen := 1 },
   { re := 2, type := .RSPAMD_RE_BODY, type_data := [], datalen := 0 },
   { re := 3, type := .RSPAMD_RE_BODY, type_data := [], datalen := 0 }]

/-- The registrations of the example memory `s_alias`. -/
def regs_alias : List Registration :=
  [{ re := 1, type := .RSPAMD_RE_HEADER, type_data := [83], datalen := 1 },
   { re := 3, type := .RSPAMD_RE_HEADER, type_data := [83], datalen := 1 },
   { re := 1, type := .RSPAMD_RE_BODY, type_data := [], datalen := 0 },
   { re := 2, type := .RSPAMD_RE_BODY, type_data := [], datalen := 0 }]

/-! ## Hash-table lemmas -/

theorem class_lookup_id {cs : List rspamd_re_class} {k : Nat} {c : rspamd_re_class}
    (h : class_lookup cs k = some c) : c.id = k := by
  induction cs with
  | nil => simp [class_lookup] at h
  | cons d ds ih =>
    by_cases hd : d.id = k
    · simp [class_lookup, hd] at h
      subst h
      exact hd
    · simp [class_lookup, hd] at h
      exact ih h

theorem class_lookup_mem {cs : List rspamd_re_class} {k : Nat} {c : rspamd_re_class}
    (h : class_lookup cs k = some c) : c ∈ cs := by
  induction cs with
  | nil => simp [class_lookup] at h
  | cons d ds ih =>
    by_cases hd : d.id = k
    · simp [class_lookup, hd] at h
      subst h
      exact List.mem_cons_self _ _
    · simp [class_lookup, hd] at h
      exact List.mem_cons_of_mem _ (ih h)

theorem class_lookup_append (cs ds : List rspamd_re_class) (k : Nat) :
    class_lookup (cs ++ ds) k =
      match class_lookup cs k with
      | some c => some c
      | none => class_lookup ds k := by
  induction cs with
  | nil => simp [class_lookup]
  | cons d cs ih =>
    by_cases hd : d.id = k
    · simp [class_lookup, hd]
    · simp [class_lookup, hd, ih]

theorem class_lookup_modify_same (f : rspamd_re_class → rspamd_re_class)
    (hf : ∀ c, (f c).id = c.id) (cs : List rspamd_re_class) (k : Nat) :
    class_lookup (class_modify f cs k) k = (class_lookup cs k).map f := by
  induction cs with
  | nil => simp [class_lookup, class_modify]
  | cons d cs ih =>
    by_cases hd : d.id = k
    · simp [class_lookup, class_modify, hd, hf]
    · simp [class_lookup, class_modify, hd, ih]

theorem class_lookup_modify_other (f : rspamd_re_class → rspamd_re_class)
    (hf : ∀ c, (f c).id = c.id) (cs : List rspamd_re_class) {k k1 : Nat} (hk : k1 ≠ k) :
    class_lookup (class_modify f cs k) k1 = class_lookup cs k1 := by
  induction cs with
  | nil => simp [class_lookup, class_modify]
  | cons d cs ih =>
    by_cases hd : d.id = k
    · subst hd
      simp [class_lookup, class_modify, hf, Ne.symm hk]
    · by_cases h1 : d.id = k1
      · subst h1
        simp [class_lookup, class_modify, hd]
      · simp [class_lookup, class_modify, hd, h1, ih]

theorem re_lookup_insert_same (m : List (Nat × Nat)) (k v : Nat) :
    re_lookup (re_insert m k v) k = some v := by
  induction m with
  | nil => simp [re_lookup, re_insert]
  | cons p m ih =>
    obtain ⟨k0, v0⟩ := p
    by_cases h : k0 = k
    · simp [re_lookup, re_insert, h]
    · simp [re_lookup, re_insert, h, ih]

theorem re_lookup_insert_other (m : List (Nat × Nat)) (k v : Nat) {k1 : Nat} (hk : k1 ≠ k) :
    re_lookup (re_insert m k v) k1 = re_lookup m k1 := by
  induction m with
  | nil => simp [re_lookup, re_insert, hk.symm]
  | cons p m ih =>
    obtain ⟨k0, v0⟩ := p
    by_cases h : k0 = k
    · subst h
      simp [re_lookup, re_insert, Ne.symm hk]
    · by_cases h1 : k0 = k1
      · subst h1
        simp [re_lookup, re_insert, h]
      · simp [re_lookup, re_insert, h, h1, ih]

/-! ## Registration -/

/-- The result of `rspamd_re_cache_add` when the class exists and holds the
content id: the expression found, and the memory as it was. -/
theorem add_hit (fh : List Nat → Nat) (s : State) (re : Nat)
    (type : rspamd_re_type) (type_data : List Nat) (datalen : Nat)
    (c : rspamd_re_class) (n : Nat)
    (hc : class_lookup s.cache.re_classes
      (rspamd_re_cache_class_id fh type type_data datalen) = some c)
    (hr : re_lookup c.re (s.heap re).id = some n) :
    rspamd_re_cache_add fh s re type type_data datalen = (n, s) := by
  unfold rspamd_re_cache_add
  simp only [hc, hr]

/-- The result of `rspamd_re_cache_add` when the class exists and does not
hold the content id. -/
theorem add_miss (fh : List Nat → Nat) (s : State) (re : Nat)
    (type : rspamd_re_type) (type_data : List Nat) (datalen : Nat)
    (c : rspamd_re_class)
    (hc : class_lookup s.cache.re_classes
      (rspamd_re_cache_class_id fh type type_data datalen) = some c)
    (hr : re_lookup c.re (s.heap re).id = none) :
    rspamd_re_cache_add fh s re type type_data datalen =
      (re,
        { heap := Function.update s.heap re
            { s.heap re with
              cache_id := s.cache.nre
              re_class := some (rspamd_re_cache_class_id fh type type_data datalen) },
          cache := { s.cache with
            re_classes :=
              class_modify (class_set_re (s.heap re).id re)
                s.cache.re_classes (rspamd_re_cache_class_id fh type type_data datalen),
            re := s.cache.re ++ [{ re := re, match_type := .RSPAMD_RE_CACHE_PCRE }],
            nre := s.cache.nre + 1 } }) := by
  unfold rspamd_re_cache_add
  simp only [hc, hr]

/-- The result of `rspamd_re_cache_add` when the class does not exist yet. -/
theorem add_new (fh : List Nat → Nat) (s : State) (re : Nat)
    (type : rspamd_re_type) (type_data : List Nat) (datalen : Nat)
    (hc : class_lookup s.cache.re_classes
      (rspamd_re_cache_class_id fh type type_data datalen) = none) :
    rspamd_re_cache_add fh s re type type_data datalen =
      (re,
        { heap := Function.update s.heap re
            { s.heap re with
              cache_id := s.cache.nre
              re_class := some (rspamd_re_cache_class_id fh type type_data datalen) },
          cache := { s.cache with
            re_classes :=
              class_modify (class_set_re (s.heap re).id re)
                (s.cache.re_classes ++
                  [new_class (rspamd_re_cache_class_id fh type type_data datalen)
                    type type_data datalen])
                (rspamd_re_cache_class_id fh type type_data datalen),
            re := s.cache.re ++ [{ re := re, match_type := .RSPAMD_RE_CACHE_PCRE }],
            nre := s.cache.nre + 1 } }) := by
  unfold rspamd_re_cache_add
  simp only [hc]
  rfl

/-- After `rspamd_re_cache_add` the class of the region is in the class table
and its table maps the content id of the argument to the expression returned. -/
theorem add_registers (fh : List Nat → Nat) (s : State) (re : Nat)
    (type : rspamd_re_type) (type_data : List Nat) (datalen : Nat) :
    ∃ c, class_lookup (rspamd_re_cache_add fh s re type type_data datalen).2.cache.re_classes
          (rspamd_re_cache_class_id fh type type_data datalen) = some c ∧
      re_lookup c.re (s.heap re).id =
        some (rspamd_re_cache_add fh s re type type_data datalen).1 := by
  cases hc : class_lookup s.cache.re_classes
      (rspamd_re_cache_class_id fh type type_data datalen) with
  | some c =>
    cases hr : re_lookup c.re (s.heap re).id with
    | some n =>
      rw [add_hit fh s re type type_data datalen c n hc hr]
      exact ⟨c, hc, hr⟩
    | none =>
      rw [add_miss fh s re type type_data datalen c hc hr]
      refine ⟨class_set_re (s.heap re).id re c, ?_, ?_⟩
      · show class_lookup (class_modify _ _ _) _ = _
        rw [class_lookup_modify_same (class_set_re (s.heap re).id re) (fun _ => rfl), hc]
        rfl
      · exact re_lookup_insert_same _ _ _
  | none =>
    rw [add_new fh s re type type_data datalen hc]
    refine ⟨class_set_re (s.heap re).id re
      (new_class (rspamd_re_cache_class_id fh type type_data datalen) type type_data datalen),
      ?_, ?_⟩
    · show class_lookup (class_modify _ _ _) _ = _
      rw [class_lookup_modify_same (class_set_re (s.heap re).id re) (fun _ => rfl),
        class_lookup_append, hc]
      simp [class_lookup, new_class]
    · exact re_lookup_insert_same _ _ _

/-- The function `rspamd_re_cache_add` writes no content id. -/
theorem add_heap_id (fh : List Nat → Nat) (s : State) (re : Nat)
    (type : rspamd_re_type) (type_data : List Nat) (datalen : Nat) (p : Nat) :
    ((rspamd_re_cache_add fh s re type type_data datalen).2.heap p).id = (s.heap p).id := by
  cases hc : class_lookup s.cache.re_classes
      (rspamd_re_cache_class_id fh type type_data datalen) with
  | some c =>
    cases hr : re_lookup c.re (s.heap re).id with
    | some n => rw [add_hit fh s re type type_data datalen c n hc hr]
    | none =>
      rw [add_miss fh s re type type_data datalen c hc hr]
      by_cases hp : p = re
      · subst hp; simp
      · simp [Function.update_noteq hp]
  | none =>
    rw [add_new fh s re type type_data datalen hc]
    by_cases hp : p = re
    · subst hp; simp
    · simp [Function.update_noteq hp]

/-- C1: two registrations `add(e1, kind, param)` and `add(e2, kind, param)` of
expressions with the same content id: the second call returns the expression
the first call returned and leaves the whole memory as the first call left it,
so that expression keeps its cache id and the cache keeps its expressions and
its class map. -/
theorem add_same_content_id_idempotent (fh : List Nat → Nat) (s : State) (e1 e2 : Nat)
    (type : rspamd_re_type) (type_data : List Nat) (datalen : Nat)
    (hid : (s.heap e1).id = (s.heap e2).id) :
    (rspamd_re_cache_add fh (rspamd_re_cache_add fh s e1 type type_data datalen).2 e2
        type type_data datalen).1 = (rspamd_re_cache_add fh s e1 type type_data datalen).1 ∧
    (rspamd_re_cache_add fh (rspamd_re_cache_add fh s e1 type type_data datalen).2 e2
        type type_data datalen).2 = (rspamd_re_cache_add fh s e1 type type_data datalen).2 := by
  obtain ⟨c, hc, hr⟩ := add_registers fh s e1 type type_data datalen
  have hid2 : ((rspamd_re_cache_add fh s e1 type type_data datalen).2.heap e2).id =
      (s.heap e1).id := by rw [add_heap_id]; exact hid.symm
  rw [← hid2] at hr
  rw [add_hit fh _ e2 type type_data datalen c _ hc hr]
  exact ⟨rfl, rfl⟩

/-- Witness of `add_same_content_id_idempotent`: the objects at addresses 1 and
11 of the example heap are distinct and share the content id 1. -/
theorem add_same_content_id_idempotent_witness :
    (rspamd_re_cache_add fh0 (rspamd_re_cache_add fh0 s0 1 .RSPAMD_RE_HEADER [83] 1).2 11
        .RSPAMD_RE_HEADER [83] 1).1 = (rspamd_re_cache_add fh0 s0 1 .RSPAMD_RE_HEADER [83] 1).1 ∧
    (rspamd_re_cache_add fh0 (rspamd_re_cache_add fh0 s0 1 .RSPAMD_RE_HEADER [83] 1).2 11
        .RSPAMD_RE_HEADER [83] 1).2 = (rspamd_re_cache_add fh0 s0 1 .RSPAMD_RE_HEADER [83] 1).2 :=
  add_same_content_id_idempotent fh0 s0 1 11 .RSPAMD_RE_HEADER [83] 1 (by decide)

/-! ## Replacement -/

/-- The result of `rspamd_re_cache_replace` when its three assertions hold. -/
theorem replace_ok (s : State) (what with_re k : Nat) (cl : rspamd_re_class)
    (elt : rspamd_re_cache_elt) (src : Nat)
    (hk : (s.heap what).re_class = some k)
    (hid : (s.heap what).cache_id ≠ RSPAMD_INVALID_ID)
    (hcl : class_lookup s.cache.re_classes k = some cl)
    (helt : s.cache.re[(s.heap what).cache_id]? = some elt)
    (hsrc : re_lookup cl.re (s.heap what).id = some src) :
    rspamd_re_cache_replace s what with_re =
      .ok
        { heap :=
            Function.update
              (Function.update s.heap what
                { s.heap what with cache_id := RSPAMD_INVALID_ID, re_class := none })
              with_re
              { Function.update s.heap what
                  { s.heap what with cache_id := RSPAMD_INVALID_ID, re_class := none }
                  with_re with
                cache_id := (s.heap what).cache_id
                re_class := some k },
          cache := { s.cache with
            re_classes :=
              class_modify (class_set_re (s.heap what).id with_re) s.cache.re_classes k,
            re := s.cache.re.set (s.heap what).cache_id { elt with re := with_re } } } := by
  unfold rspamd_re_cache_replace
  simp only [hk, hid, hcl, helt, hsrc, if_false]

/-- C5 (amended): for an expression `what` with a class `k`, a cache id `c`
that is not the invalid id and indexes `cache->re`, and an entry under its
content id in the table of its class, and for every other expression
`with_re`, `replace(what, with_re)` succeeds; afterwards `with_re` has cache id
`c` and class `k`, `what` has the invalid id and no class, `cache->re[c]` holds
`with_re` with the match type it had, the class table maps the content id of
`what` to `with_re`, and the length of `cache->re`, `nre` and every other
element of `cache->re` are as before. -/
theorem replace_transfers (s : State) (what with_re k : Nat) (cl : rspamd_re_class)
    (elt : rspamd_re_cache_elt) (src : Nat)
    (hk : (s.heap what).re_class = some k)
    (hid : (s.heap what).cache_id ≠ RSPAMD_INVALID_ID)
    (hcl : class_lookup s.cache.re_classes k = some cl)
    (helt : s.cache.re[(s.heap what).cache_id]? = some elt)
    (hsrc : re_lookup cl.re (s.heap what).id = some src)
    (hne : what ≠ with_re) :
    ∃ s1, rspamd_re_cache_replace s what with_re = .ok s1 ∧
      (s1.heap with_re).cache_id = (s.heap what).cache_id ∧
      (s1.heap with_re).re_class = some k ∧
      (s1.heap what).cache_id = RSPAMD_INVALID_ID ∧
      (s1.heap what).re_class = none ∧
      s1.cache.re[(s.heap what).cache_id]? =
        some { re := with_re, match_type := elt.match_type } ∧
      (∃ cl1, class_lookup s1.cache.re_classes k = some cl1 ∧
        re_lookup cl1.re (s.heap what).id = some with_re) ∧
      s1.cache.re.length = s.cache.re.length ∧
      s1.cache.nre = s.cache.nre ∧
      ∀ j, j ≠ (s.heap what).cache_id → s1.cache.re[j]? = s.cache.re[j]? := by
  refine ⟨_, replace_ok s what with_re k cl elt src hk hid hcl helt hsrc, ?_, ?_, ?_, ?_, ?_,
    ?_, ?_, ?_, ?_⟩
  · simp
  · simp
  · simp [Function.update_noteq hne]
  · simp [Function.update_noteq hne]
  · have hlt : (s.heap what).cache_id < s.cache.re.length := by
      rcases List.getElem?_eq_some.1 helt with ⟨h, _⟩
      exact h
    simp [List.getElem?_set_self hlt]
  · refine ⟨class_set_re (s.heap what).id with_re cl, ?_, ?_⟩
    · show class_lookup (class_modify _ _ _) _ = _
      rw [class_lookup_modify_same (class_set_re (s.heap what).id with_re) (fun _ => rfl), hcl]
      rfl
    · exact re_lookup_insert_same _ _ _
  · simp
  · rfl
  · intro j hj
    simp [List.getElem?_set_ne (Ne.symm hj)]

/-- The example memory after registering the object at address 1 for the
subject header: the hypotheses of `replace_transfers` hold for `what = 1`. -/
theorem replace_transfers_witness :
    ∃ s1, rspamd_re_cache_replace
        (rspamd_re_cache_add fh0 s0 1 .RSPAMD_RE_HEADER [83] 1).2 1 2 = .ok s1 ∧
      (s1.heap 2).cache_id = 0 ∧ (s1.heap 2).re_class = some 83 ∧
      (s1.heap 1).cache_id = RSPAMD_INVALID_ID ∧ (s1.heap 1).re_class = none := by
  obtain ⟨s1, h, h1, h2, h3, h4, _⟩ :=
    replace_transfers (rspamd_re_cache_add fh0 s0 1 .RSPAMD_RE_HEADER [83] 1).2 1 2 83
      (class_set_re 1 1 (new_class 83 .RSPAMD_RE_HEADER [83] 1))
      { re := 1, match_type := .RSPAMD_RE_CACHE_PCRE } 1
      (by decide) (by decide) (by decide) (by decide) (by decide) (by decide)
  exact ⟨s1, h, h1, h2, h3, h4⟩

/-- C5 as stated fails when an expression is replaced by itself: after
`replace(e, e)` on a registered `e` the old expression, being the new one,
keeps its cache id 0 and its class instead of the invalid id and no class. -/
theorem replace_self_keeps_id :
    (run_ops fh0 s0 [.add 1 .RSPAMD_RE_HEADER [83] 1, .replace 1 1]).toOption.map
        (fun s => ((s.heap 1).cache_id, (s.heap 1).re_class)) = some (0, some 83) := by
  decide

/-! ## Registration after finalize -/

/-- C6 (amended): finalize seals nothing. On the memory `s1` that
`rspamd_re_cache_init` leaves, `add` of an expression whose content id is not
in the table of the region's class registers it as before finalize: it is the
expression returned, `cache->re` gets one more element holding it, `nre` grows
by one, the expression gets cache id `nre` and the class of the region, the
class table maps its content id to it, and no other expression object is
written. -/
theorem add_after_init_registers (fh : List Nat → Nat) (s s1 : State) (cfg : rspamd_config)
    (re : Nat) (type : rspamd_re_type) (type_data : List Nat) (datalen : Nat)
    (_hinit : rspamd_re_cache_init s cfg = .ok s1)
    (hnew : ∀ c, class_lookup s1.cache.re_classes
        (rspamd_re_cache_class_id fh type type_data datalen) = some c →
      re_lookup c.re (s1.heap re).id = none) :
    (rspamd_re_cache_add fh s1 re type type_data datalen).1 = re ∧
    (rspamd_re_cache_add fh s1 re type type_data datalen).2.cache.re =
      s1.cache.re ++ [{ re := re, match_type := .RSPAMD_RE_CACHE_PCRE }] ∧
    (rspamd_re_cache_add fh s1 re type type_data datalen).2.cache.nre = s1.cache.nre + 1 ∧
    ((rspamd_re_cache_add fh s1 re type type_data datalen).2.heap re).cache_id =
      s1.cache.nre ∧
    ((rspamd_re_cache_add fh s1 re type type_data datalen).2.heap re).re_class =
      some (rspamd_re_cache_class_id fh type type_data datalen) ∧
    (∃ c, class_lookup (rspamd_re_cache_add fh s1 re type type_data datalen).2.cache.re_classes
        (rspamd_re_cache_class_id fh type type_data datalen) = some c ∧
      re_lookup c.re (s1.heap re).id = some re) ∧
    ∀ p, p ≠ re →
      (rspamd_re_cache_add fh s1 re type type_data datalen).2.heap p = s1.heap p := by
  have hreg := add_registers fh s1 re type type_data datalen
  cases hc : class_lookup s1.cache.re_classes
      (rspamd_re_cache_class_id fh type type_data datalen) with
  | some c =>
    have hr := hnew c hc
    rw [add_miss fh s1 re type type_data datalen c hc hr] at hreg ⊢
    refine ⟨rfl, rfl, rfl, by simp, by simp, hreg, ?_⟩
    intro p hp
    simp [Function.update_noteq hp]
  | none =>
    rw [add_new fh s1 re type type_data datalen hc] at hreg ⊢
    refine ⟨rfl, rfl, rfl, by simp, by simp, hreg, ?_⟩
    intro p hp
    simp [Function.update_noteq hp]

/-- Witness of `add_after_init_registers`: the example memory with one
expression for the header `[83]`, finalized, then a second expression for the
same header. -/
theorem add_after_init_registers_witness :
    ∃ s1, rspamd_re_cache_init (rspamd_re_cache_add fh0 s0 1 .RSPAMD_RE_HEADER [83] 1).2 cfg0
        = .ok s1 ∧
      (rspamd_re_cache_add fh0 s1 2 .RSPAMD_RE_HEADER [83] 1).2.cache.nre = s1.cache.nre + 1 ∧
      ((rspamd_re_cache_add fh0 s1 2 .RSPAMD_RE_HEADER [83] 1).2.heap 2).cache_id
        = s1.cache.nre := by
  refine ⟨_, rfl, ?_⟩
  have h := add_after_init_registers fh0 (rspamd_re_cache_add fh0 s0 1 .RSPAMD_RE_HEADER [83] 1).2
    _ cfg0 2 .RSPAMD_RE_HEADER [83] 1 rfl (by decide)
  exact ⟨h.2.2.1, h.2.2.2.1⟩

/-- C6 as stated fails: after finalize of a cache with one expression, `add` of
a second expression registers it. The cache has 1 element after finalize and 2
after the call, and the new expression gets cache id 1. -/
theorem add_after_init_not_sealed :
    (run_ops fh0 s0 [.add 1 .RSPAMD_RE_HEADER [83] 1, .init cfg0]).toOption.map
        (fun s => (s.cache.re.length,
          (rspamd_re_cache_add fh0 s 2 .RSPAMD_RE_HEADER [83] 1).2.cache.re.length,
          ((rspamd_re_cache_add fh0 s 2 .RSPAMD_RE_HEADER [83] 1).2.heap 2).cache_id))
      = some (1, 2, 1) := by
  decide

/-! ## Finalize and replaced expressions -/

/-- C7 (the code aborts): an expression registered for two regions occupies
two elements of `cache->re`; `replace` takes its class away and rewrites only
one of the two elements. The three calls return, and `rspamd_re_cache_init` on
the memory they leave fails its assertion that every element has a class. -/
theorem init_asserts_after_replace :
    (run_ops fh0 s0
        [.add 1 .RSPAMD_RE_HEADER [83] 1, .add 1 .RSPAMD_RE_BODY [] 0, .replace 1 2]).toOption.map
      (fun s => fault_of (rspamd_re_cache_init s cfg0)) = some (some .assertion) := by
  decide

/-- The same abort without a second region: after `replace(a, b)` of two
expressions of one class, `b` occupies both elements, and `replace(b, c)`
leaves it in one of them without a class. -/
theorem init_asserts_after_two_replaces :
    (run_ops fh0 s0
        [.add 1 .RSPAMD_RE_HEADER [83] 1, .add 2 .RSPAMD_RE_HEADER [83] 1, .replace 1 2,
          .replace 2 3]).toOption.map
      (fun s => fault_of (rspamd_re_cache_init s cfg0)) = some (some .assertion) := by
  decide

/-! ## Scanner: the fast path -/

/-- The slow path ends by setting the bit of the expression and returns the
stored result. -/
theorem exec_re_checked {px : Primitives} {c : State} {task : rspamd_task}
    {rt : rspamd_re_runtime} {re : Nat} {re_class : rspamd_re_class} {is_strong : Bool}
    {out : Nat × rspamd_re_runtime}
    (h : rspamd_re_cache_exec_re px c task rt re re_class is_strong = .ok out) :
    out.2.checked (c.heap re).cache_id = true ∧ out.1 = out.2.results (c.heap re).cache_id := by
  unfold rspamd_re_cache_exec_re at h
  split at h
  · cases h
  · split at h
    · cases h
    · cases h
      simp

/-- A completed `rspamd_re_cache_process` on an expression with a usable cache
id and a class leaves the bit of the expression set and returns the stored
result. -/
theorem process_checked {px : Primitives} {c : State} {task : rspamd_task}
    {rt : rspamd_re_runtime} {re : Nat} {is_strong : Bool} {out : Nat × rspamd_re_runtime}
    (hid : (c.heap re).cache_id ≠ RSPAMD_INVALID_ID)
    (hle : (c.heap re).cache_id ≤ c.cache.nre)
    (hcl : (c.heap re).re_class ≠ none)
    (h : rspamd_re_cache_process px c task rt re is_strong = .ok out) :
    out.2.checked (c.heap re).cache_id = true ∧ out.1 = out.2.results (c.heap re).cache_id := by
  unfold rspamd_re_cache_process at h
  have hg : ¬ ((c.heap re).cache_id = RSPAMD_INVALID_ID ∨ (c.heap re).cache_id > c.cache.nre) := by
    intro hh
    rcases hh with hh | hh
    · exact hid hh
    · omega
  simp only [hg, if_false] at h
  by_cases hch : rt.checked (c.heap re).cache_id = true
  · simp only [hch, if_true] at h
    cases h
    exact ⟨hch, rfl⟩
  · simp only [hch] at h
    cases hk : (c.heap re).re_class with
    | none => exact absurd hk hcl
    | some k =>
      simp only [hk] at h
      cases hl : class_lookup c.cache.re_classes k with
      | none => simp [hl] at h
      | some cl =>
        simp only [hl] at h
        exact exec_re_checked h

/-- C8: for an expression with a valid cache id and a class, after one
completed `process` call that returned `v` and left the runtime `rt1`, a
second `process` call on the same expression returns `v` and leaves the
runtime `rt1` with `regexp_fast_cached` one higher: the bitmap, the results
and all other counters are those of `rt1`. -/
theorem process_second_call_fast (px : Primitives) (c : State) (task : rspamd_task)
    (rt rt1 : rspamd_re_runtime) (re : Nat) (is_strong : Bool) (v : Nat)
    (hid : (c.heap re).cache_id ≠ RSPAMD_INVALID_ID)
    (hlt : (c.heap re).cache_id < c.cache.nre)
    (hcl : (c.heap re).re_class ≠ none)
    (h : rspamd_re_cache_process px c task rt re is_strong = .ok (v, rt1)) :
    rspamd_re_cache_process px c task rt1 re is_strong =
      .ok (v, { rt1 with stat := { rt1.stat with
        regexp_fast_cached := rt1.stat.regexp_fast_cached + 1 } }) := by
  obtain ⟨h1, h2⟩ := process_checked hid (Nat.le_of_lt hlt) hcl h
  have hg : ¬ ((c.heap re).cache_id = RSPAMD_INVALID_ID ∨ (c.heap re).cache_id > c.cache.nre) := by
    intro hh
    rcases hh with hh | hh
    · exact hid hh
    · omega
  simp only at h1 h2
  unfold rspamd_re_cache_process
  simp only [hg, if_false, h1, if_true, h2]

/-- Witness of `process_second_call_fast`: on a fresh runtime over the example
memory the first call on the header expression scans the header, returns 1,
and the second call is answered from the runtime. -/
theorem process_second_call_fast_witness :
    ∃ v rt1,
      rspamd_re_cache_process px0 s12 task0 (rspamd_re_cache_runtime_new s12.cache) 1 false
        = .ok (v, rt1) ∧
      v = 1 ∧
      rspamd_re_cache_process px0 s12 task0 rt1 1 false =
        .ok (v, { rt1 with stat := { rt1.stat with
          regexp_fast_cached := rt1.stat.regexp_fast_cached + 1 } }) :=
  ⟨_, _, rfl, rfl,
    process_second_call_fast px0 s12 task0 (rspamd_re_cache_runtime_new s12.cache) _ 1 false _
      (by decide) (by decide) (by decide) rfl⟩

/-! ## Finalize: the first loop -/

theorem same_attrs_refl (a : rspamd_regexp_t) : same_attrs a a :=
  ⟨rfl, rfl, rfl, rfl, rfl⟩

theorem same_attrs_trans {a b c : rspamd_regexp_t} (h1 : same_attrs a b) (h2 : same_attrs b c) :
    same_attrs a c :=
  ⟨h1.1.trans h2.1, h1.2.1.trans h2.2.1, h1.2.2.1.trans h2.2.2.1,
    h1.2.2.2.1.trans h2.2.2.2.1, h1.2.2.2.2.trans h2.2.2.2.2⟩

theorem same_attrs_symm {a b : rspamd_regexp_t} (h : same_attrs a b) : same_attrs b a :=
  ⟨h.1.symm, h.2.1.symm, h.2.2.1.symm, h.2.2.2.1.symm, h.2.2.2.2.symm⟩

theorem hash_words_congr {a b : rspamd_regexp_t} (h : same_attrs a b) (k : Nat) :
    hash_words k a = hash_words k b := by
  unfold hash_words
  rw [h.1, h.2.1, h.2.2.1, h.2.2.2.1]

/-- One iteration of the first loop, when the element has a class that is in
the class table. -/
theorem init_step_ok (acc : InitAcc) (i : Nat) (elt : rspamd_re_cache_elt) (k : Nat)
    (c : rspamd_re_class) (hk : (acc.heap elt.re).re_class = some k)
    (hc : class_lookup acc.classes k = some c) :
    init_step acc i elt = .ok
      { heap := Function.update acc.heap elt.re { acc.heap elt.re with cache_id := i },
        classes := class_modify (class_feed (acc.heap elt.re)) acc.classes k,
        st_global := acc.st_global ++ hash_words c.id (acc.heap elt.re) } := by
  unfold init_step
  simp only [hk, hc]

/-- An iteration of the first loop that does not abort found a class. -/
theorem init_step_inv {acc acc1 : InitAcc} {i : Nat} {elt : rspamd_re_cache_elt}
    (h : init_step acc i elt = .ok acc1) :
    ∃ k c, (acc.heap elt.re).re_class = some k ∧ class_lookup acc.classes k = some c ∧
      acc1 =
        { heap := Function.update acc.heap elt.re { acc.heap elt.re with cache_id := i },
          classes := class_modify (class_feed (acc.heap elt.re)) acc.classes k,
          st_global := acc.st_global ++ hash_words c.id (acc.heap elt.re) } := by
  cases hk : (acc.heap elt.re).re_class with
  | none => simp [init_step, hk] at h
  | some k =>
    cases hc : class_lookup acc.classes k with
    | none => simp [init_step, hk, hc] at h
    | some c =>
      rw [init_step_ok acc i elt k c hk hc] at h
      cases h
      exact ⟨k, c, rfl, hc, rfl⟩

theorem init_loop_cons {elt : rspamd_re_cache_elt} {rest : List rspamd_re_cache_elt} {i : Nat}
    {acc acc2 : InitAcc} (h : init_loop (elt :: rest) i acc = .ok acc2) :
    ∃ acc1, init_step acc i elt = .ok acc1 ∧ init_loop rest (i + 1) acc1 = .ok acc2 := by
  unfold init_loop at h
  cases h1 : init_step acc i elt with
  | error f => simp [h1] at h
  | ok acc1 =>
    simp only [h1] at h
    exact ⟨acc1, rfl, h⟩

/-- The first loop writes cache ids only. -/
theorem init_loop_same_attrs {l : List rspamd_re_cache_elt} {i : Nat} {acc acc2 : InitAcc}
    (h : init_loop l i acc = .ok acc2) (p : Nat) : same_attrs (acc2.heap p) (acc.heap p) := by
  induction l generalizing i acc with
  | nil =>
    simp [init_loop] at h
    subst h
    exact same_attrs_refl _
  | cons elt rest ih =>
    obtain ⟨acc1, h1, h2⟩ := init_loop_cons h
    obtain ⟨k, c, _, _, he⟩ := init_step_inv h1
    refine same_attrs_trans (ih h2) ?_
    subst he
    by_cases hp : p = elt.re
    · subst hp
      simp [same_attrs]
    · simp [Function.update_noteq hp, same_attrs_refl]

/-- The first loop leaves the objects that are not in the array alone. -/
theorem init_loop_heap_other {l : List rspamd_re_cache_elt} {i : Nat} {acc acc2 : InitAcc}
    (h : init_loop l i acc = .ok acc2) {p : Nat} (hp : p ∉ l.map (fun e => e.re)) :
    acc2.heap p = acc.heap p := by
  induction l generalizing i acc with
  | nil =>
    simp [init_loop] at h
    subst h
    rfl
  | cons elt rest ih =>
    obtain ⟨acc1, h1, h2⟩ := init_loop_cons h
    obtain ⟨k, c, _, _, he⟩ := init_step_inv h1
    simp only [List.map_cons, List.mem_cons, not_or] at hp
    rw [ih h2 hp.2]
    subst he
    simp [Function.update_noteq hp.1]

/-- After the first loop every object in the array has the index of one of the
elements that hold it as its cache id. -/
theorem init_loop_cache_id_mem {l : List rspamd_re_cache_elt} {i : Nat} {acc acc2 : InitAcc}
    (h : init_loop l i acc = .ok acc2) {p : Nat} (hp : p ∈ l.map (fun e => e.re)) :
    ∃ j elt, l[j]? = some elt ∧ elt.re = p ∧ (acc2.heap p).cache_id = i + j := by
  induction l generalizing i acc with
  | nil => simp at hp
  | cons e rest ih =>
    obtain ⟨acc1, h1, h2⟩ := init_loop_cons h
    obtain ⟨k, c, _, _, he⟩ := init_step_inv h1
    by_cases hr : p ∈ rest.map (fun e => e.re)
    · obtain ⟨j, elt, hj, hre, hid⟩ := ih h2 hr
      refine ⟨j + 1, elt, by simpa using hj, hre, ?_⟩
      rw [hid]
      omega
    · have hpe : p = e.re := by
        simp only [List.map_cons, List.mem_cons] at hp
        rcases hp with hp | hp
        · exact hp
        · exact absurd hp hr
      refine ⟨0, e, by simp, hpe.symm, ?_⟩
      rw [init_loop_heap_other h2 hr]
      subst he
      subst hpe
      simp

/-- When no object is held twice, the first loop gives the object of every
element the index of that element. -/
theorem init_loop_cache_id {l : List rspamd_re_cache_elt} {i : Nat} {acc acc2 : InitAcc}
    (h : init_loop l i acc = .ok acc2) (hnd : (l.map (fun e => e.re)).Nodup)
    {j : Nat} {elt : rspamd_re_cache_elt} (hj : l[j]? = some elt) :
    (acc2.heap elt.re).cache_id = i + j := by
  induction l generalizing i acc j with
  | nil => simp at hj
  | cons e rest ih =>
    obtain ⟨acc1, h1, h2⟩ := init_loop_cons h
    obtain ⟨k, c, _, _, he⟩ := init_step_inv h1
    simp only [List.map_cons, List.nodup_cons] at hnd
    cases j with
    | zero =>
      simp at hj
      subst hj
      rw [init_loop_heap_other h2 hnd.1]
      subst he
      simp
    | succ j =>
      simp at hj
      rw [ih h2 hnd.2 hj]
      omega

/-- The first loop runs to its end when every element has a class that is in
the class table. -/
theorem init_loop_total (l : List rspamd_re_cache_elt) (i : Nat) (acc : InitAcc)
    (hall : ∀ e ∈ l, ∃ k c, (acc.heap e.re).re_class = some k ∧
      class_lookup acc.classes k = some c) :
    ∃ acc2, init_loop l i acc = .ok acc2 := by
  induction l generalizing i acc with
  | nil => exact ⟨acc, rfl⟩
  | cons e rest ih =>
    obtain ⟨k, c, hk, hc⟩ := hall e (List.mem_cons_self _ _)
    have h1 := init_step_ok acc i e k c hk hc
    unfold init_loop
    rw [h1]
    apply ih
    intro e1 he1
    obtain ⟨k1, c1, hk1, hc1⟩ := hall e1 (List.mem_cons_of_mem _ he1)
    have hk1' : (Function.update acc.heap e.re { acc.heap e.re with cache_id := i } e1.re).re_class
        = some k1 := by
      by_cases hp : e1.re = e.re
      · rw [hp] at hk1 ⊢
        simpa using hk1
      · simpa [Function.update_noteq hp] using hk1
    by_cases hkk : k1 = k
    · subst hkk
      exact ⟨k1, class_feed (acc.heap e.re) c1, hk1', by
        show class_lookup (class_modify _ _ _) _ = _
        rw [class_lookup_modify_same (class_feed (acc.heap e.re)) (fun _ => rfl), hc1]
        rfl⟩
    · exact ⟨k1, c1, hk1', by
        show class_lookup (class_modify _ _ _) _ = _
        rw [class_lookup_modify_other (class_feed (acc.heap e.re)) (fun _ => rfl) _ hkk, hc1]⟩

/-! ## Finalize: cache ids -/

theorem sort_re_perm (heap : Nat → rspamd_regexp_t) (l : List rspamd_re_cache_elt) :
    List.Perm (sort_re heap l) l :=
  List.perm_insertionSort _ l

theorem sort_re_length (heap : Nat → rspamd_regexp_t) (l : List rspamd_re_cache_elt) :
    (sort_re heap l).length = l.length :=
  (sort_re_perm heap l).length_eq

/-- What `rspamd_re_cache_init` returns when its first loop runs to its end. -/
theorem init_of_loop {s : State} {cfg : rspamd_config} {acc : InitAcc}
    (h : init_loop (sort_re s.heap s.cache.re) 0
      { heap := s.heap, classes := s.cache.re_classes, st_global := [] } = .ok acc) :
    rspamd_re_cache_init s cfg = .ok
      { heap := acc.heap,
        cache := { s.cache with
          re := sort_re s.heap s.cache.re,
          re_classes := acc.classes.map (finalize_class (sort_re s.heap s.cache.re).length),
          hash := some acc.st_global,
          disable_hyperscan := cfg.disable_hyperscan,
          vectorized_hyperscan := cfg.vectorized_hyperscan } } := by
  unfold rspamd_re_cache_init
  simp only [h]

/-- A finalize that returned ran its first loop to the end. -/
theorem init_inv {s s1 : State} {cfg : rspamd_config}
    (h : rspamd_re_cache_init s cfg = .ok s1) :
    ∃ acc, init_loop (sort_re s.heap s.cache.re) 0
        { heap := s.heap, classes := s.cache.re_classes, st_global := [] } = .ok acc ∧
      s1 =
        { heap := acc.heap,
          cache := { s.cache with
            re := sort_re s.heap s.cache.re,
            re_classes := acc.classes.map (finalize_class (sort_re s.heap s.cache.re).length),
            hash := some acc.st_global,
            disable_hyperscan := cfg.disable_hyperscan,
            vectorized_hyperscan := cfg.vectorized_hyperscan } } := by
  cases hl : init_loop (sort_re s.heap s.cache.re) 0
      { heap := s.heap, classes := s.cache.re_classes, st_global := [] } with
  | error f => simp [rspamd_re_cache_init, hl] at h
  | ok acc =>
    rw [init_of_loop hl] at h
    cases h
    exact ⟨acc, rfl, rfl⟩

/-- C2 (amended): when the elements of `cache->re` hold pairwise distinct
expression objects, each with a class that is in the class table, finalize
returns, keeps the number of elements, and afterwards the expression at
position `i` has cache id `i`: the cache ids, read by position, are
`0, 1, ..., N-1`. -/
theorem init_cache_ids_dense (s : State) (cfg : rspamd_config)
    (hnd : (s.cache.re.map (fun e => e.re)).Nodup) (hall : all_classed s) :
    ∃ s1, rspamd_re_cache_init s cfg = .ok s1 ∧
      s1.cache.re.length = s.cache.re.length ∧
      cache_ids s1 = List.range s.cache.re.length := by
  have hperm := sort_re_perm s.heap s.cache.re
  have hnd1 : ((sort_re s.heap s.cache.re).map (fun e => e.re)).Nodup :=
    ((hperm.map _).nodup_iff).2 hnd
  obtain ⟨acc, hacc⟩ := init_loop_total (sort_re s.heap s.cache.re) 0
    { heap := s.heap, classes := s.cache.re_classes, st_global := [] } (by
      intro e he
      have hm : e ∈ s.cache.re := hperm.mem_iff.1 he
      have h1 := hall e hm
      cases hk : (s.heap e.re).re_class with
      | none => simp [hk] at h1
      | some k =>
        cases hc : class_lookup s.cache.re_classes k with
        | none => simp [hk, hc] at h1
        | some c => exact ⟨k, c, rfl, hc⟩)
  refine ⟨_, init_of_loop hacc, sort_re_length _ _, ?_⟩
  apply List.ext_getElem?
  intro j
  unfold cache_ids
  rw [List.getElem?_map]
  by_cases hj : j < s.cache.re.length
  · rw [List.getElem?_range hj]
    have hj1 : j < (sort_re s.heap s.cache.re).length := by
      rw [sort_re_length]; exact hj
    have hget : (sort_re s.heap s.cache.re)[j]? = some ((sort_re s.heap s.cache.re)[j]) :=
      List.getElem?_eq_getElem hj1
    show Option.map _ ((sort_re s.heap s.cache.re)[j]?) = _
    rw [hget]
    have := init_loop_cache_id hacc hnd1 hget
    simp [this]
  · have hj1 : (sort_re s.heap s.cache.re).length ≤ j := by
      rw [sort_re_length]; omega
    show Option.map _ ((sort_re s.heap s.cache.re)[j]?) = _
    rw [List.getElem?_eq_none hj1, List.getElem?_eq_none (by simpa using Nat.le_of_not_lt hj)]
    rfl

/-- Witness of `init_cache_ids_dense`: the example memory with two distinct
expressions, one for a header and one for the whole message. -/
theorem init_cache_ids_dense_witness :
    ∃ s1, rspamd_re_cache_init s12 cfg0 = .ok s1 ∧
      s1.cache.re.length = s12.cache.re.length ∧
      cache_ids s1 = List.range s12.cache.re.length :=
  init_cache_ids_dense s12 cfg0 (by decide) (by decide)

/-- C2 as stated fails: one expression registered for two regions is held by
both elements of `cache->re`, and after finalize both positions carry cache id
1; no expression has cache id 0. -/
theorem init_cache_ids_aliased :
    (run_ops fh0 s0
        [.add 1 .RSPAMD_RE_HEADER [83] 1, .add 1 .RSPAMD_RE_BODY [] 0, .init cfg0]).toOption.map
      (fun s => (s.cache.re.length, cache_ids s)) = some (2, [1, 1]) := by
  decide

/-! ## Finalize: class hashes -/

theorem class_lookup_map (f : rspamd_re_class → rspamd_re_class)
    (hf : ∀ c, (f c).id = c.id) (cs : List rspamd_re_class) (k : Nat) :
    class_lookup (cs.map f) k = (class_lookup cs k).map f := by
  induction cs with
  | nil => simp [class_lookup]
  | cons d cs ih =>
    by_cases hd : d.id = k
    · simp [class_lookup, hd, hf]
    · simp [class_lookup, hd, hf, ih]

theorem finalize_class_id (n : Nat) (c : rspamd_re_class) : (finalize_class n c).id = c.id := by
  unfold finalize_class
  split <;> rfl

theorem st_after_congr {h1 h2 : Nat → rspamd_regexp_t} (hh : ∀ p, same_attrs (h1 p) (h2 p))
    (k : Nat) (st : Option (List Nat)) (l : List rspamd_re_cache_elt) :
    st_after h1 k st l = st_after h2 k st l := by
  induction l generalizing st with
  | nil => rfl
  | cons e l ih =>
    unfold st_after
    rw [(hh e.re).2.2.2.2, hash_words_congr (hh e.re) k, ih, ih]

theorem class_stream_congr {h1 h2 : Nat → rspamd_regexp_t} (hh : ∀ p, same_attrs (h1 p) (h2 p))
    (k : Nat) (l : List rspamd_re_cache_elt) :
    class_stream h1 k l = class_stream h2 k l := by
  induction l with
  | nil => rfl
  | cons e l ih =>
    unfold class_stream
    rw [(hh e.re).2.2.2.2, hash_words_congr (hh e.re) k, ih]

/-- The digest state of a class after the first loop: `st_after`. -/
theorem init_loop_class {l : List rspamd_re_cache_elt} {i : Nat} {acc acc2 : InitAcc}
    (h : init_loop l i acc = .ok acc2) (k : Nat) :
    class_lookup acc2.classes k =
      (class_lookup acc.classes k).map (fun c => { c with st := st_after acc.heap k c.st l }) := by
  induction l generalizing i acc with
  | nil =>
    simp [init_loop] at h
    subst h
    cases class_lookup acc.classes k <;> simp [st_after]
  | cons e rest ih =>
    obtain ⟨acc1, h1, h2⟩ := init_loop_cons h
    obtain ⟨k1, c1, hk1, hc1, he⟩ := init_step_inv h1
    rw [ih h2]
    have hheap : ∀ p, same_attrs (acc1.heap p) (acc.heap p) := by
      intro p
      subst he
      by_cases hp : p = e.re
      · subst hp
        simp [same_attrs]
      · simp [Function.update_noteq hp, same_attrs_refl]
    have hcl : acc1.classes = class_modify (class_feed (acc.heap e.re)) acc.classes k1 := by
      subst he; rfl
    rw [hcl]
    by_cases hkk : k = k1
    · subst hkk
      rw [class_lookup_modify_same (class_feed (acc.heap e.re)) (fun _ => rfl), hc1]
      have hid : c1.id = k := class_lookup_id hc1
      simp only [Option.map_some', class_feed, st_after, hk1, if_true, hid]
      rw [st_after_congr hheap]
    · rw [class_lookup_modify_other (class_feed (acc.heap e.re)) (fun _ => rfl) _ hkk]
      have hne : ¬ (acc.heap e.re).re_class = some k := by
        rw [hk1]
        intro hh
        exact hkk (Option.some.inj hh).symm
      cases class_lookup acc.classes k with
      | none => rfl
      | some c =>
        simp only [Option.map_some', st_after, hne, if_false]
        rw [st_after_congr hheap]

/-- A class with a member among the elements has a digest state after the
loop, and it ends with the words of its members. -/
theorem st_after_member (heap : Nat → rspamd_regexp_t) (k : Nat) (st : Option (List Nat))
    (l : List rspamd_re_cache_elt) (hm : has_member heap k l) :
    st_after heap k st l = some (st.getD [] ++ class_stream heap k l) := by
  induction l generalizing st with
  | nil =>
    obtain ⟨e, he, _⟩ := hm
    simp at he
  | cons e l ih =>
    unfold st_after class_stream
    by_cases hk : (heap e.re).re_class = some k
    · simp only [hk, if_true]
      by_cases hm1 : has_member heap k l
      · rw [ih _ hm1]
        simp
      · have hnone : ∀ st1 : Option (List Nat), st_after heap k st1 l = st1 ∧
            class_stream heap k l = [] := by
          intro st1
          clear ih hm
          induction l generalizing st1 with
          | nil => exact ⟨rfl, rfl⟩
          | cons e1 l1 ih1 =>
            have hk1 : ¬ (heap e1.re).re_class = some k := fun hh =>
              hm1 ⟨e1, List.mem_cons_self _ _, hh⟩
            have hm2 : ¬ has_member heap k l1 := fun ⟨e2, he2, hh⟩ =>
              hm1 ⟨e2, List.mem_cons_of_mem _ he2, hh⟩
            unfold st_after class_stream
            simp only [hk1, if_false]
            exact ih1 hm2 st1
        rw [(hnone _).1, (hnone none).2]
        simp
    · simp only [hk, if_false]
      apply ih
      obtain ⟨e1, he1, hh⟩ := hm
      rcases List.mem_cons.1 he1 with h1 | h1
      · subst h1
        exact absurd hh hk
      · exact ⟨e1, h1, hh⟩

/-- The hash finalize gives a class that has a member among the elements of
`cache->re` and whose digest state was not in use: the words of its members in
sorted order, followed by the number of elements. -/
theorem init_class_hash {s s1 : State} {cfg : rspamd_config}
    (h : rspamd_re_cache_init s cfg = .ok s1) {k : Nat} {c : rspamd_re_class}
    (hc : class_lookup s.cache.re_classes k = some c) (hst : c.st = none)
    (hm : has_member s.heap k s.cache.re) :
    ∃ c1, class_lookup s1.cache.re_classes k = some c1 ∧
      c1.hash = some (class_stream s.heap k (sort_re s.heap s.cache.re) ++
        [s.cache.re.length]) := by
  obtain ⟨acc, hacc, hs1⟩ := init_inv h
  subst hs1
  have hm1 : has_member s.heap k (sort_re s.heap s.cache.re) := by
    obtain ⟨e, he, hh⟩ := hm
    exact ⟨e, (sort_re_perm _ _).mem_iff.2 he, hh⟩
  have hl := init_loop_class hacc k
  simp only [hc, Option.map_some', hst] at hl
  rw [st_after_member _ _ _ _ hm1] at hl
  have hl1 := class_lookup_map (finalize_class (sort_re s.heap s.cache.re).length)
    (finalize_class_id _) acc.classes k
  rw [hl] at hl1
  exact ⟨_, hl1, by simp [finalize_class, sort_re_length]⟩

/-! ## Invariant of the registry -/

theorem class_modify_mem {f : rspamd_re_class → rspamd_re_class} {cs : List rspamd_re_class}
    {k : Nat} {c : rspamd_re_class} (h : c ∈ class_modify f cs k) :
    c ∈ cs ∨ ∃ c0 ∈ cs, c = f c0 := by
  induction cs with
  | nil => simp [class_modify] at h
  | cons d cs ih =>
    unfold class_modify at h
    by_cases hd : d.id = k
    · simp only [hd, if_true, List.mem_cons] at h
      rcases h with h | h
      · exact Or.inr ⟨d, List.mem_cons_self _ _, h⟩
      · exact Or.inl (List.mem_cons_of_mem _ h)
    · simp only [hd, if_false, List.mem_cons] at h
      rcases h with h | h
      · exact Or.inl (h ▸ List.mem_cons_self _ _)
      · rcases ih h with h1 | ⟨c0, h0, h1⟩
        · exact Or.inl (List.mem_cons_of_mem _ h1)
        · exact Or.inr ⟨c0, List.mem_cons_of_mem _ h0, h1⟩

theorem class_lookup_modify_isSome (f : rspamd_re_class → rspamd_re_class)
    (hf : ∀ c, (f c).id = c.id) (cs : List rspamd_re_class) (k k1 : Nat) :
    (class_lookup (class_modify f cs k) k1).isSome = (class_lookup cs k1).isSome := by
  by_cases hk : k1 = k
  · subst hk
    rw [class_lookup_modify_same f hf]
    cases class_lookup cs k1 <;> rfl
  · rw [class_lookup_modify_other f hf cs hk]

theorem class_lookup_append_isSome (cs ds : List rspamd_re_class) (k : Nat)
    (h : (class_lookup cs k).isSome = true) : (class_lookup (cs ++ ds) k).isSome = true := by
  rw [class_lookup_append]
  cases hc : class_lookup cs k with
  | none => simp [hc] at h
  | some c => rfl

theorem class_lookup_set_re_isSome (a b : Nat) (cs : List rspamd_re_class) (k k1 : Nat) :
    (class_lookup (class_modify (class_set_re a b) cs k) k1).isSome =
      (class_lookup cs k1).isSome :=
  class_lookup_modify_isSome (class_set_re a b) (fun _ => rfl) cs k k1

/-- The memory with an empty cache satisfies the invariant. -/
theorem cacheInv_fresh {s : State} (h : Fresh s) : CacheInv s := by
  obtain ⟨hc, hh⟩ := h
  refine ⟨?_, ?_, ?_, ?_⟩
  · intro c hcm
    rw [hc] at hcm
    simp [rspamd_re_cache_new] at hcm
  · rw [hc]; rfl
  · intro p
    exact Or.inl (hh p).1
  · intro p k hk
    rw [(hh p).2] at hk
    cases hk

/-- The invariant after a registration that added an element. -/
theorem cacheInv_add_state {s : State} (hi : CacheInv s) (re k : Nat)
    (classes1 : List rspamd_re_class)
    (hst : ∀ c ∈ classes1, c.st = none)
    (hcl : ∀ k1, (class_lookup s.cache.re_classes k1).isSome = true →
      (class_lookup classes1 k1).isSome = true)
    (hk : (class_lookup classes1 k).isSome = true) :
    CacheInv
      { heap := Function.update s.heap re
          { s.heap re with cache_id := s.cache.nre, re_class := some k },
        cache := { s.cache with
          re_classes := classes1,
          re := s.cache.re ++ [{ re := re, match_type := .RSPAMD_RE_CACHE_PCRE }],
          nre := s.cache.nre + 1 } } := by
  refine ⟨hst, ?_, ?_, ?_⟩
  · simp [hi.nre_len]
  · intro p
    by_cases hp : p = re
    · subst hp
      right
      refine ⟨{ re := p, match_type := .RSPAMD_RE_CACHE_PCRE }, ?_, rfl⟩
      simp [hi.nre_len]
    · rcases hi.ids p with h | ⟨elt, h1, h2⟩
      · left
        simpa [Function.update_noteq hp] using h
      · right
        refine ⟨elt, ?_, h2⟩
        have hlt : (s.heap p).cache_id < s.cache.re.length :=
          (List.getElem?_eq_some.1 h1).1
        simp only [Function.update_noteq hp]
        rw [List.getElem?_append_left hlt]
        exact h1
  · intro p k1 hk1
    by_cases hp : p = re
    · subst hp
      simp at hk1
      subst hk1
      exact hk
    · simp only [Function.update_noteq hp] at hk1
      exact hcl k1 (hi.classes p k1 hk1)

/-- The function `rspamd_re_cache_add` keeps the invariant. -/
theorem cacheInv_add (fh : List Nat → Nat) {s : State} (hi : CacheInv s) (re : Nat)
    (type : rspamd_re_type) (type_data : List Nat) (datalen : Nat) :
    CacheInv (rspamd_re_cache_add fh s re type type_data datalen).2 := by
  cases hc : class_lookup s.cache.re_classes
      (rspamd_re_cache_class_id fh type type_data datalen) with
  | some c =>
    cases hr : re_lookup c.re (s.heap re).id with
    | some n =>
      rw [add_hit fh s re type type_data datalen c n hc hr]
      exact hi
    | none =>
      rw [add_miss fh s re type type_data datalen c hc hr]
      apply cacheInv_add_state hi
      · intro c1 hc1
        rcases class_modify_mem hc1 with h | ⟨c0, h0, h⟩
        · exact hi.st_none c1 h
        · rw [h]
          exact hi.st_none c0 h0
      · intro k1 hk1
        rw [class_lookup_set_re_isSome]
        exact hk1
      · rw [class_lookup_set_re_isSome, hc]
        rfl
  | none =>
    rw [add_new fh s re type type_data datalen hc]
    apply cacheInv_add_state hi
    · intro c1 hc1
      have hbase : ∀ c2 ∈ s.cache.re_classes ++
          [new_class (rspamd_re_cache_class_id fh type type_data datalen) type type_data datalen],
          c2.st = none := by
        intro c2 hc2
        rcases List.mem_append.1 hc2 with h | h
        · exact hi.st_none c2 h
        · simp at h
          rw [h]
          rfl
      rcases class_modify_mem hc1 with h | ⟨c0, h0, h⟩
      · exact hbase c1 h
      · rw [h]
        exact hbase c0 h0
    · intro k1 hk1
      rw [class_lookup_set_re_isSome]
      exact class_lookup_append_isSome _ _ _ hk1
    · rw [class_lookup_set_re_isSome, class_lookup_append, hc]
      simp [class_lookup, new_class]

/-- A `rspamd_re_cache_replace` that returned either did nothing, `what`
having no class, or passed its assertions. -/
theorem replace_inv {s s1 : State} {what with_re : Nat}
    (h : rspamd_re_cache_replace s what with_re = .ok s1) :
    ((s.heap what).re_class = none ∧ s1 = s) ∨
    ∃ k cl elt src, (s.heap what).re_class = some k ∧
      (s.heap what).cache_id ≠ RSPAMD_INVALID_ID ∧
      class_lookup s.cache.re_classes k = some cl ∧
      s.cache.re[(s.heap what).cache_id]? = some elt ∧
      re_lookup cl.re (s.heap what).id = some src := by
  cases hk : (s.heap what).re_class with
  | none =>
    left
    simp [rspamd_re_cache_replace, hk] at h
    exact ⟨rfl, h.symm⟩
  | some k =>
    right
    by_cases hid : (s.heap what).cache_id = RSPAMD_INVALID_ID
    · simp [rspamd_re_cache_replace, hk, hid] at h
    · cases hcl : class_lookup s.cache.re_classes k with
      | none => simp [rspamd_re_cache_replace, hk, hid, hcl] at h
      | some cl =>
        cases helt : s.cache.re[(s.heap what).cache_id]? with
        | none => simp [rspamd_re_cache_replace, hk, hid, hcl, helt] at h
        | some elt =>
          cases hsrc : re_lookup cl.re (s.heap what).id with
          | none => simp [rspamd_re_cache_replace, hk, hid, hcl, helt, hsrc] at h
          | some src => exact ⟨k, cl, elt, src, rfl, hid, hcl, rfl, hsrc⟩

/-- The function `rspamd_re_cache_replace` keeps the invariant. -/
theorem cacheInv_replace {s s1 : State} (hi : CacheInv s) {what with_re : Nat}
    (h : rspamd_re_cache_replace s what with_re = .ok s1) : CacheInv s1 := by
  rcases replace_inv h with ⟨_, h1⟩ | ⟨k, cl, elt, src, hk, hid, hcl, helt, hsrc⟩
  · rw [h1]; exact hi
  · rw [replace_ok s what with_re k cl elt src hk hid hcl helt hsrc] at h
    cases h
    have hwhat : ∃ e0, s.cache.re[(s.heap what).cache_id]? = some e0 ∧ e0.re = what := by
      rcases hi.ids what with h0 | h0
      · exact absurd h0 hid
      · exact h0
    have hlt : (s.heap what).cache_id < s.cache.re.length := (List.getElem?_eq_some.1 helt).1
    refine ⟨?_, ?_, ?_, ?_⟩
    · intro c1 hc1
      rcases class_modify_mem hc1 with h0 | ⟨c0, h0, h1⟩
      · exact hi.st_none c1 h0
      · rw [h1]
        exact hi.st_none c0 h0
    · simp [hi.nre_len]
    · intro p
      by_cases hpw : p = with_re
      · subst hpw
        right
        refine ⟨{ elt with re := p }, ?_, rfl⟩
        simp [List.getElem?_set_self hlt]
      · by_cases hpo : p = what
        · subst hpo
          left
          simp [Function.update_noteq hpw]
        · simp only [Function.update_noteq hpw, Function.update_noteq hpo]
          rcases hi.ids p with h0 | ⟨e1, h1, h2⟩
          · exact Or.inl h0
          · right
            have hne : (s.heap what).cache_id ≠ (s.heap p).cache_id := by
              intro heq
              obtain ⟨e0, h3, h4⟩ := hwhat
              rw [heq, h1] at h3
              cases h3
              exact hpo (h2.symm.trans h4)
            exact ⟨e1, by simpa [List.getElem?_set_ne hne] using h1, h2⟩
    · intro p k1 hk1
      show (class_lookup (class_modify _ _ _) _).isSome = true
      rw [class_lookup_set_re_isSome]
      by_cases hpw : p = with_re
      · subst hpw
        simp at hk1
        subst hk1
        rw [hcl]
        rfl
      · by_cases hpo : p = what
        · subst hpo
          simp [Function.update_noteq hpw] at hk1
        · simp only [Function.update_noteq hpw, Function.update_noteq hpo] at hk1
          exact hi.classes p k1 hk1

/-- The function `rspamd_re_cache_init` keeps the invariant. -/
theorem cacheInv_init {s s1 : State} (hi : CacheInv s) {cfg : rspamd_config}
    (h : rspamd_re_cache_init s cfg = .ok s1) : CacheInv s1 := by
  obtain ⟨acc, hacc, hs1⟩ := init_inv h
  subst hs1
  have hperm := sort_re_perm s.heap s.cache.re
  refine ⟨?_, ?_, ?_, ?_⟩
  · intro c1 hc1
    simp only [List.mem_map] at hc1
    obtain ⟨c0, _, h1⟩ := hc1
    rw [← h1]
    unfold finalize_class
    split
    · rfl
    · rename_i hn
      exact hn
  · simp [hi.nre_len, sort_re_length]
  · intro p
    by_cases hp : p ∈ (sort_re s.heap s.cache.re).map (fun e => e.re)
    · obtain ⟨j, elt, hj, hre, hid⟩ := init_loop_cache_id_mem hacc hp
      right
      refine ⟨elt, ?_, hre⟩
      show (sort_re s.heap s.cache.re)[(acc.heap p).cache_id]? = _
      rw [hid]
      simpa using hj
    · have hsame := init_loop_heap_other hacc hp
      simp only at hsame
      rcases hi.ids p with h0 | ⟨e1, h1, h2⟩
      · left
        show (acc.heap p).cache_id = _
        rw [hsame]
        exact h0
      · exfalso
        apply hp
        have hm : e1 ∈ s.cache.re := List.getElem?_mem h1
        exact List.mem_map.2 ⟨e1, hperm.mem_iff.2 hm, h2⟩
  · intro p k hk
    have hsame := init_loop_same_attrs hacc p
    have hk0 : (s.heap p).re_class = some k := by
      rw [← hsame.2.2.2.2]
      exact hk
    have h0 := hi.classes p k hk0
    show (class_lookup (List.map _ _) k).isSome = true
    rw [class_lookup_map _ (finalize_class_id _), init_loop_class hacc k]
    cases hc : class_lookup s.cache.re_classes k with
    | none => simp [hc] at h0
    | some c => rfl

/-- Every registry call keeps the invariant. -/
theorem cacheInv_run_ops (fh : List Nat → Nat) {ops : List Op} {s s1 : State}
    (hi : CacheInv s) (h : run_ops fh s ops = .ok s1) : CacheInv s1 := by
  induction ops generalizing s with
  | nil =>
    simp [run_ops] at h
    rw [← h]
    exact hi
  | cons op ops ih =>
    unfold run_ops at h
    cases hop : op.run fh s with
    | error f => simp [hop] at h
    | ok s2 =>
      simp only [hop] at h
      apply ih _ h
      cases op with
      | add re type type_data datalen =>
        simp [Op.run] at hop
        rw [← hop]
        exact cacheInv_add fh hi re type type_data datalen
      | replace what with_re => exact cacheInv_replace hi hop
      | init cfg => exact cacheInv_init hi hop

/-- The memories reached from an empty cache satisfy the invariant. -/
theorem reachable_inv {fh : List Nat → Nat} {s : State} (h : Reachable fh s) : CacheInv s := by
  obtain ⟨s0, ops, hf, hr⟩ := h
  exact cacheInv_run_ops fh (cacheInv_fresh hf) hr

/-! ## Class hash and expression count -/

/-- Finalize neither adds nor removes members of a class. -/
theorem has_member_init {s s1 : State} {cfg : rspamd_config}
    (h : rspamd_re_cache_init s cfg = .ok s1) (k : Nat) :
    has_member s1.heap k s1.cache.re ↔ has_member s.heap k s.cache.re := by
  obtain ⟨acc, hacc, hs1⟩ := init_inv h
  subst hs1
  have hperm := sort_re_perm s.heap s.cache.re
  constructor
  · rintro ⟨e, he, hk⟩
    refine ⟨e, hperm.mem_iff.1 he, ?_⟩
    rw [← (init_loop_same_attrs hacc e.re).2.2.2.2]
    exact hk
  · rintro ⟨e, he, hk⟩
    refine ⟨e, hperm.mem_iff.2 he, ?_⟩
    show (acc.heap e.re).re_class = some k
    rw [(init_loop_same_attrs hacc e.re).2.2.2.2]
    exact hk

/-- The hash of a class with a member, after finalize of a memory that
satisfies the invariant, ends with the number of expressions. -/
theorem init_hash_ends_with_count {s s1 : State} {cfg : rspamd_config} (hi : CacheInv s)
    (h : rspamd_re_cache_init s cfg = .ok s1) {k : Nat} {c1 : rspamd_re_class}
    (hm : has_member s1.heap k s1.cache.re)
    (hc1 : class_lookup s1.cache.re_classes k = some c1) :
    ∃ w, c1.hash = some (w ++ [s.cache.re.length]) := by
  have hm0 := (has_member_init h k).1 hm
  obtain ⟨e, he, hk⟩ := hm0
  have hsome := hi.classes e.re k hk
  cases hc : class_lookup s.cache.re_classes k with
  | none => simp [hc] at hsome
  | some c =>
    have hst := hi.st_none c (class_lookup_mem hc)
    obtain ⟨c2, hc2, hh⟩ := init_class_hash h hc hst ⟨e, he, hk⟩
    rw [hc1] at hc2
    cases hc2
    exact ⟨_, hh⟩

/-- C3 (amended): take two caches reached by registry calls whose numbers of
expressions differ, as they do when one is obtained from the other by adding
or removing a single expression, and finalize both. Every class that has a
member among the elements of `cache->re` in both of them, which are the
classes finalize computes a hash for, has different hashes in the two: both
word sequences end with the number of expressions. -/
theorem class_hash_changes_with_count (fh : List Nat → Nat) (sa sb sa1 sb1 : State)
    (cfg : rspamd_config) (k : Nat) (ca cb : rspamd_re_class)
    (hra : Reachable fh sa) (hrb : Reachable fh sb)
    (hlen : sa.cache.re.length ≠ sb.cache.re.length)
    (ha : rspamd_re_cache_init sa cfg = .ok sa1) (hb : rspamd_re_cache_init sb cfg = .ok sb1)
    (hma : has_member sa1.heap k sa1.cache.re) (hmb : has_member sb1.heap k sb1.cache.re)
    (hca : class_lookup sa1.cache.re_classes k = some ca)
    (hcb : class_lookup sb1.cache.re_classes k = some cb) :
    ca.hash ≠ cb.hash ∧
      (∃ w, ca.hash = some (w ++ [sa.cache.re.length])) ∧
      (∃ w, cb.hash = some (w ++ [sb.cache.re.length])) := by
  obtain ⟨wa, hwa⟩ := init_hash_ends_with_count (reachable_inv hra) ha hma hca
  obtain ⟨wb, hwb⟩ := init_hash_ends_with_count (reachable_inv hrb) hb hmb hcb
  refine ⟨?_, ⟨wa, hwa⟩, ⟨wb, hwb⟩⟩
  rw [hwa, hwb]
  intro heq
  have h1 := Option.some.inj heq
  have h2 := List.append_inj_right' h1 rfl
  simp at h2
  exact hlen h2

/-- Witness of `class_hash_changes_with_count`: the example memories with two
and with three expressions; the class of the whole message has members in
both. -/
theorem class_hash_changes_with_count_witness :
    ∃ sa1 sb1 ca cb,
      rspamd_re_cache_init s12 cfg0 = .ok sa1 ∧ rspamd_re_cache_init s123 cfg0 = .ok sb1 ∧
      class_lookup sa1.cache.re_classes 7 = some ca ∧
      class_lookup sb1.cache.re_classes 7 = some cb ∧
      ca.hash ≠ cb.hash :=
  ⟨_, _, _, _, rfl, rfl, rfl, rfl,
    (class_hash_changes_with_count fh0 s12 s123 _ _ cfg0 7 _ _
      ⟨s0, [.add 1 .RSPAMD_RE_HEADER [83] 1, .add 2 .RSPAMD_RE_BODY [] 0],
        ⟨rfl, fun _ => ⟨rfl, rfl⟩⟩, rfl⟩
      ⟨s0, [.add 1 .RSPAMD_RE_HEADER [83] 1, .add 2 .RSPAMD_RE_BODY [] 0,
          .add 3 .RSPAMD_RE_BODY [] 0],
        ⟨rfl, fun _ => ⟨rfl, rfl⟩⟩, rfl⟩
      (by decide) rfl rfl
      ⟨{ re := 2, match_type := .RSPAMD_RE_CACHE_PCRE }, by decide, by decide⟩
      ⟨{ re := 2, match_type := .RSPAMD_RE_CACHE_PCRE }, by decide, by decide⟩
      rfl rfl).1⟩

/-- C3 as stated fails: the header class below has no element of `cache->re`
pointing to it, since its only expression was registered again for the whole
message; finalize computes no hash for it, and its hash is the same, the empty
one, in the cache with 2 expressions and in the cache with 3. -/
theorem class_hash_unchanged_without_member :
    (run_ops fh0 s0
        [.add 1 .RSPAMD_RE_HEADER [83] 1, .add 1 .RSPAMD_RE_BODY [] 0, .init cfg0]).toOption.map
      (fun s => (s.cache.re.length, (class_lookup s.cache.re_classes 83).map (fun c => c.hash)))
      = some (2, some none) ∧
    (run_ops fh0 s0
        [.add 1 .RSPAMD_RE_HEADER [83] 1, .add 1 .RSPAMD_RE_BODY [] 0,
          .add 2 .RSPAMD_RE_BODY [] 0, .init cfg0]).toOption.map
      (fun s => (s.cache.re.length, (class_lookup s.cache.re_classes 83).map (fun c => c.hash)))
      = some (3, some none) := by
  decide

/-! ## Registrations in any order -/

theorem attrs_of_id {a b : rspamd_regexp_t} (h : attrs_of a = attrs_of b) : a.id = b.id :=
  congrArg Prod.fst h

theorem re_lookup_insert_isSome (m : List (Nat × Nat)) (k v i : Nat) :
    (re_lookup (re_insert m k v) i).isSome = true ↔ i = k ∨ (re_lookup m i).isSome = true := by
  by_cases h : i = k
  · subst h
    simp [re_lookup_insert_same]
  · rw [re_lookup_insert_other m k v h]
    simp [h]

/-- The invariant of registrations holds of an empty cache. -/
theorem addInv_fresh (fh : List Nat → Nat) {s : State} (h : Fresh s) :
    AddInv fh s.heap [] s := by
  obtain ⟨hc, _⟩ := h
  refine ⟨fun _ => rfl, ?_, ?_, ?_, ?_, ?_, ?_⟩
  · intro e he
    rw [hc] at he
    simp [rspamd_re_cache_new] at he
  · intro t ht
    simp at ht
  · rw [hc]
    simp [rspamd_re_cache_new]
  · intro k c hk
    rw [hc] at hk
    simp [rspamd_re_cache_new, class_lookup] at hk
  · intro k
    rw [hc]
    simp [rspamd_re_cache_new, class_lookup]
  · intro c hcm
    rw [hc] at hcm
    simp [rspamd_re_cache_new] at hcm

/-- The invariant of registrations after a registration that added an
element, the class table being `base` with the table of class `k` extended. -/
theorem addInv_register {fh : List Nat → Nat} {h0 : Nat → rspamd_regexp_t}
    {l : List Registration} {s : State} (hi : AddInv fh h0 l s) (t : Registration)
    (h1 : one_class_per_object fh (l ++ [t])) (base : List rspamd_re_class)
    (c0 : rspamd_re_class)
    (hb : class_lookup base (t.class_id fh) = some c0)
    (hb_re : ∀ i1, (re_lookup c0.re i1).isSome = true ↔
      ∃ e ∈ s.cache.re, elt_key s.heap e = (some (t.class_id fh), i1))
    (hmiss : re_lookup c0.re (s.heap t.re).id = none)
    (hother : ∀ k1, k1 ≠ t.class_id fh → class_lookup base k1 = class_lookup s.cache.re_classes k1)
    (hbst : ∀ c ∈ base, c.st = none) :
    AddInv fh h0 (l ++ [t])
      { heap := Function.update s.heap t.re
          { s.heap t.re with cache_id := s.cache.nre, re_class := some (t.class_id fh) },
        cache := { s.cache with
          re_classes := class_modify (class_set_re (s.heap t.re).id t.re) base (t.class_id fh),
          re := s.cache.re ++ [{ re := t.re, match_type := .RSPAMD_RE_CACHE_PCRE }],
          nre := s.cache.nre + 1 } } := by
  have hnokey : ¬ ∃ e ∈ s.cache.re, elt_key s.heap e = (some (t.class_id fh), (s.heap t.re).id) := by
    intro hex
    have := (hb_re _).2 hex
    rw [hmiss] at this
    cases this
  have F1 : ∀ e ∈ s.cache.re, e.re ≠ t.re := by
    intro e he heq
    obtain ⟨t1, ht1, hre, hcl⟩ := hi.src e he
    have hk : t1.class_id fh = t.class_id fh :=
      h1 t1 (List.mem_append_left _ ht1) t (by simp) (hre.trans heq)
    apply hnokey
    refine ⟨e, he, ?_⟩
    unfold elt_key
    rw [hcl, hk, heq]
  have F2 : ∀ e ∈ s.cache.re,
      elt_key (Function.update s.heap t.re
        { s.heap t.re with cache_id := s.cache.nre, re_class := some (t.class_id fh) }) e
      = elt_key s.heap e := by
    intro e he
    unfold elt_key
    rw [Function.update_noteq (F1 e he)]
  have Fnew : elt_key (Function.update s.heap t.re
        { s.heap t.re with cache_id := s.cache.nre, re_class := some (t.class_id fh) })
        { re := t.re, match_type := .RSPAMD_RE_CACHE_PCRE }
      = (some (t.class_id fh), (s.heap t.re).id) := by
    simp [elt_key]
  refine ⟨?_, ?_, ?_, ?_, ?_, ?_, ?_⟩
  · intro p
    by_cases hp : p = t.re
    · subst hp
      rw [← hi.attrs]
      simp [attrs_of]
    · simp only [Function.update_noteq hp]
      exact hi.attrs p
  · intro e he
    rcases List.mem_append.1 he with h | h
    · obtain ⟨t1, ht1, hre, hcl⟩ := hi.src e h
      refine ⟨t1, List.mem_append_left _ ht1, hre, ?_⟩
      simp only [Function.update_noteq (F1 e h)]
      exact hcl
    · simp at h
      subst h
      exact ⟨t, by simp, rfl, by simp⟩
  · intro t1 ht1
    rcases List.mem_append.1 ht1 with h | h
    · obtain ⟨e, he, hk⟩ := hi.cover t1 h
      exact ⟨e, List.mem_append_left _ he, (F2 e he).trans hk⟩
    · simp at h
      subst h
      refine ⟨{ re := t1.re, match_type := .RSPAMD_RE_CACHE_PCRE }, by simp, ?_⟩
      rw [Fnew, attrs_of_id (hi.attrs t1.re)]
  · show ((s.cache.re ++ [_]).map _).Nodup
    rw [List.map_append, List.map_congr_left F2, List.map_singleton, Fnew]
    refine List.Nodup.append hi.nodup (List.nodup_singleton _) ?_
    intro x hx hx1
    simp at hx1
    subst hx1
    obtain ⟨e, he, hk⟩ := List.mem_map.1 hx
    exact hnokey ⟨e, he, hk⟩
  · intro k1 c1 hk1 i1
    have hk1' : class_lookup (class_modify (class_set_re (s.heap t.re).id t.re) base
        (t.class_id fh)) k1 = some c1 := hk1
    have hmem : (∃ e ∈ s.cache.re ++ [{ re := t.re, match_type := .RSPAMD_RE_CACHE_PCRE }],
          elt_key (Function.update s.heap t.re
            { s.heap t.re with cache_id := s.cache.nre, re_class := some (t.class_id fh) }) e
          = (some k1, i1)) ↔
        ((some (t.class_id fh), (s.heap t.re).id) = (some k1, i1) ∨
          ∃ e ∈ s.cache.re, elt_key s.heap e = (some k1, i1)) := by
      constructor
      · rintro ⟨e, he, hk⟩
        rcases List.mem_append.1 he with h | h
        · exact Or.inr ⟨e, h, (F2 e h).symm.trans hk⟩
        · simp at h
          subst h
          rw [Fnew] at hk
          exact Or.inl hk
      · rintro (h | ⟨e, he, hk⟩)
        · exact ⟨_, by simp, Fnew.trans h⟩
        · exact ⟨e, List.mem_append_left _ he, (F2 e he).trans hk⟩
    show _ ↔ ∃ e ∈ s.cache.re ++ [_], _
    rw [hmem]
    by_cases hkk : k1 = t.class_id fh
    · subst hkk
      rw [class_lookup_modify_same (class_set_re (s.heap t.re).id t.re) (fun _ => rfl), hb] at hk1'
      simp only [Option.map_some', Option.some.injEq] at hk1'
      subst hk1'
      show (re_lookup (re_insert c0.re _ _) i1).isSome = true ↔ _
      rw [re_lookup_insert_isSome, hb_re]
      constructor
      · rintro (h | h)
        · exact Or.inl (by rw [h])
        · exact Or.inr h
      · rintro (h | h)
        · exact Or.inl (by simpa using h.symm)
        · exact Or.inr h
    · rw [class_lookup_modify_other (class_set_re (s.heap t.re).id t.re) (fun _ => rfl) _ hkk,
        hother k1 hkk] at hk1'
      rw [hi.table k1 c1 hk1' i1]
      constructor
      · exact Or.inr
      · rintro (h | h)
        · simp at h
          exact absurd h.1.symm hkk
        · exact h
  · intro k1
    show (class_lookup (class_modify _ _ _) k1).isSome = true ↔ _
    rw [class_lookup_set_re_isSome]
    by_cases hkk : k1 = t.class_id fh
    · subst hkk
      rw [hb]
      simp only [Option.isSome_some, true_iff]
      exact ⟨t, by simp, rfl⟩
    · rw [hother k1 hkk, hi.classes k1]
      constructor
      · rintro ⟨t1, ht1, hk⟩
        exact ⟨t1, List.mem_append_left _ ht1, hk⟩
      · rintro ⟨t1, ht1, hk⟩
        rcases List.mem_append.1 ht1 with h | h
        · exact ⟨t1, h, hk⟩
        · simp at h
          subst h
          exact absurd hk.symm hkk
  · intro c1 hc1
    rcases class_modify_mem hc1 with h | ⟨c2, h2, h⟩
    · exact hbst c1 h
    · rw [h]
      exact hbst c2 h2

/-- One registration keeps the invariant of registrations. -/
theorem addInv_step {fh : List Nat → Nat} {h0 : Nat → rspamd_regexp_t}
    {l : List Registration} {s : State} (hi : AddInv fh h0 l s) (t : Registration)
    (h1 : one_class_per_object fh (l ++ [t])) :
    AddInv fh h0 (l ++ [t]) (rspamd_re_cache_add fh s t.re t.type t.type_data t.datalen).2 := by
  cases hc : class_lookup s.cache.re_classes (t.class_id fh) with
  | some c =>
    cases hr : re_lookup c.re (s.heap t.re).id with
    | some n =>
      rw [add_hit fh s t.re t.type t.type_data t.datalen c n hc hr]
      refine ⟨hi.attrs, ?_, ?_, hi.nodup, hi.table, ?_, hi.st_none⟩
      · intro e he
        obtain ⟨t1, ht1, h⟩ := hi.src e he
        exact ⟨t1, List.mem_append_left _ ht1, h⟩
      · intro t1 ht1
        rcases List.mem_append.1 ht1 with h | h
        · exact hi.cover t1 h
        · simp at h
          subst h
          have := (hi.table _ c hc (s.heap t1.re).id).1 (by rw [hr]; rfl)
          rw [attrs_of_id (hi.attrs t1.re)] at this
          exact this
      · intro k1
        rw [hi.classes k1]
        constructor
        · rintro ⟨t1, ht1, hk⟩
          exact ⟨t1, List.mem_append_left _ ht1, hk⟩
        · rintro ⟨t1, ht1, hk⟩
          rcases List.mem_append.1 ht1 with h | h
          · exact ⟨t1, h, hk⟩
          · simp at h
            subst h
            subst hk
            exact (hi.classes _).1 (by rw [hc]; rfl)
    | none =>
      rw [add_miss fh s t.re t.type t.type_data t.datalen c hc hr]
      exact addInv_register hi t h1 s.cache.re_classes c hc (hi.table _ c hc) hr
        (fun _ _ => rfl) hi.st_none
  | none =>
    rw [add_new fh s t.re t.type t.type_data t.datalen hc]
    have hnew : class_lookup (s.cache.re_classes ++
        [new_class (t.class_id fh) t.type t.type_data t.datalen]) (t.class_id fh) =
        some (new_class (t.class_id fh) t.type t.type_data t.datalen) := by
      rw [class_lookup_append, hc]
      simp [class_lookup, new_class]
    refine addInv_register hi t h1 _ _ hnew ?_ rfl ?_ ?_
    · intro i1
      constructor
      · intro h
        simp [new_class, re_lookup] at h
      · rintro ⟨e, he, hk⟩
        exfalso
        obtain ⟨t1, ht1, _, hcl⟩ := hi.src e he
        have hk1 : (s.heap e.re).re_class = some (t.class_id fh) := congrArg Prod.fst hk
        rw [hcl] at hk1
        have := (hi.classes (t.class_id fh)).2 ⟨t1, ht1, Option.some.inj hk1⟩
        rw [hc] at this
        cases this
    · intro k1 hk1
      rw [class_lookup_append]
      cases class_lookup s.cache.re_classes k1 with
      | some c => rfl
      | none =>
        have : ¬ (new_class (t.class_id fh) t.type t.type_data t.datalen).id = k1 :=
          fun h => hk1 h.symm
        simp [class_lookup]
        exact this
    · intro c1 hc1
      rcases List.mem_append.1 hc1 with h | h
      · exact hi.st_none c1 h
      · simp at h
        rw [h]
        rfl

/-- A list of registrations keeps the invariant of registrations. -/
theorem addInv_register_all {fh : List Nat → Nat} {h0 : Nat → rspamd_regexp_t}
    (ts : List Registration) {l : List Registration} {s : State} (hi : AddInv fh h0 l s)
    (h1 : one_class_per_object fh (l ++ ts)) :
    AddInv fh h0 (l ++ ts) (register_all fh s ts) := by
  induction ts generalizing l s with
  | nil => simpa [register_all] using hi
  | cons t ts ih =>
    have h2 : one_class_per_object fh (l ++ [t]) := by
      intro t1 ht1 t2 ht2
      apply h1 t1 _ t2 _
      · rcases List.mem_append.1 ht1 with h | h
        · exact List.mem_append_left _ h
        · simp at h; subst h; simp
      · rcases List.mem_append.1 ht2 with h | h
        · exact List.mem_append_left _ h
        · simp at h; subst h; simp
    have h3 := ih (addInv_step hi t h2) (by simpa using h1)
    simpa [register_all] using h3

theorem class_stream_eq_words (heap : Nat → rspamd_regexp_t) (k : Nat)
    (l : List rspamd_re_cache_elt) :
    class_stream heap k l = words_of k (class_attrs heap k l) := by
  induction l with
  | nil => rfl
  | cons e l ih =>
    unfold class_stream
    by_cases hk : (heap e.re).re_class = some k
    · simp only [hk, if_true, ih]
      simp [class_attrs, List.filter_cons, hk, words_of, hash_words, attrs_of]
    · simp only [hk, if_false, ih]
      simp [class_attrs, List.filter_cons, hk]

theorem mem_class_attrs {heap : Nat → rspamd_regexp_t} {k : Nat}
    {l : List rspamd_re_cache_elt} {a : Nat × Nat × Nat × Nat} :
    a ∈ class_attrs heap k l ↔
      ∃ e ∈ l, (heap e.re).re_class = some k ∧ attrs_of (heap e.re) = a := by
  unfold class_attrs
  simp only [List.mem_map, List.mem_filter, decide_eq_true_eq]
  constructor
  · rintro ⟨e, ⟨he, hk⟩, ha⟩
    exact ⟨e, he, hk, ha⟩
  · rintro ⟨e, he, hk, ha⟩
    exact ⟨e, ⟨he, hk⟩, ha⟩

/-- After registrations, the member attributes of a class in sorted order are
strictly increasing in the content id. -/
theorem class_attrs_sorted {fh : List Nat → Nat} {h0 : Nat → rspamd_regexp_t}
    {l : List Registration} {s : State} (hi : AddInv fh h0 l s) (k : Nat) :
    (class_attrs s.heap k (sort_re s.heap s.cache.re)).Pairwise (fun a b => a.1 < b.1) := by
  haveI : IsTotal rspamd_re_cache_elt (sort_le s.heap) := ⟨fun a b => Nat.le_total _ _⟩
  haveI : IsTrans rspamd_re_cache_elt (sort_le s.heap) := ⟨fun a b c => Nat.le_trans⟩
  have hs : (sort_re s.heap s.cache.re).Pairwise (sort_le s.heap) :=
    List.sorted_insertionSort (sort_le s.heap) s.cache.re
  have hnd : ((sort_re s.heap s.cache.re).map (elt_key s.heap)).Nodup :=
    (((sort_re_perm s.heap s.cache.re).map _).nodup_iff).2 hi.nodup
  have hne : (sort_re s.heap s.cache.re).Pairwise
      (fun a b => elt_key s.heap a ≠ elt_key s.heap b) := List.pairwise_map.1 hnd
  have hboth := (hs.and hne).filter (fun e => decide ((s.heap e.re).re_class = some k))
  unfold class_attrs
  rw [List.pairwise_map]
  refine hboth.imp_of_mem ?_
  intro a b ha hb hab
  simp only [List.mem_filter, decide_eq_true_eq] at ha hb
  obtain ⟨hle, hkey⟩ := hab
  have hle1 : (s.heap a.re).id ≤ (s.heap b.re).id := hle
  have hneq : (s.heap a.re).id ≠ (s.heap b.re).id := by
    intro heq
    apply hkey
    unfold elt_key
    rw [ha.2, hb.2, heq]
  show (s.heap a.re).id < (s.heap b.re).id
  omega

/-- After registrations, the member attributes of a class are those of the
expressions registered under its id. -/
theorem class_attrs_mem {fh : List Nat → Nat} {h0 : Nat → rspamd_regexp_t}
    {l : List Registration} {s : State} (hi : AddInv fh h0 l s)
    (h2 : same_flags_per_content_id fh h0 l) (k : Nat) (a : Nat × Nat × Nat × Nat) :
    a ∈ class_attrs s.heap k (sort_re s.heap s.cache.re) ↔
      ∃ t ∈ l, t.class_id fh = k ∧ attrs_of (h0 t.re) = a := by
  rw [mem_class_attrs]
  constructor
  · rintro ⟨e, he, hk, ha⟩
    have he1 : e ∈ s.cache.re := (sort_re_perm _ _).mem_iff.1 he
    obtain ⟨t, ht, hre, hcl⟩ := hi.src e he1
    rw [hcl] at hk
    refine ⟨t, ht, Option.some.inj hk, ?_⟩
    rw [hre, ← hi.attrs e.re]
    exact ha
  · rintro ⟨t, ht, hk, ha⟩
    obtain ⟨e, he, hkey⟩ := hi.cover t ht
    have he1 : e ∈ sort_re s.heap s.cache.re := (sort_re_perm _ _).mem_iff.2 he
    have hcl : (s.heap e.re).re_class = some (t.class_id fh) := congrArg Prod.fst hkey
    have hid : (s.heap e.re).id = (h0 t.re).id := congrArg Prod.snd hkey
    refine ⟨e, he1, by rw [hcl, hk], ?_⟩
    obtain ⟨t1, ht1, hre1, hcl1⟩ := hi.src e he
    rw [hcl1] at hcl
    have hk1 : t1.class_id fh = t.class_id fh := Option.some.inj hcl
    have hid1 : (h0 t1.re).id = (h0 t.re).id := by
      rw [hre1, ← attrs_of_id (hi.attrs e.re)]
      exact hid
    rw [hi.attrs e.re, ← hre1, h2 t1 ht1 t ht hk1 hid1]
    exact ha

/-- Registering the same registrations in another order gives every class the
same member attributes in sorted order. -/
theorem class_attrs_perm {fh : List Nat → Nat} {h0 : Nat → rspamd_regexp_t}
    {l1 l2 : List Registration} {sa sb : State} (hia : AddInv fh h0 l1 sa)
    (hib : AddInv fh h0 l2 sb) (hp : l1.Perm l2)
    (h2 : same_flags_per_content_id fh h0 l1) (k : Nat) :
    class_attrs sa.heap k (sort_re sa.heap sa.cache.re) =
      class_attrs sb.heap k (sort_re sb.heap sb.cache.re) := by
  have h2b : same_flags_per_content_id fh h0 l2 := by
    intro t1 ht1 t2 ht2
    exact h2 t1 (hp.mem_iff.2 ht1) t2 (hp.mem_iff.2 ht2)
  have hsa := class_attrs_sorted hia k
  have hsb := class_attrs_sorted hib k
  have hnd : ∀ {l : List (Nat × Nat × Nat × Nat)},
      l.Pairwise (fun a b => a.1 < b.1) → l.Nodup := by
    intro l hl
    exact hl.imp (fun hab heq => by rw [heq] at hab; exact Nat.lt_irrefl _ hab)
  have hperm : (class_attrs sa.heap k (sort_re sa.heap sa.cache.re)).Perm
      (class_attrs sb.heap k (sort_re sb.heap sb.cache.re)) := by
    rw [List.perm_ext_iff_of_nodup (hnd hsa) (hnd hsb)]
    intro a
    rw [class_attrs_mem hia h2 k a, class_attrs_mem hib h2b k a]
    constructor
    · rintro ⟨t, ht, h⟩
      exact ⟨t, hp.mem_iff.1 ht, h⟩
    · rintro ⟨t, ht, h⟩
      exact ⟨t, hp.mem_iff.2 ht, h⟩
  haveI : IsAntisymm (Nat × Nat × Nat × Nat) (fun a b => a.1 < b.1) :=
    ⟨fun a b h1 h2 => absurd h1 (Nat.lt_asymm h2)⟩
  exact List.eq_of_perm_of_sorted hperm hsa hsb

/-- Registering the same registrations in another order gives the same number
of expressions. -/
theorem register_length_perm {fh : List Nat → Nat} {h0 : Nat → rspamd_regexp_t}
    {l1 l2 : List Registration} {sa sb : State} (hia : AddInv fh h0 l1 sa)
    (hib : AddInv fh h0 l2 sb) (hp : l1.Perm l2) :
    sa.cache.re.length = sb.cache.re.length := by
  have hmem : ∀ {l : List Registration} {s : State}, AddInv fh h0 l s →
      ∀ x, x ∈ s.cache.re.map (elt_key s.heap) ↔
        ∃ t ∈ l, x = (some (t.class_id fh), (h0 t.re).id) := by
    intro l s hi x
    constructor
    · intro hx
      obtain ⟨e, he, hk⟩ := List.mem_map.1 hx
      obtain ⟨t, ht, hre, hcl⟩ := hi.src e he
      refine ⟨t, ht, ?_⟩
      rw [← hk]
      unfold elt_key
      rw [hcl, attrs_of_id (hi.attrs e.re), hre]
    · rintro ⟨t, ht, hx⟩
      obtain ⟨e, he, hk⟩ := hi.cover t ht
      exact List.mem_map.2 ⟨e, he, hk.trans hx.symm⟩
  have hperm : (sa.cache.re.map (elt_key sa.heap)).Perm (sb.cache.re.map (elt_key sb.heap)) := by
    rw [List.perm_ext_iff_of_nodup hia.nodup hib.nodup]
    intro x
    rw [hmem hia x, hmem hib x]
    constructor
    · rintro ⟨t, ht, h⟩
      exact ⟨t, hp.mem_iff.1 ht, h⟩
    · rintro ⟨t, ht, h⟩
      exact ⟨t, hp.mem_iff.2 ht, h⟩
  simpa using hperm.length_eq

/-- The class table after finalize, class by class. -/
theorem init_class_lookup {s s1 : State} {cfg : rspamd_config}
    (h : rspamd_re_cache_init s cfg = .ok s1) (k : Nat) :
    class_lookup s1.cache.re_classes k =
      (class_lookup s.cache.re_classes k).map (fun c =>
        finalize_class (sort_re s.heap s.cache.re).length
          { c with st := st_after s.heap k c.st (sort_re s.heap s.cache.re) }) := by
  obtain ⟨acc, hacc, hs1⟩ := init_inv h
  subst hs1
  show class_lookup (List.map _ _) k = _
  rw [class_lookup_map _ (finalize_class_id _), init_loop_class hacc k]
  cases class_lookup s.cache.re_classes k <;> rfl

/-- After registrations alone finalize returns. -/
theorem init_total_of_addInv {fh : List Nat → Nat} {h0 : Nat → rspamd_regexp_t}
    {l : List Registration} {s : State} (hi : AddInv fh h0 l s) (cfg : rspamd_config) :
    ∃ s1, rspamd_re_cache_init s cfg = .ok s1 := by
  obtain ⟨acc, hacc⟩ := init_loop_total (sort_re s.heap s.cache.re) 0
    { heap := s.heap, classes := s.cache.re_classes, st_global := [] } (by
      intro e he
      have hm : e ∈ s.cache.re := (sort_re_perm _ _).mem_iff.1 he
      obtain ⟨t, ht, _, hcl⟩ := hi.src e hm
      have hs := (hi.classes (t.class_id fh)).2 ⟨t, ht, rfl⟩
      cases hc : class_lookup s.cache.re_classes (t.class_id fh) with
      | none => simp [hc] at hs
      | some c => exact ⟨t.class_id fh, c, hcl, hc⟩)
  exact ⟨_, init_of_loop hacc⟩

/-- The hash of a class after registrations and finalize: the words of the
member attributes in sorted order, then the number of expressions. -/
theorem init_hash_of_addInv {fh : List Nat → Nat} {h0 : Nat → rspamd_regexp_t}
    {l : List Registration} {s s1 : State} (hi : AddInv fh h0 l s) {cfg : rspamd_config}
    (h : rspamd_re_cache_init s cfg = .ok s1) (k : Nat) :
    (class_lookup s1.cache.re_classes k).map (fun c => c.hash) =
      if ∃ t ∈ l, t.class_id fh = k then
        some (some (words_of k (class_attrs s.heap k (sort_re s.heap s.cache.re)) ++
          [s.cache.re.length]))
      else none := by
  by_cases hex : ∃ t ∈ l, t.class_id fh = k
  · rw [if_pos hex]
    have hs := (hi.classes k).2 hex
    cases hc : class_lookup s.cache.re_classes k with
    | none => simp [hc] at hs
    | some c =>
      obtain ⟨t, ht, hk⟩ := hex
      obtain ⟨e, he, hkey⟩ := hi.cover t ht
      have hm : has_member s.heap k s.cache.re :=
        ⟨e, he, by rw [← hk]; exact congrArg Prod.fst hkey⟩
      obtain ⟨c1, hc1, hh⟩ := init_class_hash h hc (hi.st_none c (class_lookup_mem hc)) hm
      rw [hc1, ← class_stream_eq_words]
      simp [hh]
  · rw [if_neg hex]
    have hs : class_lookup s.cache.re_classes k = none := by
      cases hc : class_lookup s.cache.re_classes k with
      | none => rfl
      | some c =>
        exfalso
        exact hex ((hi.classes k).1 (by rw [hc]; rfl))
    rw [init_class_lookup h k, hs]
    rfl

/-- C4 (amended): register the same registrations in two orders on an empty
cache and finalize both. When no expression object is registered under two
class ids, and expressions registered under one class id with the same content
id have the same flags and hit limit, both finalizations return and every
class has the same hash in both memories; the hash of a class is the words of
its class id and of the content ids, flags and hit limits of its members in
sorted order, followed by the number of expressions. -/
theorem class_hash_order_independent (fh : List Nat → Nat) (s0 : State)
    (l1 l2 : List Registration) (cfg : rspamd_config)
    (hf : Fresh s0) (hp : l1.Perm l2) (h1 : one_class_per_object fh l1)
    (h2 : same_flags_per_content_id fh s0.heap l1) :
    ∃ sa sb, rspamd_re_cache_init (register_all fh s0 l1) cfg = .ok sa ∧
      rspamd_re_cache_init (register_all fh s0 l2) cfg = .ok sb ∧
      (∀ k, (class_lookup sa.cache.re_classes k).map (fun c => c.hash) =
        (class_lookup sb.cache.re_classes k).map (fun c => c.hash)) ∧
      ∀ k c, class_lookup sa.cache.re_classes k = some c →
        c.hash = some (words_of k (class_attrs (register_all fh s0 l1).heap k
            (sort_re (register_all fh s0 l1).heap (register_all fh s0 l1).cache.re)) ++
          [(register_all fh s0 l1).cache.re.length]) := by
  have h1b : one_class_per_object fh l2 := by
    intro t1 ht1 t2 ht2
    exact h1 t1 (hp.mem_iff.2 ht1) t2 (hp.mem_iff.2 ht2)
  have hia : AddInv fh s0.heap l1 (register_all fh s0 l1) := by
    simpa using addInv_register_all l1 (addInv_fresh fh hf) (by simpa using h1)
  have hib : AddInv fh s0.heap l2 (register_all fh s0 l2) := by
    simpa using addInv_register_all l2 (addInv_fresh fh hf) (by simpa using h1b)
  obtain ⟨sa, hsa⟩ := init_total_of_addInv hia cfg
  obtain ⟨sb, hsb⟩ := init_total_of_addInv hib cfg
  refine ⟨sa, sb, hsa, hsb, ?_, ?_⟩
  · intro k
    rw [init_hash_of_addInv hia hsa k, init_hash_of_addInv hib hsb k,
      class_attrs_perm hia hib hp h2 k, register_length_perm hia hib hp]
    have hiff : (∃ t ∈ l1, t.class_id fh = k) ↔ ∃ t ∈ l2, t.class_id fh = k := by
      constructor
      · rintro ⟨t, ht, h⟩
        exact ⟨t, hp.mem_iff.1 ht, h⟩
      · rintro ⟨t, ht, h⟩
        exact ⟨t, hp.mem_iff.2 ht, h⟩
    by_cases hex : ∃ t ∈ l1, t.class_id fh = k
    · rw [if_pos hex, if_pos (hiff.1 hex)]
    · rw [if_neg hex, if_neg (fun h => hex (hiff.2 h))]
  · intro k c hc
    have := init_hash_of_addInv hia hsa k
    rw [hc] at this
    by_cases hex : ∃ t ∈ l1, t.class_id fh = k
    · rw [if_pos hex] at this
      simpa using this
    · rw [if_neg hex] at this
      simp at this

/-- Witness of `class_hash_order_independent`: the three example registrations
and their reversal. -/
theorem class_hash_order_independent_witness :
    ∃ sa sb, rspamd_re_cache_init (register_all fh0 s0 regs0) cfg0 = .ok sa ∧
      rspamd_re_cache_init (register_all fh0 s0 regs0.reverse) cfg0 = .ok sb ∧
      ∀ k, (class_lookup sa.cache.re_classes k).map (fun c => c.hash) =
        (class_lookup sb.cache.re_classes k).map (fun c => c.hash) := by
  obtain ⟨sa, sb, ha, hb, h, _⟩ :=
    class_hash_order_independent fh0 s0 regs0 regs0.reverse cfg0
      ⟨rfl, fun _ => ⟨rfl, rfl⟩⟩ (List.reverse_perm regs0).symm (by decide) (by decide)
  exact ⟨sa, sb, ha, hb, h⟩

/-- C4 as stated fails: the objects at addresses 1 and 11 have the same content
id and hit limits 1 and 2. Registered for the same header, the first one
registered stays in the class, so the two orders give the class hashes that
differ in the hit limit word. -/
theorem class_hash_depends_on_order :
    (run_ops fh0 s0
        [.add 1 .RSPAMD_RE_HEADER [83] 1, .add 11 .RSPAMD_RE_HEADER [83] 1,
          .init cfg0]).toOption.map
      (fun s => (class_lookup s.cache.re_classes 83).map (fun c => c.hash))
      = some (some (some [83, 1, 0, 0, 1, 1])) ∧
    (run_ops fh0 s0
        [.add 11 .RSPAMD_RE_HEADER [83] 1, .add 1 .RSPAMD_RE_HEADER [83] 1,
          .init cfg0]).toOption.map
      (fun s => (class_lookup s.cache.re_classes 83).map (fun c => c.hash))
      = some (some (some [83, 1, 0, 0, 2, 1])) := by
  decide

/-- C4 fails also without equal content ids: one object registered for a
header and for the whole message ends in the class registered last, so the
header class is hashed in one order and not in the other. -/
theorem class_hash_depends_on_order_aliased :
    (run_ops fh0 s0
        [.add 1 .RSPAMD_RE_HEADER [83] 1, .add 1 .RSPAMD_RE_BODY [] 0,
          .init cfg0]).toOption.map
      (fun s => (class_lookup s.cache.re_classes 83).map (fun c => c.hash))
      = some (some none) ∧
    (run_ops fh0 s0
        [.add 1 .RSPAMD_RE_BODY [] 0, .add 1 .RSPAMD_RE_HEADER [83] 1,
          .init cfg0]).toOption.map
      (fun s => (class_lookup s.cache.re_classes 83).map (fun c => c.hash))
      = some (some (some [83, 1, 0, 0, 1, 83, 1, 0, 0, 1, 2])) := by
  decide

/-! ## Scanner: what the accurate matcher writes -/

/-- Accurate matching of one slice writes counters only. -/
theorem process_pcre_frame (px : Primitives) (c : State) (rt : rspamd_re_runtime)
    (re : Nat) (sl : Slice) (is_raw : Bool) :
    (rspamd_re_cache_process_pcre px c rt re sl is_raw).2.results = rt.results ∧
    (rspamd_re_cache_process_pcre px c rt re sl is_raw).2.checked = rt.checked ∧
    (rspamd_re_cache_process_pcre px c rt re sl is_raw).2.has_hs = rt.has_hs := by
  unfold rspamd_re_cache_process_pcre
  split
  · exact ⟨rfl, rfl, rfl⟩
  · simp only
    split <;> exact ⟨rfl, rfl, rfl⟩

/-- The search loop stops at the hit limit. -/
theorem search_loop_le (max_hits k r : Nat) (hm : max_hits > 0) (hr : r < max_hits) :
    search_loop max_hits k r ≤ max_hits := by
  induction k generalizing r with
  | zero =>
    unfold search_loop
    omega
  | succ k ih =>
    unfold search_loop
    have hmod : (r + 1) % 4294967296 ≤ r + 1 := Nat.mod_le _ _
    by_cases hge : (r + 1) % 4294967296 ≥ max_hits
    · rw [if_pos ⟨hm, hge⟩]
      omega
    · have hn : ¬ (max_hits > 0 ∧ (r + 1) % 4294967296 ≥ max_hits) := fun h => hge h.2
      rw [if_neg hn]
      exact ih _ (by omega)

/-- Accurate matching of one slice returns at most the hit limit when the
stored count is at most the limit. -/
theorem process_pcre_le (px : Primitives) (c : State) (rt : rspamd_re_runtime)
    (re : Nat) (sl : Slice) (is_raw : Bool) (hm : (c.heap re).maxhits > 0)
    (hr : rt.results (c.heap re).cache_id ≤ (c.heap re).maxhits) :
    (rspamd_re_cache_process_pcre px c rt re sl is_raw).1 ≤ (c.heap re).maxhits := by
  unfold rspamd_re_cache_process_pcre
  split
  · exact hr
  · simp only
    split
    · rename_i hcond
      rcases hcond with h0 | hlt
      · omega
      · exact search_loop_le _ _ _ hm hlt
    · exact hr

/-- Two expressions with the same cache id, other than the invalid one, are
the same object. -/
theorem ids_registered_inj {c : State} (hids : ids_registered c) {p q : Nat}
    (hp : (c.heap p).cache_id ≠ RSPAMD_INVALID_ID)
    (heq : (c.heap p).cache_id = (c.heap q).cache_id) : p = q := by
  have hq : (c.heap q).cache_id ≠ RSPAMD_INVALID_ID := heq ▸ hp
  rcases hids p with h | ⟨e1, h1, h2⟩
  · exact absurd h hp
  · rcases hids q with h | ⟨e2, h3, h4⟩
    · exact absurd h hq
    · rw [heq, h3] at h1
      cases h1
      exact h2.symm.trans h4

/-- Storing a count that respects the hit limit of the expression at that
cache id keeps all stored results within their limits. -/
theorem results_bounded_update {c : State} {rt : rspamd_re_runtime}
    (hb : results_bounded c rt) (results1 : Nat → Nat) (j v : Nat)
    (hv : ∀ p, (c.heap p).cache_id = j → (c.heap p).cache_id ≠ RSPAMD_INVALID_ID →
      (c.heap p).maxhits > 0 → v ≤ (c.heap p).maxhits)
    (hres : results1 = Function.update rt.results j v)
    (rt1 : rspamd_re_runtime) (h1 : rt1.results = results1) : results_bounded c rt1 := by
  intro p hp hm
  rw [h1, hres]
  by_cases hj : (c.heap p).cache_id = j
  · rw [hj, Function.update_same]
    exact hv p hj hp hm
  · rw [Function.update_noteq hj]
    exact hb p hp hm

theorem results_bounded_congr {c : State} {rt rt1 : rspamd_re_runtime}
    (h : rt1.results = rt.results) (hb : results_bounded c rt) : results_bounded c rt1 := by
  intro p hp hm
  rw [h]
  exact hb p hp hm

/-- Accurate matching leaves the stored results within their limits. -/
theorem results_bounded_pcre {px : Primitives} {c : State} {rt : rspamd_re_runtime}
    (hb : results_bounded c rt) (re : Nat) (sl : Slice) (is_raw : Bool) :
    results_bounded c (rspamd_re_cache_process_pcre px c rt re sl is_raw).2 := by
  intro p hp hm
  rw [(process_pcre_frame px c rt re sl is_raw).1]
  exact hb p hp hm

/-- The accurate loop keeps the stored results within their limits. -/
theorem pcre_loop_bounded {px : Primitives} {c : State} (hids : ids_registered c)
    (re : Nat) (is_raw : Bool) (hre : (c.heap re).cache_id ≠ RSPAMD_INVALID_ID)
    (ins : List Slice) (ret : Nat) {rt : rspamd_re_runtime} (hb : results_bounded c rt) :
    results_bounded c (pcre_loop px c re (c.heap re).cache_id is_raw ins ret rt).2 := by
  induction ins generalizing ret rt with
  | nil => exact hb
  | cons sl rest ih =>
    unfold pcre_loop
    apply ih
    refine results_bounded_update (results_bounded_pcre hb re sl is_raw) _
      (c.heap re).cache_id _ ?_ rfl _ rfl
    intro p hj hp hm
    have hpe : p = re := ids_registered_inj hids hp hj
    subst hpe
    exact Nat.le_trans (Nat.mod_le _ _) (process_pcre_le px c rt p sl is_raw hm (hb p hp hm))

/-- The re-check loop of the callback keeps the stored results within their
limits. -/
theorem cb_loop_bounded {px : Primitives} {c : State} (hids : ids_registered c)
    {elt : rspamd_re_cache_elt} {id : Nat} (helt : c.cache.re[id]? = some elt)
    (to_off : Nat) (ins : List Slice) (n i processed : Nat) {rt rt1 : rspamd_re_runtime}
    (hb : results_bounded c rt)
    (h : cb_loop px c elt.re id to_off ins n i processed rt = .ok rt1) :
    results_bounded c rt1 := by
  induction n generalizing i processed rt with
  | zero =>
    simp [cb_loop] at h
    rw [← h]
    exact hb
  | succ n ih =>
    unfold cb_loop at h
    cases hsl : ins[i]? with
    | none => simp [hsl] at h
    | some sl =>
      simp only [hsl] at h
      have hb2 : results_bounded c
          { (rspamd_re_cache_process_pcre px c rt elt.re sl false).2 with
            results := Function.update
              (rspamd_re_cache_process_pcre px c rt elt.re sl false).2.results id
              ((rspamd_re_cache_process_pcre px c rt elt.re sl false).1 % 256),
            checked := Function.update
              (rspamd_re_cache_process_pcre px c rt elt.re sl false).2.checked id true } := by
        refine results_bounded_update (results_bounded_pcre hb elt.re sl false) _ id _ ?_ rfl
          _ rfl
        intro p hj hp hm
        have hpe : p = elt.re := by
          rcases hids p with h0 | ⟨e1, h1, h2⟩
          · exact absurd h0 hp
          · rw [hj, helt] at h1
            cases h1
            exact h2.symm
        subst hpe
        exact Nat.le_trans (Nat.mod_le _ _)
          (process_pcre_le px c rt elt.re sl false hm (hb elt.re hp hm))
      split at h
      · cases h
        exact hb2
      · exact ih _ _ hb2 h

/-- The prefilter callback keeps the stored results within their limits. -/
theorem hyperscan_cb_bounded {px : Primitives} {c : State} (hids : ids_registered c)
    {cbdata : rspamd_re_hyperscan_cbdata} {rt rt1 : rspamd_re_runtime} {ev : HsEvent}
    (hb : results_bounded c rt)
    (h : rspamd_re_cache_hyperscan_cb px c cbdata rt ev = .ok rt1) :
    results_bounded c rt1 := by
  unfold rspamd_re_cache_hyperscan_cb at h
  have hbr : results_bounded c { rt with reported := rt.reported ++ [ev.id] } :=
    results_bounded_congr rfl hb
  cases helt : c.cache.re[ev.id]? with
  | none => simp [helt] at h
  | some elt =>
    simp only [helt] at h
    split at h
    · split at h
      · rename_i hcond
        cases h
        refine results_bounded_update hbr _ ev.id _ ?_ rfl _ rfl
        intro p hj hp hm
        have hpe : p = elt.re := by
          rcases hids p with h0 | ⟨e1, h1, h2⟩
          · exact absurd h0 hp
          · rw [hj, helt] at h1
            cases h1
            exact h2.symm
        subst hpe
        have hlt : rt.results ev.id < (c.heap elt.re).maxhits := by
          rcases hcond with h0 | h0
          · omega
          · exact h0
        exact Nat.le_trans (Nat.mod_le _ _) hlt
      · cases h
        exact hbr
    · split at h
      · cases h
        exact hbr
      · exact cb_loop_bounded hids helt _ _ _ _ _ hbr h

/-- The callbacks of a scan keep the stored results within their limits. -/
theorem run_callbacks_bounded {px : Primitives} {c : State} (hids : ids_registered c)
    {cbdata : rspamd_re_hyperscan_cbdata} (evs : List HsEvent) {rt rt1 : rspamd_re_runtime}
    (hb : results_bounded c rt) (h : run_callbacks px c cbdata evs rt = .ok rt1) :
    results_bounded c rt1 := by
  induction evs generalizing rt with
  | nil =>
    simp [run_callbacks] at h
    rw [← h]
    exact hb
  | cons ev evs ih =>
    unfold run_callbacks at h
    cases hcb : rspamd_re_cache_hyperscan_cb px c cbdata rt ev with
    | error f => simp [hcb] at h
    | ok rt2 =>
      simp only [hcb] at h
      exact ih (hyperscan_cb_bounded hids hb hcb) h

/-- The block-mode loop keeps the stored results within their limits. -/
theorem hs_block_loop_bounded {px : Primitives} {c : State} (hids : ids_registered c)
    (db re_id : Nat) (ins : List Slice) (ret : Nat) {rt : rspamd_re_runtime}
    {out : Nat × rspamd_re_runtime} (hb : results_bounded c rt)
    (h : hs_block_loop px c db re_id ins ret rt = .ok out) : results_bounded c out.2 := by
  induction ins generalizing ret rt with
  | nil =>
    simp [hs_block_loop] at h
    rw [← h]
    exact hb
  | cons sl rest ih =>
    unfold hs_block_loop at h
    cases hcb : run_callbacks px c { ins := sl :: rest, count := 1 } (px.hs_scan db sl).1 rt with
    | error f => simp [hcb] at h
    | ok rt2 =>
      simp only [hcb] at h
      exact ih _ (run_callbacks_bounded hids _ hb hcb) h

/-- The sweep of a class keeps the stored results within their limits. -/
theorem finish_class_bounded {c : State} (ids : List Nat) {rt rt1 : rspamd_re_runtime}
    (hb : results_bounded c rt) (h : rspamd_re_cache_finish_class ids rt = .ok rt1) :
    results_bounded c rt1 := by
  induction ids generalizing rt with
  | nil =>
    simp [rspamd_re_cache_finish_class] at h
    rw [← h]
    exact hb
  | cons id rest ih =>
    unfold rspamd_re_cache_finish_class at h
    split at h
    · split at h
      · refine ih ?_ h
        exact results_bounded_update hb _ id 0 (fun _ _ _ _ => Nat.zero_le _) rfl _ rfl
      · cases h
    · exact ih hb h

/-- The function `rspamd_re_cache_process_regexp_data` keeps the stored results
within their limits. -/
theorem process_regexp_data_bounded {px : Primitives} {c : State} (hids : ids_registered c)
    {rt : rspamd_re_runtime} {re : Nat} (hre : (c.heap re).cache_id ≠ RSPAMD_INVALID_ID)
    {ins : List Slice} {is_raw : Bool} {out : Nat × rspamd_re_runtime}
    (hb : results_bounded c rt)
    (h : rspamd_re_cache_process_regexp_data px c rt re ins is_raw = .ok out) :
    results_bounded c out.2 := by
  unfold rspamd_re_cache_process_regexp_data at h
  split at h
  · cases h
    exact results_bounded_update hb _ (c.heap re).cache_id 0 (fun _ _ _ _ => Nat.zero_le _)
      rfl _ rfl
  · cases helt : c.cache.re[(c.heap re).cache_id]? with
    | none => simp [helt] at h
    | some elt =>
      simp only [helt] at h
      split at h
      · cases h
        exact results_bounded_congr rfl (pcre_loop_bounded hids re is_raw hre ins 0 hb)
      · cases hk : (c.heap re).re_class with
        | none => simp [hk] at h
        | some k =>
          simp only [hk] at h
          cases hcl : class_lookup c.cache.re_classes k with
          | none => simp [hcl] at h
          | some cl =>
            simp only [hcl] at h
            have hb1 : results_bounded c
                { rt with stat := { rt.stat with
                    bytes_scanned := rt.stat.bytes_scanned +
                      ((clip_slices c.cache.max_re_data ins).map Slice.len).sum } } :=
              results_bounded_congr rfl hb
            split at h
            · split at h
              · exact hs_block_loop_bounded hids _ _ _ _ hb1 h
              · split at h
                · cases h
                · rename_i rt2 hcb
                  cases h
                  exact run_callbacks_bounded hids _ hb1 hcb
            · cases h

/-- The `switch` of the slow path keeps the stored results within their
limits. -/
theorem exec_switch_bounded {px : Primitives} {c : State} (hids : ids_registered c)
    {task : rspamd_task} {rt : rspamd_re_runtime} {re : Nat}
    (hre : (c.heap re).cache_id ≠ RSPAMD_INVALID_ID) {re_class : rspamd_re_class}
    {is_strong : Bool} {out : Nat × rspamd_re_runtime} (hb : results_bounded c rt)
    (h : exec_switch px c task rt re re_class is_strong = .ok out) :
    results_bounded c out.2 := by
  unfold exec_switch at h
  split at h
  · cases h
  · cases h
    exact hb
  · exact process_regexp_data_bounded hids hre hb h

/-- The slow path keeps the stored results within their limits. -/
theorem exec_re_bounded {px : Primitives} {c : State} (hids : ids_registered c)
    {task : rspamd_task} {rt : rspamd_re_runtime} {re : Nat}
    (hre : (c.heap re).cache_id ≠ RSPAMD_INVALID_ID) {re_class : rspamd_re_class}
    {is_strong : Bool} {out : Nat × rspamd_re_runtime} (hb : results_bounded c rt)
    (h : rspamd_re_cache_exec_re px c task rt re re_class is_strong = .ok out) :
    results_bounded c out.2 := by
  unfold rspamd_re_cache_exec_re at h
  cases hsw : exec_switch px c task rt re re_class is_strong with
  | error f => simp [hsw] at h
  | ok o1 =>
    have hb1 := exec_switch_bounded hids hre hb hsw
    simp only [hsw] at h
    split at h
    · cases h
    · rename_i rt2 hfin
      cases h
      refine results_bounded_congr rfl (?_ : results_bounded c rt2)
      split at hfin
      · exact finish_class_bounded _ hb1 hfin
      · cases hfin
        exact hb1

/-- The function `rspamd_re_cache_process` keeps the stored results within
their limits. -/
theorem process_bounded {px : Primitives} {c : State} (hids : ids_registered c)
    {task : rspamd_task} {rt : rspamd_re_runtime} {re : Nat} {is_strong : Bool}
    {out : Nat × rspamd_re_runtime} (hb : results_bounded c rt)
    (h : rspamd_re_cache_process px c task rt re is_strong = .ok out) :
    results_bounded c out.2 := by
  unfold rspamd_re_cache_process at h
  by_cases hg : (c.heap re).cache_id = RSPAMD_INVALID_ID ∨ (c.heap re).cache_id > c.cache.nre
  · simp only [hg, if_true] at h
    cases h
    exact hb
  · simp only [hg, if_false] at h
    by_cases hch : rt.checked (c.heap re).cache_id = true
    · simp only [hch, if_true] at h
      cases h
      exact results_bounded_congr rfl hb
    · simp only [hch] at h
      cases hk : (c.heap re).re_class with
      | none =>
        simp only [hk] at h
        cases h
        exact hb
      | some k =>
        simp only [hk] at h
        cases hl : class_lookup c.cache.re_classes k with
        | none => simp [hl] at h
        | some cl =>
          simp only [hl] at h
          exact exec_re_bounded hids (fun hh => hg (Or.inl hh)) hb h

/-- C10: over a cache in which every expression with a cache id is the
expression held by the element of `cache->re` at that id, in every runtime
state reached from a fresh runtime by `process` calls, prefilter callbacks and
sweeps of a class, the stored result of every expression with a cache id and
a hit limit above zero is at most the limit. -/
theorem results_le_maxhits (px : Primitives) (c : State) (task : rspamd_task)
    (rt : rspamd_re_runtime) (hids : ids_registered c) (hr : RtReachable px c task rt)
    (p : Nat) (hp : (c.heap p).cache_id ≠ RSPAMD_INVALID_ID) (hm : (c.heap p).maxhits > 0) :
    rt.results (c.heap p).cache_id ≤ (c.heap p).maxhits := by
  have hb : results_bounded c rt := by
    induction hr with
    | fresh =>
      intro q _ _
      exact Nat.zero_le _
    | process rt0 re is_strong out _ hproc ih => exact process_bounded hids ih hproc
    | callback rt0 rt1 cbdata ev _ hcb ih => exact hyperscan_cb_bounded hids ih hcb
    | finish rt0 rt1 re_class _ hfin ih => exact finish_class_bounded _ ih hfin
  exact hb p hp hm

/-- Witness of `results_le_maxhits`: on the example memory the header
expression has hit limit 1; the header holds two matches and the first
`process` call stores 1. -/
theorem results_le_maxhits_witness :
    ∃ out, rspamd_re_cache_process px0 s12 task0 (rspamd_re_cache_runtime_new s12.cache) 1 false
        = .ok out ∧
      out.2.results (s12.heap 1).cache_id ≤ (s12.heap 1).maxhits ∧
      (s12.heap 1).maxhits = 1 ∧ out.2.results (s12.heap 1).cache_id = 1 :=
  ⟨_, rfl,
    results_le_maxhits px0 s12 task0 _
      (@reachable_inv fh0 s12
        ⟨s0, [.add 1 .RSPAMD_RE_HEADER [83] 1, .add 2 .RSPAMD_RE_BODY [] 0],
          ⟨rfl, fun _ => ⟨rfl, rfl⟩⟩, rfl⟩).ids
      (RtReachable.process _ 1 false _ RtReachable.fresh rfl) 1 (by decide) (by decide),
    rfl, rfl⟩

/-! ## Scanner: what a scan changes -/

theorem scanFrame_refl (ids : List Nat) (re_id : Nat) (A : Prop) (rt : rspamd_re_runtime) :
    ScanFrame ids re_id A rt rt :=
  ⟨rfl, fun _ h => h, fun _ h => h, fun _ h => Or.inl h, fun _ => Or.inl rfl⟩

theorem scanFrame_trans {ids : List Nat} {re_id : Nat} {A : Prop}
    {rt rt1 rt2 : rspamd_re_runtime} (h1 : ScanFrame ids re_id A rt rt1)
    (h2 : ScanFrame ids re_id A rt1 rt2) : ScanFrame ids re_id A rt rt2 := by
  refine ⟨h2.has_hs.trans h1.has_hs, fun j h => h2.mono j (h1.mono j h),
    fun j h => h2.rep_mono j (h1.rep_mono j h), ?_, ?_⟩
  · intro j h
    rcases h2.new_checked j h with h3 | h3
    · exact h1.new_checked j h3
    · exact Or.inr h3
  · intro j
    rcases h2.res j with h3 | h3 | h3 | h3
    · rcases h1.res j with h4 | h4 | h4 | h4
      · exact Or.inl (h3.trans h4)
      · exact Or.inr (Or.inl (h2.rep_mono j h4))
      · exact Or.inr (Or.inr (Or.inl (h3.trans h4)))
      · exact Or.inr (Or.inr (Or.inr h4))
    · exact Or.inr (Or.inl h3)
    · exact Or.inr (Or.inr (Or.inl h3))
    · exact Or.inr (Or.inr (Or.inr h3))

/-- A change of counters only is within every frame. -/
theorem scanFrame_of_eq {ids : List Nat} {re_id : Nat} {A : Prop}
    {rt rt1 : rspamd_re_runtime} (hc : rt1.checked = rt.checked)
    (hr : rt1.results = rt.results) (hh : rt1.has_hs = rt.has_hs)
    (hp : rt1.reported = rt.reported) : ScanFrame ids re_id A rt rt1 := by
  refine ⟨hh, ?_, ?_, ?_, ?_⟩
  · intro j h; rw [hc]; exact h
  · intro j h; rw [hp]; exact h
  · intro j h; rw [hc] at h; exact Or.inl h
  · intro j; rw [hr]; exact Or.inl rfl

theorem process_pcre_reported (px : Primitives) (c : State) (rt : rspamd_re_runtime)
    (re : Nat) (sl : Slice) (is_raw : Bool) :
    (rspamd_re_cache_process_pcre px c rt re sl is_raw).2.reported = rt.reported := by
  unfold rspamd_re_cache_process_pcre
  split
  · rfl
  · simp only
    split <;> rfl

theorem scanFrame_pcre (ids : List Nat) (re_id : Nat) (A : Prop) (px : Primitives) (c : State)
    (rt : rspamd_re_runtime) (re : Nat) (sl : Slice) (is_raw : Bool) :
    ScanFrame ids re_id A rt (rspamd_re_cache_process_pcre px c rt re sl is_raw).2 :=
  scanFrame_of_eq (process_pcre_frame px c rt re sl is_raw).2.1
    (process_pcre_frame px c rt re sl is_raw).1 (process_pcre_frame px c rt re sl is_raw).2.2
    (process_pcre_reported px c rt re sl is_raw)

/-- Storing a result and setting the bit at an id, within a frame. -/
theorem scanFrame_store {ids : List Nat} {re_id : Nat} {A : Prop} (rt : rspamd_re_runtime)
    (j v : Nat) (hj : j = re_id ∨ j ∈ ids)
    (hv : j ∈ rt.reported ∨ v = 0 ∨ (j = re_id ∧ A)) :
    ScanFrame ids re_id A rt
      { rt with results := Function.update rt.results j v,
                checked := Function.update rt.checked j true } := by
  refine ⟨rfl, ?_, fun _ h => h, ?_, ?_⟩
  · intro i h
    by_cases hi : i = j
    · subst hi; simp
    · simpa [Function.update_noteq hi] using h
  · intro i h
    by_cases hi : i = j
    · subst hi; exact Or.inr hj
    · left; simpa [Function.update_noteq hi] using h
  · intro i
    by_cases hi : i = j
    · subst hi
      right
      rcases hv with h | h | h
      · exact Or.inl h
      · exact Or.inr (Or.inl (by simp [h]))
      · exact Or.inr (Or.inr h)
    · left; simp [Function.update_noteq hi]

/-- Setting the bit at an id, within a frame. -/
theorem scanFrame_setbit {ids : List Nat} {re_id : Nat} {A : Prop} (rt : rspamd_re_runtime)
    (j : Nat) (hj : j = re_id ∨ j ∈ ids) :
    ScanFrame ids re_id A rt { rt with checked := Function.update rt.checked j true } := by
  refine ⟨rfl, ?_, fun _ h => h, ?_, fun _ => Or.inl rfl⟩
  · intro i h
    by_cases hi : i = j
    · subst hi; simp
    · simpa [Function.update_noteq hi] using h
  · intro i h
    by_cases hi : i = j
    · subst hi; exact Or.inr hj
    · left; simpa [Function.update_noteq hi] using h

/-- Storing a result at an id, within a frame. -/
theorem scanFrame_result {ids : List Nat} {re_id : Nat} {A : Prop} (rt : rspamd_re_runtime)
    (j v : Nat) (hv : j ∈ rt.reported ∨ v = 0 ∨ (j = re_id ∧ A)) :
    ScanFrame ids re_id A rt { rt with results := Function.update rt.results j v } := by
  refine ⟨rfl, fun _ h => h, fun _ h => h, fun _ h => Or.inl h, ?_⟩
  intro i
  by_cases hi : i = j
  · subst hi
    right
    rcases hv with h | h | h
    · exact Or.inl h
    · exact Or.inr (Or.inl (by simp [h]))
    · exact Or.inr (Or.inr h)
  · left; simp [Function.update_noteq hi]

/-- The accurate loop is within the frame of its expression. -/
theorem scanFrame_pcre_loop (ids : List Nat) {A : Prop} (hA : A) (px : Primitives) (c : State)
    (re re_id : Nat) (is_raw : Bool) (ins : List Slice) (ret : Nat) (rt : rspamd_re_runtime) :
    ScanFrame ids re_id A rt (pcre_loop px c re re_id is_raw ins ret rt).2 := by
  induction ins generalizing ret rt with
  | nil => exact scanFrame_refl _ _ _ _
  | cons sl rest ih =>
    unfold pcre_loop
    refine scanFrame_trans (scanFrame_trans (scanFrame_pcre ids re_id A px c rt re sl is_raw)
      (scanFrame_result _ re_id _ (Or.inr (Or.inr ⟨rfl, hA⟩)))) (ih _ _)

/-- The re-check loop of the callback is within the frame of the listed ids. -/
theorem scanFrame_cb_loop {ids : List Nat} (re_id : Nat) (A : Prop) {px : Primitives}
    {c : State} (re id to_off : Nat) (ins : List Slice) (n i processed : Nat)
    {rt rt1 : rspamd_re_runtime} (hid : id ∈ ids) (hrep : id ∈ rt.reported)
    (h : cb_loop px c re id to_off ins n i processed rt = .ok rt1) :
    ScanFrame ids re_id A rt rt1 := by
  induction n generalizing i processed rt with
  | zero =>
    simp [cb_loop] at h
    rw [← h]
    exact scanFrame_refl _ _ _ _
  | succ n ih =>
    unfold cb_loop at h
    cases hsl : ins[i]? with
    | none => simp [hsl] at h
    | some sl =>
      simp only [hsl] at h
      have hrep1 : id ∈ (rspamd_re_cache_process_pcre px c rt re sl false).2.reported := by
        rw [process_pcre_reported]; exact hrep
      have hf := scanFrame_trans (scanFrame_pcre ids re_id A px c rt re sl false)
        (scanFrame_store (rspamd_re_cache_process_pcre px c rt re sl false).2 id
          ((rspamd_re_cache_process_pcre px c rt re sl false).1 % 256) (Or.inr hid)
          (Or.inl hrep1))
      split at h
      · cases h
        exact hf
      · exact scanFrame_trans hf (ih _ _ hrep1 h)

/-- The prefilter callback for a listed id is within the frame. -/
theorem scanFrame_cb {ids : List Nat} (re_id : Nat) (A : Prop) {px : Primitives} {c : State}
    {cbdata : rspamd_re_hyperscan_cbdata} {rt rt1 : rspamd_re_runtime} {ev : HsEvent}
    (hid : ev.id ∈ ids) (h : rspamd_re_cache_hyperscan_cb px c cbdata rt ev = .ok rt1) :
    ScanFrame ids re_id A rt rt1 := by
  unfold rspamd_re_cache_hyperscan_cb at h
  have hrec : ScanFrame ids re_id A rt { rt with reported := rt.reported ++ [ev.id] } :=
    ⟨rfl, fun _ h => h, fun _ h => List.mem_append_left _ h, fun _ h => Or.inl h,
      fun _ => Or.inl rfl⟩
  have hin : ev.id ∈ ({ rt with reported := rt.reported ++ [ev.id] } :
      rspamd_re_runtime).reported := by simp
  cases helt : c.cache.re[ev.id]? with
  | none => simp [helt] at h
  | some elt =>
    simp only [helt] at h
    split at h
    · split at h
      · cases h
        refine scanFrame_trans hrec ?_
        exact scanFrame_trans
          (scanFrame_setbit { rt with reported := rt.reported ++ [ev.id] } ev.id (Or.inr hid))
          (scanFrame_trans
            (scanFrame_result _ ev.id ((rt.results ev.id + 1) % 256) (Or.inl hin))
            (scanFrame_of_eq rfl rfl rfl rfl))
      · cases h
        exact scanFrame_trans hrec (scanFrame_setbit _ ev.id (Or.inr hid))
    · split at h
      · cases h
        exact hrec
      · exact scanFrame_trans hrec (scanFrame_cb_loop re_id A _ _ _ _ _ _ _ hid hin h)

/-- The callbacks of a scan that reports listed ids are within the frame. -/
theorem scanFrame_run_callbacks {ids : List Nat} (re_id : Nat) (A : Prop) {px : Primitives}
    {c : State} {cbdata : rspamd_re_hyperscan_cbdata} (evs : List HsEvent)
    {rt rt1 : rspamd_re_runtime} (hids : ∀ ev ∈ evs, ev.id ∈ ids)
    (h : run_callbacks px c cbdata evs rt = .ok rt1) : ScanFrame ids re_id A rt rt1 := by
  induction evs generalizing rt with
  | nil =>
    simp [run_callbacks] at h
    rw [← h]
    exact scanFrame_refl _ _ _ _
  | cons ev evs ih =>
    unfold run_callbacks at h
    cases hcb : rspamd_re_cache_hyperscan_cb px c cbdata rt ev with
    | error f => simp [hcb] at h
    | ok rt2 =>
      simp only [hcb] at h
      exact scanFrame_trans (scanFrame_cb re_id A (hids ev (List.mem_cons_self _ _)) hcb)
        (ih (fun e he => hids e (List.mem_cons_of_mem _ he)) h)

/-- The block-mode loop is within the frame. -/
theorem scanFrame_block_loop {ids : List Nat} (A : Prop) {px : Primitives} {c : State}
    (db re_id : Nat) (hrep : ∀ sl, ∀ ev ∈ (px.hs_scan db sl).1, ev.id ∈ ids)
    (ins : List Slice) (ret : Nat) {rt : rspamd_re_runtime} {out : Nat × rspamd_re_runtime}
    (h : hs_block_loop px c db re_id ins ret rt = .ok out) :
    ScanFrame ids re_id A rt out.2 := by
  induction ins generalizing ret rt with
  | nil =>
    simp [hs_block_loop] at h
    rw [← h]
    exact scanFrame_refl _ _ _ _
  | cons sl rest ih =>
    unfold hs_block_loop at h
    cases hcb : run_callbacks px c { ins := sl :: rest, count := 1 } (px.hs_scan db sl).1 rt with
    | error f => simp [hcb] at h
    | ok rt2 =>
      simp only [hcb] at h
      exact scanFrame_trans (scanFrame_run_callbacks re_id A _ (hrep sl) hcb) (ih _ h)

/-- The sweep of listed ids is within the frame, and sets all their bits. -/
theorem scanFrame_finish {ids : List Nat} (re_id : Nat) (A : Prop) (l : List Nat)
    {rt rt1 : rspamd_re_runtime} (hl : ∀ i ∈ l, i ∈ ids)
    (h : rspamd_re_cache_finish_class l rt = .ok rt1) :
    ScanFrame ids re_id A rt rt1 ∧ ∀ i ∈ l, rt1.checked i = true := by
  induction l generalizing rt with
  | nil =>
    simp [rspamd_re_cache_finish_class] at h
    rw [← h]
    exact ⟨scanFrame_refl _ _ _ _, fun i hi => by simp at hi⟩
  | cons id rest ih =>
    unfold rspamd_re_cache_finish_class at h
    have hrest : ∀ i ∈ rest, i ∈ ids := fun i hi => hl i (List.mem_cons_of_mem _ hi)
    split at h
    · split at h
      · obtain ⟨hf, hall⟩ := ih hrest h
        have hs := @scanFrame_store ids re_id A rt id 0
          (Or.inr (hl id (List.mem_cons_self _ _))) (Or.inr (Or.inl rfl))
        refine ⟨scanFrame_trans hs hf, ?_⟩
        intro i hi
        rcases List.mem_cons.1 hi with h1 | h1
        · subst h1
          exact hf.mono _ (by simp)
        · exact hall i h1
      · cases h
    · rename_i hch
      obtain ⟨hf, hall⟩ := ih hrest h
      refine ⟨hf, ?_⟩
      intro i hi
      rcases List.mem_cons.1 hi with h1 | h1
      · subst h1
        exact hf.mono _ (by simpa using hch)
      · exact hall i h1

/-- The function `rspamd_re_cache_process_regexp_data`, over a cache with the
prefilter loaded and enabled, is within the frame of the class of the
expression; it writes the result of the expression itself only when the
element at its cache id is matched by the accurate engine alone. -/
theorem scanFrame_regexp_data {px : Primitives} {c : State} (hwf : PrefilterWF px c)
    {rt : rspamd_re_runtime} {re : Nat} {ins : List Slice} {is_raw : Bool}
    {out : Nat × rspamd_re_runtime} {k : Nat} {cl : rspamd_re_class}
    (hk : (c.heap re).re_class = some k) (hcl : class_lookup c.cache.re_classes k = some cl)
    (hhs : rt.has_hs = true)
    (h : rspamd_re_cache_process_regexp_data px c rt re ins is_raw = .ok out) :
    ScanFrame cl.hs_ids (c.heap re).cache_id
      (∃ elt, c.cache.re[(c.heap re).cache_id]? = some elt ∧
        elt.match_type = .RSPAMD_RE_CACHE_PCRE) rt out.2 := by
  unfold rspamd_re_cache_process_regexp_data at h
  split at h
  · cases h
    exact scanFrame_store rt (c.heap re).cache_id 0 (Or.inl rfl) (Or.inr (Or.inl rfl))
  · cases helt : c.cache.re[(c.heap re).cache_id]? with
    | none => simp [helt] at h
    | some elt =>
      simp only [helt] at h
      split at h
      · rename_i hcond
        cases h
        have hA : ∃ e, some elt = some e ∧ e.match_type = .RSPAMD_RE_CACHE_PCRE := by
          refine ⟨elt, rfl, ?_⟩
          rcases hcond with h0 | h0 | h0
          · rw [hwf.enabled] at h0
            cases h0
          · exact h0
          · exact absurd hhs h0
        exact scanFrame_trans (scanFrame_pcre_loop _ hA px c re _ is_raw ins 0 rt)
          (scanFrame_setbit _ _ (Or.inl rfl))
      · simp only [hk, hcl] at h
        have hf1 : ScanFrame cl.hs_ids (c.heap re).cache_id
            (∃ e, some elt = some e ∧ e.match_type = .RSPAMD_RE_CACHE_PCRE) rt
            { rt with stat := { rt.stat with
                bytes_scanned := rt.stat.bytes_scanned +
                  ((clip_slices c.cache.max_re_data ins).map Slice.len).sum } } :=
          scanFrame_of_eq rfl rfl rfl rfl
        split at h
        · rename_i sc db hsc hdb
          obtain ⟨hrep1, hrep2⟩ := hwf.reports k cl db hcl hdb
          split at h
          · exact scanFrame_trans hf1 (scanFrame_block_loop _ db _ hrep1 _ _ h)
          · split at h
            · cases h
            · rename_i rt2 hcb
              cases h
              exact scanFrame_trans hf1 (scanFrame_run_callbacks _ _ _ (hrep2 _) hcb)
        · cases h

/-- The slow path, over a cache with the prefilter loaded and enabled, is
within the frame of the class of the expression and leaves every id listed
for the class checked. -/
theorem scanFrame_exec_re {px : Primitives} {c : State} (hwf : PrefilterWF px c)
    {task : rspamd_task} {rt : rspamd_re_runtime} {re : Nat} {is_strong : Bool}
    {out : Nat × rspamd_re_runtime} {k : Nat} {cl : rspamd_re_class}
    (hk : (c.heap re).re_class = some k) (hcl : class_lookup c.cache.re_classes k = some cl)
    (hhs : rt.has_hs = true)
    (h : rspamd_re_cache_exec_re px c task rt re cl is_strong = .ok out) :
    ScanFrame cl.hs_ids (c.heap re).cache_id
      (∃ elt, c.cache.re[(c.heap re).cache_id]? = some elt ∧
        elt.match_type = .RSPAMD_RE_CACHE_PCRE) rt out.2 ∧
    ∀ i ∈ cl.hs_ids, out.2.checked i = true := by
  unfold rspamd_re_cache_exec_re at h
  cases hsw : exec_switch px c task rt re cl is_strong with
  | error f => simp [hsw] at h
  | ok o1 =>
    have hf1 : ScanFrame cl.hs_ids (c.heap re).cache_id
        (∃ elt, c.cache.re[(c.heap re).cache_id]? = some elt ∧
          elt.match_type = .RSPAMD_RE_CACHE_PCRE) rt o1.2 := by
      unfold exec_switch at hsw
      split at hsw
      · cases hsw
      · cases hsw
        exact scanFrame_refl _ _ _ _
      · exact scanFrame_regexp_data hwf hk hcl hhs hsw
    simp only [hsw] at h
    have hhs1 : o1.2.has_hs = true := hf1.has_hs.trans hhs
    have hcond : ¬ c.cache.disable_hyperscan = true ∧ o1.2.has_hs = true :=
      ⟨by rw [hwf.enabled]; simp, hhs1⟩
    rw [if_pos hcond] at h
    cases hfin : rspamd_re_cache_finish_class cl.hs_ids o1.2 with
    | error f => simp [hfin] at h
    | ok rt2 =>
      simp only [hfin] at h
      cases h
      obtain ⟨hf2, hall⟩ := scanFrame_finish (c.heap re).cache_id
        (∃ elt, c.cache.re[(c.heap re).cache_id]? = some elt ∧
          elt.match_type = .RSPAMD_RE_CACHE_PCRE) cl.hs_ids (fun _ hi => hi) hfin
      have hf3 := scanFrame_trans (scanFrame_trans hf1 hf2)
        (@scanFrame_setbit cl.hs_ids (c.heap re).cache_id
          (∃ elt, c.cache.re[(c.heap re).cache_id]? = some elt ∧
            elt.match_type = .RSPAMD_RE_CACHE_PCRE) rt2 (c.heap re).cache_id (Or.inl rfl))
      refine ⟨hf3, ?_⟩
      intro i hi
      show Function.update rt2.checked (c.heap re).cache_id true i = true
      by_cases hie : i = (c.heap re).cache_id
      · rw [hie]; simp
      · rw [Function.update_noteq hie]
        exact hall i hi

/-! ## Scanner: the sweep of a class -/

/-- One `process` call keeps the two facts about swept classes. -/
theorem process_keeps_swept {px : Primitives} {c : State} (hwf : PrefilterWF px c)
    {task : rspamd_task} {rt : rspamd_re_runtime} {re : Nat} {is_strong : Bool}
    {out : Nat × rspamd_re_runtime}
    (hhs : rt.has_hs = true) (hsw : class_swept c rt) (hz : unreported_zero c rt)
    (h : rspamd_re_cache_process px c task rt re is_strong = .ok out) :
    out.2.has_hs = true ∧ class_swept c out.2 ∧ unreported_zero c out.2 := by
  unfold rspamd_re_cache_process at h
  by_cases hg : (c.heap re).cache_id = RSPAMD_INVALID_ID ∨ (c.heap re).cache_id > c.cache.nre
  · simp only [hg, if_true] at h
    cases h
    exact ⟨hhs, hsw, hz⟩
  · simp only [hg, if_false] at h
    by_cases hch : rt.checked (c.heap re).cache_id = true
    · simp only [hch, if_true] at h
      cases h
      exact ⟨hhs, hsw, hz⟩
    · simp only [hch] at h
      cases hk : (c.heap re).re_class with
      | none =>
        simp only [hk] at h
        cases h
        exact ⟨hhs, hsw, hz⟩
      | some k =>
        simp only [hk] at h
        cases hl : class_lookup c.cache.re_classes k with
        | none => simp [hl] at h
        | some cl =>
          simp only [hl] at h
          obtain ⟨hf, hall⟩ := scanFrame_exec_re hwf hk hl hhs h
          have hre : (c.heap re).cache_id ≠ RSPAMD_INVALID_ID := fun hh => hg (Or.inl hh)
          refine ⟨hf.has_hs.trans hhs, ?_, ?_⟩
          · intro p k1 cl1 hp hk1 hcl1 hchk
            have hsame : k1 = k → ∀ i ∈ cl1.hs_ids, out.2.checked i = true := by
              intro hkk
              subst hkk
              rw [hl] at hcl1
              cases hcl1
              exact hall
            rcases hf.new_checked _ hchk with h0 | h0 | h0
            · intro i hi
              exact hf.mono i (hsw p k1 cl1 hp hk1 hcl1 h0 i hi)
            · have hpe : p = re := ids_registered_inj hwf.ids hp h0
              subst hpe
              rw [hk] at hk1
              exact hsame (Option.some.inj hk1).symm
            · have := hwf.members k cl _ p hl h0 rfl hp
              rw [this] at hk1
              exact hsame (Option.some.inj hk1).symm
          · intro k1 cl1 i hcl1 hi hrep
            have hrep0 : i ∉ rt.reported := fun hh => hrep (hf.rep_mono i hh)
            have h0 := hz k1 cl1 i hcl1 hi hrep0
            rcases hf.res i with h1 | h1 | h1 | ⟨h1, elt, h2, h3⟩
            · rw [h1]; exact h0
            · exact absurd h1 hrep
            · exact h1
            · exfalso
              rw [← h1] at h2
              exact hwf.types k1 cl1 i elt hcl1 hi h2 h3

/-- The two facts about swept classes hold in every runtime state reached by
`process` calls over a cache with the prefilter loaded and enabled. -/
theorem processed_swept {px : Primitives} {c : State} (hwf : PrefilterWF px c)
    {task : rspamd_task} {rt : rspamd_re_runtime} (hr : RtProcessed px c task rt) :
    rt.has_hs = true ∧ class_swept c rt ∧ unreported_zero c rt := by
  induction hr with
  | fresh =>
    refine ⟨hwf.loaded, ?_, ?_⟩
    · intro p k cl _ _ _ hchk
      simp [rspamd_re_cache_runtime_new] at hchk
    · intro k cl i _ _ _
      rfl
  | process rt0 re is_strong out _ hproc ih =>
    exact process_keeps_swept hwf ih.1 ih.2.1 ih.2.2 hproc

/-- C9 (amended): over a cache with the prefilter loaded and enabled in which
the ids listed for a class are cache ids of expressions of that class only,
listed elements are matched through the prefilter and the database of a class
reports only ids listed for the class (`PrefilterWF`, as after registrations
with no expression object under two class ids, finalize, compile and load),
in a runtime reached from a fresh one by `process` calls, after a completed
`process` call on an expression with a valid cache id that belongs to a class,
every cache id listed for that class is checked, and every listed id the
prefilter callback was never called with has result zero. -/
theorem prefilter_class_swept (px : Primitives) (c : State) (task : rspamd_task)
    (rt : rspamd_re_runtime) (re : Nat) (is_strong : Bool) (out : Nat × rspamd_re_runtime)
    (k : Nat) (cl : rspamd_re_class) (hwf : PrefilterWF px c)
    (hr : RtProcessed px c task rt)
    (hid : (c.heap re).cache_id ≠ RSPAMD_INVALID_ID)
    (hlt : (c.heap re).cache_id < c.cache.nre)
    (hk : (c.heap re).re_class = some k)
    (hcl : class_lookup c.cache.re_classes k = some cl)
    (h : rspamd_re_cache_process px c task rt re is_strong = .ok out) :
    ∀ i ∈ cl.hs_ids, out.2.checked i = true ∧ (i ∉ out.2.reported → out.2.results i = 0) := by
  obtain ⟨_, hsw, hz⟩ := processed_swept hwf (RtProcessed.process rt re is_strong out hr h)
  have hchk := (process_checked hid (Nat.le_of_lt hlt) (by rw [hk]; simp) h).1
  intro i hi
  exact ⟨hsw re k cl hid hk hcl hchk i hi, hz k cl i hcl hi⟩

/-! ## An example cache with the prefilter loaded -/

theorem s_hs_heap (p : Nat) : s_hs.heap p =
    if p = 3 then { heap0 3 with cache_id := 2, re_class := some 7 }
    else if p = 2 then { heap0 2 with cache_id := 1, re_class := some 7 }
    else if p = 1 then { heap0 1 with cache_id := 0, re_class := some 83 }
    else heap0 p := by
  by_cases h3 : p = 3
  · subst h3; rfl
  · by_cases h2 : p = 2
    · subst h2; rfl
    · by_cases h1 : p = 1
      · subst h1; rfl
      · simp only [h3, h2, h1, if_false]
        show Function.update (Function.update (Function.update heap0 1 _) 2 _) 3 _ p = _
        rw [Function.update_noteq h3, Function.update_noteq h2, Function.update_noteq h1]

theorem s_hs_classes {k : Nat} {cl : rspamd_re_class}
    (h : class_lookup s_hs.cache.re_classes k = some cl) :
    (cl.hs_ids = [] ∧ cl.hs_db = none) ∨ (k = 7 ∧ cl.hs_ids = [1, 2]) := by
  have hl : s_hs.cache.re_classes =
      [class_set_re 1 1 (new_class 83 .RSPAMD_RE_HEADER [83] 1),
       { class_set_re 3 3 (class_set_re 2 2 (new_class 7 .RSPAMD_RE_BODY [] 0)) with
         hs_db := some 0, hs_scratch := some 0, hs_ids := [1, 2] }] := by decide
  rw [hl] at h
  unfold class_lookup at h
  split at h
  · cases h
    left
    exact ⟨rfl, rfl⟩
  · unfold class_lookup at h
    split at h
    · rename_i h7
      cases h
      right
      exact ⟨h7.symm, rfl⟩
    · simp [class_lookup] at h

/-- The example cache `s_hs` with the example prefilter `px1` is a cache with
the prefilter loaded and enabled. -/
theorem s_hs_wf : PrefilterWF px1 s_hs := by
  refine ⟨?_, ?_, ?_, ?_, rfl, rfl⟩
  · intro p
    rw [s_hs_heap]
    by_cases h3 : p = 3
    · subst h3
      exact Or.inr ⟨_, rfl, rfl⟩
    · by_cases h2 : p = 2
      · subst h2
        exact Or.inr ⟨_, rfl, rfl⟩
      · by_cases h1 : p = 1
        · subst h1
          exact Or.inr ⟨_, rfl, rfl⟩
        · simp only [h3, h2, h1, if_false]
          exact Or.inl rfl
  · intro k cl i p hcl hi hp hinv
    rcases s_hs_classes hcl with ⟨h0, _⟩ | ⟨h7, hids⟩
    · rw [h0] at hi
      simp at hi
    · subst h7
      rw [hids] at hi
      rw [s_hs_heap] at hp hinv ⊢
      by_cases h3 : p = 3
      · simp [h3]
      · by_cases h2 : p = 2
        · simp [h2]
        · by_cases h1 : p = 1
          · subst h1
            simp at hp
            subst hp
            simp at hi
          · simp only [h3, h2, h1, if_false] at hinv
            exact absurd rfl hinv
  · intro k cl db hcl hdb
    rcases s_hs_classes hcl with ⟨_, h0⟩ | ⟨_, hids⟩
    · rw [h0] at hdb
      cases hdb
    · rw [hids]
      constructor
      · intro sl ev hev
        simp [px1] at hev
        subst hev
        simp
      · intro ins ev hev
        simp [px1] at hev
        subst hev
        simp
  · intro k cl i elt hcl hi helt
    rcases s_hs_classes hcl with ⟨h0, _⟩ | ⟨_, hids⟩
    · rw [h0] at hi
      simp at hi
    · rw [hids] at hi
      simp at hi
      rcases hi with hi | hi
      · subst hi
        have : elt = { re := 2, match_type := .RSPAMD_RE_CACHE_HYPERSCAN } :=
          (Option.some.inj helt).symm
        rw [this]
        decide
      · subst hi
        have : elt = { re := 3, match_type := .RSPAMD_RE_CACHE_HYPERSCAN } :=
          (Option.some.inj helt).symm
        rw [this]
        decide

/-! ## The limit on scanned bytes -/

/-- The length handed to the accurate matcher is at most the limit, when one
is set. -/
theorem pcre_scan_len_le (m : Nat) (sl : Slice) (input : List Nat) (hm : m > 0) :
    pcre_scan_len m sl input ≤ m := by
  unfold pcre_scan_len
  simp only
  by_cases h : m > 0 ∧ (if sl.len = 0 then strlen input else sl.len) > m
  · rw [if_pos h]
  · rw [if_neg h]
    have := not_and.mp h hm
    omega

/-- The accurate matching of one slice does not depend on what the matcher
does on inputs longer than the limit. -/
theorem process_pcre_search_congr (px : Primitives) (g : Nat → List Nat → Bool → Nat)
    (c : State) (hm : c.cache.max_re_data > 0)
    (hg : ∀ re input raw, input.length ≤ c.cache.max_re_data →
      g re input raw = px.regexp_search re input raw)
    (rt : rspamd_re_runtime) (re : Nat) (sl : Slice) (is_raw : Bool) :
    rspamd_re_cache_process_pcre (with_search px g) c rt re sl is_raw =
      rspamd_re_cache_process_pcre px c rt re sl is_raw := by
  unfold rspamd_re_cache_process_pcre with_search
  cases hd : sl.data with
  | none => rfl
  | some input =>
    have hlen : (input.take (pcre_scan_len c.cache.max_re_data sl input)).length ≤
        c.cache.max_re_data := by
      rw [List.length_take]
      exact Nat.le_trans (Nat.min_le_left _ _) (pcre_scan_len_le _ sl input hm)
    simp only [hg re _ is_raw hlen]

/-- The loop of the callback, likewise. -/
theorem cb_loop_search_congr (px : Primitives) (g : Nat → List Nat → Bool → Nat)
    (c : State) (hm : c.cache.max_re_data > 0)
    (hg : ∀ re input raw, input.length ≤ c.cache.max_re_data →
      g re input raw = px.regexp_search re input raw)
    (re id to_off : Nat) (ins : List Slice) (n i processed : Nat) (rt : rspamd_re_runtime) :
    cb_loop (with_search px g) c re id to_off ins n i processed rt =
      cb_loop px c re id to_off ins n i processed rt := by
  induction n generalizing i processed rt with
  | zero => rfl
  | succ n ih =>
    unfold cb_loop
    cases hi : ins[i]? with
    | none => rfl
    | some sl =>
      simp only [process_pcre_search_congr px g c hm hg, ih]

/-- The callback, likewise. -/
theorem hyperscan_cb_search_congr (px : Primitives) (g : Nat → List Nat → Bool → Nat)
    (c : State) (hm : c.cache.max_re_data > 0)
    (hg : ∀ re input raw, input.length ≤ c.cache.max_re_data →
      g re input raw = px.regexp_search re input raw)
    (cbdata : rspamd_re_hyperscan_cbdata) (rt : rspamd_re_runtime) (ev : HsEvent) :
    rspamd_re_cache_hyperscan_cb (with_search px g) c cbdata rt ev =
      rspamd_re_cache_hyperscan_cb px c cbdata rt ev := by
  unfold rspamd_re_cache_hyperscan_cb
  simp only [cb_loop_search_congr px g c hm hg]

/-- The callbacks of a scan, likewise. -/
theorem run_callbacks_search_congr (px : Primitives) (g : Nat → List Nat → Bool → Nat)
    (c : State) (hm : c.cache.max_re_data > 0)
    (hg : ∀ re input raw, input.length ≤ c.cache.max_re_data →
      g re input raw = px.regexp_search re input raw)
    (cbdata : rspamd_re_hyperscan_cbdata) (evs : List HsEvent) (rt : rspamd_re_runtime) :
    run_callbacks (with_search px g) c cbdata evs rt = run_callbacks px c cbdata evs rt := by
  induction evs generalizing rt with
  | nil => rfl
  | cons ev evs ih =>
    unfold run_callbacks
    simp only [hyperscan_cb_search_congr px g c hm hg, ih]

/-- The accurate loop over the slices, likewise. -/
theorem pcre_loop_search_congr (px : Primitives) (g : Nat → List Nat → Bool → Nat)
    (c : State) (hm : c.cache.max_re_data > 0)
    (hg : ∀ re input raw, input.length ≤ c.cache.max_re_data →
      g re input raw = px.regexp_search re input raw)
    (re re_id : Nat) (is_raw : Bool) (ins : List Slice) (ret : Nat) (rt : rspamd_re_runtime) :
    pcre_loop (with_search px g) c re re_id is_raw ins ret rt =
      pcre_loop px c re re_id is_raw ins ret rt := by
  induction ins generalizing ret rt with
  | nil => rfl
  | cons sl rest ih =>
    unfold pcre_loop
    simp only [process_pcre_search_congr px g c hm hg, ih]

/-- The block-mode loop, likewise. -/
theorem hs_block_loop_search_congr (px : Primitives) (g : Nat → List Nat → Bool → Nat)
    (c : State) (hm : c.cache.max_re_data > 0)
    (hg : ∀ re input raw, input.length ≤ c.cache.max_re_data →
      g re input raw = px.regexp_search re input raw)
    (db re_id : Nat) (ins : List Slice) (ret : Nat) (rt : rspamd_re_runtime) :
    hs_block_loop (with_search px g) c db re_id ins ret rt =
      hs_block_loop px c db re_id ins ret rt := by
  induction ins generalizing ret rt with
  | nil => rfl
  | cons sl rest ih =>
    unfold hs_block_loop
    simp only [run_callbacks_search_congr px g c hm hg, ih]
    rfl

/-- The scan of the slices of a region, likewise. -/
theorem process_regexp_data_search_congr (px : Primitives) (g : Nat → List Nat → Bool → Nat)
    (c : State) (hm : c.cache.max_re_data > 0)
    (hg : ∀ re input raw, input.length ≤ c.cache.max_re_data →
      g re input raw = px.regexp_search re input raw)
    (rt : rspamd_re_runtime) (re : Nat) (ins : List Slice) (is_raw : Bool) :
    rspamd_re_cache_process_regexp_data (with_search px g) c rt re ins is_raw =
      rspamd_re_cache_process_regexp_data px c rt re ins is_raw := by
  unfold rspamd_re_cache_process_regexp_data
  simp only [pcre_loop_search_congr px g c hm hg, hs_block_loop_search_congr px g c hm hg,
    run_callbacks_search_congr px g c hm hg]
  rfl

/-- The slow path, likewise. -/
theorem exec_re_search_congr (px : Primitives) (g : Nat → List Nat → Bool → Nat)
    (c : State) (hm : c.cache.max_re_data > 0)
    (hg : ∀ re input raw, input.length ≤ c.cache.max_re_data →
      g re input raw = px.regexp_search re input raw)
    (task : rspamd_task) (rt : rspamd_re_runtime) (re : Nat) (re_class : rspamd_re_class)
    (is_strong : Bool) :
    rspamd_re_cache_exec_re (with_search px g) c task rt re re_class is_strong =
      rspamd_re_cache_exec_re px c task rt re re_class is_strong := by
  unfold rspamd_re_cache_exec_re exec_switch
  simp only [process_regexp_data_search_congr px g c hm hg]
  rfl

/-- C11: with the limit `max_re_data` set, the length the accurate matching
routine hands to the accurate matcher is at most the limit for every slice,
and nothing the scanner computes (the accurate matching of a slice, the
prefilter callback, `process`) depends on what the matcher does on inputs
longer than the limit. -/
theorem accurate_input_le_limit (px : Primitives) (c : State)
    (hm : c.cache.max_re_data > 0) :
    (∀ sl input, pcre_scan_len c.cache.max_re_data sl input ≤ c.cache.max_re_data) ∧
    ∀ g : Nat → List Nat → Bool → Nat,
      (∀ re input raw, input.length ≤ c.cache.max_re_data →
        g re input raw = px.regexp_search re input raw) →
      (∀ rt re sl is_raw, rspamd_re_cache_process_pcre (with_search px g) c rt re sl is_raw =
        rspamd_re_cache_process_pcre px c rt re sl is_raw) ∧
      (∀ cbdata rt ev, rspamd_re_cache_hyperscan_cb (with_search px g) c cbdata rt ev =
        rspamd_re_cache_hyperscan_cb px c cbdata rt ev) ∧
      (∀ task rt re is_strong, rspamd_re_cache_process (with_search px g) c task rt re is_strong =
        rspamd_re_cache_process px c task rt re is_strong) := by
  refine ⟨fun sl input => pcre_scan_len_le _ sl input hm, fun g hg => ⟨?_, ?_, ?_⟩⟩
  · exact fun rt re sl is_raw => process_pcre_search_congr px g c hm hg rt re sl is_raw
  · exact fun cbdata rt ev => hyperscan_cb_search_congr px g c hm hg cbdata rt ev
  · intro task rt re is_strong
    unfold rspamd_re_cache_process
    simp only [exec_re_search_congr px g c hm hg]

/-- C11 at the example cache with the limit 2: the slice of three bytes is
scanned over two bytes. -/
theorem accurate_input_le_limit_witness :
    s12_lim.cache.max_re_data > 0 ∧
    pcre_scan_len s12_lim.cache.max_re_data { data := some [110, 111, 110], len := 3 }
      [110, 111, 110] ≤ s12_lim.cache.max_re_data ∧
    (rspamd_re_cache_process_pcre px0 s12_lim (rspamd_re_cache_runtime_new s12_lim.cache) 1
      { data := some [110, 111, 110], len := 3 } false).1 = 1 :=
  ⟨by decide,
   (accurate_input_le_limit px0 s12_lim (by decide)).1 _ _,
   by decide⟩

/-! ## Unchecked ids have the result zero -/

/-- Storing a result together with setting the bit of the same id keeps the
results of unchecked ids at zero. -/
theorem unchecked_zero_store {rt rt1 : rspamd_re_runtime} (hz : unchecked_zero rt)
    (id v : Nat) (hc : rt1.checked = Function.update rt.checked id true)
    (hr : rt1.results = Function.update rt.results id v) : unchecked_zero rt1 := by
  intro j hj
  rw [hc] at hj
  rw [hr]
  by_cases hji : j = id
  · subst hji
    simp at hj
  · rw [Function.update_noteq hji] at hj
    rw [Function.update_noteq hji]
    exact hz j hj

/-- Setting a bit keeps the results of unchecked ids at zero. -/
theorem unchecked_zero_setbit {rt rt1 : rspamd_re_runtime} (hz : unchecked_zero rt)
    (id : Nat) (hc : rt1.checked = Function.update rt.checked id true)
    (hr : rt1.results = rt.results) : unchecked_zero rt1 := by
  intro j hj
  rw [hc] at hj
  rw [hr]
  by_cases hji : j = id
  · subst hji
    simp at hj
  · rw [Function.update_noteq hji] at hj
    exact hz j hj

/-- A runtime with the same bitmap and results. -/
theorem unchecked_zero_congr {rt rt1 : rspamd_re_runtime} (hz : unchecked_zero rt)
    (hc : rt1.checked = rt.checked) (hr : rt1.results = rt.results) : unchecked_zero rt1 := by
  intro j hj
  rw [hc] at hj
  rw [hr]
  exact hz j hj

/-- The accurate loop changes no bit and no result but that of `re_id`. -/
theorem pcre_loop_frame (px : Primitives) (c : State) (re re_id : Nat) (is_raw : Bool)
    (ins : List Slice) (ret : Nat) (rt : rspamd_re_runtime) :
    (pcre_loop px c re re_id is_raw ins ret rt).2.checked = rt.checked ∧
    ∀ j, j ≠ re_id → (pcre_loop px c re re_id is_raw ins ret rt).2.results j = rt.results j := by
  induction ins generalizing ret rt with
  | nil => exact ⟨rfl, fun _ _ => rfl⟩
  | cons sl rest ih =>
    unfold pcre_loop
    obtain ⟨h1, h2⟩ := ih (rspamd_re_cache_process_pcre px c rt re sl is_raw).1
      { (rspamd_re_cache_process_pcre px c rt re sl is_raw).2 with
        results := Function.update (rspamd_re_cache_process_pcre px c rt re sl is_raw).2.results
          re_id ((rspamd_re_cache_process_pcre px c rt re sl is_raw).1 % 256) }
    refine ⟨?_, ?_⟩
    · rw [h1]
      exact (process_pcre_frame px c rt re sl is_raw).2.1
    · intro j hj
      rw [h2 j hj]
      simp only [Function.update_noteq hj]
      rw [(process_pcre_frame px c rt re sl is_raw).1]

/-- The re-check loop of the callback keeps the results of unchecked ids at
zero. -/
theorem cb_loop_unchecked_zero {px : Primitives} {c : State} (re id to_off : Nat)
    (ins : List Slice) (n i processed : Nat) {rt rt1 : rspamd_re_runtime}
    (hz : unchecked_zero rt)
    (h : cb_loop px c re id to_off ins n i processed rt = .ok rt1) : unchecked_zero rt1 := by
  induction n generalizing i processed rt with
  | zero =>
    simp [cb_loop] at h
    rw [← h]
    exact hz
  | succ n ih =>
    unfold cb_loop at h
    cases hsl : ins[i]? with
    | none => simp [hsl] at h
    | some sl =>
      simp only [hsl] at h
      have hz2 : unchecked_zero
          { (rspamd_re_cache_process_pcre px c rt re sl false).2 with
            results := Function.update
              (rspamd_re_cache_process_pcre px c rt re sl false).2.results id
              ((rspamd_re_cache_process_pcre px c rt re sl false).1 % 256),
            checked := Function.update
              (rspamd_re_cache_process_pcre px c rt re sl false).2.checked id true } := by
        refine unchecked_zero_store hz id
          ((rspamd_re_cache_process_pcre px c rt re sl false).1 % 256) ?_ ?_
        · simp only [(process_pcre_frame px c rt re sl false).2.1]
        · simp only [(process_pcre_frame px c rt re sl false).1]
      split at h
      · cases h
        exact hz2
      · exact ih _ _ hz2 h

/-- The prefilter callback keeps the results of unchecked ids at zero. -/
theorem hyperscan_cb_unchecked_zero {px : Primitives} {c : State}
    {cbdata : rspamd_re_hyperscan_cbdata} {rt rt1 : rspamd_re_runtime} {ev : HsEvent}
    (hz : unchecked_zero rt)
    (h : rspamd_re_cache_hyperscan_cb px c cbdata rt ev = .ok rt1) : unchecked_zero rt1 := by
  unfold rspamd_re_cache_hyperscan_cb at h
  have hzr : unchecked_zero { rt with reported := rt.reported ++ [ev.id] } :=
    unchecked_zero_congr hz rfl rfl
  cases helt : c.cache.re[ev.id]? with
  | none => simp [helt] at h
  | some elt =>
    simp only [helt] at h
    split at h
    · split at h
      · cases h
        exact unchecked_zero_store hz ev.id _ rfl rfl
      · cases h
        exact unchecked_zero_setbit hz ev.id rfl rfl
    · split at h
      · cases h
        exact hzr
      · exact cb_loop_unchecked_zero _ _ _ _ _ _ _ hzr h

/-- The callbacks of a scan keep the results of unchecked ids at zero. -/
theorem run_callbacks_unchecked_zero {px : Primitives} {c : State}
    {cbdata : rspamd_re_hyperscan_cbdata} (evs : List HsEvent) {rt rt1 : rspamd_re_runtime}
    (hz : unchecked_zero rt) (h : run_callbacks px c cbdata evs rt = .ok rt1) :
    unchecked_zero rt1 := by
  induction evs generalizing rt with
  | nil =>
    simp [run_callbacks] at h
    rw [← h]
    exact hz
  | cons ev evs ih =>
    unfold run_callbacks at h
    cases hcb : rspamd_re_cache_hyperscan_cb px c cbdata rt ev with
    | error f => simp [hcb] at h
    | ok rt2 =>
      simp only [hcb] at h
      exact ih (hyperscan_cb_unchecked_zero hz hcb) h

/-- The block-mode loop keeps the results of unchecked ids at zero. -/
theorem hs_block_loop_unchecked_zero {px : Primitives} {c : State} (db re_id : Nat)
    (ins : List Slice) (ret : Nat) {rt : rspamd_re_runtime} {out : Nat × rspamd_re_runtime}
    (hz : unchecked_zero rt) (h : hs_block_loop px c db re_id ins ret rt = .ok out) :
    unchecked_zero out.2 := by
  induction ins generalizing ret rt with
  | nil =>
    simp [hs_block_loop] at h
    rw [← h]
    exact hz
  | cons sl rest ih =>
    unfold hs_block_loop at h
    cases hcb : run_callbacks px c { ins := sl :: rest, count := 1 } (px.hs_scan db sl).1 rt with
    | error f => simp [hcb] at h
    | ok rt2 =>
      simp only [hcb] at h
      exact ih _ (run_callbacks_unchecked_zero _ hz hcb) h

/-- The sweep of a class keeps the results of unchecked ids at zero. -/
theorem finish_class_unchecked_zero (ids : List Nat) {rt rt1 : rspamd_re_runtime}
    (hz : unchecked_zero rt) (h : rspamd_re_cache_finish_class ids rt = .ok rt1) :
    unchecked_zero rt1 := by
  induction ids generalizing rt with
  | nil =>
    simp [rspamd_re_cache_finish_class] at h
    rw [← h]
    exact hz
  | cons id rest ih =>
    unfold rspamd_re_cache_finish_class at h
    split at h
    · split at h
      · exact ih (unchecked_zero_store hz id 0 rfl rfl) h
      · cases h
    · exact ih hz h

/-- The function `rspamd_re_cache_process_regexp_data` keeps the results of
unchecked ids at zero. -/
theorem process_regexp_data_unchecked_zero {px : Primitives} {c : State}
    {rt : rspamd_re_runtime} {re : Nat} {ins : List Slice} {is_raw : Bool}
    {out : Nat × rspamd_re_runtime} (hz : unchecked_zero rt)
    (h : rspamd_re_cache_process_regexp_data px c rt re ins is_raw = .ok out) :
    unchecked_zero out.2 := by
  unfold rspamd_re_cache_process_regexp_data at h
  split at h
  · cases h
    exact unchecked_zero_store hz (c.heap re).cache_id 0 rfl rfl
  · cases helt : c.cache.re[(c.heap re).cache_id]? with
    | none => simp [helt] at h
    | some elt =>
      simp only [helt] at h
      split at h
      · cases h
        obtain ⟨h1, h2⟩ := pcre_loop_frame px c re (c.heap re).cache_id is_raw ins 0 rt
        intro j hj
        by_cases hji : j = (c.heap re).cache_id
        · subst hji
          simp at hj
        · simp only [Function.update_noteq hji] at hj
          rw [h1] at hj
          show (pcre_loop px c re (c.heap re).cache_id is_raw ins 0 rt).2.results j = 0
          rw [h2 j hji]
          exact hz j hj
      · cases hk : (c.heap re).re_class with
        | none => simp [hk] at h
        | some k =>
          simp only [hk] at h
          cases hcl : class_lookup c.cache.re_classes k with
          | none => simp [hcl] at h
          | some cl =>
            simp only [hcl] at h
            have hz1 : unchecked_zero
                { rt with stat := { rt.stat with
                    bytes_scanned := rt.stat.bytes_scanned +
                      ((clip_slices c.cache.max_re_data ins).map Slice.len).sum } } :=
              unchecked_zero_congr hz rfl rfl
            split at h
            · split at h
              · exact hs_block_loop_unchecked_zero _ _ _ _ hz1 h
              · split at h
                · cases h
                · rename_i rt2 hcb
                  cases h
                  exact run_callbacks_unchecked_zero _ hz1 hcb
            · cases h

/-- The slow path keeps the results of unchecked ids at zero. -/
theorem exec_re_unchecked_zero {px : Primitives} {c : State} {task : rspamd_task}
    {rt : rspamd_re_runtime} {re : Nat} {re_class : rspamd_re_class} {is_strong : Bool}
    {out : Nat × rspamd_re_runtime} (hz : unchecked_zero rt)
    (h : rspamd_re_cache_exec_re px c task rt re re_class is_strong = .ok out) :
    unchecked_zero out.2 := by
  unfold rspamd_re_cache_exec_re at h
  cases hsw : exec_switch px c task rt re re_class is_strong with
  | error f => simp [hsw] at h
  | ok o1 =>
    have hz1 : unchecked_zero o1.2 := by
      unfold exec_switch at hsw
      split at hsw
      · cases hsw
      · cases hsw
        exact hz
      · exact process_regexp_data_unchecked_zero hz hsw
    simp only [hsw] at h
    split at h
    · cases h
    · rename_i rt2 hfin
      cases h
      refine unchecked_zero_setbit (?_ : unchecked_zero rt2) (c.heap re).cache_id rfl rfl
      split at hfin
      · exact finish_class_unchecked_zero _ hz1 hfin
      · cases hfin
        exact hz1

/-- The function `rspamd_re_cache_process` keeps the results of unchecked ids
at zero. -/
theorem process_unchecked_zero {px : Primitives} {c : State} {task : rspamd_task}
    {rt : rspamd_re_runtime} {re : Nat} {is_strong : Bool} {out : Nat × rspamd_re_runtime}
    (hz : unchecked_zero rt)
    (h : rspamd_re_cache_process px c task rt re is_strong = .ok out) :
    unchecked_zero out.2 := by
  unfold rspamd_re_cache_process at h
  by_cases hg : (c.heap re).cache_id = RSPAMD_INVALID_ID ∨ (c.heap re).cache_id > c.cache.nre
  · simp only [hg, if_true] at h
    cases h
    exact hz
  · simp only [hg, if_false] at h
    by_cases hch : rt.checked (c.heap re).cache_id = true
    · simp only [hch, if_true] at h
      cases h
      exact unchecked_zero_congr hz rfl rfl
    · simp only [hch] at h
      cases hk : (c.heap re).re_class with
      | none =>
        simp only [hk] at h
        cases h
        exact hz
      | some k =>
        simp only [hk] at h
        cases hl : class_lookup c.cache.re_classes k with
        | none => simp [hl] at h
        | some cl =>
          simp only [hl] at h
          exact exec_re_unchecked_zero hz h

/-- In every runtime state reached from a fresh runtime by `process` calls,
prefilter callbacks and sweeps of a class, an id whose bit is not set has the
stored result zero. -/
theorem reachable_unchecked_zero {px : Primitives} {c : State} {task : rspamd_task}
    {rt : rspamd_re_runtime} (hrt : RtReachable px c task rt) : unchecked_zero rt := by
  induction hrt with
  | fresh => exact fun _ _ => rfl
  | process rt re is_strong out _ h ih => exact process_unchecked_zero ih h
  | callback rt rt1 cbdata ev _ h ih => exact hyperscan_cb_unchecked_zero ih h
  | finish rt rt1 re_class _ h ih => exact finish_class_unchecked_zero _ ih h

/-! ## The count of the accurate path -/

/-- The search loop counts up to the hit limit, as long as the count fits the
32-bit counter. -/
theorem search_loop_count (m k r : Nat) (hr : m = 0 ∨ r < m)
    (hs : clamp_hits m (r + k) < 4294967296) :
    search_loop m k r = clamp_hits m (r + k) := by
  induction k generalizing r with
  | zero =>
    unfold search_loop clamp_hits
    split
    · rfl
    · rw [Nat.add_zero]
      rcases hr with h | h
      · contradiction
      · exact (Nat.min_eq_left (Nat.le_of_lt h)).symm
  | succ k ih =>
    unfold search_loop
    have hlt : r + 1 < 4294967296 := by
      unfold clamp_hits at hs
      split at hs
      · omega
      · omega
    rw [Nat.mod_eq_of_lt hlt]
    by_cases hc : m > 0 ∧ r + 1 ≥ m
    · rw [if_pos hc]
      unfold clamp_hits
      have hm : ¬ m = 0 := by omega
      rw [if_neg hm]
      omega
    · rw [if_neg hc]
      have hr1 : m = 0 ∨ r + 1 < m := by omega
      have hs1 : clamp_hits m (r + 1 + k) < 4294967296 := by
        have : r + 1 + k = r + (k + 1) := by omega
        rw [this]
        exact hs
      rw [ih (r + 1) hr1 hs1]
      have : r + 1 + k = r + (k + 1) := by omega
      rw [this]

/-- The accurate matching of one slice returns the stored count plus the
matches in the slice, under the hit limit. -/
theorem process_pcre_count (px : Primitives) (c : State) (rt : rspamd_re_runtime)
    (re : Nat) (sl : Slice) (is_raw : Bool)
    (hr : (c.heap re).maxhits = 0 ∨ rt.results (c.heap re).cache_id ≤ (c.heap re).maxhits)
    (hs : clamp_hits (c.heap re).maxhits
      (rt.results (c.heap re).cache_id + slice_hits px c re is_raw sl) < 4294967296) :
    (rspamd_re_cache_process_pcre px c rt re sl is_raw).1 =
      clamp_hits (c.heap re).maxhits
        (rt.results (c.heap re).cache_id + slice_hits px c re is_raw sl) := by
  unfold rspamd_re_cache_process_pcre
  unfold slice_hits at hs ⊢
  cases hd : sl.data with
  | none =>
    simp only [hd] at hs ⊢
    unfold clamp_hits
    rw [Nat.add_zero]
    split
    · rfl
    · rcases hr with h | h
      · contradiction
      · exact (Nat.min_eq_left h).symm
  | some input =>
    simp only [hd] at hs ⊢
    by_cases hc : (c.heap re).maxhits = 0 ∨
        rt.results (c.heap re).cache_id < (c.heap re).maxhits
    · rw [if_pos hc]
      exact search_loop_count _ _ _ hc hs
    · rw [if_neg hc]
      unfold clamp_hits
      have hm : ¬ (c.heap re).maxhits = 0 := fun h => hc (Or.inl h)
      rw [if_neg hm]
      omega

/-- The count under the hit limit grows with the count. -/
theorem clamp_hits_mono (m a b : Nat) (h : a ≤ b) : clamp_hits m a ≤ clamp_hits m b := by
  unfold clamp_hits
  split <;> omega

/-- Counting on from a count that is already under the limit. -/
theorem clamp_hits_add (m a b : Nat) : clamp_hits m (clamp_hits m a + b) = clamp_hits m (a + b) := by
  unfold clamp_hits
  split <;> omega

/-- The accurate loop returns and stores the count it started from plus the
matches in its slices, under the hit limit, as long as that fits a byte. -/
theorem pcre_loop_count (px : Primitives) (c : State) (re : Nat) (is_raw : Bool)
    (ins : List Slice) (ret : Nat) (rt : rspamd_re_runtime)
    (hret : rt.results (c.heap re).cache_id = ret)
    (hr : (c.heap re).maxhits = 0 ∨ ret ≤ (c.heap re).maxhits)
    (hs : clamp_hits (c.heap re).maxhits
      (ret + (ins.map (slice_hits px c re is_raw)).sum) < 256) :
    (pcre_loop px c re (c.heap re).cache_id is_raw ins ret rt).1 =
      clamp_hits (c.heap re).maxhits (ret + (ins.map (slice_hits px c re is_raw)).sum) ∧
    (pcre_loop px c re (c.heap re).cache_id is_raw ins ret rt).2.results (c.heap re).cache_id =
      clamp_hits (c.heap re).maxhits (ret + (ins.map (slice_hits px c re is_raw)).sum) := by
  induction ins generalizing ret rt with
  | nil =>
    unfold pcre_loop
    have : clamp_hits (c.heap re).maxhits (ret + 0) = ret := by
      unfold clamp_hits
      split <;> omega
    simp only [List.map_nil, List.sum_nil, this]
    exact ⟨trivial, hret⟩
  | cons sl rest ih =>
    unfold pcre_loop
    simp only [List.map_cons, List.sum_cons] at hs ⊢
    have hle : clamp_hits (c.heap re).maxhits (ret + slice_hits px c re is_raw sl) ≤
        clamp_hits (c.heap re).maxhits
          (ret + (slice_hits px c re is_raw sl +
            (rest.map (slice_hits px c re is_raw)).sum)) :=
      clamp_hits_mono _ _ _ (by omega)
    have h1 : (rspamd_re_cache_process_pcre px c rt re sl is_raw).1 =
        clamp_hits (c.heap re).maxhits (ret + slice_hits px c re is_raw sl) := by
      have := process_pcre_count px c rt re sl is_raw (by rw [hret]; exact hr)
        (by rw [hret]; omega)
      rw [hret] at this
      exact this
    have hlt : clamp_hits (c.heap re).maxhits (ret + slice_hits px c re is_raw sl) < 256 := by
      omega
    have hadd : clamp_hits (c.heap re).maxhits
        (clamp_hits (c.heap re).maxhits (ret + slice_hits px c re is_raw sl) +
          (rest.map (slice_hits px c re is_raw)).sum) =
        clamp_hits (c.heap re).maxhits
          (ret + (slice_hits px c re is_raw sl +
            (rest.map (slice_hits px c re is_raw)).sum)) := by
      rw [clamp_hits_add, Nat.add_assoc]
    have hr1 : (c.heap re).maxhits = 0 ∨
        clamp_hits (c.heap re).maxhits (ret + slice_hits px c re is_raw sl) ≤
          (c.heap re).maxhits := by
      unfold clamp_hits
      split
      · left; assumption
      · right; omega
    rw [h1]
    have := ih (clamp_hits (c.heap re).maxhits (ret + slice_hits px c re is_raw sl))
      { (rspamd_re_cache_process_pcre px c rt re sl is_raw).2 with
        results := Function.update (rspamd_re_cache_process_pcre px c rt re sl is_raw).2.results
          (c.heap re).cache_id
          (clamp_hits (c.heap re).maxhits (ret + slice_hits px c re is_raw sl) % 256) }
      (by simp only [Function.update_same]; exact Nat.mod_eq_of_lt hlt) hr1
      (by rw [hadd]; exact hs)
    rw [hadd] at this
    exact this

/-- An unchecked expression with a cache id in range and a class in the table
goes to the slow path. -/
theorem process_slow (px : Primitives) (c : State) (task : rspamd_task)
    (rt : rspamd_re_runtime) (re : Nat) (is_strong : Bool) (k : Nat) (cl : rspamd_re_class)
    (hid : (c.heap re).cache_id ≠ RSPAMD_INVALID_ID)
    (hn : (c.heap re).cache_id ≤ c.cache.nre)
    (hk : (c.heap re).re_class = some k)
    (hcl : class_lookup c.cache.re_classes k = some cl)
    (hun : rt.checked (c.heap re).cache_id = false) :
    rspamd_re_cache_process px c task rt re is_strong =
      rspamd_re_cache_exec_re px c task rt re cl is_strong := by
  have hg : ¬ ((c.heap re).cache_id = RSPAMD_INVALID_ID ∨ (c.heap re).cache_id > c.cache.nre) := by
    intro h
    rcases h with h | h
    · exact hid h
    · omega
  unfold rspamd_re_cache_process
  simp only [hg, if_false, hun, hk, hcl]
  rfl

/-- On the accurate path the scan of a slice vector is the accurate loop
followed by setting the bit of the expression. -/
theorem process_regexp_data_accurate (px : Primitives) (c : State) (rt : rspamd_re_runtime)
    (re : Nat) (ins : List Slice) (is_raw : Bool) (elt : rspamd_re_cache_elt)
    (helt : c.cache.re[(c.heap re).cache_id]? = some elt)
    (hbr : c.cache.disable_hyperscan = true ∨
      elt.match_type = .RSPAMD_RE_CACHE_PCRE ∨ rt.has_hs = false)
    (hne : ins ≠ []) :
    rspamd_re_cache_process_regexp_data px c rt re ins is_raw =
      .ok ((pcre_loop px c re (c.heap re).cache_id is_raw ins 0 rt).1,
        { (pcre_loop px c re (c.heap re).cache_id is_raw ins 0 rt).2 with
          checked := Function.update
            (pcre_loop px c re (c.heap re).cache_id is_raw ins 0 rt).2.checked
            (c.heap re).cache_id true }) := by
  have hlen : ¬ ins.length = 0 := fun h => hne (List.length_eq_zero.mp h)
  have hbr1 : c.cache.disable_hyperscan = true ∨
      elt.match_type = .RSPAMD_RE_CACHE_PCRE ∨ ¬ rt.has_hs = true := by
    rcases hbr with h | h | h
    · exact Or.inl h
    · exact Or.inr (Or.inl h)
    · right; right
      rw [h]
      exact Bool.false_ne_true
  unfold rspamd_re_cache_process_regexp_data
  simp only [hlen, if_false, helt]
  rw [if_pos hbr1]

/-- The accurate loop leaves `has_hs` as it is. -/
theorem pcre_loop_has_hs (px : Primitives) (c : State) (re re_id : Nat) (is_raw : Bool)
    (ins : List Slice) (ret : Nat) (rt : rspamd_re_runtime) :
    (pcre_loop px c re re_id is_raw ins ret rt).2.has_hs = rt.has_hs := by
  induction ins generalizing ret rt with
  | nil => rfl
  | cons sl rest ih =>
    unfold pcre_loop
    rw [ih]
    exact (process_pcre_frame px c rt re sl is_raw).2.2

/-- With the prefilter disabled or not loaded the slow path is the `switch`
followed by setting the bit of the expression. -/
theorem exec_re_no_sweep (px : Primitives) (c : State) (task : rspamd_task)
    (rt : rspamd_re_runtime) (re : Nat) (re_class : rspamd_re_class) (is_strong : Bool)
    (o1 : Nat × rspamd_re_runtime)
    (hsw : exec_switch px c task rt re re_class is_strong = .ok o1)
    (hacc : c.cache.disable_hyperscan = true ∨ o1.2.has_hs = false) :
    rspamd_re_cache_exec_re px c task rt re re_class is_strong =
      .ok (o1.2.results (c.heap re).cache_id,
        { o1.2 with checked := Function.update o1.2.checked (c.heap re).cache_id true }) := by
  have hfin : ¬ (¬ c.cache.disable_hyperscan = true ∧ o1.2.has_hs = true) := by
    intro h
    rcases hacc with h1 | h1
    · exact h.1 h1
    · rw [h1] at h
      exact Bool.false_ne_true h.2
  unfold rspamd_re_cache_exec_re
  simp only [hsw]
  rw [if_neg hfin]

/-- C12: on the accurate path (prefilter disabled, or not loaded when the
runtime was made), for an expression that has a cache id, is held by the
element at that id, has its class in the class table and is not yet checked in
a runtime reached from a fresh one, and for the slice vector of its class:
when the count the claim names (the total of the matches in the slices
without a hit limit, the smaller of the total and the limit otherwise) is
below 256, `process` returns that count, stores it as the result of the
expression and sets its bit. -/
theorem process_accurate_count (px : Primitives) (c : State) (task : rspamd_task)
    (rt : rspamd_re_runtime) (re : Nat) (is_strong : Bool) (k : Nat) (cl : rspamd_re_class)
    (elt : rspamd_re_cache_elt) (ins : List Slice) (raw : Bool)
    (hrt : RtReachable px c task rt)
    (hid : (c.heap re).cache_id ≠ RSPAMD_INVALID_ID)
    (hnre : c.cache.nre = c.cache.re.length)
    (helt : c.cache.re[(c.heap re).cache_id]? = some elt)
    (hk : (c.heap re).re_class = some k)
    (hcl : class_lookup c.cache.re_classes k = some cl)
    (hacc : c.cache.disable_hyperscan = true ∨ rt.has_hs = false)
    (hun : rt.checked (c.heap re).cache_id = false)
    (hreg : region_slices px task cl is_strong = .ok (some (ins, raw)))
    (hsmall : clamp_hits (c.heap re).maxhits ((ins.map (slice_hits px c re raw)).sum) < 256) :
    ∃ rt1, rspamd_re_cache_process px c task rt re is_strong =
        .ok (clamp_hits (c.heap re).maxhits ((ins.map (slice_hits px c re raw)).sum), rt1) ∧
      rt1.results (c.heap re).cache_id =
        clamp_hits (c.heap re).maxhits ((ins.map (slice_hits px c re raw)).sum) ∧
      rt1.checked (c.heap re).cache_id = true := by
  have hzero : rt.results (c.heap re).cache_id = 0 := reachable_unchecked_zero hrt _ hun
  have hlt : (c.heap re).cache_id < c.cache.re.length := by
    rcases List.getElem?_eq_some_iff.mp helt with ⟨h, _⟩
    exact h
  rw [process_slow px c task rt re is_strong k cl hid (by omega) hk hcl hun]
  have hsw : exec_switch px c task rt re cl is_strong =
      rspamd_re_cache_process_regexp_data px c rt re ins raw := by
    unfold exec_switch
    simp only [hreg]
  by_cases hne : ins = []
  · subst hne
    have hdata : rspamd_re_cache_process_regexp_data px c rt re [] raw =
        .ok (0, { rt with checked := Function.update rt.checked (c.heap re).cache_id true,
                          results := Function.update rt.results (c.heap re).cache_id 0 }) := by
      unfold rspamd_re_cache_process_regexp_data
      simp only [List.length_nil, if_true]
    rw [hdata] at hsw
    rw [exec_re_no_sweep px c task rt re cl is_strong _ hsw hacc]
    have hcz : clamp_hits (c.heap re).maxhits 0 = 0 := by
      unfold clamp_hits
      split <;> omega
    simp only [List.map_nil, List.sum_nil, hcz, Function.update_same]
    exact ⟨_, rfl, by simp only [Function.update_same], by simp only [Function.update_same]⟩
  · obtain ⟨hc1, hc2⟩ := pcre_loop_count px c re raw ins 0 rt hzero (by omega)
      (by rw [Nat.zero_add]; exact hsmall)
    rw [Nat.zero_add] at hc1 hc2
    have hbr : c.cache.disable_hyperscan = true ∨
        elt.match_type = .RSPAMD_RE_CACHE_PCRE ∨ rt.has_hs = false := by
      rcases hacc with h | h
      · exact Or.inl h
      · exact Or.inr (Or.inr h)
    rw [process_regexp_data_accurate px c rt re ins raw elt helt hbr hne] at hsw
    have hacc1 : c.cache.disable_hyperscan = true ∨
        (pcre_loop px c re (c.heap re).cache_id raw ins 0 rt).2.has_hs = false := by
      rw [pcre_loop_has_hs]
      exact hacc
    rw [exec_re_no_sweep px c task rt re cl is_strong _ hsw hacc1]
    simp only [hc2]
    exact ⟨_, rfl, hc2, by simp only [Function.update_same]⟩

/-- C12 at the example cache: the expression at address 3 has no hit limit
and the body of the example message has one match. -/
theorem process_accurate_count_witness :
    ∃ rt1, rspamd_re_cache_process px0 s123 task0 (rspamd_re_cache_runtime_new s123.cache) 3
        false = .ok (1, rt1) ∧
      rt1.results 2 = 1 ∧ rt1.checked 2 = true :=
  process_accurate_count px0 s123 task0 (rspamd_re_cache_runtime_new s123.cache) 3 false 7 _
    { re := 3, match_type := .RSPAMD_RE_CACHE_PCRE } [task0.msg] true
    RtReachable.fresh (by decide) (by decide) (by decide) (by decide) rfl (Or.inr rfl) rfl rfl
    (by decide)

set_option maxRecDepth 100000 in
/-- The claim C12 as stated fails: the expression at address 3 has no hit
limit and is not checked in the fresh runtime, the prefilter is not loaded,
the only slice is the body with 256 matches, and `process` returns 0, the
total reduced to a byte, and stores 0. -/
theorem accurate_count_truncated :
    (s123.heap 3).maxhits = 0 ∧ (s123.heap 3).cache_id = 2 ∧
    (rspamd_re_cache_runtime_new s123.cache).checked 2 = false ∧
    (rspamd_re_cache_runtime_new s123.cache).has_hs = false ∧
    slice_hits px0 s123 3 true task256.msg = 256 ∧
    (rspamd_re_cache_process px0 s123 task256 (rspamd_re_cache_runtime_new s123.cache) 3
      false).toOption.map (fun out => (out.1, out.2.results 2)) = some (0, 0) := by
  decide

/-! ## The sweep after the accurate branch -/

/-- C13 fails on the code: in the example cache `s124_loaded`, made by
finalize, compile and load, the expression at address 4 (cache id 2) is
matched by the accurate engine alone, and its class has a database that lists
the cache id 1. On a fresh runtime `process` on it takes the accurate branch
and returns 1, and afterwards the bit of the cache id 1 is set, with the
result 0, though the prefilter never ran. A later `process` on the expression
with the cache id 1 (address 2) returns 0, where on a fresh runtime it
returns 1. -/
theorem accurate_branch_sweeps_class :
    (rspamd_re_cache_load_hyperscan env0 (files_after_compile env0 s124 fs0 dir0) s124.cache
      dir0).toOption.map (fun out => out.1) = some true ∧
    s124_loaded.cache.re =
      [{ re := 1, match_type := .RSPAMD_RE_CACHE_HYPERSCAN },
       { re := 2, match_type := .RSPAMD_RE_CACHE_HYPERSCAN },
       { re := 4, match_type := .RSPAMD_RE_CACHE_PCRE }] ∧
    (s124_loaded.heap 4).cache_id = 2 ∧ (s124_loaded.heap 2).cache_id = 1 ∧
    (s124_loaded.heap 4).re_class = some 7 ∧ (s124_loaded.heap 2).re_class = some 7 ∧
    (class_lookup s124_loaded.cache.re_classes 7).map (fun cl => cl.hs_ids) = some [1] ∧
    (rspamd_re_cache_runtime_new s124_loaded.cache).checked 1 = false ∧
    (rspamd_re_cache_process px_body s124_loaded task0
      (rspamd_re_cache_runtime_new s124_loaded.cache) 4 false).toOption.map
      (fun out => (out.1, out.2.checked 1, out.2.results 1, out.2.reported))
      = some (1, true, 0, []) ∧
    (rspamd_re_cache_process px_body s124_loaded task0
      (rspamd_re_cache_runtime_new s124_loaded.cache) 2 false).toOption.map (fun out => out.1) =
      some 1 ∧
    (rspamd_re_cache_process px_body s124_loaded task0
      (after_process px_body s124_loaded task0 (rspamd_re_cache_runtime_new s124_loaded.cache) 4)
      2 false).toOption.map (fun out => out.1) = some 0 := by
  decide

/-- With the prefilter disabled or not loaded the scan of a slice vector
changes no bit and no result but those of the expression. -/
theorem process_regexp_data_accurate_frame {px : Primitives} {c : State}
    {rt : rspamd_re_runtime} {re : Nat} {ins : List Slice} {is_raw : Bool}
    {out : Nat × rspamd_re_runtime}
    (hacc : c.cache.disable_hyperscan = true ∨ rt.has_hs = false)
    (h : rspamd_re_cache_process_regexp_data px c rt re ins is_raw = .ok out) :
    out.2.has_hs = rt.has_hs ∧
    ∀ j, j ≠ (c.heap re).cache_id →
      out.2.checked j = rt.checked j ∧ out.2.results j = rt.results j := by
  by_cases hne : ins = []
  · subst hne
    unfold rspamd_re_cache_process_regexp_data at h
    simp only [List.length_nil, if_true] at h
    cases h
    exact ⟨rfl, fun j hj => ⟨Function.update_noteq hj _ _, Function.update_noteq hj _ _⟩⟩
  · cases helt : c.cache.re[(c.heap re).cache_id]? with
    | none =>
      unfold rspamd_re_cache_process_regexp_data at h
      have hlen : ¬ ins.length = 0 := fun hl => hne (List.length_eq_zero.mp hl)
      simp [hlen, helt] at h
    | some elt =>
      have hbr : c.cache.disable_hyperscan = true ∨
          elt.match_type = .RSPAMD_RE_CACHE_PCRE ∨ rt.has_hs = false := by
        rcases hacc with h1 | h1
        · exact Or.inl h1
        · exact Or.inr (Or.inr h1)
      rw [process_regexp_data_accurate px c rt re ins is_raw elt helt hbr hne] at h
      cases h
      obtain ⟨h1, h2⟩ := pcre_loop_frame px c re (c.heap re).cache_id is_raw ins 0 rt
      refine ⟨pcre_loop_has_hs px c re _ is_raw ins 0 rt, fun j hj => ⟨?_, h2 j hj⟩⟩
      simp only [Function.update_noteq hj]
      rw [h1]

/-- With the prefilter disabled, or not loaded when the runtime was made,
`process` changes no bit of the bitmap and no stored result but those of the
expression it is called for. -/
theorem process_accurate_frame {px : Primitives} {c : State} {task : rspamd_task}
    {rt : rspamd_re_runtime} {re : Nat} {is_strong : Bool} {out : Nat × rspamd_re_runtime}
    (hacc : c.cache.disable_hyperscan = true ∨ rt.has_hs = false)
    (h : rspamd_re_cache_process px c task rt re is_strong = .ok out) :
    ∀ j, j ≠ (c.heap re).cache_id →
      out.2.checked j = rt.checked j ∧ out.2.results j = rt.results j := by
  unfold rspamd_re_cache_process at h
  by_cases hg : (c.heap re).cache_id = RSPAMD_INVALID_ID ∨ (c.heap re).cache_id > c.cache.nre
  · simp only [hg, if_true] at h
    cases h
    exact fun _ _ => ⟨rfl, rfl⟩
  · simp only [hg, if_false] at h
    by_cases hch : rt.checked (c.heap re).cache_id = true
    · simp only [hch, if_true] at h
      cases h
      exact fun _ _ => ⟨rfl, rfl⟩
    · simp only [hch] at h
      cases hk : (c.heap re).re_class with
      | none =>
        simp only [hk] at h
        cases h
        exact fun _ _ => ⟨rfl, rfl⟩
      | some k =>
        simp only [hk] at h
        cases hl : class_lookup c.cache.re_classes k with
        | none => simp [hl] at h
        | some cl =>
          simp only [hl] at h
          cases hsw : exec_switch px c task rt re cl is_strong with
          | error f =>
            unfold rspamd_re_cache_exec_re at h
            simp [hsw] at h
          | ok o1 =>
            have hfr : o1.2.has_hs = rt.has_hs ∧ ∀ j, j ≠ (c.heap re).cache_id →
                o1.2.checked j = rt.checked j ∧ o1.2.results j = rt.results j := by
              unfold exec_switch at hsw
              split at hsw
              · cases hsw
              · cases hsw
                exact ⟨rfl, fun _ _ => ⟨rfl, rfl⟩⟩
              · exact process_regexp_data_accurate_frame hacc hsw
            have hacc1 : c.cache.disable_hyperscan = true ∨ o1.2.has_hs = false := by
              rw [hfr.1]
              exact hacc
            rw [exec_re_no_sweep px c task rt re cl is_strong o1 hsw hacc1] at h
            cases h
            intro j hj
            obtain ⟨h1, h2⟩ := hfr.2 j hj
            exact ⟨by simp only [Function.update_noteq hj]; exact h1, h2⟩

/-! ## A scan that fails -/

/-- The example cache `s_hs` is a cache with the prefilter loaded and enabled
for the example prefilter whose scans fail as well. -/
theorem s_hs_wf_fail : PrefilterWF px_fail s_hs := by
  refine ⟨s_hs_wf.ids, s_hs_wf.members, ?_, s_hs_wf.types, rfl, rfl⟩
  intro k cl db hcl hdb
  rcases s_hs_classes hcl with ⟨_, h0⟩ | ⟨_, hids⟩
  · rw [h0] at hdb
    cases hdb
  · rw [hids]
    constructor
    · intro sl ev hev
      simp [px_fail] at hev
      subst hev
      simp
    · intro ins ev hev
      simp [px_fail] at hev
      subst hev
      simp

/-- Over a cache that meets the conditions `PrefilterWF`, in a runtime
reached from a fresh one by `process` calls, for an expression with a valid
cache id that its class lists for the prefilter: whatever status the scan
calls of the prefilter library return, a failure included, after `process`
returns the bit of the expression is set and the value returned is the stored
result of the expression; that result is zero when no callback was delivered
for the expression. -/
theorem process_returns_stored_result (px : Primitives) (c : State) (task : rspamd_task)
    (rt : rspamd_re_runtime) (re : Nat) (is_strong : Bool) (out : Nat × rspamd_re_runtime)
    (k : Nat) (cl : rspamd_re_class) (hwf : PrefilterWF px c)
    (hr : RtProcessed px c task rt)
    (hid : (c.heap re).cache_id ≠ RSPAMD_INVALID_ID)
    (hlt : (c.heap re).cache_id < c.cache.nre)
    (hk : (c.heap re).re_class = some k)
    (hcl : class_lookup c.cache.re_classes k = some cl)
    (hlisted : (c.heap re).cache_id ∈ cl.hs_ids)
    (h : rspamd_re_cache_process px c task rt re is_strong = .ok out) :
    out.2.checked (c.heap re).cache_id = true ∧
    out.1 = out.2.results (c.heap re).cache_id ∧
    ((c.heap re).cache_id ∉ out.2.reported → out.1 = 0) := by
  obtain ⟨_, _, hz⟩ := processed_swept hwf (RtProcessed.process rt re is_strong out hr h)
  obtain ⟨hchk, hret⟩ := process_checked hid (Nat.le_of_lt hlt) (by rw [hk]; simp) h
  refine ⟨hchk, hret, fun hrep => ?_⟩
  rw [hret]
  exact hz k cl _ hcl hlisted hrep

/-- An instance of `process_returns_stored_result` at the example cache with
the prefilter whose scans fail: `process` on the expression with the cache id
1 returns the stored result, which the callback delivered before the failure
has set to 1. -/
theorem process_returns_stored_result_witness :
    ∃ out, rspamd_re_cache_process px_fail s_hs task0 (rspamd_re_cache_runtime_new s_hs.cache) 2
        false = .ok out ∧
      (out.2.checked 1 = true ∧ out.1 = out.2.results 1 ∧ (1 ∉ out.2.reported → out.1 = 0)) ∧
      out.2.reported = [1] :=
  ⟨_, rfl,
    process_returns_stored_result px_fail s_hs task0 _ 2 false _ 7
      { class_set_re 3 3 (class_set_re 2 2 (new_class 7 .RSPAMD_RE_BODY [] 0)) with
        hs_db := some 0, hs_scratch := some 0, hs_ids := [1, 2] }
      s_hs_wf_fail RtProcessed.fresh (by decide) (by decide) (by decide) (by decide)
      (by decide) rfl,
    rfl⟩

/-- For an expression with a cache id in range and a class, a `process` call
that returns has set the bit of the expression and returns its stored result,
whatever the scan calls of the prefilter library returned: the zero that
`rspamd_re_cache_process_regexp_data` returns after a failed scan is not
used. -/
theorem process_returns_stored (px : Primitives) (c : State) (task : rspamd_task)
    (rt : rspamd_re_runtime) (re : Nat) (is_strong : Bool) (out : Nat × rspamd_re_runtime)
    (k : Nat)
    (hid : (c.heap re).cache_id ≠ RSPAMD_INVALID_ID)
    (hlt : (c.heap re).cache_id < c.cache.nre)
    (hk : (c.heap re).re_class = some k)
    (h : rspamd_re_cache_process px c task rt re is_strong = .ok out) :
    out.2.checked (c.heap re).cache_id = true ∧
    out.1 = out.2.results (c.heap re).cache_id :=
  process_checked hid (Nat.le_of_lt hlt) (by rw [hk]; simp) h

/-- C19 fails on the code. The example cache `s123_loaded` is made by
finalize, compile and load; the expression at address 2 has the cache id 1,
is matched through the prefilter and is listed for its class. Every scan call
of the example prefilter `px_fail` delivers one callback for the id 1 and
then returns a failure status. `rspamd_re_cache_process_regexp_data` sets its
return value to 0 for the failure, but `process` on the expression returns 1
and leaves the stored result 1, which the callback has set. -/
theorem scan_failure_keeps_result :
    (∀ db sl, (px_fail.hs_scan db sl).2 = false) ∧
    s123_loaded.cache.re =
      [{ re := 1, match_type := .RSPAMD_RE_CACHE_HYPERSCAN },
       { re := 2, match_type := .RSPAMD_RE_CACHE_HYPERSCAN },
       { re := 3, match_type := .RSPAMD_RE_CACHE_HYPERSCAN }] ∧
    s123_loaded.cache.hyperscan_loaded = true ∧
    s123_loaded.cache.disable_hyperscan = false ∧
    (s123_loaded.heap 2).cache_id = 1 ∧ (s123_loaded.heap 2).re_class = some 7 ∧
    (class_lookup s123_loaded.cache.re_classes 7).map (fun cl => cl.hs_ids) = some [1, 2] ∧
    (rspamd_re_cache_runtime_new s123_loaded.cache).checked 1 = false ∧
    (rspamd_re_cache_process_regexp_data px_fail s123_loaded
      (rspamd_re_cache_runtime_new s123_loaded.cache) 2 [task0.msg] true).toOption.map
      (fun out => (out.1, out.2.results 1)) = some (0, 1) ∧
    (rspamd_re_cache_process px_fail s123_loaded task0
      (rspamd_re_cache_runtime_new s123_loaded.cache) 2 false).toOption.map
      (fun out => (out.1, out.2.results 1, out.2.checked 1)) = some (1, 1, true) :=
  ⟨fun _ _ => rfl, by decide, by decide, by decide, by decide, by decide, by decide, by decide,
    by decide, by decide⟩

/-! ## Content ids within a class -/

/-- The keys of a table after an insertion. -/
theorem re_insert_keys (m : List (Nat × Nat)) (k v : Nat) :
    (re_insert m k v).map Prod.fst =
      if k ∈ m.map Prod.fst then m.map Prod.fst else m.map Prod.fst ++ [k] := by
  induction m with
  | nil => simp [re_insert]
  | cons kv m ih =>
    obtain ⟨k0, v0⟩ := kv
    unfold re_insert
    by_cases h : k0 = k
    · subst h
      simp
    · simp only [h, if_false, List.map_cons, ih]
      have hne : ¬ k = k0 := fun e => h e.symm
      by_cases hm : k ∈ m.map Prod.fst
      · simp [hm]
      · simp [hm, hne]

/-- An insertion keeps the keys of a table distinct. -/
theorem re_insert_nodup (m : List (Nat × Nat)) (k v : Nat) (h : (m.map Prod.fst).Nodup) :
    ((re_insert m k v).map Prod.fst).Nodup := by
  rw [re_insert_keys]
  by_cases hm : k ∈ m.map Prod.fst
  · rw [if_pos hm]
    exact h
  · rw [if_neg hm]
    exact List.Nodup.append h (List.nodup_singleton k) (by
      intro a ha hb
      rw [List.mem_singleton] at hb
      subst hb
      exact hm ha)

/-- An entry of a table after an insertion was there before or is the entry
inserted. -/
theorem re_insert_mem (m : List (Nat × Nat)) (k v : Nat) (kv : Nat × Nat)
    (h : kv ∈ re_insert m k v) : kv ∈ m ∨ kv = (k, v) := by
  induction m with
  | nil =>
    simp [re_insert] at h
    exact Or.inr h
  | cons kv0 m ih =>
    obtain ⟨k0, v0⟩ := kv0
    unfold re_insert at h
    by_cases hk : k0 = k
    · subst hk
      simp only [if_true, List.mem_cons] at h
      rcases h with h | h
      · exact Or.inr h
      · exact Or.inl (List.mem_cons_of_mem _ h)
    · simp only [hk, if_false, List.mem_cons] at h
      rcases h with h | h
      · exact Or.inl (by rw [h]; exact List.mem_cons_self _ _)
      · rcases ih h with h1 | h1
        · exact Or.inl (List.mem_cons_of_mem _ h1)
        · exact Or.inr h1

/-- The tables stay in order when the heap keeps its content ids and one
class gets an entry whose expression has the key as content id. -/
theorem keysInv_insert {s : State} (hi : KeysInv s) (heap1 : Nat → rspamd_regexp_t)
    (hid : ∀ p, (heap1 p).id = (s.heap p).id) (cs : List rspamd_re_class)
    (hcs : ∀ cl ∈ cs, cl ∈ s.cache.re_classes ∨ cl.re = [])
    (key v k : Nat) (hv : (s.heap v).id = key) (cache1 : rspamd_re_cache)
    (hc : cache1.re_classes = class_modify (class_set_re key v) cs k) :
    KeysInv { heap := heap1, cache := cache1 } := by
  have hbase : ∀ cl ∈ cs, (cl.re.map Prod.fst).Nodup ∧ ∀ kv ∈ cl.re, (s.heap kv.2).id = kv.1 := by
    intro cl hcl
    rcases hcs cl hcl with h | h
    · exact hi cl h
    · rw [h]
      exact ⟨List.nodup_nil, fun kv hkv => absurd hkv (List.not_mem_nil _)⟩
  intro cl hcl
  simp only [hc] at hcl
  rcases class_modify_mem hcl with h | ⟨c0, hc0, h⟩
  · obtain ⟨h1, h2⟩ := hbase cl h
    exact ⟨h1, fun kv hkv => by rw [hid]; exact h2 kv hkv⟩
  · obtain ⟨h1, h2⟩ := hbase c0 hc0
    subst h
    refine ⟨re_insert_nodup _ _ _ h1, fun kv hkv => ?_⟩
    rw [hid]
    rcases re_insert_mem _ _ _ _ hkv with h3 | h3
    · exact h2 kv h3
    · rw [h3]
      exact hv

/-- The call `rspamd_re_cache_add` keeps the tables in order. -/
theorem keysInv_add (fh : List Nat → Nat) {s : State} (hi : KeysInv s) (re : Nat)
    (type : rspamd_re_type) (type_data : List Nat) (datalen : Nat) :
    KeysInv (rspamd_re_cache_add fh s re type type_data datalen).2 := by
  cases hc : class_lookup s.cache.re_classes
      (rspamd_re_cache_class_id fh type type_data datalen) with
  | none =>
    rw [add_new fh s re type type_data datalen hc]
    refine keysInv_insert hi _ (fun p => ?_) _ (fun cl hcl => ?_) _ re _ rfl _ rfl
    · by_cases hp : p = re
      · subst hp
        simp
      · simp [Function.update_noteq hp]
    · rcases List.mem_append.mp hcl with h | h
      · exact Or.inl h
      · rw [List.mem_singleton] at h
        rw [h]
        exact Or.inr rfl
  | some c =>
    cases hr : re_lookup c.re (s.heap re).id with
    | some n =>
      rw [add_hit fh s re type type_data datalen c n hc hr]
      exact hi
    | none =>
      rw [add_miss fh s re type type_data datalen c hc hr]
      refine keysInv_insert hi _ (fun p => ?_) _ (fun cl hcl => Or.inl hcl) _ re _ rfl _ rfl
      by_cases hp : p = re
      · subst hp
        simp
      · simp [Function.update_noteq hp]

/-- The call `rspamd_re_cache_replace` keeps the content ids of the heap. -/
theorem replace_heap_id {s s1 : State} {what with_re : Nat}
    (h : rspamd_re_cache_replace s what with_re = .ok s1) (p : Nat) :
    (s1.heap p).id = (s.heap p).id := by
  rcases replace_inv h with ⟨_, he⟩ | ⟨k, cl, elt, src, hk, hid, hcl, helt, hsrc⟩
  · rw [he]
  · rw [replace_ok s what with_re k cl elt src hk hid hcl helt hsrc] at h
    cases h
    by_cases hp : p = with_re
    · subst hp
      simp only [Function.update_same]
      by_cases hw : p = what
      · subst hw
        simp
      · simp [Function.update_noteq hw]
    · simp only [Function.update_noteq hp]
      by_cases hw : p = what
      · subst hw
        simp
      · simp [Function.update_noteq hw]

/-- The call `rspamd_re_cache_replace` keeps the tables in order when the new
expression has the content id of the old one. -/
theorem keysInv_replace {s s1 : State} {what with_re : Nat} (hi : KeysInv s)
    (hsame : (s.heap with_re).id = (s.heap what).id)
    (h : rspamd_re_cache_replace s what with_re = .ok s1) : KeysInv s1 := by
  have hheap := replace_heap_id h
  rcases replace_inv h with ⟨_, he⟩ | ⟨k, cl, elt, src, hk, hid, hcl, helt, hsrc⟩
  · rw [he]
    exact hi
  · rw [replace_ok s what with_re k cl elt src hk hid hcl helt hsrc] at h
    cases h
    exact keysInv_insert hi _ hheap _ (fun cl hcl => Or.inl hcl) _ with_re _ hsame _ rfl

/-- The first loop of finalize leaves the content-id tables of the classes as
they are. -/
theorem init_loop_tables {l : List rspamd_re_cache_elt} {i : Nat} {acc acc2 : InitAcc}
    (h : init_loop l i acc = .ok acc2) :
    ∀ cl ∈ acc2.classes, ∃ c0 ∈ acc.classes, cl.re = c0.re := by
  induction l generalizing i acc with
  | nil =>
    simp [init_loop] at h
    rw [← h]
    exact fun cl hcl => ⟨cl, hcl, rfl⟩
  | cons elt rest ih =>
    obtain ⟨acc1, h1, h2⟩ := init_loop_cons h
    obtain ⟨k, c, _, _, he⟩ := init_step_inv h1
    intro cl hcl
    obtain ⟨c1, hc1, hre⟩ := ih h2 cl hcl
    rw [he] at hc1
    rcases class_modify_mem hc1 with h3 | ⟨c0, hc0, h3⟩
    · exact ⟨c1, h3, hre⟩
    · refine ⟨c0, hc0, ?_⟩
      rw [hre, h3]
      rfl

/-- The call `rspamd_re_cache_init` keeps the tables in order. -/
theorem keysInv_init {s s1 : State} {cfg : rspamd_config} (hi : KeysInv s)
    (h : rspamd_re_cache_init s cfg = .ok s1) :
    KeysInv s1 ∧ ∀ p, (s1.heap p).id = (s.heap p).id := by
  obtain ⟨acc, hl, he⟩ := init_inv h
  have hid : ∀ p, (acc.heap p).id = (s.heap p).id := fun p => (init_loop_same_attrs hl p).1
  subst he
  refine ⟨?_, hid⟩
  intro cl hcl
  simp only [List.mem_map] at hcl
  obtain ⟨c1, hc1, hf⟩ := hcl
  obtain ⟨c0, hc0, hre⟩ := init_loop_tables hl c1 hc1
  have hre1 : cl.re = c0.re := by
    rw [← hf, ← hre]
    unfold finalize_class
    split <;> rfl
  obtain ⟨h1, h2⟩ := hi c0 hc0
  rw [hre1]
  exact ⟨h1, fun kv hkv => by rw [hid]; exact h2 kv hkv⟩

/-- A sequence of registry calls that put no expression under a foreign
content id keeps the tables in order and the content ids of the heap. -/
theorem keysInv_run_ops (fh : List Nat → Nat) (h0 : Nat → rspamd_regexp_t) {ops : List Op}
    {s s1 : State} (hi : KeysInv s) (hid : ∀ p, (s.heap p).id = (h0 p).id)
    (hk : ∀ op ∈ ops, op.keeps_ids h0) (h : run_ops fh s ops = .ok s1) : KeysInv s1 := by
  induction ops generalizing s with
  | nil =>
    simp [run_ops] at h
    rw [← h]
    exact hi
  | cons op ops ih =>
    unfold run_ops at h
    cases hop : op.run fh s with
    | error f => simp [hop] at h
    | ok s2 =>
      simp only [hop] at h
      have hk0 := hk op (List.mem_cons_self _ _)
      have hk1 : ∀ o ∈ ops, o.keeps_ids h0 := fun o ho => hk o (List.mem_cons_of_mem _ ho)
      cases op with
      | add re type type_data datalen =>
        simp [Op.run] at hop
        rw [← hop] at h
        exact ih (keysInv_add fh hi re type type_data datalen)
          (fun p => by rw [add_heap_id]; exact hid p) hk1 h
      | replace what with_re =>
        have hsame : (s.heap with_re).id = (s.heap what).id := by
          rw [hid, hid]
          exact hk0
        exact ih (keysInv_replace hi hsame hop)
          (fun p => by rw [replace_heap_id hop]; exact hid p) hk1 h
      | init cfg =>
        obtain ⟨h1, h2⟩ := keysInv_init hi hop
        exact ih h1 (fun p => by rw [h2]; exact hid p) hk1 h

/-- C20: in every cache state reached from an empty cache by `add` and
finalize calls and by `replace` calls whose new expression has the content id
of the old one, within every class no two entries of the content-id table
hold expressions with the same content id, and every entry holds an
expression whose content id is the key of the entry. -/
theorem class_content_ids_distinct (fh : List Nat → Nat) (s0 s : State) (ops : List Op)
    (hf : Fresh s0) (hk : ∀ op ∈ ops, op.keeps_ids s0.heap)
    (h : run_ops fh s0 ops = .ok s) :
    ∀ cl ∈ s.cache.re_classes,
      (cl.re.map (fun kv => (s.heap kv.2).id)).Nodup ∧
      ∀ kv ∈ cl.re, (s.heap kv.2).id = kv.1 := by
  have hi0 : KeysInv s0 := by
    intro cl hcl
    rw [hf.1] at hcl
    exact absurd hcl (List.not_mem_nil _)
  have hi := keysInv_run_ops fh s0.heap hi0 (fun _ => rfl) hk h
  intro cl hcl
  obtain ⟨h1, h2⟩ := hi cl hcl
  refine ⟨?_, h2⟩
  have : cl.re.map (fun kv => (s.heap kv.2).id) = cl.re.map Prod.fst :=
    List.map_congr_left (fun kv hkv => h2 kv hkv)
  rw [this]
  exact h1

/-- C20 at an example: two expressions registered for the whole message, the
first replaced by the expression at address 11, which has its content id, and
the cache finalized. -/
theorem class_content_ids_distinct_witness :
    ∃ s, run_ops fh0 s0
        [.add 1 .RSPAMD_RE_BODY [] 0, .add 2 .RSPAMD_RE_BODY [] 0, .replace 1 11, .init cfg0]
        = .ok s ∧
      (∀ cl ∈ s.cache.re_classes,
        (cl.re.map (fun kv => (s.heap kv.2).id)).Nodup ∧
        ∀ kv ∈ cl.re, (s.heap kv.2).id = kv.1) ∧
      s.cache.re_classes.map (fun cl => cl.re) = [[(1, 11), (2, 2)]] :=
  ⟨_, rfl,
    class_content_ids_distinct fh0 s0 _
      [.add 1 .RSPAMD_RE_BODY [] 0, .add 2 .RSPAMD_RE_BODY [] 0, .replace 1 11, .init cfg0]
      ⟨rfl, fun _ => ⟨rfl, rfl⟩⟩ (by simp [Op.keeps_ids, s0, heap0]) rfl,
    by decide⟩

/-- The claim C20 as stated fails: after two expressions with the content ids
1 and 2 are registered for the whole message and the first is replaced by the
expression at address 12, whose content id is 2, the table of the class holds
under the key 1 an expression with the content id 2, and both its entries hold
expressions with the content id 2. -/
theorem replace_breaks_content_ids :
    (run_ops fh0 s0
        [.add 1 .RSPAMD_RE_BODY [] 0, .add 2 .RSPAMD_RE_BODY [] 0, .replace 1 12]).toOption.map
      (fun s => s.cache.re_classes.map
        (fun cl => cl.re.map (fun kv => (kv.1, kv.2, (s.heap kv.2).id)))) =
      some [[(1, 12, 2), (2, 2, 2)]] := by
  decide

/-! ## Validation of a class file -/

/-- The loop over the classes returns false or what the check of the file
returns, when the path is long enough to hold a class hash. -/
theorem valid_loop_cases (env : HsEnv) (fs : Files) (c : rspamd_re_cache) (path : List Nat)
    (try_load : Bool) (hp : 3 + env.HASHBYTES ≤ path.length) (l : List rspamd_re_class) :
    valid_loop env fs c path try_load l = .ok false ∨
      valid_loop env fs c path try_load l = valid_file env fs c path try_load := by
  induction l with
  | nil => exact Or.inl rfl
  | cons cl rest ih =>
    unfold valid_loop
    rw [if_neg (by omega)]
    split
    · exact Or.inr rfl
    · exact ih

/-- The number of bytes of a word. -/
theorem le_bytes_length (k v : Nat) : (le_bytes k v).length = k := by
  induction k generalizing v with
  | zero => rfl
  | succ k ih => simp [le_bytes, ih]

/-- Reading the bytes of a word gives the word, reduced to its width. -/
theorem le_val_le_bytes (k v : Nat) : le_val (le_bytes k v) = v % 256 ^ k := by
  induction k generalizing v with
  | zero => simp [le_bytes, le_val, Nat.mod_one]
  | succ k ih =>
    simp only [le_bytes, le_val, ih, Nat.mod_mod]
    rw [Nat.pow_succ, Nat.mul_comm (256 ^ k) 256, Nat.mod_mul]

/-- Dropping a first part of known length. -/
theorem drop_append_len {α : Type} (a b : List α) (k : Nat) (h : a.length = k) :
    (a ++ b).drop k = b := by
  subst h
  exact List.drop_left a b

/-- Taking a first part of known length. -/
theorem take_append_len {α : Type} (a b : List α) (k : Nat) (h : a.length = k) :
    (a ++ b).take k = a := by
  subst h
  exact List.take_left a b

/-- The part of known length behind a first part of known length. -/
theorem drop_take_append {α : Type} (a x r : List α) (k m : Nat) (h : a.length = k)
    (hx : x.length = m) : ((a ++ (x ++ r)).drop k).take m = x := by
  rw [drop_append_len a _ k h, take_append_len x r m hx]

/-- What the reader finds in a file laid out by the writer: the count, the id
bytes, the flag bytes, the checksum and the database. -/
theorem file_layout_read (env : HsEnv) (magic : List Nat) (n : Nat) (ids flags : List Nat)
    (crc : Nat) (blob : List Nat) (hm : magic.length = RSPAMD_HS_MAGIC_LEN)
    (hn : n < 2147483648) (hi : ids.length = 4 * n) (hfl : flags.length = 4 * n) :
    file_n env (file_layout magic env.plt n ids flags crc blob) = (n : Int) ∧
    file_ids_bytes env (file_layout magic env.plt n ids flags crc blob) = ids ∧
    file_flags_bytes env (file_layout magic env.plt n ids flags crc blob) = flags ∧
    file_crc env (file_layout magic env.plt n ids flags crc blob) =
      crc % 18446744073709551616 ∧
    file_blob env (file_layout magic env.plt n ids flags crc blob) = blob ∧
    (file_layout magic env.plt n ids flags crc blob).length =
      ids_off env + 8 * n + 8 + blob.length := by
  have e0 : file_layout magic env.plt n ids flags crc blob =
      (magic ++ env.plt) ++ (le_bytes 4 n ++ (ids ++ flags ++ le_bytes 8 crc ++ blob)) := by
    simp only [file_layout, List.append_assoc]
  have e1 : file_layout magic env.plt n ids flags crc blob =
      (magic ++ env.plt ++ le_bytes 4 n) ++ (ids ++ (flags ++ le_bytes 8 crc ++ blob)) := by
    simp only [file_layout, List.append_assoc]
  have e2 : file_layout magic env.plt n ids flags crc blob =
      (magic ++ env.plt ++ le_bytes 4 n ++ ids) ++ (flags ++ (le_bytes 8 crc ++ blob)) := by
    simp only [file_layout, List.append_assoc]
  have e3 : file_layout magic env.plt n ids flags crc blob =
      (magic ++ env.plt ++ le_bytes 4 n ++ ids ++ flags) ++ (le_bytes 8 crc ++ blob) := by
    simp only [file_layout, List.append_assoc]
  have e4 : file_layout magic env.plt n ids flags crc blob =
      (magic ++ env.plt ++ le_bytes 4 n ++ ids ++ flags ++ le_bytes 8 crc) ++ blob := by
    simp only [file_layout, List.append_assoc]
  have l0 : (magic ++ env.plt).length = RSPAMD_HS_MAGIC_LEN + env.plt.length := by
    rw [List.length_append, hm]
  have l1 : (magic ++ env.plt ++ le_bytes 4 n).length = ids_off env := by
    simp only [List.length_append, hm, le_bytes_length, ids_off]
  have l2 : (magic ++ env.plt ++ le_bytes 4 n ++ ids).length = ids_off env + 4 * n := by
    rw [List.length_append, l1, hi]
  have l3 : (magic ++ env.plt ++ le_bytes 4 n ++ ids ++ flags).length =
      ids_off env + 8 * n := by
    rw [List.length_append, l2, hfl]
    omega
  have l4 : (magic ++ env.plt ++ le_bytes 4 n ++ ids ++ flags ++ le_bytes 8 crc).length =
      ids_off env + 8 * n + 8 := by
    rw [List.length_append, l3, le_bytes_length]
  have hn0 : file_n env (file_layout magic env.plt n ids flags crc blob) = (n : Int) := by
    unfold file_n word_at
    rw [e0, drop_take_append _ _ _ _ 4 l0 (le_bytes_length 4 n), le_val_le_bytes]
    unfold to_gint
    have h2 : n % 256 ^ 4 % 4294967296 = n := by
      norm_num
      omega
    rw [h2, if_pos hn]
  refine ⟨hn0, ?_, ?_, ?_, ?_, ?_⟩
  · unfold file_ids_bytes
    rw [hn0, Int.toNat_ofNat, e1]
    exact drop_take_append _ _ _ _ _ l1 hi
  · unfold file_flags_bytes
    rw [hn0, Int.toNat_ofNat, e2]
    exact drop_take_append _ _ _ _ _ l2 hfl
  · unfold file_crc
    rw [hn0, Int.toNat_ofNat, e3, drop_take_append _ _ _ _ 8 l3 (le_bytes_length 8 crc),
      le_val_le_bytes]
    norm_num
  · unfold file_blob
    rw [hn0, Int.toNat_ofNat, e4]
    exact drop_append_len _ _ _ l4
  · rw [e4, List.length_append, l4]

/-- The validation reads of the cache only the mode and the class hashes. -/
theorem valid_loop_congr (env : HsEnv) (fs : Files) (c c1 : rspamd_re_cache) (path : List Nat)
    (try_load : Bool) (hv : c1.vectorized_hyperscan = c.vectorized_hyperscan)
    (l l1 : List rspamd_re_class) (hl : l1.map (hash_buf env) = l.map (hash_buf env)) :
    valid_loop env fs c1 path try_load l1 = valid_loop env fs c path try_load l := by
  induction l generalizing l1 with
  | nil =>
    have : l1 = [] := by simpa using hl
    subst this
    rfl
  | cons cl rest ih =>
    cases l1 with
    | nil => simp at hl
    | cons cl1 rest1 =>
      simp only [List.map_cons, List.cons.injEq] at hl
      unfold valid_loop
      rw [hl.1, ih rest1 hl.2]
      unfold valid_file
      rw [hv]

/-- The validation of a path gives the same for two caches with the same mode
and the same class hashes. -/
theorem is_valid_congr (env : HsEnv) (fs : Files) (c c1 : rspamd_re_cache) (path : List Nat)
    (try_load : Bool) (hv : c1.vectorized_hyperscan = c.vectorized_hyperscan)
    (hl : c1.re_classes.map (hash_buf env) = c.re_classes.map (hash_buf env)) :
    rspamd_re_cache_is_valid_hyperscan_file env fs c1 path try_load =
      rspamd_re_cache_is_valid_hyperscan_file env fs c path try_load := by
  unfold rspamd_re_cache_is_valid_hyperscan_file
  rw [valid_loop_congr env fs c c1 path try_load hv _ _ hl]

/-- Without `try_load` the check of a file returns. -/
theorem valid_file_quick_total (env : HsEnv) (fs : Files) (c : rspamd_re_cache)
    (path : List Nat) : ∃ b, valid_file env fs c path false = .ok b := by
  unfold valid_file
  cases hf : fs path with
  | none => exact ⟨false, rfl⟩
  | some f =>
    simp only
    by_cases h1 : (f.take RSPAMD_HS_MAGIC_LEN).length ≠ RSPAMD_HS_MAGIC_LEN
    · rw [if_pos h1]
      exact ⟨false, rfl⟩
    · rw [if_neg h1]
      by_cases h2 : f.take RSPAMD_HS_MAGIC_LEN ≠
          (if c.vectorized_hyperscan then rspamd_hs_magic_vector else rspamd_hs_magic)
      · rw [if_pos h2]
        exact ⟨false, rfl⟩
      · rw [if_neg h2]
        by_cases h3 : ((f.drop RSPAMD_HS_MAGIC_LEN).take env.plt.length).length ≠ env.plt.length
        · rw [if_pos h3]
          exact ⟨false, rfl⟩
        · rw [if_neg h3]
          by_cases h4 : (f.drop RSPAMD_HS_MAGIC_LEN).take env.plt.length ≠ env.plt
          · rw [if_pos h4]
            exact ⟨false, rfl⟩
          · rw [if_neg h4]
            exact ⟨true, by simp⟩

/-- Without `try_load` the validation of a path long enough to hold a class
hash returns. -/
theorem is_valid_quick_total (env : HsEnv) (fs : Files) (c : rspamd_re_cache) (path : List Nat)
    (hp : 3 + env.HASHBYTES ≤ path.length) :
    ∃ b, rspamd_re_cache_is_valid_hyperscan_file env fs c path false = .ok b := by
  unfold rspamd_re_cache_is_valid_hyperscan_file
  split
  · exact ⟨false, rfl⟩
  · split
    · exact ⟨false, rfl⟩
    · rcases valid_loop_cases env fs c path false hp c.re_classes with h | h
      · exact ⟨false, h⟩
      · rw [h]
        exact valid_file_quick_total env fs c path

/-- The marking loop completes when all ids index the array, and keeps the
length of the array. -/
theorem mark_ids_total (env : HsEnv) (re : List rspamd_re_cache_elt) (l : List (Int × Nat))
    (h : ∀ p ∈ l, 0 ≤ p.1 ∧ p.1 < (re.length : Int)) :
    ∃ re1, mark_ids env re l = .ok re1 ∧ re1.length = re.length := by
  induction l generalizing re with
  | nil => exact ⟨re, rfl, rfl⟩
  | cons p rest ih =>
    obtain ⟨id, fl⟩ := p
    obtain ⟨h0, h1⟩ := h (id, fl) (List.mem_cons_self _ _)
    simp only at h0 h1
    unfold mark_ids
    rw [if_pos ⟨h1, h0⟩]
    have hlt : id.toNat < re.length := by omega
    rw [List.getElem?_eq_getElem hlt]
    simp only
    obtain ⟨re1, hr, hlen⟩ := ih (re.set id.toNat
      { re[id.toNat] with match_type := match_type_of env fl })
      (fun p hp => by
        rw [List.length_set]
        exact h p (List.mem_cons_of_mem _ hp))
    exact ⟨re1, hr, by rw [hlen, List.length_set]⟩

/-- A marking loop that completes keeps the length of the array. -/
theorem mark_ids_length (env : HsEnv) {re re1 : List rspamd_re_cache_elt} {l : List (Int × Nat)}
    (h : mark_ids env re l = .ok re1) : re1.length = re.length := by
  induction l generalizing re with
  | nil =>
    simp [mark_ids] at h
    rw [h]
  | cons p rest ih =>
    obtain ⟨id, fl⟩ := p
    unfold mark_ids at h
    split at h
    · split at h
      · cases h
      · rw [ih h, List.length_set]
    · cases h

/-- A path that passes the validation names a file. -/
theorem is_valid_true_file (env : HsEnv) (fs : Files) (c : rspamd_re_cache) (path : List Nat)
    (try_load : Bool)
    (h : rspamd_re_cache_is_valid_hyperscan_file env fs c path try_load = .ok true) :
    ∃ f, fs path = some f := by
  have hfile : valid_file env fs c path try_load = .ok true → ∃ f, fs path = some f := by
    intro hv
    unfold valid_file at hv
    cases hf : fs path with
    | none => simp [hf] at hv
    | some f => exact ⟨f, rfl⟩
  have hloop : ∀ l, valid_loop env fs c path try_load l = .ok true →
      valid_file env fs c path try_load = .ok true := by
    intro l
    induction l with
    | nil =>
      intro hl
      simp [valid_loop] at hl
    | cons cl rest ih =>
      intro hl
      unfold valid_loop at hl
      split at hl
      · cases hl
      · split at hl
        · exact hl
        · exact ih hl
  unfold rspamd_re_cache_is_valid_hyperscan_file at h
  split at h
  · simp at h
  · split at h
    · simp at h
    · exact hfile (hloop _ h)

/-- What the body of the load loop does for a class at which nothing makes
it abort: the class is loaded exactly when its file passes the checks, and
the hash of the class and the length of `cache->re` stay. -/
theorem load_class_cases (env : HsEnv) (fs : Files) (dir : List Nat) (c : rspamd_re_cache)
    (cl : rspamd_re_class) (hsafe : class_safe env fs dir c cl) :
    (class_loads env fs dir c cl ∧
      ∃ cl1 re1, load_class env fs dir c cl = .ok (true, cl1, re1) ∧ cl1.hash = cl.hash ∧
        re1.length = c.re.length) ∨
    (¬ class_loads env fs dir c cl ∧
      ∃ cl1, load_class env fs dir c cl = .ok (false, cl1, c.re) ∧ cl1.hash = cl.hash) := by
  obtain ⟨hp, hfile⟩ := hsafe
  obtain ⟨b, hb⟩ := is_valid_quick_total env fs c (class_path env dir cl) hp
  unfold load_class
  rw [hb]
  cases b with
  | false =>
    right
    refine ⟨fun hl => ?_, cl, rfl, rfl⟩
    rw [hl.1] at hb
    cases hb
  | true =>
    obtain ⟨f, hf⟩ := is_valid_true_file env fs c _ false hb
    simp only [hf]
    by_cases hbad : bad_count env f
    · right
      rw [if_pos hbad]
      refine ⟨fun hl => ?_, cl, rfl, rfl⟩
      obtain ⟨_, f1, hf1, hnb, _⟩ := hl
      rw [hf] at hf1
      cases hf1
      exact hnb hbad
    · rw [if_neg hbad]
      obtain ⟨hlen, hscr, hids⟩ := hfile f hf hbad
      rw [if_neg (by omega)]
      cases hd : env.hs_deserialize_database (file_blob env f) with
      | none =>
        right
        refine ⟨fun hl => ?_, _, rfl, rfl⟩
        obtain ⟨_, f1, hf1, _, hds⟩ := hl
        rw [hf] at hf1
        cases hf1
        rw [hd] at hds
        cases hds
      | some db =>
        left
        have hs := hscr db hd
        cases hsc : env.hs_alloc_scratch db with
        | none =>
          rw [hsc] at hs
          cases hs
        | some scratch =>
          obtain ⟨re1, hm, hl1⟩ := mark_ids_total env c.re
            ((file_ids env f).zip (file_flags env f))
            (fun p hpz => hids p.1 (List.of_mem_zip hpz).1)
          simp only [hsc, hm]
          exact ⟨⟨hb, f, hf, hbad, by rw [hd]; rfl⟩, _, _, rfl, rfl, hl1⟩

/-- The load loop from any point on: it returns; the flag afterwards is what
it returns (the flag was unset); it returns true exactly when the files of
all remaining classes pass the checks; and when it returns false it stopped
at the first class whose file does not pass, leaving the classes behind it as
they were. `c0` is the cache at the start of the call. -/
theorem load_loop_spec (env : HsEnv) (fs : Files) (dir : List Nat) (c0 : rspamd_re_cache)
    (rest : List rspamd_re_class) (c : rspamd_re_cache) (pre : List rspamd_re_class)
    (hv : c.vectorized_hyperscan = c0.vectorized_hyperscan)
    (hh : c.re_classes.map (hash_buf env) = c0.re_classes.map (hash_buf env))
    (hlen : c.re.length = c0.re.length) (hl : c.hyperscan_loaded = false)
    (hcls : c.re_classes = pre ++ rest)
    (hsafe : ∀ cl ∈ rest, class_safe env fs dir c0 cl) :
    ∃ b c1, load_loop env fs dir c pre rest = .ok (b, c1) ∧ c1.hyperscan_loaded = b ∧
      (b = true ↔ ∀ cl ∈ rest, class_loads env fs dir c0 cl) ∧
      (b = false → ∃ r1 cl r2 p1 cl1, rest = r1 ++ cl :: r2 ∧
        (∀ x ∈ r1, class_loads env fs dir c0 x) ∧ ¬ class_loads env fs dir c0 cl ∧
        c1.re_classes = p1 ++ cl1 :: r2 ∧ p1.length = pre.length + r1.length) := by
  induction rest generalizing c pre with
  | nil =>
    refine ⟨true, _, rfl, rfl, ?_, ?_⟩
    · simp
    · intro h
      cases h
  | cons cl rest ih =>
    have hsafe_c : class_safe env fs dir c cl := by
      obtain ⟨h1, h2⟩ := hsafe cl (List.mem_cons_self _ _)
      refine ⟨h1, fun f hf hb => ?_⟩
      rw [hlen]
      exact h2 f hf hb
    have hloads : class_loads env fs dir c cl ↔ class_loads env fs dir c0 cl := by
      unfold class_loads
      rw [is_valid_congr env fs c0 c _ false hv hh]
    unfold load_loop
    rcases load_class_cases env fs dir c cl hsafe_c with
      ⟨hok, cl1, re1, hload, hhash, hre⟩ | ⟨hno, cl1, hload, hhash⟩
    · rw [hload]
      simp only [if_true]
      have hbuf : hash_buf env cl1 = hash_buf env cl := by
        unfold hash_buf
        rw [hhash]
      obtain ⟨b, c1, hres, hflag, hiff, hfirst⟩ := ih
        { c with re_classes := pre ++ cl1 :: rest, re := re1 } (pre ++ [cl1]) hv
        (by
          rw [← hh, hcls]
          simp only [List.map_append, List.map_cons, hbuf])
        (by rw [← hlen]; exact hre) hl
        (by simp only [List.append_assoc, List.singleton_append])
        (fun x hx => hsafe x (List.mem_cons_of_mem _ hx))
      refine ⟨b, c1, hres, hflag, ?_, ?_⟩
      · rw [hiff]
        constructor
        · intro h x hx
          rcases List.mem_cons.mp hx with h1 | h1
          · rw [h1]
            exact hloads.mp hok
          · exact h x h1
        · exact fun h x hx => h x (List.mem_cons_of_mem _ hx)
      · intro hb
        obtain ⟨r1, x, r2, p1, x1, hsplit, hall, hnot, hc1, hp1⟩ := hfirst hb
        refine ⟨cl :: r1, x, r2, p1, x1, by rw [hsplit]; rfl, ?_, hnot, hc1, ?_⟩
        · intro y hy
          rcases List.mem_cons.mp hy with h1 | h1
          · rw [h1]
            exact hloads.mp hok
          · exact hall y h1
        · rw [hp1]
          simp only [List.length_append, List.length_cons, List.length_nil]
          omega
    · rw [hload]
      simp only [Bool.false_eq_true, if_false]
      refine ⟨false, _, rfl, hl, ?_, ?_⟩
      · constructor
        · intro h
          cases h
        · intro h
          exact absurd (hloads.mpr (h cl (List.mem_cons_self _ _))) hno
      · intro _
        exact ⟨[], cl, rest, pre, cl1, rfl, fun x hx => absurd hx (List.not_mem_nil _),
          fun h => hno (hloads.mpr h), rfl, by simp⟩

/-- The marking loop over two lists in a row. -/
theorem mark_ids_append (env : HsEnv) (re : List rspamd_re_cache_elt) (a b : List (Int × Nat)) :
    mark_ids env re (a ++ b) =
      match mark_ids env re a with
      | .error f => .error f
      | .ok r => mark_ids env r b := by
  induction a generalizing re with
  | nil => rfl
  | cons p rest ih =>
    obtain ⟨id, fl⟩ := p
    simp only [List.cons_append, mark_ids]
    split
    · split
      · rfl
      · exact ih _
    · rfl

/-- What the marking loop leaves at an index: the expression that was there;
the match type that was there when the index is not among the ids; and
otherwise the match type for the flags of one of its occurrences. -/
theorem mark_ids_spec (env : HsEnv) {re re1 : List rspamd_re_cache_elt} {l : List (Int × Nat)}
    (h : mark_ids env re l = .ok re1) (i : Nat) (e e1 : rspamd_re_cache_elt)
    (he : re[i]? = some e) (he1 : re1[i]? = some e1) :
    e1.re = e.re ∧
    ((∀ fl, ((i : Int), fl) ∉ l) → e1.match_type = e.match_type) ∧
    ((∃ fl, ((i : Int), fl) ∈ l) →
      ∃ fl, ((i : Int), fl) ∈ l ∧ e1.match_type = match_type_of env fl) := by
  induction l generalizing re e with
  | nil =>
    simp [mark_ids] at h
    subst h
    rw [he] at he1
    cases he1
    exact ⟨rfl, fun _ => rfl, fun ⟨fl, hfl⟩ => absurd hfl (List.not_mem_nil _)⟩
  | cons p rest ih =>
    obtain ⟨id, fl⟩ := p
    unfold mark_ids at h
    split at h
    · rename_i hrange
      split at h
      · cases h
      · rename_i elt helt
        by_cases hi : id.toNat = i
        · have hid : (i : Int) = id := by omega
          have hset : (re.set id.toNat { elt with match_type := match_type_of env fl })[i]? =
              some { elt with match_type := match_type_of env fl } := by
            rw [← hi, List.getElem?_set_self]
            rcases List.getElem?_eq_some_iff.mp helt with ⟨hlt, _⟩
            exact hlt
          have hee : elt = e := by
            rw [hi, he] at helt
            exact (Option.some.inj helt).symm
          obtain ⟨h1, h2, h3⟩ := ih h _ hset
          refine ⟨by rw [h1, hee], fun hno => ?_, fun _ => ?_⟩
          · exact absurd (List.mem_cons_self _ _) (hid ▸ hno fl)
          · by_cases hrest : ∃ fl1, ((i : Int), fl1) ∈ rest
            · obtain ⟨fl1, hm, ht⟩ := h3 hrest
              exact ⟨fl1, List.mem_cons_of_mem _ hm, ht⟩
            · refine ⟨fl, by rw [hid]; exact List.mem_cons_self _ _, ?_⟩
              rw [h2 (fun fl1 hm => hrest ⟨fl1, hm⟩)]
        · have hset : (re.set id.toNat { elt with match_type := match_type_of env fl })[i]? =
              some e := by
            rw [List.getElem?_set_ne hi]
            exact he
          obtain ⟨h1, h2, h3⟩ := ih h _ hset
          have hne : ∀ fl1, ((i : Int), fl1) ≠ (id, fl) := by
            intro fl1 heq
            have : (i : Int) = id := (Prod.mk.inj heq).1
            omega
          refine ⟨h1, fun hno => ?_, fun ⟨fl1, hm⟩ => ?_⟩
          · exact h2 (fun fl1 hm => hno fl1 (List.mem_cons_of_mem _ hm))
          · rcases List.mem_cons.mp hm with h0 | h0
            · exact absurd h0 (hne fl1)
            · obtain ⟨fl2, hm2, ht⟩ := h3 ⟨fl1, h0⟩
              exact ⟨fl2, List.mem_cons_of_mem _ hm2, ht⟩
    · cases h

/-- What the body of the load loop did when it loaded a class. -/
theorem load_class_ok (env : HsEnv) (fs : Files) (dir : List Nat) (c : rspamd_re_cache)
    (cl cl1 : rspamd_re_class) (re1 : List rspamd_re_cache_elt)
    (h : load_class env fs dir c cl = .ok (true, cl1, re1)) :
    ∃ f, fs (class_path env dir cl) = some f ∧
      mark_ids env c.re ((file_ids env f).zip (file_flags env f)) = .ok re1 ∧
      cl1.hs_ids = (file_ids env f).map Int.toNat ∧ 0 < file_n env f := by
  unfold load_class at h
  split at h
  · cases h
  · cases h
  · cases hf : fs (class_path env dir cl) with
    | none => simp [hf] at h
    | some f =>
      simp only [hf] at h
      refine ⟨f, rfl, ?_⟩
      by_cases hbad : bad_count env f
      · rw [if_pos hbad] at h
        cases h
      · rw [if_neg hbad] at h
        have hpos : 0 < file_n env f := by
          unfold bad_count at hbad
          omega
        split at h
        · cases h
        · split at h
          · cases h
          · split at h
            · cases h
            · split at h
              · cases h
              · rename_i re2 hm
                cases h
                exact ⟨hm, rfl, hpos⟩

/-- What a load loop that succeeds leaves: `cache->re` after the marking loop
over the ids of all remaining class files, and every remaining class with the
ids of its file. -/
theorem load_loop_ok (env : HsEnv) (fs : Files) (dir : List Nat)
    (rest : List rspamd_re_class) (c c1 : rspamd_re_cache) (pre : List rspamd_re_class)
    (hcls : c.re_classes = pre ++ rest)
    (h : load_loop env fs dir c pre rest = .ok (true, c1)) :
    mark_ids env c.re (rest.flatMap (class_entries env fs dir)) = .ok c1.re ∧
    ∃ post, c1.re_classes = pre ++ post ∧
      List.Forall₂ (fun cl cl1 => ∃ f, fs (class_path env dir cl) = some f ∧
        cl1.hs_ids = (file_ids env f).map Int.toNat ∧ 0 < file_n env f) rest post := by
  induction rest generalizing c pre with
  | nil =>
    simp [load_loop] at h
    subst h
    exact ⟨rfl, [], hcls, List.Forall₂.nil⟩
  | cons cl rest ih =>
    unfold load_loop at h
    cases hl : load_class env fs dir c cl with
    | error f => simp [hl] at h
    | ok out =>
      obtain ⟨loaded, cl1, re1⟩ := out
      simp only [hl] at h
      cases loaded with
      | false => simp at h
      | true =>
        simp only [if_true] at h
        obtain ⟨f, hf, hm, hids, hpos⟩ := load_class_ok env fs dir c cl cl1 re1 hl
        obtain ⟨h1, post, h2, h3⟩ := ih { c with re_classes := pre ++ cl1 :: rest, re := re1 }
          (pre ++ [cl1]) (by simp only [List.append_assoc, List.singleton_append]) h
        refine ⟨?_, cl1 :: post, ?_, List.Forall₂.cons ⟨f, hf, hids, hpos⟩ h3⟩
        · have he : class_entries env fs dir cl = (file_ids env f).zip (file_flags env f) := by
            unfold class_entries
            rw [hf]
          simp only [List.flatMap_cons, he, mark_ids_append, hm]
          exact h1
        · rw [h2]
          simp only [List.append_assoc, List.singleton_append]

/-- C16: after a successful load on a cache all of whose elements are matched
by the accurate engine alone (as after finalize), when the occurrences of
every id in the class files agree on the approximation flag: the element at
every index holds the expression it held, its match type is the one for the
flags stored with its index in a class file (prefilter-approximate with the
approximation flag, prefilter-exact without) when the index occurs in a class
file, and accurate-only when it occurs in none; and every class holds the ids
of its file, as many as the count of the file. -/
theorem load_match_types (env : HsEnv) (fs : Files) (dir : List Nat) (c c1 : rspamd_re_cache)
    (hpcre : ∀ e ∈ c.re, e.match_type = .RSPAMD_RE_CACHE_PCRE)
    (hcons : ∀ p ∈ dir_entries env fs dir c, ∀ q ∈ dir_entries env fs dir c, p.1 = q.1 →
      match_type_of env p.2 = match_type_of env q.2)
    (hload : rspamd_re_cache_load_hyperscan env fs c dir = .ok (true, c1)) :
    c1.re.length = c.re.length ∧
    (∀ (i : Nat) (e e1 : rspamd_re_cache_elt), c.re[i]? = some e → c1.re[i]? = some e1 →
      e1.re = e.re ∧
      (∀ fl, ((i : Int), fl) ∈ dir_entries env fs dir c →
        e1.match_type = match_type_of env fl) ∧
      ((∀ fl, ((i : Int), fl) ∉ dir_entries env fs dir c) →
        e1.match_type = .RSPAMD_RE_CACHE_PCRE)) ∧
    List.Forall₂ (fun cl cl1 => ∃ f, fs (class_path env dir cl) = some f ∧
      cl1.hs_ids = (file_ids env f).map Int.toNat ∧
      (cl1.hs_ids.length : Int) = file_n env f) c.re_classes c1.re_classes := by
  obtain ⟨hm, post, hpost, hfor⟩ := load_loop_ok env fs dir c.re_classes c c1 [] rfl hload
  refine ⟨mark_ids_length env hm, fun i e e1 he he1 => ?_, ?_⟩
  · obtain ⟨h1, h2, h3⟩ := mark_ids_spec env hm i e e1 he he1
    refine ⟨h1, fun fl hfl => ?_, fun hno => ?_⟩
    · obtain ⟨fl1, hm1, ht⟩ := h3 ⟨fl, hfl⟩
      rw [ht]
      exact hcons _ hm1 _ hfl rfl
    · rw [h2 hno]
      exact hpcre e (List.getElem?_mem he)
  · rw [hpost, List.nil_append]
    refine List.Forall₂.imp (fun cl cl1 h => ?_) hfor
    obtain ⟨f, hf, hids, hpos⟩ := h
    refine ⟨f, hf, hids, ?_⟩
    rw [hids]
    unfold file_ids
    simp only [List.length_map, List.length_range]
    omega

/-- C16 at the example: after the load of the files the compiler wrote for
`s123_init` the three elements are matched through the prefilter, exactly. -/
theorem load_match_types_witness :
    ∃ c1, rspamd_re_cache_load_hyperscan env0 fs_compiled s123_init.cache dir0 = .ok (true, c1) ∧
      c1.re.length = s123_init.cache.re.length ∧
      (∀ (i : Nat) (e e1 : rspamd_re_cache_elt),
        s123_init.cache.re[i]? = some e → c1.re[i]? = some e1 →
        e1.re = e.re ∧
        (∀ fl, ((i : Int), fl) ∈ dir_entries env0 fs_compiled dir0 s123_init.cache →
          e1.match_type = match_type_of env0 fl) ∧
        ((∀ fl, ((i : Int), fl) ∉ dir_entries env0 fs_compiled dir0 s123_init.cache) →
          e1.match_type = .RSPAMD_RE_CACHE_PCRE)) ∧
      dir_entries env0 fs_compiled dir0 s123_init.cache = [(0, 8), (1, 0), (2, 0)] :=
  ⟨_, rfl,
    (load_match_types env0 fs_compiled dir0 s123_init.cache _ (by decide) (by decide) rfl).1,
    (load_match_types env0 fs_compiled dir0 s123_init.cache _ (by decide) (by decide) rfl).2.1,
    by decide⟩

/-- The claim C16 as stated fails: the file of the header class lists the id
0 with the approximation flag, the load succeeds on the finalized cache, and
the element with the cache id 0 is prefilter-exact afterwards, because the
file lists the id 0 once more without the flag. -/
theorem load_last_flag_wins :
    (∀ e ∈ s123_init.cache.re, e.match_type = .RSPAMD_RE_CACHE_PCRE) ∧
    (class_lookup s123_init.cache.re_classes 83).map (class_entries env0 fs_twice dir0) =
      some [(0, 128), (0, 0)] ∧
    128 &&& env0.HS_FLAG_PREFILTER ≠ 0 ∧
    (rspamd_re_cache_is_valid_hyperscan_file env0 fs_twice s123_init.cache
      [100, 47, 107, 103, 46, 104, 115] true).toOption = some true ∧
    (rspamd_re_cache_load_hyperscan env0 fs_twice s123_init.cache dir0).toOption.map
      (fun out => (out.1, out.2.re[0]?.map (fun e => e.match_type))) =
      some (true, some .RSPAMD_RE_CACHE_HYPERSCAN) := by
  decide

/-! ## Compiling the class files -/

/-- C17 fails on the code: the only expression of the only class of the
example cache `s4` is flagged for the accurate engine only. On the empty
directory the compiler succeeds (it returns 0) and leaves an empty file under
the hash of the class; the load of that directory into the same cache then
fails, because the empty file has no magic, and the flag stays unset. -/
theorem compile_empty_class_not_loadable :
    s4.cache.re_classes.map (fun cl => cl.re) = [[(4, 4)]] ∧
    (s4.heap 4).flags &&& env0.RSPAMD_REGEXP_FLAG_PCRE_ONLY ≠ 0 ∧
    (rspamd_re_cache_compile_hyperscan env0 s4 fs0 dir0).toOption.map (fun out => out.1) =
      some 0 ∧
    s4.cache.re_classes.map (fun cl => files_after_compile env0 s4 fs0 dir0
      (class_path env0 dir0 cl)) = [some []] ∧
    (rspamd_re_cache_load_hyperscan env0 (files_after_compile env0 s4 fs0 dir0) s4.cache
      dir0).toOption.map (fun out => (out.1, out.2.hyperscan_loaded)) = some (false, false) := by
  decide

/-- Where every class has an expression admitted to its database the round
trip works: for the example cache `s123_init` the compiler succeeds on the
empty directory, the load of what it wrote succeeds, and the ids and flags
read back are those the compiler recorded. -/
theorem compile_load_example :
    (rspamd_re_cache_compile_hyperscan env0 s123_init fs0 dir0).toOption.map
      (fun out => out.1) = some 3 ∧
    s123_init.cache.re_classes.map (fun cl =>
      (collect_patterns env0 s123_init cl.re).map (fun t => (Int.ofNat t.1, t.2.1))) =
      [[(0, 8)], [(1, 0), (2, 0)]] ∧
    s123_init.cache.re_classes.map (class_entries env0 fs_compiled dir0) =
      [[(0, 8)], [(1, 0), (2, 0)]] ∧
    (rspamd_re_cache_load_hyperscan env0 fs_compiled s123_init.cache dir0).toOption.map
      (fun out => (out.1, out.2.hyperscan_loaded, out.2.re_classes.map (fun cl => cl.hs_ids))) =
      some (true, true, [[0], [1, 2]]) := by
  decide

/-- The compile loop over two lists of classes in a row. -/
theorem compile_loop_append (env : HsEnv) (s : State) (dir : List Nat) (fs : Files)
    (total : Nat) (a b : List rspamd_re_class) :
    compile_loop env s dir fs total (a ++ b) =
      match compile_loop env s dir fs total a with
      | .error f => .error f
      | .ok (r, fs1) => if r < 0 then .ok (r, fs1) else compile_loop env s dir fs1 r.toNat b := by
  induction a generalizing fs total with
  | nil =>
    simp only [List.nil_append, compile_loop]
    rw [if_neg (by omega), Int.toNat_ofNat]
  | cons cl rest ih =>
    simp only [List.cons_append, compile_loop]
    cases hc : compile_class env s dir fs cl with
    | error f => rfl
    | ok out =>
      obtain ⟨r, fs1⟩ := out
      cases r with
      | none =>
        simp only
        rw [if_pos (by omega)]
      | some n =>
        simp only
        exact ih fs1 (total + n)

/-- The body of the compile loop for a class whose database cannot be built:
the call returns -1 and the files are as they were. -/
theorem compile_class_multi_fails (env : HsEnv) (s : State) (dir : List Nat) (fs : Files)
    (cl : rspamd_re_class)
    (hval : rspamd_re_cache_is_valid_hyperscan_file env fs s.cache (class_path env dir cl) true =
      .ok false)
    (htmp : fs (class_tmp_path env dir cl) = none)
    (hpat : (collect_patterns env s cl.re).length > 0)
    (hmulti : env.hs_compile_multi (collect_patterns env s cl.re)
      s.cache.vectorized_hyperscan = none) :
    ∃ fs2, compile_class env s dir fs cl = .ok (none, fs2) ∧ ∀ p, fs2 p = fs p := by
  unfold compile_class
  simp only [hval, htmp, Option.isSome_none, Bool.false_eq_true, if_false, hpat, if_true, hmulti]
  refine ⟨_, rfl, fun p => ?_⟩
  by_cases hp : p = class_tmp_path env dir cl
  · subst hp
    rw [Function.update_same, htmp]
  · rw [Function.update_noteq hp, Function.update_noteq hp]

/-- C18: when the classes in front of a class have been compiled and the
database of the class cannot be built from the expressions admitted to it
(the class has no valid file yet and no temporary file is in the way), the
call returns failure at once: the temporary file of the class is gone, and
every path of the directory holds what the classes in front left there, so
that the file of the class is not produced and no class behind it is
compiled. -/
theorem compile_stops_at_failed_class (env : HsEnv) (s : State) (dir : List Nat) (fs fs1 : Files)
    (pre post : List rspamd_re_class) (cl : rspamd_re_class) (t : Nat)
    (hcls : s.cache.re_classes = pre ++ cl :: post)
    (hpre : compile_loop env s dir fs 0 pre = .ok ((t : Int), fs1))
    (hval : rspamd_re_cache_is_valid_hyperscan_file env fs1 s.cache (class_path env dir cl)
      true = .ok false)
    (htmp : fs1 (class_tmp_path env dir cl) = none)
    (hpat : (collect_patterns env s cl.re).length > 0)
    (hmulti : env.hs_compile_multi (collect_patterns env s cl.re)
      s.cache.vectorized_hyperscan = none) :
    ∃ fs2, rspamd_re_cache_compile_hyperscan env s fs dir = .ok (-1, fs2) ∧
      fs2 (class_tmp_path env dir cl) = none ∧
      fs2 (class_path env dir cl) = fs1 (class_path env dir cl) ∧
      ∀ p, fs2 p = fs1 p := by
  obtain ⟨fs2, hc, hsame⟩ := compile_class_multi_fails env s dir fs1 cl hval htmp hpat hmulti
  refine ⟨fs2, ?_, by rw [hsame, htmp], hsame _, hsame⟩
  unfold rspamd_re_cache_compile_hyperscan
  rw [hcls, compile_loop_append, hpre]
  simp only
  rw [if_neg (by omega), Int.toNat_ofNat]
  unfold compile_loop
  rw [hc]

/-- C18 at the example cache `s62`: the database of the first class, of the
header `[84]`, cannot be built, and the call returns -1 with the directory
empty as before. -/
theorem compile_stops_at_failed_class_witness :
    ∃ fs2, rspamd_re_cache_compile_hyperscan env0 s62 fs0 dir0 = .ok (-1, fs2) ∧
      fs2 [100, 47, 111, 103, 46, 104, 115, 46, 110, 101, 119] = none ∧
      fs2 [100, 47, 111, 103, 46, 104, 115] = fs0 [100, 47, 111, 103, 46, 104, 115] ∧
      ∀ p, fs2 p = fs0 p :=
  compile_stops_at_failed_class env0 s62 dir0 fs0 fs0 [] _ _ 0 rfl rfl rfl rfl
    (by decide) (by decide)

/-- The claim C18 as stated fails: the database of the first class of the
example cache `s62` cannot be built, the second class, of the whole message,
compiles when the loop starts at it, and the call returns -1 without a file
for the second class. -/
theorem compile_does_not_continue :
    s62.cache.re_classes.map (fun cl => cl.id) = [84, 7] ∧
    s62.cache.re_classes.map (fun cl => env0.hs_compile_multi (collect_patterns env0 s62 cl.re)
      s62.cache.vectorized_hyperscan) = [none, some 1] ∧
    (compile_loop env0 s62 dir0 fs0 0 (s62.cache.re_classes.drop 1)).toOption.map
      (fun out => (out.1, (out.2 [100, 47, 110, 103, 46, 104, 115]).isSome)) =
      some (1, true) ∧
    (rspamd_re_cache_compile_hyperscan env0 s62 fs0 dir0).toOption.map
      (fun out => (out.1, s62.cache.re_classes.map (fun cl => out.2 (class_path env0 dir0 cl))))
      = some (-1, [none, none]) := by
  decide

/-! ## Compile and load in a row -/

/-- A load fails when the file of a class is missing, if nothing makes it
abort. -/
theorem load_fails_without_file (env : HsEnv) (fs : Files) (dir : List Nat) (c : rspamd_re_cache)
    (cl : rspamd_re_class) (h0 : c.hyperscan_loaded = false)
    (hsafe : ∀ x ∈ c.re_classes, class_safe env fs dir c x)
    (hcl : cl ∈ c.re_classes) (hno : fs (class_path env dir cl) = none) :
    ∃ c1, rspamd_re_cache_load_hyperscan env fs c dir = .ok (false, c1) ∧
      c1.hyperscan_loaded = false := by
  obtain ⟨b, c1, h1, h2, h3, _⟩ := load_loop_spec env fs dir c c.re_classes c [] rfl rfl rfl h0
    rfl hsafe
  cases b with
  | false => exact ⟨c1, h1, h2⟩
  | true =>
    obtain ⟨_, f, hf, _⟩ := (h3.mp rfl) cl hcl
    rw [hno] at hf
    cases hf

/-- The path of the file of a class whose hash has been printed: directory,
separator, the characters of the hash and `.hs`. -/
theorem class_path_eq (env : HsEnv) (dir : List Nat) (cl : rspamd_re_class)
    (hz : ∀ b ∈ hash_buf env cl, b ≠ 0) :
    class_path env dir cl = dir ++ [47] ++ hash_buf env cl ++ [46, 104, 115] := by
  unfold class_path
  have : (hash_buf env cl).takeWhile (fun b => b != 0) = hash_buf env cl := by
    rw [List.takeWhile_eq_self_iff]
    intro b hb
    simpa using hz b hb
  rw [this]

/-- The bytes in front of `.hs` in the path of a class are its hash. -/
theorem class_path_segment (env : HsEnv) (dir : List Nat) (cl : rspamd_re_class)
    (hl : (hash_buf env cl).length = env.HASHBYTES) (hz : ∀ b ∈ hash_buf env cl, b ≠ 0) :
    3 + env.HASHBYTES ≤ (class_path env dir cl).length ∧
    (class_path env dir cl).drop ((class_path env dir cl).length - 3) = [46, 104, 115] ∧
    ((class_path env dir cl).drop ((class_path env dir cl).length - 3 - env.HASHBYTES)).take
      env.HASHBYTES = hash_buf env cl := by
  rw [class_path_eq env dir cl hz]
  have hlen : (dir ++ [47] ++ hash_buf env cl ++ [46, 104, 115]).length =
      dir.length + 1 + env.HASHBYTES + 3 := by
    simp only [List.length_append, List.length_cons, List.length_nil, hl]
  refine ⟨by omega, ?_, ?_⟩
  · rw [hlen]
    have h1 : (dir ++ [47] ++ hash_buf env cl).length = dir.length + 1 + env.HASHBYTES + 3 - 3 := by
      simp only [List.length_append, List.length_cons, List.length_nil, hl]
      omega
    exact drop_append_len _ _ _ h1
  · rw [hlen]
    have h1 : (dir ++ [47]).length = dir.length + 1 + env.HASHBYTES + 3 - 3 - env.HASHBYTES := by
      simp only [List.length_append, List.length_cons, List.length_nil]
      omega
    have e : dir ++ [47] ++ hash_buf env cl ++ [46, 104, 115] =
        (dir ++ [47]) ++ (hash_buf env cl ++ [46, 104, 115]) := by
      simp only [List.append_assoc]
    rw [e]
    exact drop_take_append _ _ _ _ _ h1 hl

/-- A path without a file does not pass the validation, when it is long
enough to hold a class hash. -/
theorem is_valid_no_file (env : HsEnv) (fs : Files) (c : rspamd_re_cache) (path : List Nat)
    (try_load : Bool) (hp : 3 + env.HASHBYTES ≤ path.length) (hno : fs path = none) :
    rspamd_re_cache_is_valid_hyperscan_file env fs c path try_load = .ok false := by
  unfold rspamd_re_cache_is_valid_hyperscan_file
  split
  · rfl
  · split
    · rfl
    · rcases valid_loop_cases env fs c path try_load hp c.re_classes with h | h
      · exact h
      · rw [h]
        unfold valid_file
        rw [hno]

/-- The loop over the classes reaches the check of the file when a class has
the hash the path carries. -/
theorem valid_loop_match (env : HsEnv) (fs : Files) (c : rspamd_re_cache) (path : List Nat)
    (try_load : Bool) (hp : 3 + env.HASHBYTES ≤ path.length) (l : List rspamd_re_class)
    (h : ∃ cl ∈ l, (path.drop (path.length - 3 - env.HASHBYTES)).take env.HASHBYTES =
      hash_buf env cl) :
    valid_loop env fs c path try_load l = valid_file env fs c path try_load := by
  induction l with
  | nil =>
    obtain ⟨cl, hcl, _⟩ := h
    exact absurd hcl (List.not_mem_nil _)
  | cons x rest ih =>
    unfold valid_loop
    rw [if_neg (by omega)]
    by_cases hx : (path.drop (path.length - 3 - env.HASHBYTES)).take env.HASHBYTES =
        hash_buf env x
    · rw [if_pos hx]
    · rw [if_neg hx]
      obtain ⟨cl, hcl, hseg⟩ := h
      rcases List.mem_cons.mp hcl with h1 | h1
      · rw [h1] at hseg
        exact absurd hseg hx
      · exact ih ⟨cl, h1, hseg⟩

/-- Without `try_load` the file of a class of the cache passes the
validation when it starts with the magic of the mode and the platform tag. -/
theorem is_valid_quick_true (env : HsEnv) (fs : Files) (c : rspamd_re_cache) (dir : List Nat)
    (cl : rspamd_re_class) (f : List Nat) (hcl : cl ∈ c.re_classes)
    (hl : (hash_buf env cl).length = env.HASHBYTES) (hz : ∀ b ∈ hash_buf env cl, b ≠ 0)
    (hf : fs (class_path env dir cl) = some f)
    (hmagic : f.take RSPAMD_HS_MAGIC_LEN =
      (if c.vectorized_hyperscan then rspamd_hs_magic_vector else rspamd_hs_magic))
    (hplt : (f.drop RSPAMD_HS_MAGIC_LEN).take env.plt.length = env.plt) :
    rspamd_re_cache_is_valid_hyperscan_file env fs c (class_path env dir cl) false =
      .ok true := by
  obtain ⟨h1, h2, h3⟩ := class_path_segment env dir cl hl hz
  have h4 : ¬ (class_path env dir cl).length < 4 := by
    rw [class_path_eq env dir cl hz]
    simp only [List.length_append, List.length_cons, List.length_nil]
    omega
  unfold rspamd_re_cache_is_valid_hyperscan_file
  rw [if_neg h4, if_neg (by rw [h2]; simp),
    valid_loop_match env fs c _ false h1 c.re_classes ⟨cl, hcl, h3⟩]
  unfold valid_file
  simp only [hf]
  have hm8 : (f.take RSPAMD_HS_MAGIC_LEN).length = RSPAMD_HS_MAGIC_LEN := by
    rw [hmagic]
    split <;> rfl
  rw [if_neg (by rw [hm8]; simp), if_neg (by rw [hmagic]; simp),
    if_neg (by rw [hplt]; simp), if_neg (by rw [hplt]; simp)]
  simp

/-- The word at position `i` of an array written word by word. -/
theorem words_take (vals rest : List Nat) (i v : Nat) (h : vals[i]? = some v) :
    (((vals.map (le_bytes 4)).flatten ++ rest).drop (4 * i)).take 4 = le_bytes 4 v := by
  induction vals generalizing i with
  | nil => simp at h
  | cons x xs ih =>
    simp only [List.map_cons, List.flatten_cons, List.append_assoc]
    cases i with
    | zero =>
      simp only [List.getElem?_cons_zero, Option.some.injEq] at h
      subst h
      simp only [Nat.mul_zero, List.drop_zero]
      exact take_append_len _ _ 4 (le_bytes_length 4 x)
    | succ j =>
      simp only [List.getElem?_cons_succ] at h
      have e : 4 * (j + 1) = 4 + 4 * j := by omega
      rw [e, ← List.drop_drop, drop_append_len _ _ 4 (le_bytes_length 4 x)]
      exact ih j h

/-- The number of bytes of an array written word by word. -/
theorem words_length (vals : List Nat) :
    ((vals.map (le_bytes 4)).flatten).length = 4 * vals.length := by
  induction vals with
  | nil => rfl
  | cons x xs ih =>
    simp only [List.map_cons, List.flatten_cons, List.length_append, le_bytes_length, ih,
      List.length_cons]
    omega

/-- A list read through its positions. -/
theorem map_range_read {α : Type} (l : List Nat) (k g : Nat → α)
    (h : ∀ i v, l[i]? = some v → k i = g v) :
    (List.range l.length).map k = l.map g := by
  apply List.ext_getElem?
  intro i
  by_cases hi : i < l.length
  · have hv : l[i]? = some l[i] := List.getElem?_eq_getElem hi
    simp only [List.getElem?_map, List.getElem?_range hi, hv, Option.map_some']
    rw [h i _ hv]
  · have h1 : l[i]? = none := List.getElem?_eq_none (by omega)
    have h2 : (List.range l.length)[i]? = none :=
      List.getElem?_eq_none (by rw [List.length_range]; omega)
    simp only [List.getElem?_map, h1, h2, Option.map_none']

/-- The word at position `i` of an array written word by word behind a first
part of known length. -/
theorem word_at_words (a rest vals : List Nat) (k i v : Nat) (ha : a.length = k)
    (h : vals[i]? = some v) :
    word_at (a ++ ((vals.map (le_bytes 4)).flatten ++ rest)) (k + 4 * i) = v % 256 ^ 4 := by
  unfold word_at
  rw [← List.drop_drop, drop_append_len a _ k ha, words_take vals rest i v h, le_val_le_bytes]

/-- Reading a 32-bit word as a `gint` does not depend on higher bits. -/
theorem to_gint_mod (v : Nat) : to_gint (v % 256 ^ 4) = to_gint v := by
  unfold to_gint
  have : v % 256 ^ 4 % 4294967296 = v % 4294967296 := by
    norm_num
  rw [this]

/-- What the reader finds in the file the compiler writes for a class: the
magic of the mode, the platform tag, a count that passes the check, the whole
checksum, the database, and the ids and flags the compiler recorded. -/
theorem class_file_read (env : HsEnv) (vec : Bool) (pats : List (Nat × Nat × Nat))
    (blob : List Nat) (hpos : 0 < pats.length) (hn : pats.length < 2147483648) :
    (class_file_bytes env vec pats blob).take RSPAMD_HS_MAGIC_LEN =
      (if vec then rspamd_hs_magic_vector else rspamd_hs_magic) ∧
    ((class_file_bytes env vec pats blob).drop RSPAMD_HS_MAGIC_LEN).take env.plt.length =
      env.plt ∧
    ¬ bad_count env (class_file_bytes env vec pats blob) ∧
    ids_off env + 8 * (file_n env (class_file_bytes env vec pats blob)).toNat + 8 ≤
      (class_file_bytes env vec pats blob).length ∧
    file_blob env (class_file_bytes env vec pats blob) = blob ∧
    file_ids env (class_file_bytes env vec pats blob) = pats.map (fun t => to_gint t.1) ∧
    file_flags env (class_file_bytes env vec pats blob) =
      pats.map (fun t => t.2.1 % 4294967296) := by
  have hm : (if vec then rspamd_hs_magic_vector else rspamd_hs_magic).length =
      RSPAMD_HS_MAGIC_LEN := by
    split <;> rfl
  have e_ids : ids_bytes pats = ((pats.map (fun t => t.1)).map (le_bytes 4)).flatten := by
    unfold ids_bytes
    rw [List.map_map]
    rfl
  have e_fl : flags_bytes pats = ((pats.map (fun t => t.2.1)).map (le_bytes 4)).flatten := by
    unfold flags_bytes
    rw [List.map_map]
    rfl
  have hi : (ids_bytes pats).length = 4 * pats.length := by
    rw [e_ids, words_length, List.length_map]
  have hfl : (flags_bytes pats).length = 4 * pats.length := by
    rw [e_fl, words_length, List.length_map]
  obtain ⟨r1, _, _, _, r5, r6⟩ := file_layout_read env
    (if vec then rspamd_hs_magic_vector else rspamd_hs_magic) pats.length (ids_bytes pats)
    (flags_bytes pats) (env.fast_hash [ids_bytes pats, flags_bytes pats, blob]) blob hm hn hi hfl
  have e1 : class_file_bytes env vec pats blob =
      (if vec then rspamd_hs_magic_vector else rspamd_hs_magic) ++
        (env.plt ++ (le_bytes 4 pats.length ++ ids_bytes pats ++ flags_bytes pats ++
          le_bytes 8 (env.fast_hash [ids_bytes pats, flags_bytes pats, blob]) ++ blob)) := by
    simp only [class_file_bytes, file_layout, List.append_assoc]
  have e2 : class_file_bytes env vec pats blob =
      ((if vec then rspamd_hs_magic_vector else rspamd_hs_magic) ++ env.plt ++
          le_bytes 4 pats.length) ++
        (ids_bytes pats ++ (flags_bytes pats ++
          le_bytes 8 (env.fast_hash [ids_bytes pats, flags_bytes pats, blob]) ++ blob)) := by
    simp only [class_file_bytes, file_layout, List.append_assoc]
  have e3 : class_file_bytes env vec pats blob =
      ((if vec then rspamd_hs_magic_vector else rspamd_hs_magic) ++ env.plt ++
          le_bytes 4 pats.length ++ ids_bytes pats) ++
        (flags_bytes pats ++
          (le_bytes 8 (env.fast_hash [ids_bytes pats, flags_bytes pats, blob]) ++ blob)) := by
    simp only [class_file_bytes, file_layout, List.append_assoc]
  have l2 : ((if vec then rspamd_hs_magic_vector else rspamd_hs_magic) ++ env.plt ++
      le_bytes 4 pats.length).length = ids_off env := by
    simp only [List.length_append, hm, le_bytes_length, ids_off]
  have l3 : ((if vec then rspamd_hs_magic_vector else rspamd_hs_magic) ++ env.plt ++
      le_bytes 4 pats.length ++ ids_bytes pats).length = ids_off env + 4 * pats.length := by
    rw [List.length_append, l2, hi]
  have hfn : file_n env (class_file_bytes env vec pats blob) = (pats.length : Int) := r1
  have hlen : (class_file_bytes env vec pats blob).length =
      ids_off env + 8 * pats.length + 8 + blob.length := r6
  refine ⟨?_, ?_, ?_, ?_, r5, ?_, ?_⟩
  · rw [e1]
    exact take_append_len _ _ _ hm
  · rw [e1, drop_append_len _ _ _ hm]
    exact take_append_len _ _ _ rfl
  · unfold bad_count
    rw [hfn, hlen, Int.toNat_ofNat]
    unfold ids_off
    omega
  · rw [hfn, hlen, Int.toNat_ofNat]
    omega
  · unfold file_ids
    rw [hfn, Int.toNat_ofNat]
    have hmap := map_range_read (pats.map (fun t => t.1))
      (fun i => to_gint (word_at (class_file_bytes env vec pats blob) (ids_off env + 4 * i)))
      to_gint (fun i v hv => by
        simp only
        rw [e2, e_ids, word_at_words _ _ _ _ i v l2 hv, to_gint_mod])
    rw [List.length_map] at hmap
    rw [hmap, List.map_map]
    rfl
  · unfold file_flags
    rw [hfn, Int.toNat_ofNat]
    have hmap := map_range_read (pats.map (fun t => t.2.1))
      (fun i => word_at (class_file_bytes env vec pats blob)
        (ids_off env + 4 * pats.length + 4 * i))
      (fun v => v % 4294967296) (fun i v hv => by
        simp only
        rw [e3, e_fl, word_at_words _ _ _ _ i v l3 hv]
        norm_num)
    rw [List.length_map] at hmap
    rw [hmap, List.map_map]
    rfl

/-- The temporary file of a class is not the file of a class, for classes
with printed hashes of full length. -/
theorem tmp_path_ne (env : HsEnv) (dir : List Nat) (cl cl1 : rspamd_re_class)
    (hl : (hash_buf env cl).length = env.HASHBYTES) (hz : ∀ b ∈ hash_buf env cl, b ≠ 0)
    (hl1 : (hash_buf env cl1).length = env.HASHBYTES) (hz1 : ∀ b ∈ hash_buf env cl1, b ≠ 0) :
    class_tmp_path env dir cl ≠ class_path env dir cl1 := by
  intro h
  have hlen := congrArg List.length h
  unfold class_tmp_path at hlen
  rw [class_path_eq env dir cl hz, class_path_eq env dir cl1 hz1] at hlen
  simp only [List.length_append, List.length_cons, List.length_nil, hl, hl1] at hlen
  omega

/-- The body of the compile loop for a class without a file and without a
temporary file, whose database is built and serialized: the file of the class
is written and no other path changes. -/
theorem compile_class_writes (env : HsEnv) (s : State) (dir : List Nat) (fs : Files)
    (cl : rspamd_re_class) (db : Nat) (blob : List Nat)
    (hl : (hash_buf env cl).length = env.HASHBYTES) (hz : ∀ b ∈ hash_buf env cl, b ≠ 0)
    (hno : fs (class_path env dir cl) = none) (htmp : fs (class_tmp_path env dir cl) = none)
    (hpat : 0 < (collect_patterns env s cl.re).length)
    (hmulti : env.hs_compile_multi (collect_patterns env s cl.re)
      s.cache.vectorized_hyperscan = some db)
    (hser : env.hs_serialize_database db = some blob) :
    ∃ fs1, compile_class env s dir fs cl =
        .ok (some (collect_patterns env s cl.re).length, fs1) ∧
      fs1 (class_path env dir cl) = compiled_file env s cl ∧
      ∀ p, p ≠ class_path env dir cl → fs1 p = fs p := by
  have hp := (class_path_segment env dir cl hl hz).1
  unfold compile_class
  rw [is_valid_no_file env fs s.cache _ true hp hno]
  simp only [htmp, Option.isSome_none, Bool.false_eq_true, if_false, hpat, if_true, hmulti, hser]
  refine ⟨_, rfl, ?_, fun p hne => ?_⟩
  · rw [Function.update_same]
    unfold compiled_file
    simp only [hmulti, hser, Option.map_some']
  · rw [Function.update_noteq hne]
    by_cases hpt : p = class_tmp_path env dir cl
    · subst hpt
      rw [Function.update_same, htmp]
    · rw [Function.update_noteq hpt, Function.update_noteq hpt]

/-- The compile loop over classes without files: it succeeds, every class
gets the file the compiler writes for it, and no other path changes. -/
theorem compile_loop_writes (env : HsEnv) (s : State) (dir : List Nat) (hrt : RoundTrip env s dir)
    (l : List rspamd_re_class) (fs : Files) (total : Nat)
    (hsub : ∀ cl ∈ l, cl ∈ s.cache.re_classes)
    (hnodup : (l.map (class_path env dir)).Nodup)
    (hno : ∀ cl ∈ l, fs (class_path env dir cl) = none ∧
      fs (class_tmp_path env dir cl) = none) :
    ∃ (t : Nat) (fs1 : Files), compile_loop env s dir fs total l = .ok ((t : Int), fs1) ∧
      (∀ cl ∈ l, fs1 (class_path env dir cl) = compiled_file env s cl) ∧
      (∀ p, (∀ cl ∈ l, p ≠ class_path env dir cl) → fs1 p = fs p) := by
  induction l generalizing fs total with
  | nil => exact ⟨total, fs, rfl, fun cl hcl => absurd hcl (List.not_mem_nil _), fun _ _ => rfl⟩
  | cons cl rest ih =>
    have hcl := hsub cl (List.mem_cons_self _ _)
    obtain ⟨db, blob, _, hmulti, hser, _, _⟩ := hrt.built cl hcl
    obtain ⟨hn1, hn2⟩ := hno cl (List.mem_cons_self _ _)
    obtain ⟨fs1, hc, hw, hother⟩ := compile_class_writes env s dir fs cl db blob
      (hrt.hash_len cl hcl) (hrt.hash_nz cl hcl) hn1 hn2 (hrt.admitted cl hcl).1 hmulti hser
    simp only [List.map_cons, List.nodup_cons] at hnodup
    have hne : ∀ x ∈ rest, class_path env dir x ≠ class_path env dir cl := by
      intro x hx heq
      exact hnodup.1 (heq ▸ List.mem_map_of_mem _ hx)
    obtain ⟨t, fs2, hl, hfiles, hrest⟩ := ih fs1 (total + (collect_patterns env s cl.re).length)
      (fun x hx => hsub x (List.mem_cons_of_mem _ hx)) hnodup.2
      (fun x hx => by
        have hxc := hsub x (List.mem_cons_of_mem _ hx)
        obtain ⟨h1, h2⟩ := hno x (List.mem_cons_of_mem _ hx)
        refine ⟨by rw [hother _ (hne x hx)]; exact h1, ?_⟩
        rw [hother _ (tmp_path_ne env dir x cl (hrt.hash_len x hxc) (hrt.hash_nz x hxc)
          (hrt.hash_len cl hcl) (hrt.hash_nz cl hcl))]
        exact h2)
    refine ⟨t, fs2, ?_, ?_, ?_⟩
    · unfold compile_loop
      rw [hc]
      exact hl
    · intro x hx
      rcases List.mem_cons.mp hx with h1 | h1
      · subst h1
        rw [hrest _ (fun y hy => (hne y hy).symm)]
        exact hw
      · exact hfiles x h1
    · intro p hp
      rw [hrest p (fun y hy => hp y (List.mem_cons_of_mem _ hy))]
      exact hother p (hp cl (List.mem_cons_self _ _))

/-- Compile and load in a row: for a cache with the premises of `RoundTrip`,
not loaded before, and an empty directory, the compiler succeeds, the load of
what it wrote into the same cache succeeds and sets the flag, and for every
class the ids and flags in its file are those the compiler recorded, as
32-bit words. -/
theorem compile_load_roundtrip (env : HsEnv) (s : State) (dir : List Nat) (fs : Files)
    (hrt : RoundTrip env s dir) (hempty : ∀ p, fs p = none)
    (h0 : s.cache.hyperscan_loaded = false) :
    ∃ (t : Nat) (fs1 : Files) (c1 : rspamd_re_cache),
      rspamd_re_cache_compile_hyperscan env s fs dir = .ok ((t : Int), fs1) ∧
      rspamd_re_cache_load_hyperscan env fs1 s.cache dir = .ok (true, c1) ∧
      c1.hyperscan_loaded = true ∧
      ∀ cl ∈ s.cache.re_classes, class_entries env fs1 dir cl =
        (collect_patterns env s cl.re).map (fun t => (to_gint t.1, t.2.1 % 4294967296)) := by
  obtain ⟨t, fs1, hc, hfiles, _⟩ := compile_loop_writes env s dir hrt s.cache.re_classes fs 0
    (fun _ h => h) hrt.paths (fun cl _ => ⟨hempty _, hempty _⟩)
  have hfile : ∀ cl ∈ s.cache.re_classes, ∃ blob db1,
      fs1 (class_path env dir cl) = some (class_file_bytes env s.cache.vectorized_hyperscan
        (collect_patterns env s cl.re) blob) ∧
      env.hs_deserialize_database blob = some db1 ∧
      (env.hs_alloc_scratch db1).isSome = true := by
    intro cl hcl
    obtain ⟨db, blob, db1, hmulti, hser, hde, hal⟩ := hrt.built cl hcl
    refine ⟨blob, db1, ?_, hde, hal⟩
    rw [hfiles cl hcl]
    unfold compiled_file
    simp only [hmulti, hser, Option.map_some']
  have hsafe : ∀ cl ∈ s.cache.re_classes, class_safe env fs1 dir s.cache cl := by
    intro cl hcl
    obtain ⟨blob, db1, hf, hde, hal⟩ := hfile cl hcl
    obtain ⟨_, _, _, r4, r5, r6, _⟩ := class_file_read env s.cache.vectorized_hyperscan
      (collect_patterns env s cl.re) blob (hrt.admitted cl hcl).1 (hrt.admitted cl hcl).2
    refine ⟨(class_path_segment env dir cl (hrt.hash_len cl hcl) (hrt.hash_nz cl hcl)).1,
      fun f hf1 _ => ?_⟩
    rw [hf] at hf1
    cases hf1
    refine ⟨r4, fun db hdb => ?_, fun id hid => ?_⟩
    · rw [r5, hde] at hdb
      cases hdb
      exact hal
    · rw [r6] at hid
      obtain ⟨t1, ht1, he⟩ := List.mem_map.mp hid
      obtain ⟨hlt, h31⟩ := hrt.ids cl hcl t1 ht1
      have hg : to_gint t1.1 = (t1.1 : Int) := by
        unfold to_gint
        have : t1.1 % 4294967296 = t1.1 := Nat.mod_eq_of_lt (by omega)
        rw [this, if_pos h31]
      rw [← he, hg]
      omega
  have hloads : ∀ cl ∈ s.cache.re_classes, class_loads env fs1 dir s.cache cl := by
    intro cl hcl
    obtain ⟨blob, db1, hf, hde, _⟩ := hfile cl hcl
    obtain ⟨r1, r2, r3, _, r5, _, _⟩ := class_file_read env s.cache.vectorized_hyperscan
      (collect_patterns env s cl.re) blob (hrt.admitted cl hcl).1 (hrt.admitted cl hcl).2
    refine ⟨is_valid_quick_true env fs1 s.cache dir cl _ hcl (hrt.hash_len cl hcl)
      (hrt.hash_nz cl hcl) hf r1 r2, _, hf, r3, ?_⟩
    rw [r5, hde]
    rfl
  obtain ⟨b, c1, hl, hflag, hiff, _⟩ := load_loop_spec env fs1 dir s.cache s.cache.re_classes
    s.cache [] rfl rfl rfl h0 rfl hsafe
  have hb : b = true := hiff.mpr hloads
  subst hb
  refine ⟨t, fs1, c1, hc, hl, hflag, fun cl hcl => ?_⟩
  obtain ⟨blob, db1, hf, _, _⟩ := hfile cl hcl
  obtain ⟨_, _, _, _, _, r6, r7⟩ := class_file_read env s.cache.vectorized_hyperscan
    (collect_patterns env s cl.re) blob (hrt.admitted cl hcl).1 (hrt.admitted cl hcl).2
  unfold class_entries
  rw [hf]
  simp only [r6, r7, List.zip_map']

/-- The example cache `s123_init` with the example environment has the
premises of `RoundTrip`. -/
theorem s123_init_round_trip : RoundTrip env0 s123_init dir0 := by
  refine ⟨by decide, by decide, by decide, by decide, by decide, ?_⟩
  have hl : s123_init.cache.re_classes =
      [{ id := 83, type := .RSPAMD_RE_HEADER, type_data := [83], type_len := 1, re := [(1, 1)],
         hash := some [83, 1, 0, 0, 1, 3], st := none, hs_db := none, hs_scratch := none,
         hs_ids := [] },
       { id := 7, type := .RSPAMD_RE_BODY, type_data := [], type_len := 0,
         re := [(2, 2), (3, 3)], hash := some [7, 2, 0, 0, 2, 7, 3, 0, 0, 0, 3], st := none,
         hs_db := none, hs_scratch := none, hs_ids := [] }] := by decide
  intro cl hcl
  rw [hl] at hcl
  simp only [List.mem_cons, List.mem_singleton, List.not_mem_nil, or_false] at hcl
  rcases hcl with h | h
  · subst h
    exact ⟨1, [7, 1], 1, by decide, by decide, by decide, by decide⟩
  · subst h
    exact ⟨2, [7, 2], 2, by decide, by decide, by decide, by decide⟩

/-- The round trip at the example cache `s123_init`. -/
theorem compile_load_roundtrip_example :
    ∃ (t : Nat) (fs1 : Files) (c1 : rspamd_re_cache),
      rspamd_re_cache_compile_hyperscan env0 s123_init fs0 dir0 = .ok ((t : Int), fs1) ∧
      rspamd_re_cache_load_hyperscan env0 fs1 s123_init.cache dir0 = .ok (true, c1) ∧
      c1.hyperscan_loaded = true ∧
      ∀ cl ∈ s123_init.cache.re_classes, class_entries env0 fs1 dir0 cl =
        (collect_patterns env0 s123_init cl.re).map
          (fun t => (to_gint t.1, t.2.1 % 4294967296)) :=
  compile_load_roundtrip env0 s123_init dir0 fs0 s123_init_round_trip (fun _ => rfl)
    (by decide)

/-! ## The compile probe -/

/-- The polling loop started with `k` tries left after `t` sleeps: it sleeps
at most `k` times more, every answer before the last one was "still running",
the answer returned is the last one, and when that is "still running" all `k`
tries are used up. -/
theorem wait_loop_spec (poll : Nat → WaitStatus) (k t : Nat) :
    t ≤ (wait_loop poll k t).2 ∧ (wait_loop poll k t).2 ≤ t + k ∧
    (∀ j, t ≤ j → j < (wait_loop poll k t).2 → poll j = .running) ∧
    (wait_loop poll k t).1 = poll (wait_loop poll k t).2 ∧
    ((wait_loop poll k t).1 = .running → (wait_loop poll k t).2 = t + k) := by
  induction k generalizing t with
  | zero =>
    have e : wait_loop poll 0 t = (poll t, t) := rfl
    rw [e]
    exact ⟨le_refl _, le_refl _, fun j h1 h2 => absurd h2 (by simp at *; omega), rfl,
      fun _ => rfl⟩
  | succ k ih =>
    cases hp : poll t with
    | running =>
      have e : wait_loop poll (k + 1) t = wait_loop poll k (t + 1) := by
        simp only [wait_loop, hp]
      rw [e]
      obtain ⟨h1, h2, h3, h4, h5⟩ := ih (t + 1)
      refine ⟨by omega, by omega, ?_, h4, fun h => by rw [h5 h]; omega⟩
      intro j hj1 hj2
      by_cases hjt : j = t
      · rw [hjt]; exact hp
      · exact h3 j (by omega) hj2
    | exited_success =>
      have e : wait_loop poll (k + 1) t = (.exited_success, t) := by
        simp only [wait_loop, hp]
      rw [e]
      exact ⟨le_refl _, by simp, fun j h1 h2 => absurd h2 (by simp at *; omega), hp.symm,
        fun h => by cases h⟩
    | terminated =>
      have e : wait_loop poll (k + 1) t = (.terminated, t) := by
        simp only [wait_loop, hp]
      rw [e]
      exact ⟨le_refl _, by simp, fun j h1 h2 => absurd h2 (by simp at *; omega), hp.symm,
        fun h => by cases h⟩
    | error =>
      have e : wait_loop poll (k + 1) t = (.error, t) := by
        simp only [wait_loop, hp]
      rw [e]
      exact ⟨le_refl _, by simp, fun j h1 h2 => absurd h2 (by simp at *; omega), hp.symm,
        fun h => by cases h⟩

/-- The polling loop stops at the first answer that is not "still running". -/
theorem wait_loop_first (poll : Nat → WaitStatus) (i : Nat) (hi : i ≤ 10)
    (hpre : ∀ j, j < i → poll j = .running) (hst : poll i ≠ .running) :
    wait_loop poll 10 0 = (poll i, i) := by
  obtain ⟨_, h2, h3, h4, h5⟩ := wait_loop_spec poll 10 0
  have hlt : ¬ (wait_loop poll 10 0).2 < i := by
    intro h
    have hr := hpre _ h
    rw [← h4] at hr
    have := h5 hr
    omega
  have hgt : ¬ i < (wait_loop poll 10 0).2 := by
    intro h
    exact hst (h3 i (Nat.zero_le _) h)
  have he : (wait_loop poll 10 0).2 = i := by omega
  rw [he] at h4
  exact Prod.ext h4 he

/-- The value of `rspamd_re_cache_is_finite` is the result of the run of the
parent branch. -/
theorem is_finite_eq_probe_run (env : HsEnv) (re flags : Nat) :
    rspamd_re_cache_is_finite env re flags = (probe_run (env.child_wait re flags)).result := by
  unfold rspamd_re_cache_is_finite probe_run
  cases h : wait_loop (env.child_wait re flags) 10 0 with
  | mk st n => cases st <;> rfl

/-- The number of sleeps and the answer of a run. -/
theorem probe_run_sleeps (poll : Nat → WaitStatus) :
    (probe_run poll).sleeps = (wait_loop poll 10 0).2 ∧
    ((probe_run poll).result = true ↔ (wait_loop poll 10 0).1 = .exited_success) ∧
    ((probe_run poll).killed = true ↔
      ((wait_loop poll 10 0).1 = .running ∨ (wait_loop poll 10 0).1 = .error)) := by
  unfold probe_run
  cases h : wait_loop poll 10 0 with
  | mk st n => cases st <;> simp

/-- C21: the bounded compile probe, with the child as an oracle for the
successive answers of `waitpid`. The parent branch is a total function of the
oracle. It sleeps at most `max_tries = 10` times, `max_time / 10` each, so at
most `max_time` in all when that is not negative. The probe returns true if
and only if one of the polls (numbers 0 to 10, poll `i` coming after `i`
sleeps, all answers before it being "still running") reports that the child
exited with success status. When the first other answer is a nonzero exit or
a death by signal the probe returns false without killing the child. When all
polls find the child running the probe has slept 10 times, `max_time` in all,
kills and reaps the child and returns false. -/
theorem probe_terminates_bounded (env : HsEnv) (re flags : Nat) (max_time : ℚ) :
    (probe_run (env.child_wait re flags)).sleeps ≤ 10 ∧
    probe_waited max_time (probe_run (env.child_wait re flags)) =
      (probe_run (env.child_wait re flags)).sleeps * (max_time / 10) ∧
    (0 ≤ max_time → probe_waited max_time (probe_run (env.child_wait re flags)) ≤ max_time) ∧
    (rspamd_re_cache_is_finite env re flags = true ↔
      ∃ i, i ≤ 10 ∧ (∀ j, j < i → env.child_wait re flags j = .running) ∧
        env.child_wait re flags i = .exited_success) ∧
    (∀ i, i ≤ 10 → (∀ j, j < i → env.child_wait re flags j = .running) →
      env.child_wait re flags i = .terminated →
      rspamd_re_cache_is_finite env re flags = false ∧
      (probe_run (env.child_wait re flags)).killed = false ∧
      (probe_run (env.child_wait re flags)).sleeps = i) ∧
    ((∀ j, j ≤ 10 → env.child_wait re flags j = .running) →
      rspamd_re_cache_is_finite env re flags = false ∧
      (probe_run (env.child_wait re flags)).killed = true ∧
      (probe_run (env.child_wait re flags)).sleeps = 10 ∧
      probe_waited max_time (probe_run (env.child_wait re flags)) = max_time) := by
  obtain ⟨_, h2, h3, h4, h5⟩ := wait_loop_spec (env.child_wait re flags) 10 0
  obtain ⟨hs, hres, hk⟩ := probe_run_sleeps (env.child_wait re flags)
  have hle : (probe_run (env.child_wait re flags)).sleeps ≤ 10 := by rw [hs]; omega
  refine ⟨hle, rfl, ?_, ?_, ?_, ?_⟩
  · intro h0
    unfold probe_waited wait_time
    have hc : ((probe_run (env.child_wait re flags)).sleeps : ℚ) ≤ 10 := by exact_mod_cast hle
    have hq : 0 ≤ max_time / 10 := div_nonneg h0 (by norm_num)
    calc ((probe_run (env.child_wait re flags)).sleeps : ℚ) * (max_time / 10)
        ≤ 10 * (max_time / 10) := mul_le_mul_of_nonneg_right hc hq
      _ = max_time := by ring
  · rw [is_finite_eq_probe_run, hres]
    constructor
    · intro h
      refine ⟨(wait_loop (env.child_wait re flags) 10 0).2, by omega, ?_, ?_⟩
      · intro j hj
        exact h3 j (Nat.zero_le _) hj
      · rw [← h4]
        exact h
    · rintro ⟨i, hi, hpre, hst⟩
      rw [wait_loop_first _ i hi hpre (by rw [hst]; exact fun h => by cases h)]
      exact hst
  · intro i hi hpre hst
    have e := wait_loop_first _ i hi hpre (by rw [hst]; exact fun h => by cases h)
    rw [is_finite_eq_probe_run]
    unfold probe_run
    rw [e, hst]
    exact ⟨rfl, rfl, rfl⟩
  · intro hall
    have hr : (wait_loop (env.child_wait re flags) 10 0).1 = .running := by
      rw [h4]
      exact hall _ (by omega)
    have h10 : (wait_loop (env.child_wait re flags) 10 0).2 = 10 := by
      have := h5 hr
      omega
    have hs10 : (probe_run (env.child_wait re flags)).sleeps = 10 := by rw [hs, h10]
    refine ⟨?_, hk.mpr (Or.inl hr), hs10, ?_⟩
    · rw [is_finite_eq_probe_run]
      cases hb : (probe_run (env.child_wait re flags)).result with
      | false => rfl
      | true =>
        have := hres.mp hb
        rw [hr] at this
        cases this
    · unfold probe_waited wait_time
      rw [hs10]
      push_cast
      ring

/-- Two runs of the probe in the example environment: the child for the
pattern at address 5 is found to have exited with success at the third poll,
after two sleeps; the child for the pattern at address 15 never exits, and
after the eleventh poll and ten sleeps it is killed. -/
theorem probe_run_examples :
    probe_run (env0.child_wait 5 0) = { result := true, sleeps := 2, killed := false } ∧
    probe_run (env0.child_wait 15 0) = { result := false, sleeps := 10, killed := true } ∧
    probe_waited 1 (probe_run (env0.child_wait 15 0)) = 1 := by
  refine ⟨by decide, by decide, ?_⟩
  have e : probe_run (env0.child_wait 15 0) = { result := false, sleeps := 10, killed := true } := by
    decide
  rw [e]
  unfold probe_waited wait_time
  norm_num

/-! ## Expressions without a valid cache id -/

/-- What the guard of `rspamd_re_cache_process` rejects: for an expression
whose cache id is the invalid id or above `nre` the call returns 0 and leaves
the runtime as it is. -/
theorem process_rejects_above_nre (px : Primitives) (c : State) (task : rspamd_task)
    (rt : rspamd_re_runtime) (re : Nat) (is_strong : Bool)
    (hg : (c.heap re).cache_id = RSPAMD_INVALID_ID ∨ (c.heap re).cache_id > c.cache.nre) :
    rspamd_re_cache_process px c task rt re is_strong = .ok (0, rt) := by
  unfold rspamd_re_cache_process
  rw [if_pos hg]

/-- C28 fails on the code for the cache id `N`. The cache of the example
memories holds `N = 2` expressions (`nre = 2`, `cache->re` of length 2), and
an expression registered with a second cache carries the cache id 2. The
guard `re_id > cache->nre` lets it pass. For the whole-message expression at
address 3, `process` on a fresh runtime reads bit 2 of `checked`, goes to the
slow path and reads `cache->re` at index 2, outside the array. For the header
expression at address 5 and a message without that header, `process` returns
0 after setting bit 2 of `checked`, and a second call takes the fast path: it
reads `results` at index 2 and counts in `regexp_fast_cached`. The expression
at address 6, with the cache id 3, is rejected. -/
theorem process_accepts_id_nre :
    s12_foreign.cache.nre = 2 ∧ s12_foreign.cache.re.length = 2 ∧
    (s12_foreign.heap 3).cache_id = 2 ∧
    (rspamd_re_cache_runtime_new s12_foreign.cache).checked 2 = false ∧
    fault_of (rspamd_re_cache_process px0 s12_foreign task0
      (rspamd_re_cache_runtime_new s12_foreign.cache) 3 false) = some .out_of_bounds ∧
    s12_header_foreign.cache.nre = 2 ∧ (s12_header_foreign.heap 5).cache_id = 2 ∧
    (rspamd_re_cache_process px0 s12_header_foreign task256
      (rspamd_re_cache_runtime_new s12_header_foreign.cache) 5 false).toOption.map
      (fun out => (out.1, out.2.checked 2)) = some (0, true) ∧
    (rspamd_re_cache_process px0 s12_header_foreign task256
      (after_process px0 s12_header_foreign task256
        (rspamd_re_cache_runtime_new s12_header_foreign.cache) 5) 5 false).toOption.map
      (fun out => (out.1, out.2.stat.regexp_fast_cached)) = some (0, 1) ∧
    (s12_foreign.heap 6).cache_id = 3 ∧
    (rspamd_re_cache_process px0 s12_foreign task0
      (rspamd_re_cache_runtime_new s12_foreign.cache) 6 false).toOption.map
      (fun out => (out.1, out.2.checked 3, out.2.stat)) =
      some (0, false, (rspamd_re_cache_runtime_new s12_foreign.cache).stat) := by
  decide

/-! ## Replacing a replacement -/

/-- C30 fails on the code. On the example heap the expressions at addresses
1, 2 and 3 have the content ids 1, 2 and 3. After `add(1)` and
`replace(1, 2)` the expression at address 2 has a class and the cache id 0,
and `cache->re` has an element at index 0 that holds it, but the table of its
class has its only entry under the content id 1 and none under the content id
2: `replace(2, 3)` fails the assertion `src != NULL`. With the expressions at
addresses 1, 11 and 21, which share the content id 1, both calls succeed and
the third expression ends with the cache id 0 of the first. -/
theorem replace_after_replace_asserts :
    ((run_ops fh0 s0 [.add 1 .RSPAMD_RE_BODY [] 0, .replace 1 2]).toOption.map
      (fun (s : State) => ((s.heap 2).re_class, (s.heap 2).cache_id, s.cache.re, (s.heap 2).id))) =
      some (some 7, 0, [{ re := 2, match_type := .RSPAMD_RE_CACHE_PCRE }], 2) ∧
    ((run_ops fh0 s0 [.add 1 .RSPAMD_RE_BODY [] 0, .replace 1 2]).toOption.map
      (fun (s : State) => (class_lookup s.cache.re_classes 7).map (fun cl => cl.re))) =
      some (some [(1, 2)]) ∧
    fault_of (run_ops fh0 s0 [.add 1 .RSPAMD_RE_BODY [] 0, .replace 1 2, .replace 2 3]) =
      some .assertion ∧
    ((run_ops fh0 s0 [.add 1 .RSPAMD_RE_BODY [] 0, .replace 1 11, .replace 11 21]).toOption.map
      (fun (s : State) => ((s.heap 21).re_class, (s.heap 21).cache_id, s.cache.re))) =
      some (some 7, 0, [{ re := 21, match_type := .RSPAMD_RE_CACHE_PCRE }]) := by
  decide

/-! ## The assertion of the sweep -/

/-- On a runtime in which unchecked ids have the result zero the sweep of a
class passes its assertion for every id and returns. -/
theorem finish_class_total (ids : List Nat) (rt : rspamd_re_runtime) (hz : unchecked_zero rt) :
    ∃ rt1, rspamd_re_cache_finish_class ids rt = .ok rt1 := by
  induction ids generalizing rt with
  | nil => exact ⟨rt, rfl⟩
  | cons id rest ih =>
    unfold rspamd_re_cache_finish_class
    by_cases hc : rt.checked id = true
    · rw [if_neg (not_not.mpr hc)]
      exact ih rt hz
    · rw [if_pos hc]
      have h0 : rt.results id = 0 := hz id (by simpa using hc)
      rw [if_pos h0]
      exact ih _ (unchecked_zero_store hz id 0 rfl rfl)

/-- C29: in every runtime state reached from a fresh runtime by `process`
calls, prefilter callbacks (with any callback data and any event) and sweeps
of a class, every id whose bit in `checked` is not set has the stored result
zero. Hence the sweep `rspamd_re_cache_finish_class` passes its assertion
`results[re_id] == 0` and returns, for every list of ids, when it is run in
such a state, and when it is run by the slow path after the `switch` has
returned from such a state. -/
theorem finish_class_assertion_holds (px : Primitives) (c : State) (task : rspamd_task)
    (rt : rspamd_re_runtime) (hrt : RtReachable px c task rt) :
    unchecked_zero rt ∧
    (∀ ids, ∃ rt1, rspamd_re_cache_finish_class ids rt = .ok rt1) ∧
    (∀ re re_class is_strong o1,
      exec_switch px c task rt re re_class is_strong = .ok o1 →
      unchecked_zero o1.2 ∧
      ∃ rt2, rspamd_re_cache_finish_class re_class.hs_ids o1.2 = .ok rt2) := by
  have hz : unchecked_zero rt := reachable_unchecked_zero hrt
  refine ⟨hz, fun ids => finish_class_total ids rt hz, ?_⟩
  intro re re_class is_strong o1 hsw
  have hz1 : unchecked_zero o1.2 := by
    unfold exec_switch at hsw
    split at hsw
    · cases hsw
    · cases hsw
      exact hz
    · exact process_regexp_data_unchecked_zero hz hsw
  exact ⟨hz1, finish_class_total _ _ hz1⟩

/-- Witness of `finish_class_assertion_holds`: the runtime after one `process`
call on the example cache with the prefilter loaded, in which the callback
ran for the id 1. -/
theorem finish_class_assertion_holds_witness :
    ∃ out, rspamd_re_cache_process px1 s_hs task0 (rspamd_re_cache_runtime_new s_hs.cache) 2 false
        = .ok out ∧
      out.2.reported = [1] ∧
      unchecked_zero out.2 ∧
      (∀ ids, ∃ rt1, rspamd_re_cache_finish_class ids out.2 = .ok rt1) ∧
      (∀ re re_class is_strong o1,
        exec_switch px1 s_hs task0 out.2 re re_class is_strong = .ok o1 →
        unchecked_zero o1.2 ∧
        ∃ rt2, rspamd_re_cache_finish_class re_class.hs_ids o1.2 = .ok rt2) :=
  ⟨_, rfl, rfl,
    finish_class_assertion_holds px1 s_hs task0 _
      (RtReachable.process _ 2 false _ RtReachable.fresh rfl)⟩

/-! ## What the check of the count covers -/

/-- What the check of the count in `rspamd_re_cache_is_valid_hyperscan_file`
and `rspamd_re_cache_load_hyperscan` gives when it passes: the count is
positive, the count field, the ids and the flags end inside the file, and the
checksum ends at most four bytes behind the end of the file. -/
theorem count_check_covers (env : HsEnv) (f : List Nat) (h : ¬ bad_count env f) :
    0 < file_n env f ∧
    RSPAMD_HS_MAGIC_LEN + env.plt.length + 4 ≤ f.length ∧
    ids_off env + 4 * (file_n env f).toNat ≤ f.length ∧
    ids_off env + 8 * (file_n env f).toNat ≤ f.length ∧
    ids_off env + 8 * (file_n env f).toNat + 8 ≤ f.length + 4 := by
  unfold bad_count at h
  unfold ids_off
  push_neg at h
  obtain ⟨h1, h2⟩ := h
  omega

/-- C27 fails on the code: the check of the count leaves out the four bytes
of the count itself. The file `file_short` has 26 bytes and the count 1; the
check `2 * n * 4 + 8 + 8 + 2 > 26` passes, but the checksum ends at offset
30. With `try_load` the validation reads the checksum and hashes `end - p`
bytes from behind the end of the file, and the loader hands a database of
`end - p = -4` bytes to `hs_deserialize_database`. -/
theorem count_check_off_by_four :
    file_short.length = 26 ∧ file_n env0 file_short = 1 ∧ ¬ bad_count env0 file_short ∧
    ids_off env0 + 8 * (file_n env0 file_short).toNat + 8 = 30 ∧
    s123_init.cache.re_classes.map (class_path env0 dir0) =
      [[100, 47, 107, 103, 46, 104, 115], [100, 47, 121, 108, 46, 104, 115]] ∧
    s123_init.cache.re_classes.map (fun cl => fs_short (class_path env0 dir0 cl)) =
      [some file_short, some [114, 115, 104, 115, 114, 101, 49, 49, 1, 2, 2, 0, 0, 0, 1, 0, 0, 0,
        2, 0, 0, 0, 0, 0, 0, 0, 0, 0, 0, 0, 12, 0, 0, 0, 0, 0, 0, 0, 7, 2]] ∧
    fault_of (rspamd_re_cache_is_valid_hyperscan_file env0 fs_short s123_init.cache
      [100, 47, 107, 103, 46, 104, 115] true) = some .out_of_bounds ∧
    fault_of (rspamd_re_cache_load_hyperscan env0 fs_short s123_init.cache dir0) =
      some .out_of_bounds := by
  decide

/-! ## Slice vectors of the text parts -/

/-- The slice of one text part, when a part that is not empty has the byte
array the class kind reads. -/
theorem mime_slice_ok (type : rspamd_re_type) (part : rspamd_mime_text_part)
    (hd : part.is_empty = false →
      (if type = .RSPAMD_RE_RAWMIME then part.orig else part.content) ≠ none) :
    mime_slice type part = .ok (part_slice type part, part_raw type part) := by
  unfold mime_slice part_slice part_raw
  cases he : part.is_empty with
  | true => simp
  | false =>
    have hd1 := hd he
    by_cases ht : type = .RSPAMD_RE_RAWMIME
    · rw [if_pos ht] at hd1
      cases ho : part.orig with
      | none => exact absurd ho hd1
      | some d => simp [ht, array_slice]
    · rw [if_neg ht] at hd1
      cases hc : part.content with
      | none => exact absurd hc hd1
      | some d => simp [ht, array_slice]

/-- The loop over the text parts yields one slice per part. -/
theorem mime_slices_ok (type : rspamd_re_type) (parts : List rspamd_mime_text_part)
    (hd : ∀ part ∈ parts, part.is_empty = false →
      (if type = .RSPAMD_RE_RAWMIME then part.orig else part.content) ≠ none) :
    mime_slices type parts = .ok (parts.map (part_slice type), parts.any (part_raw type)) := by
  induction parts with
  | nil => rfl
  | cons part rest ih =>
    unfold mime_slices
    rw [mime_slice_ok type part (hd part (List.mem_cons_self _ _))]
    simp only [ih (fun p hp => hd p (List.mem_cons_of_mem _ hp))]
    simp

/-- The `switch` for the kinds `RSPAMD_RE_MIME` and `RSPAMD_RE_RAWMIME`. -/
theorem region_slices_mime (px : Primitives) (task : rspamd_task) (cl : rspamd_re_class)
    (is_strong : Bool)
    (htype : cl.type = .RSPAMD_RE_MIME ∨ cl.type = .RSPAMD_RE_RAWMIME) :
    region_slices px task cl is_strong =
      if task.text_parts.length > 0 then
        match mime_slices cl.type task.text_parts with
        | .error f => .error f
        | .ok v => .ok (some v)
      else .ok none := by
  unfold region_slices
  rcases htype with h | h <;> rw [h]

/-- C24 (amended): for a class of kind `RSPAMD_RE_MIME` or `RSPAMD_RE_RAWMIME`
and a task in which every text part that is not empty has the byte array the
kind reads: when the task has text parts, the slice vector handed to
`rspamd_re_cache_process_regexp_data` has exactly one slice per text part, in
the order of the parts, the empty slice for an empty part and otherwise the
original bytes (`RSPAMD_RE_RAWMIME`) or the decoded content (`RSPAMD_RE_MIME`)
of the part, and the scan is in raw mode exactly when some part that is not
empty is scanned for `RSPAMD_RE_RAWMIME` or is not UTF-8; when the task has no
text part nothing is handed to matching and the runtime stays as it is. -/
theorem mime_slice_vector (px : Primitives) (c : State) (task : rspamd_task)
    (rt : rspamd_re_runtime) (re : Nat) (cl : rspamd_re_class) (is_strong : Bool)
    (htype : cl.type = .RSPAMD_RE_MIME ∨ cl.type = .RSPAMD_RE_RAWMIME)
    (hdata : ∀ part ∈ task.text_parts, part.is_empty = false →
      (if cl.type = .RSPAMD_RE_RAWMIME then part.orig else part.content) ≠ none) :
    (task.text_parts.map (part_slice cl.type)).length = task.text_parts.length ∧
    (∀ (i : Nat) (part : rspamd_mime_text_part), task.text_parts[i]? = some part →
      (task.text_parts.map (part_slice cl.type))[i]? = some (part_slice cl.type part)) ∧
    (task.text_parts.any (part_raw cl.type) = true ↔
      ∃ part ∈ task.text_parts, part.is_empty = false ∧
        (cl.type = .RSPAMD_RE_RAWMIME ∨ part.is_utf = false)) ∧
    (task.text_parts ≠ [] →
      region_slices px task cl is_strong =
        .ok (some (task.text_parts.map (part_slice cl.type),
          task.text_parts.any (part_raw cl.type))) ∧
      exec_switch px c task rt re cl is_strong =
        rspamd_re_cache_process_regexp_data px c rt re
          (task.text_parts.map (part_slice cl.type))
          (task.text_parts.any (part_raw cl.type))) ∧
    (task.text_parts = [] →
      region_slices px task cl is_strong = .ok none ∧
      exec_switch px c task rt re cl is_strong = .ok (0, rt)) := by
  have hreg := region_slices_mime px task cl is_strong htype
  refine ⟨List.length_map _ _, ?_, ?_, ?_, ?_⟩
  · intro i part hi
    rw [List.getElem?_map, hi]
    rfl
  · rw [List.any_eq_true]
    constructor
    · rintro ⟨part, hp, hr⟩
      refine ⟨part, hp, ?_⟩
      unfold part_raw at hr
      simp only [Bool.and_eq_true, Bool.not_eq_true', Bool.or_eq_true, decide_eq_true_eq] at hr
      exact hr
    · rintro ⟨part, hp, he, hr⟩
      refine ⟨part, hp, ?_⟩
      unfold part_raw
      simp only [Bool.and_eq_true, Bool.not_eq_true', Bool.or_eq_true, decide_eq_true_eq]
      exact ⟨he, hr⟩
  · intro hne
    have hlen : task.text_parts.length > 0 := List.length_pos.mpr hne
    have hr : region_slices px task cl is_strong =
        .ok (some (task.text_parts.map (part_slice cl.type),
          task.text_parts.any (part_raw cl.type))) := by
      rw [hreg, if_pos hlen, mime_slices_ok cl.type task.text_parts hdata]
    refine ⟨hr, ?_⟩
    unfold exec_switch
    rw [hr]
  · intro he
    have hlen : ¬ task.text_parts.length > 0 := by
      rw [he]
      exact Nat.lt_irrefl 0
    have hr : region_slices px task cl is_strong = .ok none := by
      rw [hreg, if_neg hlen]
    refine ⟨hr, ?_⟩
    unfold exec_switch
    rw [hr]

/-- Witness of `mime_slice_vector`: the class of kind `RSPAMD_RE_RAWMIME` and
the message of scenario E2, whose two text parts give the two slices
`xx needle yy` and `zz`, scanned in raw mode. -/
theorem mime_slice_vector_witness :
    (∀ part ∈ task_e2.text_parts, part.is_empty = false →
      (if (new_class 5 .RSPAMD_RE_RAWMIME [] 0).type = .RSPAMD_RE_RAWMIME then part.orig
        else part.content) ≠ none) ∧
    task_e2.text_parts ≠ [] ∧
    region_slices px_needle task_e2 (new_class 5 .RSPAMD_RE_RAWMIME [] 0) false =
      .ok (some ([{ data := some xx_needle_yy, len := 12 }, { data := some [122, 122], len := 2 }],
        true)) :=
  ⟨by decide, by decide,
    ((mime_slice_vector px_needle s_e2 task_e2 (rspamd_re_cache_runtime_new s_e2.cache) 3
      (new_class 5 .RSPAMD_RE_RAWMIME [] 0) false (Or.inr rfl) (by decide)).2.2.2.1
      (by decide)).1⟩

/-- C24 fails on the code: an empty text part contributes the empty slice.
For the message with an empty part and a part `a`, which has one text part
that is not empty, the vector of the kind `RSPAMD_RE_RAWMIME` has two slices,
the first of them empty, and with a matcher that finds one match in every
input `process` calls the matcher twice and returns 2. For the message whose
only part is empty the vector holds one slice and the scan is not in raw
mode. -/
theorem empty_part_contributes_slice :
    (region_slices px_any task_gap (new_class 5 .RSPAMD_RE_RAWMIME [] 0) false).toOption =
      some (some ([Slice.empty, { data := some [97], len := 1 }], true)) ∧
    (task_gap.text_parts.filter (fun part => ! part.is_empty)).length = 1 ∧
    (s_e2.heap 3).re_class = some 5 ∧
    (class_lookup s_e2.cache.re_classes 5).map (fun cl => cl.type) = some .RSPAMD_RE_RAWMIME ∧
    (rspamd_re_cache_process px_any s_e2 task_gap (rspamd_re_cache_runtime_new s_e2.cache) 3
      false).toOption.map (fun out => (out.1, out.2.stat.regexp_checked)) = some (2, 2) ∧
    (task_all_empty.text_parts.filter (fun part => ! part.is_empty)).length = 0 ∧
    (region_slices px_any task_all_empty (new_class 5 .RSPAMD_RE_RAWMIME [] 0) false).toOption =
      some (some ([Slice.empty], false)) ∧
    (rspamd_re_cache_process px_any s_e2 task_all_empty (rspamd_re_cache_runtime_new s_e2.cache)
      3 false).toOption.map (fun out => (out.1, out.2.stat.regexp_checked)) = some (1, 1) := by
  decide

/-! ## The slice vector of the kind `RSPAMD_RE_SABODY` -/

/-- The `switch` for the kind `RSPAMD_RE_SABODY`. -/
theorem region_slices_sabody (px : Primitives) (task : rspamd_task) (cl : rspamd_re_class)
    (is_strong : Bool) (htype : cl.type = .RSPAMD_RE_SABODY) :
    region_slices px task cl is_strong =
      match subject_slice task with
      | .error f => .error f
      | .ok sl0 =>
        .ok (some (sl0 :: task.text_parts.map (fun part => array_slice part.stripped_content),
          true)) := by
  unfold region_slices
  rw [htype]

/-- For a class of kind `RSPAMD_RE_SABODY` and a task with `p` text parts
whose Subject header, if it has one, has a decoded value, the slice vector
handed to `rspamd_re_cache_process_regexp_data` has `p + 1` slices. Slice 0 is
the empty slice when the task has no Subject header, and the decoded value of
the first Subject header, with its length as a C string, when it has one. Slice `i + 1` is the stripped content of text
part `i`, or the empty slice when the part has none. The vector is scanned in
raw mode. -/
theorem sabody_slice_vector (px : Primitives) (c : State) (task : rspamd_task)
    (rt : rspamd_re_runtime) (re : Nat) (cl : rspamd_re_class) (is_strong : Bool)
    (sl0 : Slice) (htype : cl.type = .RSPAMD_RE_SABODY)
    (hsub : (task.get_header subject_name false = [] ∧ sl0 = Slice.empty) ∨
      ∃ rh rest d, task.get_header subject_name false = rh :: rest ∧ rh.decoded = some d ∧
        sl0 = { data := some d, len := strlen d }) :
    region_slices px task cl is_strong =
      .ok (some (sl0 :: task.text_parts.map (fun part => array_slice part.stripped_content),
        true)) ∧
    exec_switch px c task rt re cl is_strong =
      rspamd_re_cache_process_regexp_data px c rt re
        (sl0 :: task.text_parts.map (fun part => array_slice part.stripped_content)) true ∧
    (sl0 :: task.text_parts.map (fun part => array_slice part.stripped_content)).length =
      task.text_parts.length + 1 ∧
    (sl0 :: task.text_parts.map (fun part => array_slice part.stripped_content))[0]? = some sl0 ∧
    (∀ (i : Nat) (part : rspamd_mime_text_part), task.text_parts[i]? = some part →
      (sl0 :: task.text_parts.map (fun part => array_slice part.stripped_content))[i + 1]? =
        some (array_slice part.stripped_content)) ∧
    (∀ (part : rspamd_mime_text_part), part.stripped_content = none →
      array_slice part.stripped_content = Slice.empty) ∧
    (∀ (part : rspamd_mime_text_part) (d : List Nat), part.stripped_content = some d →
      array_slice part.stripped_content = { data := some d, len := d.length }) := by
  have hs : subject_slice task = .ok sl0 := by
    unfold subject_slice
    rcases hsub with ⟨h, e⟩ | ⟨rh, rest, d, h, hd, e⟩
    · rw [h, e]
    · rw [h, e]
      simp only [hd]
  have hr : region_slices px task cl is_strong =
      .ok (some (sl0 :: task.text_parts.map (fun part => array_slice part.stripped_content),
        true)) := by
    rw [region_slices_sabody px task cl is_strong htype, hs]
  refine ⟨hr, ?_, ?_, List.getElem?_cons_zero, ?_, ?_, ?_⟩
  · unfold exec_switch
    rw [hr]
  · simp
  · intro i part hi
    rw [List.getElem?_cons_succ, List.getElem?_map, hi]
    rfl
  · intro part h
    rw [h]
    rfl
  · intro part d h
    rw [h]
    rfl

/-- An instance of `sabody_slice_vector`, scenario E3: for the message with the
Subject `Great offer` and one text part without bytes the vector has two
slices, the Subject and the empty content of the part, scanned in raw mode;
`process` on the expression registered for `RSPAMD_RE_SABODY` returns 1. -/
theorem sabody_slice_vector_witness :
    (new_class 8 .RSPAMD_RE_SABODY [] 0).type = .RSPAMD_RE_SABODY ∧
    task_e3.get_header subject_name false =
      [{ value := great_offer, decoded := some great_offer }] ∧
    region_slices px_offer task_e3 (new_class 8 .RSPAMD_RE_SABODY [] 0) false =
      .ok (some ([{ data := some great_offer, len := 11 }, { data := some [], len := 0 }],
        true)) ∧
    (rspamd_re_cache_process px_offer s_e3 task_e3 (rspamd_re_cache_runtime_new s_e3.cache) 3
      false).toOption.map (fun out => out.1) = some 1 :=
  ⟨rfl, rfl,
    (sabody_slice_vector px_offer s_e3 task_e3 (rspamd_re_cache_runtime_new s_e3.cache) 3
      (new_class 8 .RSPAMD_RE_SABODY [] 0) false { data := some great_offer, len := 11 } rfl
      (Or.inr ⟨{ value := great_offer, decoded := some great_offer }, [], great_offer,
        rfl, rfl, rfl⟩)).1,
    by decide⟩

/-! ## Scenario E2 -/

/-- Without a hit limit the accurate matching of one slice adds the clipped
length of the slice to `bytes_scanned_pcre`, and one to `regexp_checked` when
the slice has data. -/
theorem process_pcre_bytes (px : Primitives) (c : State) (rt : rspamd_re_runtime)
    (re : Nat) (sl : Slice) (is_raw : Bool) (hm : (c.heap re).maxhits = 0) :
    (rspamd_re_cache_process_pcre px c rt re sl is_raw).2.stat.bytes_scanned_pcre =
      rt.stat.bytes_scanned_pcre + slice_scan_len c sl := by
  unfold rspamd_re_cache_process_pcre slice_scan_len
  cases hd : sl.data with
  | none => rfl
  | some input =>
    simp only [hm, true_or, if_true]

/-- Without a hit limit the accurate loop adds the clipped lengths of its
slices to `bytes_scanned_pcre`. -/
theorem pcre_loop_bytes (px : Primitives) (c : State) (re re_id : Nat) (is_raw : Bool)
    (ins : List Slice) (ret : Nat) (rt : rspamd_re_runtime) (hm : (c.heap re).maxhits = 0) :
    (pcre_loop px c re re_id is_raw ins ret rt).2.stat.bytes_scanned_pcre =
      rt.stat.bytes_scanned_pcre + (ins.map (slice_scan_len c)).sum := by
  induction ins generalizing ret rt with
  | nil => rfl
  | cons sl rest ih =>
    unfold pcre_loop
    rw [ih]
    simp only [List.map_cons, List.sum_cons]
    rw [process_pcre_bytes px c rt re sl is_raw hm]
    omega

/-- The cache of scenario E2: the expression has the cache id 0, no hit limit
and the class `cl_e2`; the prefilter is disabled and no limit of scanned bytes
is set. -/
theorem s_e2_facts :
    (s_e2.heap 3).cache_id = 0 ∧ (s_e2.heap 3).maxhits = 0 ∧ (s_e2.heap 3).re_class = some 5 ∧
    class_lookup s_e2.cache.re_classes 5 = some cl_e2 ∧
    s_e2.cache.re[0]? = some { re := 3, match_type := .RSPAMD_RE_CACHE_PCRE } ∧
    s_e2.cache.nre = 1 ∧ s_e2.cache.disable_hyperscan = true ∧ s_e2.cache.max_re_data = 0 := by
  decide

/-- C25 (amended), scenario E2: with the prefilter disabled, the expression
registered for `RSPAMD_RE_RAWMIME` without a hit limit, and the message with
the two text parts `xx needle yy` and `zz`, for every accurate matcher that
finds one match in the first part and none in the second, `process` on a fresh
runtime returns 1 and leaves `bytes_scanned_pcre = 14`, the sum 12 + 2 of the
lengths of the two slices. -/
theorem e2_mime_raw (px : Primitives)
    (h1 : px.regexp_search 3 xx_needle_yy true = 1)
    (h2 : px.regexp_search 3 [122, 122] true = 0) :
    ∃ out, rspamd_re_cache_process px s_e2 task_e2 (rspamd_re_cache_runtime_new s_e2.cache) 3
        false = .ok out ∧
      out.1 = 1 ∧ out.2.stat.bytes_scanned_pcre = 14 := by
  obtain ⟨hid, hm, hk, hcl, helt, hn, hdis, hlim⟩ := s_e2_facts
  have hslow := process_slow px s_e2 task_e2 (rspamd_re_cache_runtime_new s_e2.cache) 3 false 5
      cl_e2 (by rw [hid]; decide) (by rw [hid]; omega) hk hcl (by rw [hid]; rfl)
  have hreg : region_slices px task_e2 cl_e2 false =
      .ok (some ([{ data := some xx_needle_yy, len := 12 }, { data := some [122, 122], len := 2 }],
        true)) := rfl
  have hdata := process_regexp_data_accurate px s_e2 (rspamd_re_cache_runtime_new s_e2.cache) 3
    [{ data := some xx_needle_yy, len := 12 }, { data := some [122, 122], len := 2 }] true
    { re := 3, match_type := .RSPAMD_RE_CACHE_PCRE } (by rw [hid]; exact helt) (Or.inl hdis)
    (by simp)
  have hsw : exec_switch px s_e2 task_e2 (rspamd_re_cache_runtime_new s_e2.cache) 3 cl_e2 false =
      rspamd_re_cache_process_regexp_data px s_e2 (rspamd_re_cache_runtime_new s_e2.cache) 3
        [{ data := some xx_needle_yy, len := 12 }, { data := some [122, 122], len := 2 }] true := by
    unfold exec_switch
    rw [hreg]
  rw [hdata] at hsw
  have hexec := exec_re_no_sweep px s_e2 task_e2 (rspamd_re_cache_runtime_new s_e2.cache) 3 cl_e2
    false _ hsw (Or.inl hdis)
  rw [hslow, hexec]
  refine ⟨_, rfl, ?_, ?_⟩
  · have hcount := pcre_loop_count px s_e2 3 true
      [{ data := some xx_needle_yy, len := 12 }, { data := some [122, 122], len := 2 }] 0
      (rspamd_re_cache_runtime_new s_e2.cache) rfl (Or.inl hm)
    have e1 : slice_hits px s_e2 3 true { data := some xx_needle_yy, len := 12 } = 1 := h1
    have e2 : slice_hits px s_e2 3 true { data := some [122, 122], len := 2 } = 0 := h2
    simp only [List.map_cons, List.map_nil, List.sum_cons, List.sum_nil, e1, e2, hm] at hcount
    have hc := (hcount (by decide)).2
    simp only [Function.update_same]
    rw [hc]
    decide
  · have hb := pcre_loop_bytes px s_e2 3 (s_e2.heap 3).cache_id true
      [{ data := some xx_needle_yy, len := 12 }, { data := some [122, 122], len := 2 }] 0
      (rspamd_re_cache_runtime_new s_e2.cache) hm
    show (pcre_loop px s_e2 3 (s_e2.heap 3).cache_id true
      [{ data := some xx_needle_yy, len := 12 }, { data := some [122, 122], len := 2 }] 0
      (rspamd_re_cache_runtime_new s_e2.cache)).2.stat.bytes_scanned_pcre = 14
    rw [hb]
    decide

/-- Witness of `e2_mime_raw`: the matcher that counts the occurrences of
`needle`. -/
theorem e2_mime_raw_witness :
    px_needle.regexp_search 3 xx_needle_yy true = 1 ∧
    px_needle.regexp_search 3 [122, 122] true = 0 ∧
    ∃ out, rspamd_re_cache_process px_needle s_e2 task_e2
        (rspamd_re_cache_runtime_new s_e2.cache) 3 false = .ok out ∧
      out.1 = 1 ∧ out.2.stat.bytes_scanned_pcre = 14 :=
  ⟨by decide, by decide, e2_mime_raw px_needle (by decide) (by decide)⟩

/-- C25 fails on the code: in scenario E2, with the matcher that counts the
occurrences of `needle`, `process` on a fresh runtime does not leave
`bytes_scanned_pcre = 15`; the two slices have 12 and 2 bytes and the counter
ends at 14. -/
theorem e2_bytes_scanned_not_15 :
    ¬ ∃ out, rspamd_re_cache_process px_needle s_e2 task_e2
        (rspamd_re_cache_runtime_new s_e2.cache) 3 false = .ok out ∧
      out.1 = 1 ∧ out.2.stat.bytes_scanned_pcre = 15 := by
  rintro ⟨out, h, _, hb⟩
  have h14 : (rspamd_re_cache_process px_needle s_e2 task_e2
      (rspamd_re_cache_runtime_new s_e2.cache) 3 false).toOption.map
      (fun o => o.2.stat.bytes_scanned_pcre) = some 14 := by decide
  rw [h] at h14
  simp only [Except.toOption, Option.map_some', Option.some.injEq] at h14
  omega

/-! ## Class hash and cache ids -/

/-- C26 fails on the code. The two example configurations differ in the
expression registered for the header `[83]` (content id 4 in the first, 8 in
the second) and agree in the whole-message class: the class id 7, the members
with the content ids 2 and 7, their flags and hit limits, and the number 3 of
expressions of the cache, so the class has the same hash in both. The member
with the content id 7 has the cache id 2 in the first configuration and the
cache id 1 in the second. The compiler run for the first configuration writes
the ids 0 and 2 into the file of the class; run for the second configuration
on the same directory it finds that file valid and keeps it. The load into
the second configuration succeeds, lists the ids 0 and 2 for the class and
marks the element 2, which holds the header expression at address 8, while
the member at address 7 stays with the accurate engine. A scan of the
whole-message class, whose database reports its second pattern under the id
2, then stores a match for the header expression: `process` on it returns 1
for a message without headers, where on a fresh runtime it returns 0. -/
theorem class_hash_does_not_pin_ids :
    (class_lookup s_conf_a.cache.re_classes 7).map (fun cl => (cl.hash, cl.re)) =
      some (some [7, 2, 0, 0, 2, 7, 7, 0, 0, 1, 3], [(2, 2), (7, 7)]) ∧
    (class_lookup s_conf_b.cache.re_classes 7).map (fun cl => (cl.hash, cl.re)) =
      some (some [7, 2, 0, 0, 2, 7, 7, 0, 0, 1, 3], [(2, 2), (7, 7)]) ∧
    s_conf_a.cache.re.length = 3 ∧ s_conf_b.cache.re.length = 3 ∧
    (s_conf_a.heap 7).cache_id = 2 ∧ (s_conf_b.heap 7).cache_id = 1 ∧
    (s_conf_b.heap 8).cache_id = 2 ∧
    (rspamd_re_cache_compile_hyperscan env0 s_conf_a fs0 dir0).toOption.map (fun out => out.1) =
      some 3 ∧
    (rspamd_re_cache_compile_hyperscan env0 s_conf_b (files_after_compile env0 s_conf_a fs0 dir0)
      dir0).toOption.map (fun out => out.1) = some 1 ∧
    s_conf_b.cache.re_classes.map (class_entries env0 fs_conf_ab dir0) =
      [[(0, 0), (2, 8)], [(2, 0)]] ∧
    (rspamd_re_cache_load_hyperscan env0 fs_conf_ab s_conf_b.cache dir0).toOption.map
      (fun out => out.1) = some true ∧
    s_conf_b_loaded.cache.re =
      [{ re := 2, match_type := .RSPAMD_RE_CACHE_HYPERSCAN },
       { re := 7, match_type := .RSPAMD_RE_CACHE_PCRE },
       { re := 8, match_type := .RSPAMD_RE_CACHE_HYPERSCAN }] ∧
    s_conf_b_loaded.cache.re_classes.map (fun cl => (cl.id, cl.hs_ids)) =
      [(7, [0, 2]), (83, [2])] ∧
    (rspamd_re_cache_process px_conf s_conf_b_loaded task256
      (rspamd_re_cache_runtime_new s_conf_b_loaded.cache) 8 false).toOption.map
      (fun out => out.1) = some 0 ∧
    (rspamd_re_cache_process px_conf s_conf_b_loaded task256
      (after_process px_conf s_conf_b_loaded task256
        (rspamd_re_cache_runtime_new s_conf_b_loaded.cache) 2) 8 false).toOption.map
      (fun out => out.1) = some 1 := by
  decide

/-! ## The re-check of an approximate expression -/

/-- Given as many iterations as slices are left, the re-check loop of the
callback runs the accurate matcher over the slices up to and including the
first one with which the lengths cover the end offset, and returns. -/
theorem cb_loop_true_count (px : Primitives) (c : State) (re id to_off : Nat)
    (ins : List Slice) (n i processed : Nat) (rt : rspamd_re_runtime)
    (hn : (ins.drop i).length = n) :
    cb_loop px c re id to_off ins n i processed rt =
      .ok (recheck_slices px c re id (recheck_span to_off (ins.drop i) processed) rt) := by
  induction n generalizing i processed rt with
  | zero =>
    have he : ins.drop i = [] := List.length_eq_zero.mp hn
    rw [he]
    rfl
  | succ n ih =>
    have hi : i < ins.length := by
      rw [List.length_drop] at hn
      omega
    have hd : ins.drop i = ins[i] :: ins.drop (i + 1) := List.drop_eq_getElem_cons hi
    have hg : ins[i]? = some ins[i] := List.getElem?_eq_getElem hi
    have hn1 : (ins.drop (i + 1)).length = n := by
      rw [List.length_drop] at hn ⊢
      omega
    unfold cb_loop
    simp only [hg]
    rw [hd]
    unfold recheck_span
    by_cases hc : (processed + ins[i].len) % 4294967296 ≥ to_off
    · rw [if_pos hc, if_pos hc]
      rfl
    · rw [if_neg hc, if_neg hc]
      rw [ih (i + 1) _ _ hn1]
      rfl

/-- With `count = 1` the re-check loop of the callback runs the accurate
matcher over the first slice of its vector only, whatever the end offset. -/
theorem cb_loop_count_one (px : Primitives) (c : State) (re id to_off : Nat)
    (sl : Slice) (rest : List Slice) (rt : rspamd_re_runtime) :
    cb_loop px c re id to_off (sl :: rest) 1 0 0 rt =
      .ok (recheck_slices px c re id [sl] rt) := by
  unfold cb_loop
  simp only [List.getElem?_cons_zero]
  split
  · rfl
  · rfl

/-- The prefilter callback for an approximate expression that is not checked:
with the count of the slices it re-checks the slices up to and including the
one with the end offset, with `count = 1` the first slice only. -/
theorem hyperscan_cb_approx (px : Primitives) (c : State) (ins : List Slice)
    (rt : rspamd_re_runtime) (ev : HsEvent) (elt : rspamd_re_cache_elt)
    (helt : c.cache.re[ev.id]? = some elt)
    (hty : elt.match_type ≠ .RSPAMD_RE_CACHE_HYPERSCAN)
    (hun : rt.checked ev.id = false) :
    rspamd_re_cache_hyperscan_cb px c { ins := ins, count := ins.length } rt ev =
      .ok (recheck_slices px c elt.re ev.id (recheck_span ev.to_off ins 0)
        { rt with reported := rt.reported ++ [ev.id] }) ∧
    ∀ sl rest, ins = sl :: rest →
      rspamd_re_cache_hyperscan_cb px c { ins := ins, count := 1 } rt ev =
        .ok (recheck_slices px c elt.re ev.id [sl]
          { rt with reported := rt.reported ++ [ev.id] }) := by
  constructor
  · unfold rspamd_re_cache_hyperscan_cb
    simp only [helt, hty, if_false, hun]
    exact cb_loop_true_count px c elt.re ev.id ev.to_off ins ins.length 0 0 _ (by simp)
  · intro sl rest he
    unfold rspamd_re_cache_hyperscan_cb
    simp only [helt, hty, if_false, hun]
    rw [he]
    exact cb_loop_count_one px c elt.re ev.id ev.to_off sl rest _

/-- C22 fails on the code in vectored mode. The example cache holds one
expression, admitted to the database of its class as an approximation (cache
id 0); the message has the two text parts `zz` and `xx needle yy`, and the
vectored scan reports the id 0 with the end offset 11, which lies in the
second slice. The callback gets `count = 1`: it runs the accurate matcher
over the first slice only (2 bytes), stores the count 0 and sets the bit, and
`process` returns 0. The re-check over the slices up to and including the one
with the end offset, which the callback does when it is given the count 2,
stores 1. In block mode, where the callback is called for the slice that was
scanned, `process` returns 1 for the same message. -/
theorem vectored_callback_rechecks_first_slice :
    (s_approx cfg_vec).cache.re =
      [{ re := 5, match_type := .RSPAMD_RE_CACHE_HYPERSCAN_PRE }] ∧
    (s_approx cfg_vec).cache.vectorized_hyperscan = true ∧
    (s_approx cfg_vec).cache.hyperscan_loaded = true ∧
    ((s_approx cfg_vec).heap 5).cache_id = 0 ∧
    (region_slices px_vec task_needle_second (new_class 5 .RSPAMD_RE_RAWMIME [] 0)
      false).toOption =
      some (some ([{ data := some [122, 122], len := 2 }, { data := some xx_needle_yy, len := 12 }],
        true)) ∧
    (px_vec.hs_scan_vector 1
      [{ data := some [122, 122], len := 2 }, { data := some xx_needle_yy, len := 12 }]).1 =
      [{ id := 0, from_off := 5, to_off := 11, flags := 0 }] ∧
    (rspamd_re_cache_process px_vec (s_approx cfg_vec) task_needle_second
      (rspamd_re_cache_runtime_new (s_approx cfg_vec).cache) 5 false).toOption.map
      (fun out => (out.1, out.2.checked 0, out.2.results 0, out.2.stat.bytes_scanned_pcre)) =
      some (0, true, 0, 2) ∧
    recheck_span 11
      [{ data := some [122, 122], len := 2 }, { data := some xx_needle_yy, len := 12 }] 0 =
      [{ data := some [122, 122], len := 2 }, { data := some xx_needle_yy, len := 12 }] ∧
    (rspamd_re_cache_hyperscan_cb px_vec (s_approx cfg_vec)
      { ins := [{ data := some [122, 122], len := 2 }, { data := some xx_needle_yy, len := 12 }],
        count := 2 }
      (rspamd_re_cache_runtime_new (s_approx cfg_vec).cache)
      { id := 0, from_off := 5, to_off := 11, flags := 0 }).toOption.map
      (fun rt => (rt.checked 0, rt.results 0, rt.stat.bytes_scanned_pcre)) = some (true, 1, 14) ∧
    (s_approx cfg0).cache.re = [{ re := 5, match_type := .RSPAMD_RE_CACHE_HYPERSCAN_PRE }] ∧
    (s_approx cfg0).cache.vectorized_hyperscan = false ∧
    (rspamd_re_cache_process px_vec (s_approx cfg0) task_needle_second
      (rspamd_re_cache_runtime_new (s_approx cfg0).cache) 5 false).toOption.map
      (fun out => (out.1, out.2.checked 0, out.2.results 0)) = some (1, true, 1) := by
  decide

/-! ## Expressions `replace` accepts -/

/-- An insertion into the table of a class keeps the keys of all tables. -/
theorem has_key_insert {cs : List rspamd_re_class} {k i : Nat} (K a v : Nat)
    (h : has_key cs k i) : has_key (class_modify (class_set_re a v) cs K) k i := by
  obtain ⟨cl, hcl, hi⟩ := h
  by_cases hk : k = K
  · subst hk
    refine ⟨class_set_re a v cl, ?_, ?_⟩
    · rw [class_lookup_modify_same (class_set_re a v) (fun _ => rfl), hcl]
      rfl
    · show (re_lookup (re_insert cl.re a v) i).isSome = true
      rw [re_lookup_insert_isSome]
      exact Or.inr hi
  · refine ⟨cl, ?_, hi⟩
    rw [class_lookup_modify_other (class_set_re a v) (fun _ => rfl) cs hk]
    exact hcl

/-- After an insertion the table of the class has the inserted key. -/
theorem has_key_inserted {cs : List rspamd_re_class} {K : Nat} {cl : rspamd_re_class}
    (a v : Nat) (h : class_lookup cs K = some cl) :
    has_key (class_modify (class_set_re a v) cs K) K a := by
  refine ⟨class_set_re a v cl, ?_, ?_⟩
  · rw [class_lookup_modify_same (class_set_re a v) (fun _ => rfl), h]
    rfl
  · show (re_lookup (re_insert cl.re a v) a).isSome = true
    rw [re_lookup_insert_same]
    rfl

/-- A new class at the end of the class table keeps the keys of all tables. -/
theorem has_key_append {cs : List rspamd_re_class} {k i : Nat} (ds : List rspamd_re_class)
    (h : has_key cs k i) : has_key (cs ++ ds) k i := by
  obtain ⟨cl, hcl, hi⟩ := h
  refine ⟨cl, ?_, hi⟩
  rw [class_lookup_append, hcl]

/-- The invariant after a registration that added an element. -/
theorem replInv_add_state {s : State} (hi : ReplInv s) (hn : s.cache.nre = s.cache.re.length)
    (re K : Nat) (cs0 : List rspamd_re_class) (cl0 : rspamd_re_class)
    (hkeep : ∀ k i, has_key s.cache.re_classes k i → has_key cs0 k i)
    (hK : class_lookup cs0 K = some cl0) :
    ReplInv
      { heap := Function.update s.heap re
          { s.heap re with cache_id := s.cache.nre, re_class := some K },
        cache := { s.cache with
          re_classes := class_modify (class_set_re (s.heap re).id re) cs0 K,
          re := s.cache.re ++ [{ re := re, match_type := .RSPAMD_RE_CACHE_PCRE }],
          nre := s.cache.nre + 1 } } := by
  intro p k hk
  by_cases hp : p = re
  · subst hp
    simp only [Function.update_same] at hk ⊢
    cases hk
    refine ⟨?_, has_key_inserted _ _ hK⟩
    simp [hn]
  · simp only [Function.update_noteq hp] at hk ⊢
    obtain ⟨h1, h2⟩ := hi p k hk
    refine ⟨?_, has_key_insert K _ _ (hkeep k _ h2)⟩
    simp only [List.length_append, List.length_singleton]
    omega

/-- The function `rspamd_re_cache_add` keeps the invariant. -/
theorem replInv_add (fh : List Nat → Nat) {s : State} (hi : ReplInv s)
    (hn : s.cache.nre = s.cache.re.length) (re : Nat)
    (type : rspamd_re_type) (type_data : List Nat) (datalen : Nat) :
    ReplInv (rspamd_re_cache_add fh s re type type_data datalen).2 := by
  cases hc : class_lookup s.cache.re_classes
      (rspamd_re_cache_class_id fh type type_data datalen) with
  | some c =>
    cases hr : re_lookup c.re (s.heap re).id with
    | some n =>
      rw [add_hit fh s re type type_data datalen c n hc hr]
      exact hi
    | none =>
      rw [add_miss fh s re type type_data datalen c hc hr]
      exact replInv_add_state hi hn re _ s.cache.re_classes c (fun _ _ h => h) hc
  | none =>
    rw [add_new fh s re type type_data datalen hc]
    refine replInv_add_state hi hn re _ _
      (new_class (rspamd_re_cache_class_id fh type type_data datalen) type type_data datalen)
      (fun _ _ h => has_key_append _ h) ?_
    rw [class_lookup_append, hc]
    simp [class_lookup, new_class]

/-- The function `rspamd_re_cache_replace` keeps the invariant when the new
expression has the content id of the old one. -/
theorem replInv_replace {s s1 : State} (hi : ReplInv s) {what with_re : Nat}
    (hsame : (s.heap with_re).id = (s.heap what).id)
    (h : rspamd_re_cache_replace s what with_re = .ok s1) : ReplInv s1 := by
  rcases replace_inv h with ⟨_, h1⟩ | ⟨k, cl, elt, src, hk, hid, hcl, helt, hsrc⟩
  · rw [h1]; exact hi
  · rw [replace_ok s what with_re k cl elt src hk hid hcl helt hsrc] at h
    cases h
    have hlt : (s.heap what).cache_id < s.cache.re.length := (List.getElem?_eq_some.1 helt).1
    intro p k1 hk1
    by_cases hpw : p = with_re
    · subst hpw
      simp only [Function.update_same] at hk1 ⊢
      cases hk1
      refine ⟨by simpa using hlt, ?_⟩
      have hidp : (Function.update s.heap what
          { s.heap what with cache_id := RSPAMD_INVALID_ID, re_class := none } p).id =
          (s.heap what).id := by
        by_cases hw : p = what
        · subst hw
          simp
        · simp only [Function.update_noteq hw]
          exact hsame
      rw [hidp]
      exact has_key_inserted _ _ hcl
    · by_cases hpo : p = what
      · subst hpo
        simp [Function.update_noteq hpw] at hk1
      · simp only [Function.update_noteq hpw, Function.update_noteq hpo] at hk1 ⊢
        obtain ⟨h1, h2⟩ := hi p k1 hk1
        exact ⟨by simpa using h1, has_key_insert k _ _ h2⟩

/-- The invariant holds after `add` calls and `replace` calls that keep the
content id. -/
theorem replInv_run_ops (fh : List Nat → Nat) (h0 : Nat → rspamd_regexp_t) {ops : List Op}
    {s s1 : State} (hi : ReplInv s) (hc : CacheInv s) (hid : ∀ p, (s.heap p).id = (h0 p).id)
    (hk : ∀ op ∈ ops, op.same_ids h0) (h : run_ops fh s ops = .ok s1) : ReplInv s1 := by
  induction ops generalizing s with
  | nil =>
    simp [run_ops] at h
    rw [← h]
    exact hi
  | cons op ops ih =>
    unfold run_ops at h
    cases hop : op.run fh s with
    | error f => simp [hop] at h
    | ok s2 =>
      simp only [hop] at h
      have hk0 := hk op (List.mem_cons_self _ _)
      have hk1 : ∀ o ∈ ops, o.same_ids h0 := fun o ho => hk o (List.mem_cons_of_mem _ ho)
      cases op with
      | add re type type_data datalen =>
        simp [Op.run] at hop
        rw [← hop] at h
        exact ih (replInv_add fh hi hc.nre_len re type type_data datalen)
          (cacheInv_add fh hc re type type_data datalen)
          (fun p => by rw [add_heap_id]; exact hid p) hk1 h
      | replace what with_re =>
        have hsame : (s.heap with_re).id = (s.heap what).id := by
          rw [hid, hid]
          exact hk0
        exact ih (replInv_replace hi hsame hop) (cacheInv_replace hc hop)
          (fun p => by rw [replace_heap_id hop]; exact hid p) hk1 h
      | init cfg => exact absurd hk0 (fun hf => hf)

/-- In every cache state reached from an empty cache by `add` calls and by
`replace` calls whose new expression has the content id of the old one, with
fewer expressions than the invalid id, the three assertions of
`replace(e, x)` hold for every expression `e` with a class: its cache id is
not the invalid id, `cache->re` has an element at that index, and the table of
its class has an entry under its content id. The call returns, and `x` has
the cache id and the class of `e` afterwards. -/
theorem replace_applicable_same_ids (fh : List Nat → Nat) (s0 s : State) (ops : List Op)
    (hfresh : Fresh s0) (hk : ∀ op ∈ ops, op.same_ids s0.heap)
    (hrun : run_ops fh s0 ops = .ok s) (hlen : s.cache.re.length < RSPAMD_INVALID_ID)
    (e x k : Nat) (hcls : (s.heap e).re_class = some k) :
    (s.heap e).cache_id ≠ RSPAMD_INVALID_ID ∧
    (∃ elt, s.cache.re[(s.heap e).cache_id]? = some elt) ∧
    has_key s.cache.re_classes k (s.heap e).id ∧
    ∃ s1, rspamd_re_cache_replace s e x = .ok s1 ∧
      (s1.heap x).cache_id = (s.heap e).cache_id ∧ (s1.heap x).re_class = some k := by
  have hi0 : ReplInv s0 := by
    intro p k1 hk1
    rw [(hfresh.2 p).2] at hk1
    cases hk1
  have hi : ReplInv s :=
    replInv_run_ops fh s0.heap hi0 (cacheInv_fresh hfresh) (fun _ => rfl) hk hrun
  obtain ⟨hlt, cl, hcl, hsome⟩ := hi e k hcls
  have hid : (s.heap e).cache_id ≠ RSPAMD_INVALID_ID := by omega
  have helt : s.cache.re[(s.heap e).cache_id]? = some (s.cache.re[(s.heap e).cache_id]) :=
    List.getElem?_eq_getElem hlt
  obtain ⟨src, hsrc⟩ := Option.isSome_iff_exists.mp hsome
  refine ⟨hid, ⟨_, helt⟩, ⟨cl, hcl, hsome⟩, ?_⟩
  rw [replace_ok s e x k cl _ src hcls hid hcl helt hsrc]
  exact ⟨_, rfl, by simp, by simp⟩

/-- An instance of `replace_applicable_same_ids`: on the example heap the
expressions at addresses 1, 11 and 21 share the content id 1; after `add(1)`
and `replace(1, 11)` the call `replace(11, 21)` returns and the expression at
address 21 has the cache id 0. -/
theorem replace_applicable_example :
    ∃ s s1, run_ops fh0 s0 [.add 1 .RSPAMD_RE_BODY [] 0, .replace 1 11] = .ok s ∧
      rspamd_re_cache_replace s 11 21 = .ok s1 ∧
      (s1.heap 21).cache_id = (s.heap 11).cache_id ∧ (s.heap 11).cache_id = 0 := by
  obtain ⟨_, _, _, s1, h1, h2, _⟩ :=
    replace_applicable_same_ids fh0 s0 (after_ops fh0 s0 [.add 1 .RSPAMD_RE_BODY [] 0, .replace 1 11])
      [.add 1 .RSPAMD_RE_BODY [] 0, .replace 1 11] ⟨rfl, fun _ => ⟨rfl, rfl⟩⟩
      (by simp [Op.same_ids, s0, heap0]) rfl (by decide) 11 21 7 (by decide)
  exact ⟨_, s1, rfl, h1, h2, by decide⟩

/-! ## A Subject header without a decoded value -/

/-- C23 fails on the code for a Subject header whose decoded value is a null
pointer. The branch of `RSPAMD_RE_SABODY` hands `rh->decoded` to `strlen`
without a test: for the example message no slice vector is assembled, and
`process` on the expression registered for `RSPAMD_RE_SABODY` aborts. The
branch of `RSPAMD_RE_HEADER` tests the pointer and takes the empty slice for
the same header. -/
theorem sabody_null_subject_faults :
    task_null_subject.get_header subject_name false = [{ value := [], decoded := none }] ∧
    task_null_subject.text_parts.length = 1 ∧
    fault_of (region_slices px_offer task_null_subject (new_class 8 .RSPAMD_RE_SABODY [] 0)
      false) = some .null_deref ∧
    (s_e3.heap 3).re_class = some 8 ∧
    (class_lookup s_e3.cache.re_classes 8).map (fun cl => cl.type) = some .RSPAMD_RE_SABODY ∧
    fault_of (rspamd_re_cache_process px_offer s_e3 task_null_subject
      (rspamd_re_cache_runtime_new s_e3.cache) 3 false) = some .null_deref ∧
    (region_slices px_offer task_null_subject
      (new_class 0 .RSPAMD_RE_HEADER subject_name 7) false).toOption =
      some (some ([Slice.empty], false)) := by
  decide

/-! ## An expression object registered under two regions -/

/-- C9 fails on the code when an expression object is registered under two
regions. In the example cache, made by `add` calls, finalize, compile and
load, the object at address 1 is registered for the header `[83]` and for the
whole message; it has the cache id 1 and the whole-message class, and both
class files list the id 1. `process` on the header expression at address 3
sweeps the header class and so sets the bit of the id 1. `process` on the
object at address 1, a member of the whole-message class, then takes the fast
path: it returns 0, and the id 2, which the database of the whole-message
class lists, is left unchecked. -/
theorem sweep_misses_aliased_class :
    s_alias.cache.re =
      [{ re := 1, match_type := .RSPAMD_RE_CACHE_PCRE },
       { re := 1, match_type := .RSPAMD_RE_CACHE_HYPERSCAN },
       { re := 2, match_type := .RSPAMD_RE_CACHE_HYPERSCAN },
       { re := 3, match_type := .RSPAMD_RE_CACHE_HYPERSCAN }] ∧
    s_alias.cache.hyperscan_loaded = true ∧ s_alias.cache.disable_hyperscan = false ∧
    s_alias.cache.re_classes.map (fun cl => (cl.id, cl.hs_ids, cl.hs_db.isSome)) =
      [(83, [1, 3], true), (7, [1, 2], true)] ∧
    (s_alias.heap 1).cache_id = 1 ∧ (s_alias.heap 1).re_class = some 7 ∧
    (s_alias.heap 3).cache_id = 3 ∧ (s_alias.heap 3).re_class = some 83 ∧
    (rspamd_re_cache_process px0 s_alias task0 (rspamd_re_cache_runtime_new s_alias.cache) 3
      false).toOption.map (fun out => (out.2.checked 1, out.2.checked 2, out.2.checked 3)) =
      some (true, false, true) ∧
    (rspamd_re_cache_process px0 s_alias task0
      (after_process px0 s_alias task0 (rspamd_re_cache_runtime_new s_alias.cache) 3) 1
      false).toOption.map
      (fun out => (out.1, out.2.checked 1, out.2.checked 2, out.2.stat.regexp_fast_cached)) =
      some (0, true, false, 1) := by
  decide

/-! ## The tables after registrations and finalize -/

/-- A class of the table after an in-place update is a class that was there or
the update of a class with the id. -/
theorem class_modify_mem_id {f : rspamd_re_class → rspamd_re_class} {cs : List rspamd_re_class}
    {k : Nat} {c : rspamd_re_class} (h : c ∈ class_modify f cs k) :
    c ∈ cs ∨ ∃ c0 ∈ cs, c0.id = k ∧ c = f c0 := by
  induction cs with
  | nil => simp [class_modify] at h
  | cons d cs ih =>
    unfold class_modify at h
    by_cases hd : d.id = k
    · rw [if_pos hd] at h
      rcases List.mem_cons.1 h with h1 | h1
      · exact Or.inr ⟨d, List.mem_cons_self _ _, hd, h1⟩
      · exact Or.inl (List.mem_cons_of_mem _ h1)
    · rw [if_neg hd] at h
      rcases List.mem_cons.1 h with h1 | h1
      · left
        rw [h1]
        exact List.mem_cons_self _ _
      · rcases ih h1 with h2 | ⟨c0, h2, h3, h4⟩
        · exact Or.inl (List.mem_cons_of_mem _ h2)
        · exact Or.inr ⟨c0, List.mem_cons_of_mem _ h2, h3, h4⟩

/-- The invariant of the tables holds of an empty cache. -/
theorem regInv_fresh (fh : List Nat → Nat) {s : State} (h : Fresh s) : RegInv fh [] s := by
  obtain ⟨hc, _⟩ := h
  refine ⟨by rw [hc]; rfl, ?_⟩
  intro cl hcl
  rw [hc] at hcl
  simp [rspamd_re_cache_new] at hcl

/-- The invariant of the tables after a registration that added an element. -/
theorem regInv_add_state {fh : List Nat → Nat} {l : List Registration} {s : State}
    (hi : RegInv fh l s) (t : Registration) (cs0 : List rspamd_re_class)
    (hone : one_class_per_object fh (l ++ [t]))
    (hcs : ∀ cl ∈ cs0, cl ∈ s.cache.re_classes ∨ cl.re = []) :
    RegInv fh (l ++ [t])
      { heap := Function.update s.heap t.re
          { s.heap t.re with cache_id := s.cache.nre, re_class := some (t.class_id fh) },
        cache := { s.cache with
          re_classes := class_modify (class_set_re (s.heap t.re).id t.re) cs0 (t.class_id fh),
          re := s.cache.re ++ [{ re := t.re, match_type := .RSPAMD_RE_CACHE_PCRE }],
          nre := s.cache.nre + 1 } } := by
  obtain ⟨hn, htab⟩ := hi
  refine ⟨by simp [hn], ?_⟩
  have hold : ∀ cl ∈ cs0, ∀ kv ∈ cl.re,
      (Function.update s.heap t.re
        { s.heap t.re with cache_id := s.cache.nre, re_class := some (t.class_id fh) }
        kv.2).re_class = some cl.id ∧
      (Function.update s.heap t.re
        { s.heap t.re with cache_id := s.cache.nre, re_class := some (t.class_id fh) }
        kv.2).cache_id < s.cache.re.length + 1 ∧
      ∃ t1 ∈ l ++ [t], t1.re = kv.2 ∧ t1.class_id fh = cl.id := by
    intro cl hcl kv hkv
    rcases hcs cl hcl with h1 | h1
    · obtain ⟨h2, h3, t1, ht1, h4, h5⟩ := htab cl h1 kv hkv
      refine ⟨?_, ?_, t1, List.mem_append_left _ ht1, h4, h5⟩
      · by_cases hp : kv.2 = t.re
        · rw [hp]
          simp only [Function.update_same]
          have := hone t1 (List.mem_append_left _ ht1) t (by simp) (h4.trans hp)
          rw [← h5, this]
        · rw [Function.update_noteq hp]
          exact h2
      · by_cases hp : kv.2 = t.re
        · rw [hp]
          simp only [Function.update_same]
          omega
        · rw [Function.update_noteq hp]
          omega
    · rw [h1] at hkv
      cases hkv
  intro cl hcl kv hkv
  simp only [List.length_append, List.length_singleton]
  rcases class_modify_mem_id hcl with h1 | ⟨c0, h1, h2, h3⟩
  · exact hold cl h1 kv hkv
  · rw [h3] at hkv ⊢
    have hid : (class_set_re (s.heap t.re).id t.re c0).id = c0.id := rfl
    rw [hid]
    rcases re_insert_mem _ _ _ _ hkv with h4 | h4
    · exact hold c0 h1 kv h4
    · rw [h4]
      simp only [Function.update_same]
      refine ⟨by rw [h2], by omega, t, by simp, rfl, h2.symm⟩

/-- One registration keeps the invariant of the tables. -/
theorem regInv_step {fh : List Nat → Nat} {l : List Registration} {s : State}
    (hi : RegInv fh l s) (t : Registration) (hone : one_class_per_object fh (l ++ [t])) :
    RegInv fh (l ++ [t]) (rspamd_re_cache_add fh s t.re t.type t.type_data t.datalen).2 := by
  cases hc : class_lookup s.cache.re_classes
      (rspamd_re_cache_class_id fh t.type t.type_data t.datalen) with
  | some c =>
    cases hr : re_lookup c.re (s.heap t.re).id with
    | some n =>
      rw [add_hit fh s t.re t.type t.type_data t.datalen c n hc hr]
      refine ⟨hi.1, ?_⟩
      intro cl hcl kv hkv
      obtain ⟨h2, h3, t1, ht1, h4, h5⟩ := hi.2 cl hcl kv hkv
      exact ⟨h2, h3, t1, List.mem_append_left _ ht1, h4, h5⟩
    | none =>
      rw [add_miss fh s t.re t.type t.type_data t.datalen c hc hr]
      exact regInv_add_state hi t s.cache.re_classes hone (fun cl hcl => Or.inl hcl)
  | none =>
    rw [add_new fh s t.re t.type t.type_data t.datalen hc]
    refine regInv_add_state hi t _ hone ?_
    intro cl hcl
    rcases List.mem_append.1 hcl with h | h
    · exact Or.inl h
    · right
      simp only [List.mem_singleton] at h
      rw [h]
      rfl

/-- A list of registrations keeps the invariant of the tables. -/
theorem regInv_register_all {fh : List Nat → Nat} (ts : List Registration)
    {l : List Registration} {s : State} (hi : RegInv fh l s)
    (h1 : one_class_per_object fh (l ++ ts)) :
    RegInv fh (l ++ ts) (register_all fh s ts) := by
  induction ts generalizing l s with
  | nil => simpa [register_all] using hi
  | cons t ts ih =>
    have h2 : one_class_per_object fh (l ++ [t]) := by
      intro t1 ht1 t2 ht2
      apply h1 t1 _ t2 _
      · rcases List.mem_append.1 ht1 with h | h
        · exact List.mem_append_left _ h
        · simp at h; subst h; simp
      · rcases List.mem_append.1 ht2 with h | h
        · exact List.mem_append_left _ h
        · simp at h; subst h; simp
    have h3 := ih (regInv_step hi t h2) (by simpa using h1)
    simpa [register_all] using h3

/-- The first loop of finalize leaves the ids and the content-id tables of the
classes as they are. -/
theorem init_loop_classes {l : List rspamd_re_cache_elt} {i : Nat} {acc acc2 : InitAcc}
    (h : init_loop l i acc = .ok acc2) :
    ∀ cl ∈ acc2.classes, ∃ c0 ∈ acc.classes, cl.re = c0.re ∧ cl.id = c0.id := by
  induction l generalizing i acc with
  | nil =>
    simp [init_loop] at h
    rw [← h]
    exact fun cl hcl => ⟨cl, hcl, rfl, rfl⟩
  | cons elt rest ih =>
    obtain ⟨acc1, h1, h2⟩ := init_loop_cons h
    obtain ⟨k, c, _, _, he⟩ := init_step_inv h1
    intro cl hcl
    obtain ⟨c1, hc1, hre, hid⟩ := ih h2 cl hcl
    rw [he] at hc1
    rcases class_modify_mem hc1 with h3 | ⟨c0, hc0, h3⟩
    · exact ⟨c1, h3, hre, hid⟩
    · refine ⟨c0, hc0, ?_, ?_⟩
      · rw [hre, h3]
        rfl
      · rw [hid, h3]
        rfl

/-- The function `finalize_class` leaves the content-id table as it is. -/
theorem finalize_class_re (n : Nat) (c : rspamd_re_class) : (finalize_class n c).re = c.re := by
  unfold finalize_class
  split <;> rfl

/-- Finalize keeps the invariant of the tables. -/
theorem tableInv_init {s s1 : State} {cfg : rspamd_config} (hi : TableInv s)
    (h : rspamd_re_cache_init s cfg = .ok s1) : TableInv s1 := by
  obtain ⟨acc, hacc, hs1⟩ := init_inv h
  subst hs1
  intro cl1 hcl1 kv hkv
  obtain ⟨cl, hcl, he⟩ := List.mem_map.1 hcl1
  subst he
  rw [finalize_class_re] at hkv
  rw [finalize_class_id]
  obtain ⟨c0, hc0, hre, hid⟩ := init_loop_classes hacc cl hcl
  rw [hre] at hkv
  obtain ⟨h1, h2⟩ := hi c0 hc0 kv hkv
  have hsa := init_loop_same_attrs hacc kv.2
  refine ⟨?_, ?_⟩
  · show (acc.heap kv.2).re_class = some cl.id
    rw [hsa.2.2.2.2, hid]
    exact h1
  · show (acc.heap kv.2).cache_id < (sort_re s.heap s.cache.re).length
    by_cases hm : kv.2 ∈ (sort_re s.heap s.cache.re).map (fun e => e.re)
    · obtain ⟨j, elt, hj, _, hcid⟩ := init_loop_cache_id_mem hacc hm
      rw [hcid]
      have := (List.getElem?_eq_some.1 hj).1
      omega
    · rw [init_loop_heap_other hacc hm, sort_re_length]
      exact h2

/-- The tables after registrations that put no expression object under two
class ids, followed by finalize. -/
theorem tableInv_of_registrations (fh : List Nat → Nat) (s0 s1 : State)
    (regs : List Registration) (cfg : rspamd_config) (hfresh : Fresh s0)
    (hone : one_class_per_object fh regs)
    (hinit : rspamd_re_cache_init (register_all fh s0 regs) cfg = .ok s1) : TableInv s1 := by
  have hr : RegInv fh ([] ++ regs) (register_all fh s0 regs) :=
    regInv_register_all regs (regInv_fresh fh hfresh) (by simpa using hone)
  refine tableInv_init ?_ hinit
  intro cl hcl kv hkv
  obtain ⟨h1, h2, _⟩ := hr.2 cl hcl kv hkv
  exact ⟨h1, h2⟩

/-! ## The conditions of the sweep after compile and load -/

/-- A class that was loaded keeps its id. -/
theorem load_class_id (env : HsEnv) (fs : Files) (dir : List Nat) (c : rspamd_re_cache)
    (cl cl1 : rspamd_re_class) (re1 : List rspamd_re_cache_elt)
    (h : load_class env fs dir c cl = .ok (true, cl1, re1)) : cl1.id = cl.id := by
  unfold load_class at h
  split at h
  · cases h
  · cases h
  · cases hf : fs (class_path env dir cl) with
    | none => simp [hf] at h
    | some f =>
      simp only [hf] at h
      by_cases hbad : bad_count env f
      · rw [if_pos hbad] at h
        cases h
      · rw [if_neg hbad] at h
        split at h
        · cases h
        · split at h
          · cases h
          · split at h
            · cases h
            · split at h
              · cases h
              · cases h
                rfl

/-- What a load loop that succeeds leaves of the cache: the settings, the
flag, and for every remaining class a class with the same id that lists the
ids of its file. -/
theorem load_loop_frame (env : HsEnv) (fs : Files) (dir : List Nat)
    (rest : List rspamd_re_class) (c c1 : rspamd_re_cache) (pre : List rspamd_re_class)
    (hcls : c.re_classes = pre ++ rest)
    (h : load_loop env fs dir c pre rest = .ok (true, c1)) :
    c1.disable_hyperscan = c.disable_hyperscan ∧ c1.hyperscan_loaded = true ∧
    ∃ post, c1.re_classes = pre ++ post ∧
      List.Forall₂ (fun cl cl1 => cl1.id = cl.id ∧ ∃ f, fs (class_path env dir cl) = some f ∧
        cl1.hs_ids = (file_ids env f).map Int.toNat) rest post := by
  induction rest generalizing c pre with
  | nil =>
    simp [load_loop] at h
    subst h
    exact ⟨rfl, rfl, [], hcls, List.Forall₂.nil⟩
  | cons cl rest ih =>
    unfold load_loop at h
    cases hl : load_class env fs dir c cl with
    | error f => simp [hl] at h
    | ok out =>
      obtain ⟨loaded, cl1, re1⟩ := out
      simp only [hl] at h
      cases loaded with
      | false => simp at h
      | true =>
        simp only [if_true] at h
        obtain ⟨f, hf, _, hids, _⟩ := load_class_ok env fs dir c cl cl1 re1 hl
        have hid := load_class_id env fs dir c cl cl1 re1 hl
        obtain ⟨h1, h2, post, h3, h4⟩ := ih { c with re_classes := pre ++ cl1 :: rest, re := re1 }
          (pre ++ [cl1]) (by simp only [List.append_assoc, List.singleton_append]) h
        refine ⟨h1, h2, cl1 :: post, ?_, List.Forall₂.cons ⟨hid, f, hf, hids⟩ h4⟩
        rw [h3]
        simp only [List.append_assoc, List.singleton_append]

/-- A lookup in a class table that corresponds class by class to another one,
with the same ids, finds the corresponding class. -/
theorem class_lookup_forall2 {R : rspamd_re_class → rspamd_re_class → Prop}
    {l l1 : List rspamd_re_class} (h : List.Forall₂ R l l1)
    (hid : ∀ a b, R a b → b.id = a.id) {k : Nat} {b : rspamd_re_class}
    (hb : class_lookup l1 k = some b) :
    ∃ a, class_lookup l k = some a ∧ R a b := by
  induction h with
  | nil => simp [class_lookup] at hb
  | @cons a0 b0 l0 l2 hab _ ih =>
    unfold class_lookup at hb ⊢
    by_cases hk : b0.id = k
    · rw [if_pos hk] at hb
      rw [if_pos ((hid a0 b0 hab).symm.trans hk)]
      cases hb
      exact ⟨a0, rfl, hab⟩
    · rw [if_neg hk] at hb
      rw [if_neg (fun hh => hk ((hid a0 b0 hab).trans hh))]
      exact ih hb

/-- Every pattern the compiler admits for a class comes from an entry of the
table of the class and carries the cache id of its expression as a 32-bit
word. -/
theorem collect_patterns_mem (env : HsEnv) (s : State) (m : List (Nat × Nat))
    (t : Nat × Nat × Nat) (h : t ∈ collect_patterns env s m) :
    ∃ kv ∈ m, t.1 = (s.heap kv.2).cache_id % 4294967296 := by
  induction m with
  | nil => simp [collect_patterns] at h
  | cons kv rest ih =>
    obtain ⟨key, re⟩ := kv
    unfold collect_patterns at h
    split at h
    · obtain ⟨kv1, h1, h2⟩ := ih h
      exact ⟨kv1, List.mem_cons_of_mem _ h1, h2⟩
    · split at h
      · rcases List.mem_cons.1 h with h1 | h1
        · exact ⟨(key, re), List.mem_cons_self _ _, by rw [h1]⟩
        · obtain ⟨kv1, h2, h3⟩ := ih h1
          exact ⟨kv1, List.mem_cons_of_mem _ h2, h3⟩
      · split at h
        · rcases List.mem_cons.1 h with h1 | h1
          · exact ⟨(key, re), List.mem_cons_self _ _, by rw [h1]⟩
          · obtain ⟨kv1, h2, h3⟩ := ih h1
            exact ⟨kv1, List.mem_cons_of_mem _ h2, h3⟩
        · obtain ⟨kv1, h1, h2⟩ := ih h
          exact ⟨kv1, List.mem_cons_of_mem _ h1, h2⟩

/-- A word below `2^31` read as a `gint` is the word. -/
theorem to_gint_small {v : Nat} (h : v < 2147483648) : to_gint v = (v : Int) := by
  unfold to_gint
  have h1 : v % 4294967296 = v := Nat.mod_eq_of_lt (by omega)
  rw [h1, if_pos h]

/-- The ids of a class file are the first components of its entries. -/
theorem class_entries_ids (env : HsEnv) (fs : Files) (dir : List Nat) (cl : rspamd_re_class)
    (f : List Nat) (hf : fs (class_path env dir cl) = some f) :
    (class_entries env fs dir cl).map Prod.fst = file_ids env f := by
  unfold class_entries
  rw [hf]
  simp only []
  apply List.map_fst_zip
  simp [file_ids, file_flags]

/-- An index at which a list has an element is below its length. -/
theorem index_lt_of_getElem {α : Type} {l : List α} {i : Nat} {a : α} (h : l[i]? = some a) :
    i < l.length := by
  by_contra hn
  rw [List.getElem?_eq_none (by omega)] at h
  cases h

/-- The conditions of the sweep hold after compile and load: for a cache in
which every expression with a cache id is held at that id, in which the
tables of the classes hold expressions of the class with a cache id that
indexes `cache->re`, with at most `2^32` elements, not loaded and with the
prefilter enabled, for which compile and load work in a row, the memory after
compile on the empty directory and load satisfies `PrefilterWF` for every
library whose databases report only ids listed for their class. -/
theorem prefilterWF_of_tables (env : HsEnv) (px : Primitives) (s : State) (dir : List Nat)
    (hids : ids_registered s) (htab : TableInv s)
    (hsmall : s.cache.re.length ≤ 4294967296)
    (hrt : RoundTrip env s dir)
    (h0 : s.cache.hyperscan_loaded = false) (hen : s.cache.disable_hyperscan = false)
    (hpx : ∀ cl ∈ (compiled_loaded env s dir).cache.re_classes, ∀ db, cl.hs_db = some db →
      (∀ sl, ∀ ev ∈ (px.hs_scan db sl).1, ev.id ∈ cl.hs_ids) ∧
      (∀ ins, ∀ ev ∈ (px.hs_scan_vector db ins).1, ev.id ∈ cl.hs_ids)) :
    PrefilterWF px (compiled_loaded env s dir) := by
  obtain ⟨t, fs1, c1, hcomp, hload, hloaded, hent⟩ :=
    compile_load_roundtrip env s dir fs0 hrt (fun _ => rfl) h0
  have hst : compiled_loaded env s dir = { heap := s.heap, cache := c1 } := by
    unfold compiled_loaded files_after_compile cache_after_load
    rw [hcomp]
    simp only []
    rw [hload]
  rw [hst] at hpx ⊢
  have hload1 : load_loop env fs1 dir s.cache [] s.cache.re_classes = .ok (true, c1) := hload
  obtain ⟨hmark, _⟩ := load_loop_ok env fs1 dir _ s.cache c1 [] (by simp) hload1
  obtain ⟨hdis, _, post, hpost, hfa⟩ :=
    load_loop_frame env fs1 dir _ s.cache c1 [] (by simp) hload1
  simp only [List.nil_append] at hpost
  have hlen := mark_ids_length env hmark
  have hlisted : ∀ k cl1 i, class_lookup c1.re_classes k = some cl1 → i ∈ cl1.hs_ids →
      ∃ cl ∈ s.cache.re_classes, cl.id = k ∧ ∃ t ∈ collect_patterns env s cl.re,
        i = t.1 ∧ ((i : Int), t.2.1 % 4294967296) ∈ class_entries env fs1 dir cl := by
    intro k cl1 i hcl hi
    rw [hpost] at hcl
    obtain ⟨cl, hcl0, hid, f, hf, hids1⟩ := class_lookup_forall2 hfa (fun a b h => h.1) hcl
    have hmem := class_lookup_mem hcl0
    have he := hent cl hmem
    have hfi : file_ids env f = (collect_patterns env s cl.re).map (fun t => to_gint t.1) := by
      rw [← class_entries_ids env fs1 dir cl f hf, he, List.map_map]
      rfl
    rw [hids1, hfi, List.map_map] at hi
    obtain ⟨t, ht, hti⟩ := List.mem_map.1 hi
    have hb := (hrt.ids cl hmem t ht).2
    have hg : to_gint t.1 = (t.1 : Int) := to_gint_small hb
    have hit : i = t.1 := by
      simp only [Function.comp, hg, Int.toNat_ofNat] at hti
      exact hti.symm
    refine ⟨cl, hmem, class_lookup_id hcl0, t, ht, hit, ?_⟩
    rw [he]
    refine List.mem_map.2 ⟨t, ht, ?_⟩
    rw [hg, hit]
  refine ⟨?_, ?_, ?_, ?_, hdis.trans hen, hloaded⟩
  · intro p
    rcases hids p with h | ⟨elt, he, hre⟩
    · exact Or.inl h
    · right
      have hlt := index_lt_of_getElem he
      have hlt1 : (s.heap p).cache_id < c1.re.length := by omega
      exact ⟨c1.re[(s.heap p).cache_id], List.getElem?_eq_getElem hlt1,
        (mark_ids_spec env hmark _ elt _ he (List.getElem?_eq_getElem hlt1)).1.trans hre⟩
  · intro k cl1 i p hcl hi hp hinv
    obtain ⟨cl, hmem, hk, t, ht, hit, _⟩ := hlisted k cl1 i hcl hi
    obtain ⟨kv, hkv, htk⟩ := collect_patterns_mem env s cl.re t ht
    obtain ⟨hcls, hlt⟩ := htab cl hmem kv hkv
    have hmod : (s.heap kv.2).cache_id % 4294967296 = (s.heap kv.2).cache_id :=
      Nat.mod_eq_of_lt (by omega)
    have hp1 : (s.heap p).cache_id = i := hp
    have hinv1 : (s.heap p).cache_id ≠ RSPAMD_INVALID_ID := hinv
    have hpq : p = kv.2 := ids_registered_inj hids hinv1 (by rw [hp1, hit, htk, hmod])
    show (s.heap p).re_class = some k
    rw [hpq, hcls, hk]
  · intro k cl1 db hcl hdb
    exact hpx cl1 (class_lookup_mem hcl) db hdb
  · intro k cl1 i elt hcl hi helt
    obtain ⟨cl, hmem, hk, t, ht, hit, hin⟩ := hlisted k cl1 i hcl hi
    have helt1 : c1.re[i]? = some elt := helt
    have hlt := index_lt_of_getElem helt1
    have hlt0 : i < s.cache.re.length := by omega
    obtain ⟨fl, _, hmt⟩ := (mark_ids_spec env hmark i s.cache.re[i] elt
      (List.getElem?_eq_getElem hlt0) helt1).2.2
      ⟨_, List.mem_flatMap.2 ⟨cl, hmem, hin⟩⟩
    rw [hmt]
    unfold match_type_of
    split <;> decide

/-- A registration leaves the flag `hyperscan_loaded` as it was. -/
theorem add_keeps_loaded (fh : List Nat → Nat) (s : State) (re : Nat) (type : rspamd_re_type)
    (type_data : List Nat) (datalen : Nat) :
    (rspamd_re_cache_add fh s re type type_data datalen).2.cache.hyperscan_loaded =
      s.cache.hyperscan_loaded := by
  unfold rspamd_re_cache_add
  simp only []
  split <;> rfl

/-- Registrations leave the flag `hyperscan_loaded` as it was. -/
theorem register_all_keeps_loaded (fh : List Nat → Nat) (regs : List Registration) (s : State) :
    (register_all fh s regs).cache.hyperscan_loaded = s.cache.hyperscan_loaded := by
  induction regs generalizing s with
  | nil => rfl
  | cons t ts ih =>
    unfold register_all
    rw [ih, add_keeps_loaded]

/-- Registrations followed by finalize, as a sequence of registry calls. -/
theorem run_ops_registrations (fh : List Nat → Nat) (regs : List Registration) (s : State)
    (cfg : rspamd_config) :
    run_ops fh s (regs.map (fun t => Op.add t.re t.type t.type_data t.datalen) ++ [.init cfg]) =
      rspamd_re_cache_init (register_all fh s regs) cfg := by
  induction regs generalizing s with
  | nil =>
    simp only [List.map_nil, List.nil_append, register_all, run_ops, Op.run]
    cases rspamd_re_cache_init s cfg <;> rfl
  | cons t ts ih =>
    simp only [List.map_cons, List.cons_append, register_all, run_ops, Op.run]
    exact ih _

/-- The conditions of the sweep hold of a cache made by registrations,
finalize, compile and load: when no expression object is registered under two
class ids, the cache has at most `2^32` elements, the prefilter is enabled in
the configuration, compile and load work in a row for the finalized cache, and
the databases report only ids listed for their class, the memory after
registrations from an empty cache, finalize, compile on the empty directory
and load satisfies `PrefilterWF`. -/
theorem prefilterWF_of_compile_load (fh : List Nat → Nat) (env : HsEnv) (px : Primitives)
    (s0 s1 : State) (regs : List Registration) (cfg : rspamd_config) (dir : List Nat)
    (hfresh : Fresh s0) (hone : one_class_per_object fh regs)
    (hinit : rspamd_re_cache_init (register_all fh s0 regs) cfg = .ok s1)
    (hen : cfg.disable_hyperscan = false)
    (hsmall : s1.cache.re.length ≤ 4294967296)
    (hrt : RoundTrip env s1 dir)
    (hpx : ∀ cl ∈ (compiled_loaded env s1 dir).cache.re_classes, ∀ db, cl.hs_db = some db →
      (∀ sl, ∀ ev ∈ (px.hs_scan db sl).1, ev.id ∈ cl.hs_ids) ∧
      (∀ ins, ∀ ev ∈ (px.hs_scan_vector db ins).1, ev.id ∈ cl.hs_ids)) :
    PrefilterWF px (compiled_loaded env s1 dir) := by
  have hinv : CacheInv s1 :=
    reachable_inv ⟨s0, _, hfresh, (run_ops_registrations fh regs s0 cfg).trans hinit⟩
  have htab := tableInv_of_registrations fh s0 s1 regs cfg hfresh hone hinit
  obtain ⟨acc, _, hs1⟩ := init_inv hinit
  have h0 : s1.cache.hyperscan_loaded = false := by
    rw [hs1]
    show (register_all fh s0 regs).cache.hyperscan_loaded = false
    rw [register_all_keeps_loaded, hfresh.1]
    rfl
  have hen1 : s1.cache.disable_hyperscan = false := by
    rw [hs1]
    exact hen
  exact prefilterWF_of_tables env px s1 dir hinv.ids htab hsmall hrt h0 hen1 hpx

/-- The example memory `s123_init` is the memory after the registrations
`regs123` from the empty cache and finalize. -/
theorem s123_init_registrations :
    rspamd_re_cache_init (register_all fh0 s0 regs123) cfg0 = .ok s123_init := rfl

/-- The example memory after registrations, finalize, compile and load meets
the conditions of the sweep for the example library `px_loaded`. -/
theorem s123_loaded_wf : PrefilterWF px_loaded s123_loaded := by
  refine prefilterWF_of_compile_load fh0 env0 px_loaded s0 s123_init regs123 cfg0 dir0
    ⟨rfl, fun _ => ⟨rfl, rfl⟩⟩ (by decide) s123_init_registrations rfl (by decide)
    s123_init_round_trip ?_
  have h2 : ∀ cl ∈ (compiled_loaded env0 s123_init dir0).cache.re_classes,
      cl.hs_db = some 2 → 1 ∈ cl.hs_ids := by decide
  intro cl hmem db hdb
  by_cases hd : db = 2
  · subst hd
    have h1 := h2 cl hmem hdb
    constructor
    · intro sl ev hev
      simp [px_loaded] at hev
      subst hev
      exact h1
    · intro ins ev hev
      simp [px_loaded] at hev
      subst hev
      exact h1
  · constructor
    · intro sl ev hev
      simp [px_loaded, hd] at hev
    · intro ins ev hev
      simp [px_loaded, hd] at hev

/-- Witness of `prefilter_class_swept`: on a fresh runtime over the example
cache after registrations, finalize, compile and load, `process` on the
expression with cache id 1 scans the message through the prefilter, which
reports the id 1; afterwards the listed ids 1 and 2 are checked, the result of
id 1 is 1 and that of id 2, never reported, is 0. -/
theorem prefilter_class_swept_witness :
    ∃ out cl, rspamd_re_cache_process px_loaded s123_loaded task0
        (rspamd_re_cache_runtime_new s123_loaded.cache) 2 false = .ok out ∧
      class_lookup s123_loaded.cache.re_classes 7 = some cl ∧ cl.hs_ids = [1, 2] ∧
      (∀ i ∈ cl.hs_ids, out.2.checked i = true ∧ (i ∉ out.2.reported → out.2.results i = 0)) ∧
      out.2.reported = [1] ∧ out.2.results 1 = 1 ∧ out.2.results 2 = 0 :=
  ⟨_, _, rfl, rfl, rfl,
    prefilter_class_swept px_loaded s123_loaded task0 _ 2 false _ 7 _
      s123_loaded_wf RtProcessed.fresh (by decide) (by decide) (by decide) rfl rfl,
    rfl, rfl, rfl⟩

/-- The example memory `s_alias` is made from the registrations `regs_alias`,
which put the object at address 1 under two class ids, by finalize, compile
and load, and it does not meet the conditions of the sweep: the header class
lists the cache id 1 of an object whose class is the whole-message class. -/
theorem s_alias_not_wf (px : Primitives) :
    (∃ s1, rspamd_re_cache_init (register_all fh0 s0 regs_alias) cfg0 = .ok s1 ∧
      s_alias = compiled_loaded env0 s1 dir0) ∧
    ¬ one_class_per_object fh0 regs_alias ∧ ¬ PrefilterWF px s_alias := by
  refine ⟨⟨_, rfl, rfl⟩, by decide, ?_⟩
  intro h
  have h1 := h.members 83 _ 1 1 rfl (by decide) rfl (by decide)
  revert h1
  decide

end ReCache
